import Mathlib

/-!
# Contractile particle model: embedding and verified properties

A shallow embedding of the three `contractile_particle_model.js` variants:

* `NewMovement`        : targets and the new movement rule (no death),
* `DeathMarkers`       : adds stress, death and death markers,
* `VaryingPopulation`  : adds demographic groups with their own parameters.

Numbers are elements of a linear ordered field `K`.  The JavaScript built-ins
whose result is not a field operation are collected in `JSMath`: `Math.sqrt`,
`Math.pow` and the division operator.  Division is kept abstract so that the
value produced by a division by zero is left open; the laws the built-ins obey
on their regular domain are stated in `JSMath.DivExact` and `JSMath.Exact`.
IEEE rounding, `NaN` and the infinities are outside the model.

`performance.now()` is a parameter `clock : Nat → K`: the `k`-th call made
during one operation returns `clock k`.  `Math.random()` is a parameter
`rnd : Nat → K` in the same way.
-/

set_option autoImplicit false
set_option linter.unusedVariables false
set_option linter.unusedSectionVars false

/-! ## JavaScript built-ins -/

/-- The numeric built-ins used by the model that are not field operations. -/
structure JSMath (K : Type) where
  /-- The built-in `Math.sqrt`. -/
  sqrt : K → K
  /-- The built-in `Math.pow`. -/
  pow : K → K → K
  /-- The operator `/`. -/
  div : K → K → K

/-- Division agrees with the field division whenever the divisor is not zero. -/
structure JSMath.DivExact {K : Type} [LinearOrderedField K] (M : JSMath K) : Prop where
  div_eq : ∀ a b : K, b ≠ 0 → M.div a b = a / b

/-- The laws of the idealised built-ins: exact division, exact square root of
non-negative numbers, and a power function that maps `[0, 1]` monotonically onto
`[0, 1]` for a positive exponent. -/
structure JSMath.Exact {K : Type} [LinearOrderedField K] (M : JSMath K)
    extends JSMath.DivExact M : Prop where
  sqrt_nonneg : ∀ a : K, 0 ≤ M.sqrt a
  sqrt_mul_self : ∀ a : K, 0 ≤ a → M.sqrt a * M.sqrt a = a
  pow_zero_base : ∀ b : K, 0 < b → M.pow 0 b = 0
  pow_one_base : ∀ b : K, M.pow 1 b = 1
  pow_mono : ∀ a c b : K, 0 ≤ a → a ≤ c → 0 < b → M.pow a b ≤ M.pow c b

/-- Square root on the rationals: exact on squares of rationals, rounded down
componentwise elsewhere. -/
def ratSqrt (q : ℚ) : ℚ := (Nat.sqrt q.num.toNat : ℚ) / (Nat.sqrt q.den : ℚ)

/-- An executable instance of the built-ins over the rationals, used to run the
model on concrete inputs.  The power function is exact for natural exponents. -/
def ratMath : JSMath ℚ where
  sqrt := ratSqrt
  pow := fun a b => a ^ b.num.toNat
  div := fun a b => a / b

/-- The expression `v || d` on an optional number: `d` replaces `undefined` and `0`. -/
def jsOr {K : Type} [LinearOrderedField K] (v : Option K) (d : K) : K :=
  match v with
  | some a => if a = 0 then d else a
  | none => d

/-! ## Entities shared by the three variants -/

/-- The object literal `{ x, y, magnitude }` used for `vd` and `ve`. -/
structure Velocity (K : Type) where
  x : K
  y : K
  magnitude : K
deriving DecidableEq, Repr

/-- Target point for pedestrians. -/
structure Target (K : Type) where
  x : K
  y : K
deriving DecidableEq, Repr

/-- Obstacle or wall segment. -/
structure Boundary (K : Type) where
  x1 : K
  y1 : K
  x2 : K
  y2 : K
deriving DecidableEq, Repr

/-- The `options` object given to a `ParticleModel` constructor. -/
structure Options (K : Type) where
  rMin : Option K := none
  rMax : Option K := none
  vdMax : Option K := none
  beta : Option K := none
  tau : Option K := none
  stressRate : Option K := none
  stressThreshold : Option K := none
  crushThreshold : Option K := none

/-- Result of `distanceToBoundary`: `{ distance, point: { x, y } }`. -/
structure BoundaryResult (K : Type) where
  distance : K
  pointX : K
  pointY : K
deriving DecidableEq, Repr

section Geometry
variable {K : Type} [LinearOrderedField K]

/-- Method `distanceToBoundary(px, py, x1, y1, x2, y2)`; identical in the three variants.
`param` starts at `-1` and is overwritten only when `lenSq !== 0`. -/
def distanceToBoundary (M : JSMath K) (px py x1 y1 x2 y2 : K) : BoundaryResult K :=
  let A := px - x1
  let B := py - y1
  let C := x2 - x1
  let D := y2 - y1
  let dot := A * C + B * D
  let lenSq := C * C + D * D
  let param : K := if lenSq ≠ 0 then M.div dot lenSq else -1
  let xx := if param < 0 then x1 else if param > 1 then x2 else x1 + param * C
  let yy := if param < 0 then y1 else if param > 1 then y2 else y1 + param * D
  let dx := px - xx
  let dy := py - yy
  { distance := M.sqrt (dx * dx + dy * dy), pointX := xx, pointY := yy }

/-- The distance `findClosestTargets` computes from the point `(px, py)` to a target. -/
def targetDistance (M : JSMath K) (px py : K) (target : Target K) : K :=
  M.sqrt ((target.x - px) * (target.x - px) + (target.y - py) * (target.y - py))

/-- The comparison `distance < closestDistance` for a finite number `distance`, where `none`
stands for `Infinity`.  For a `distance` that is `NaN` or `Infinity` the comparison of the
source is false: `closestTargetScan` covers that case. -/
def ltInfinity (d : K) (closest : Option K) : Bool :=
  match closest with
  | none => true
  | some c => decide (d < c)

/-- The inner loop of `findClosestTargets` for a particle at `(px, py)`: scans the
remaining targets from index `i`, carrying `closestDistance` and `closestTargetIndex`. -/
def closestTargetLoop (M : JSMath K) (px py : K) :
    List (Target K) → Nat → Option K → Int → Int
  | [], _, _, closestTargetIndex => closestTargetIndex
  | target :: rest, i, closestDistance, closestTargetIndex =>
    let dx := target.x - px
    let dy := target.y - py
    let distance := M.sqrt (dx * dx + dy * dy)
    if ltInfinity distance closestDistance then
      closestTargetLoop M px py rest (i + 1) (some distance) (i : Int)
    else
      closestTargetLoop M px py rest (i + 1) closestDistance closestTargetIndex

/-- The element `targets[targetIndex]` under the guard
`targetIndex >= 0 && targetIndex < targets.length`. -/
def assignedTarget (targets : List (Target K)) (targetIndex : Int) : Option (Target K) :=
  if 0 ≤ targetIndex ∧ targetIndex < (targets.length : Int) then
    targets[targetIndex.toNat]?
  else none

end Geometry

/-! ## Variant `VaryingPopulation`: demographic groups -/

namespace VaryingPopulation

/-- Keys of the constant `DEMOGRAPHICS` registry. -/
inductive DemoKey where
  | YOUTH
  | ADULT
  | ELDERLY
deriving DecidableEq, Repr

/-- A key string resolved against the own entries of the registry; every other string has
no entry (`readRegistry` tells what the property read then yields). -/
def DemoKey.ofString (demographic : String) : Option DemoKey :=
  if demographic = "YOUTH" then some .YOUTH
  else if demographic = "ADULT" then some .ADULT
  else if demographic = "ELDERLY" then some .ELDERLY
  else none

/-- The list `Object.keys(DEMOGRAPHICS)`, in insertion order. -/
def DemoKey.keys : List DemoKey := [.YOUTH, .ADULT, .ELDERLY]

/-- One entry of the registry. -/
structure Demographic (K : Type) where
  name : String
  rMin : K
  rMax : K
  vdMax : K
  color : String
  stressThreshold : K
  crushThreshold : K
  proportion : K
deriving DecidableEq, Repr

section Registry
variable {K : Type} [LinearOrderedField K]

/-- The constant `DEMOGRAPHICS`. -/
def DEMOGRAPHICS : DemoKey → Demographic K
  | .YOUTH =>
    { name := "Youth", rMin := 0.15, rMax := 0.6, vdMax := 2.0, color := "#4CAF50",
      stressThreshold := 2, crushThreshold := 2, proportion := 0.2 }
  | .ADULT =>
    { name := "Adult", rMin := 0.2, rMax := 0.8, vdMax := 1.5, color := "#2196F3",
      stressThreshold := 3.0, crushThreshold := 4, proportion := 0.6 }
  | .ELDERLY =>
    { name := "Elderly", rMin := 0.18, rMax := 0.75, vdMax := 0.8, color := "#FF9800",
      stressThreshold := 2, crushThreshold := 2, proportion := 0.2 }

/-- The list `Object.values(DEMOGRAPHICS)`. -/
def demographicValues : List (Demographic K) := DemoKey.keys.map DEMOGRAPHICS

end Registry

/-- The particle (pedestrian) of the demographic variant. -/
structure Particle (K : Type) where
  x : K
  y : K
  demographic : DemoKey
  demo : Demographic K
  r : K
  rMin : K
  rMax : K
  vdMax : K
  vd : Velocity K
  ve : Velocity K
  targetIndex : Int
  inContact : Bool
  reachedTarget : Bool
  contacts : Nat
  stress : K
  dead : Bool
deriving DecidableEq, Repr

/-- Marker for the point of death of a particle. -/
structure DeathMarker (K : Type) where
  x : K
  y : K
  demographic : DemoKey
deriving DecidableEq, Repr

/-- One entry of `demographicStats`. -/
structure DemographicStat where
  created : Int
  reachedTarget : Int
  died : Int
  current : Int
deriving DecidableEq, Repr

/-- The class `ParticleModel` of the demographic variant. -/
structure ParticleModel (K : Type) where
  rMax : K
  beta : K
  tau : K
  dt : K
  stressRate : K
  stressThreshold : K
  crushThreshold : K
  particlesDied : Int
  deathMarkers : List (DeathMarker K)
  particles : List (Particle K)
  boundaries : List (Boundary K)
  targets : List (Target K)
  particlesReachedTarget : Int
  totalParticlesCreated : Int
  startTime : Option K
  endTime : Option K
  demographicStats : DemoKey → DemographicStat

/-- The construction-time parameters of a model, as one record. -/
structure Params (K : Type) where
  rMax : K
  beta : K
  tau : K
  dt : K
  stressRate : K
  stressThreshold : K
  crushThreshold : K
deriving DecidableEq, Repr

/-- The parameters stored in a model. -/
def ParticleModel.params {K : Type} (s : ParticleModel K) : Params K :=
  ⟨s.rMax, s.beta, s.tau, s.dt, s.stressRate, s.stressThreshold, s.crushThreshold⟩

section Model
variable {K : Type} [LinearOrderedField K]

/-- The `Particle` constructor for a key that is in the registry. -/
def Particle.new (x y : K) (demographic : DemoKey) : Particle K :=
  let demo : Demographic K := DEMOGRAPHICS demographic
  { x := x, y := y, demographic := demographic, demo := demo,
    r := demo.rMin, rMin := demo.rMin, rMax := demo.rMax, vdMax := demo.vdMax,
    vd := ⟨0, 0, 0⟩, ve := ⟨0, 0, 0⟩, targetIndex := -1,
    inContact := false, reachedTarget := false, contacts := 0, stress := 0, dead := false }

/-- The all-zero statistics entry. -/
def DemographicStat.zero : DemographicStat :=
  { created := 0, reachedTarget := 0, died := 0, current := 0 }

/-- The `ParticleModel` constructor.  `Math.min` and `Math.max` are applied to the
values of the three registry entries, folded from the first one. -/
def ParticleModel.new (M : JSMath K) (options : Options K) : ParticleModel K :=
  let minRadius : K :=
    ((demographicValues (K := K)).map (fun d => d.rMin)).foldl min (DEMOGRAPHICS .YOUTH).rMin
  let maxVelocity : K :=
    ((demographicValues (K := K)).map (fun d => d.vdMax)).foldl max (DEMOGRAPHICS .YOUTH).vdMax
  { rMax := jsOr options.rMax 0.8
    beta := jsOr options.beta 1
    tau := jsOr options.tau 0.5
    dt := M.div minRadius (2 * maxVelocity)
    stressRate := jsOr options.stressRate 2.0
    stressThreshold := jsOr options.stressThreshold 8.0
    crushThreshold := jsOr options.crushThreshold 3
    particlesDied := 0
    deathMarkers := []
    particles := []
    boundaries := []
    targets := []
    particlesReachedTarget := 0
    totalParticlesCreated := 0
    startTime := none
    endTime := none
    demographicStats := fun _ => DemographicStat.zero }

/-- Update of one entry of `demographicStats`. -/
def updateStat (stats : DemoKey → DemographicStat) (key : DemoKey)
    (f : DemographicStat → DemographicStat) : DemoKey → DemographicStat :=
  fun k => if k = key then f (stats k) else stats k

/-- Method `addParticle` for a key that is in the registry. -/
def addParticleKey (s : ParticleModel K) (x y : K) (demographic : DemoKey) : ParticleModel K :=
  { s with
    particles := s.particles ++ [Particle.new x y demographic]
    totalParticlesCreated := s.totalParticlesCreated + 1
    demographicStats := updateStat s.demographicStats demographic
      (fun st => { st with created := st.created + 1, current := st.current + 1 }) }

/-- Method `addParticle(x, y, demographic = 'ADULT')`.  For a key without a registry entry
the result is `none`: either the `Particle` constructor throws before anything is modified,
or (for a property name inherited from `Object.prototype`) the particle it builds has no
numeric radius and lies outside the states modelled here; `addParticleCounts` tells the
two apart, and `createdRadii` and `addParticleCurrent` give the radii and the `current`
counters that call leaves. -/
def addParticle (s : ParticleModel K) (x y : K) (demographic : String := "ADULT") :
    Option (ParticleModel K) :=
  match DemoKey.ofString demographic with
  | some key => some (addParticleKey s x y key)
  | none => none

/-- The sampling loop of `addParticlesWithDemographics` over the remaining registry
entries: the first key whose cumulative proportion reaches `rand`, else the initial value. -/
def sampleLoop (rand : K) : List DemoKey → K → DemoKey → DemoKey
  | [], _, demographic => demographic
  | demo :: rest, cumulative, demographic =>
    let cumulative := cumulative + (DEMOGRAPHICS (K := K) demo).proportion
    if rand ≤ cumulative then demo else sampleLoop rand rest cumulative demographic

/-- The demographic sampled for the draw `rand`. -/
def sampleDemographic (rand : K) : DemoKey :=
  sampleLoop rand DemoKey.keys 0 .ADULT

/-- Method `addParticlesWithDemographics(x, y, count)`.  Iteration `i` consumes the
draws `rnd (3 i)`, `rnd (3 i + 1)` and `rnd (3 i + 2)`. -/
def addParticlesWithDemographics (s : ParticleModel K) (x y : K) (count : Nat)
    (rnd : Nat → K) : ParticleModel K :=
  (List.range count).foldl
    (fun acc i =>
      let rand := rnd (3 * i)
      let demographic := sampleDemographic rand
      let offsetX := (rnd (3 * i + 1) - 0.5) * 0.5
      let offsetY := (rnd (3 * i + 2) - 0.5) * 0.5
      addParticleKey acc (x + offsetX) (y + offsetY) demographic)
    s

/-- Method `addTarget`: the new state and the returned index. -/
def addTarget (s : ParticleModel K) (x y : K) : ParticleModel K × Nat :=
  let s1 := { s with targets := s.targets ++ [⟨x, y⟩] }
  (s1, s1.targets.length - 1)

/-- Method `addBoundary`. -/
def addBoundary (s : ParticleModel K) (x1 y1 x2 y2 : K) : ParticleModel K :=
  { s with boundaries := s.boundaries ++ [⟨x1, y1, x2, y2⟩] }

/-- Body of the loop of `findClosestTargets` for one particle. -/
def closestTarget (M : JSMath K) (targets : List (Target K)) (particle : Particle K) :
    Particle K :=
  { particle with
    targetIndex := closestTargetLoop M particle.x particle.y targets 0 none (-1) }

/-- Method `findClosestTargets`. -/
def findClosestTargets (M : JSMath K) (s : ParticleModel K) : ParticleModel K :=
  { s with particles := s.particles.map (closestTarget M s.targets) }

/-- The arrival test of `removeParticlesAtTarget`: the particle has a valid target index
and lies within `targetRadius = 0.5` of that target. -/
def arrives (M : JSMath K) (targets : List (Target K)) (particle : Particle K) : Bool :=
  match assignedTarget targets particle.targetIndex with
  | some target =>
    decide (M.sqrt ((target.x - particle.x) * (target.x - particle.x) +
      (target.y - particle.y) * (target.y - particle.y)) ≤ 0.5)
  | none => false

/-- Accumulator of the `filter` callback of `removeParticlesAtTarget`: the model
fields the callback writes, the particles kept so far and the number of clock reads. -/
structure ArrivalAcc (K : Type) where
  model : ParticleModel K
  kept : List (Particle K)
  calls : Nat

/-- One call of the `filter` callback of `removeParticlesAtTarget`. -/
def arrivalVisit (M : JSMath K) (clock : Nat → K) (acc : ArrivalAcc K)
    (particle : Particle K) : ArrivalAcc K :=
  let targetRadius : K := 0.5
  match assignedTarget acc.model.targets particle.targetIndex with
  | some target =>
    let dx := target.x - particle.x
    let dy := target.y - particle.y
    let distance := M.sqrt (dx * dx + dy * dy)
    if distance ≤ targetRadius then
      let m1 : ParticleModel K := { acc.model with
        particlesReachedTarget := acc.model.particlesReachedTarget + 1
        demographicStats := updateStat acc.model.demographicStats particle.demographic
          (fun st => { st with reachedTarget := st.reachedTarget + 1, current := st.current - 1 }) }
      if m1.particlesReachedTarget + m1.particlesDied = m1.totalParticlesCreated then
        { acc with model := { m1 with endTime := some (clock acc.calls) }, calls := acc.calls + 1 }
      else
        { acc with model := m1 }
    else
      { acc with kept := acc.kept ++ [particle] }
  | none => { acc with kept := acc.kept ++ [particle] }

/-- Method `removeParticlesAtTarget`: `this.particles` is replaced once the filter is done. -/
def removeParticlesAtTarget (M : JSMath K) (clock : Nat → K) (s : ParticleModel K) :
    ParticleModel K :=
  let acc := s.particles.foldl (arrivalVisit M clock) ⟨s, [], 0⟩
  { acc.model with particles := acc.kept }

/-- Method `calculateDesiredVelocity(particle)` (Equation 1); `beta` is `this.beta`. -/
def calculateDesiredVelocity (M : JSMath K) (beta : K) (particle : Particle K) : K :=
  let normalizedRadius := M.div (particle.r - particle.rMin) (particle.rMax - particle.rMin)
  particle.vdMax * M.pow normalizedRadius beta

/-- First loop of `findContacts`: reset contact status. -/
def resetContact (particle : Particle K) : Particle K :=
  { particle with contacts := 0, inContact := false, ve := ⟨0, 0, 0⟩ }

/-- Body of the particle-particle loop of `findContacts` for the index pair `(i, j)`.  The
quotient by `distance` is `M.div` also when `distance` is `0`, where the source computes
`0 / 0 = NaN`. -/
def contactPair (M : JSMath K) (ps : List (Particle K)) (i j : Nat) : List (Particle K) :=
  match ps[i]?, ps[j]? with
  | some pi, some pj =>
    let dx := pi.x - pj.x
    let dy := pi.y - pj.y
    let distance := M.sqrt (dx * dx + dy * dy)
    if distance < pi.r + pj.r then
      let eijx := M.div dx distance
      let eijy := M.div dy distance
      let pi1 := { pi with
        inContact := true
        contacts := pi.contacts + 1
        ve := { pi.ve with x := pi.ve.x + (eijx + pi.vd.x), y := pi.ve.y + (eijy + pi.vd.y) } }
      let pj1 := { pj with
        inContact := true
        contacts := pj.contacts + 1
        ve := { pj.ve with x := pj.ve.x + (-eijx + pj.vd.x), y := pj.ve.y + (-eijy + pj.vd.y) } }
      (ps.set i pi1).set j pj1
    else ps
  | _, _ => ps

/-- The particle-particle loops of `findContacts`: `i` from `0`, `j` from `i + 1`. -/
def particleContacts (M : JSMath K) (ps : List (Particle K)) : List (Particle K) :=
  (List.range ps.length).foldl
    (fun acc i =>
      (List.range' (i + 1) (ps.length - (i + 1))).foldl (fun acc j => contactPair M acc i j) acc)
    ps

/-- Body of the boundary loop of `findContacts` for one particle and one boundary. -/
def boundaryContact (M : JSMath K) (particle : Particle K) (boundary : Boundary K) :
    Particle K :=
  let result := distanceToBoundary M particle.x particle.y
    boundary.x1 boundary.y1 boundary.x2 boundary.y2
  if result.distance < particle.r then
    let p1 := { particle with inContact := true, contacts := particle.contacts + 1 }
    let dx := p1.x - result.pointX
    let dy := p1.y - result.pointY
    let distance := M.sqrt (dx * dx + dy * dy)
    if distance > 0 then
      { p1 with ve := { p1.ve with x := p1.ve.x + M.div dx distance,
                                   y := p1.ve.y + M.div dy distance } }
    else p1
  else particle

/-- The particle-particle contact test of `findContacts`: the centre distance is below
the sum of the radii. -/
def overlaps (M : JSMath K) (p q : Particle K) : Bool :=
  decide (M.sqrt ((p.x - q.x) * (p.x - q.x) + (p.y - q.y) * (p.y - q.y)) < p.r + q.r)

/-- The particle-boundary contact test of `findContacts`: the distance to the nearest
point of the segment is below the radius. -/
def touches (M : JSMath K) (p : Particle K) (b : Boundary K) : Bool :=
  decide ((distanceToBoundary M p.x p.y b.x1 b.y1 b.x2 b.y2).distance < p.r)

/-- The contact count stored at index `k` of a particle list (`0` past the end). -/
def contactsAt (ps : List (Particle K)) (k : Nat) : Nat :=
  match ps[k]? with
  | some q => q.contacts
  | none => 0

/-- Last loop of `findContacts`: normalise the escape velocity (Equation 6). -/
def normalizeEscape (M : JSMath K) (particle : Particle K) : Particle K :=
  if particle.inContact then
    let magnitude := M.sqrt (particle.ve.x ^ 2 + particle.ve.y ^ 2)
    if magnitude > 0 then
      { particle with ve :=
          { x := M.div particle.ve.x magnitude * particle.vdMax
            y := M.div particle.ve.y magnitude * particle.vdMax
            magnitude := particle.vdMax } }
    else particle
  else particle

/-- Method `findContacts`. -/
def findContacts (M : JSMath K) (s : ParticleModel K) : ParticleModel K :=
  let ps0 := s.particles.map resetContact
  let ps1 := particleContacts M ps0
  let ps2 := ps1.map (fun particle => s.boundaries.foldl (boundaryContact M) particle)
  { s with particles := ps2.map (normalizeEscape M) }

/-- Body of the loop of `adjustRadii` for one particle (Equation 8); `tau` and `dt` are
`this.tau` and `this.dt`. -/
def adjustRadius (M : JSMath K) (tau dt : K) (particle : Particle K) : Particle K :=
  if particle.inContact then
    { particle with r := particle.rMin }
  else
    let dr := M.div particle.rMax tau * dt
    { particle with r := min (particle.r + dr) particle.rMax }

/-- Method `adjustRadii`. -/
def adjustRadii (M : JSMath K) (s : ParticleModel K) : ParticleModel K :=
  { s with particles := s.particles.map (adjustRadius M s.tau s.dt) }

/-- Body of the loop of `computeDesiredVelocities` for one particle (Equations 1 and 5). -/
def desiredVelocity (M : JSMath K) (beta : K) (targets : List (Target K))
    (particle : Particle K) : Particle K :=
  match assignedTarget targets particle.targetIndex with
  | some target =>
    let dx := target.x - particle.x
    let dy := target.y - particle.y
    let distance := M.sqrt (dx * dx + dy * dy)
    if distance > 0 then
      let magnitude := calculateDesiredVelocity M beta particle
      { particle with vd :=
          { x := M.div dx distance * magnitude
            y := M.div dy distance * magnitude
            magnitude := magnitude } }
    else
      { particle with vd := ⟨0, 0, 0⟩ }
  | none => particle

/-- Method `computeDesiredVelocities`. -/
def computeDesiredVelocities (M : JSMath K) (s : ParticleModel K) : ParticleModel K :=
  { s with particles := s.particles.map (desiredVelocity M s.beta s.targets) }

/-- Body of the loop of `updatePositions` for one particle; `dt` is `this.dt`. -/
def move (dt : K) (particle : Particle K) : Particle K :=
  let vx := if particle.r > particle.rMin then particle.vd.x else particle.ve.x
  let vy := if particle.r > particle.rMin then particle.vd.y else particle.ve.y
  { particle with x := particle.x + vx * dt, y := particle.y + vy * dt }

/-- Method `updatePositions`. -/
def updatePositions (s : ParticleModel K) : ParticleModel K :=
  { s with particles := s.particles.map (move s.dt) }

/-- Body of the stress loop of `step` for one particle; `stressRate` and `dt` are
`this.stressRate` and `this.dt`. -/
def stressUpdate (stressRate dt : K) (particle : Particle K) : Particle K :=
  let demo := particle.demo
  let p1 :=
    if (particle.contacts : K) ≥ demo.crushThreshold then
      { particle with stress := particle.stress + stressRate * dt }
    else
      { particle with stress := max 0 (particle.stress - dt) }
  if p1.stress ≥ demo.stressThreshold then { p1 with dead := true } else p1

/-- The stress loop of `step`. -/
def accumulateStress (s : ParticleModel K) : ParticleModel K :=
  { s with particles := s.particles.map (stressUpdate s.stressRate s.dt) }

/-- Accumulator of the `filter` callback that removes dead particles. -/
structure DeathAcc (K : Type) where
  model : ParticleModel K
  kept : List (Particle K)

/-- One call of the `filter` callback that removes dead particles. -/
def deathVisit (acc : DeathAcc K) (particle : Particle K) : DeathAcc K :=
  if particle.dead then
    { acc with model := { acc.model with
        particlesDied := acc.model.particlesDied + 1
        demographicStats := updateStat acc.model.demographicStats particle.demographic
          (fun st => { st with died := st.died + 1, current := st.current - 1 })
        deathMarkers := acc.model.deathMarkers ++
          [⟨particle.x, particle.y, particle.demographic⟩] } }
  else
    { acc with kept := acc.kept ++ [particle] }

/-- The removal of dead particles in `step`. -/
def removeDead (s : ParticleModel K) : ParticleModel K :=
  let acc := s.particles.foldl deathVisit ⟨s, []⟩
  { acc.model with particles := acc.kept }

/-- The state of `step` right before `updatePositions`. -/
def beforeMove (M : JSMath K) (s : ParticleModel K) : ParticleModel K :=
  computeDesiredVelocities M
    (findClosestTargets M (removeDead (accumulateStress (adjustRadii M (findContacts M s)))))

/-- Method `step`: single simulation step. -/
def step (M : JSMath K) (clock : Nat → K) (s : ParticleModel K) : ParticleModel K :=
  removeParticlesAtTarget M clock (updatePositions (beforeMove M s))

/-- Method `reset`. -/
def reset (s : ParticleModel K) : ParticleModel K :=
  { s with
    particles := []
    boundaries := []
    targets := []
    deathMarkers := []
    particlesDied := 0
    particlesReachedTarget := 0
    totalParticlesCreated := 0
    startTime := none
    endTime := none
    demographicStats :=
      DemoKey.keys.foldl (fun stats demo => updateStat stats demo (fun _ => DemographicStat.zero))
        s.demographicStats }

/-- The assignment `model.startTime = performance.now()` made by the controller. -/
def setStartTime (s : ParticleModel K) (now : K) : ParticleModel K :=
  { s with startTime := some now }

/-- The particle carries the registry entry of its demographic tag and copies of that
entry's `rMin`, `rMax` and `vdMax`. -/
def Particle.FromRegistry (p : Particle K) : Prop :=
  p.demo = DEMOGRAPHICS p.demographic ∧ p.rMin = (DEMOGRAPHICS p.demographic).rMin ∧
    p.rMax = (DEMOGRAPHICS p.demographic).rMax ∧ p.vdMax = (DEMOGRAPHICS p.demographic).vdMax

/-- The balance of the aggregate counters, globally and per demographic. -/
def Balanced (s : ParticleModel K) : Prop :=
  s.totalParticlesCreated =
      (s.particles.length : Int) + s.particlesReachedTarget + s.particlesDied ∧
    ∀ d, (s.demographicStats d).created =
      (s.demographicStats d).current + (s.demographicStats d).reachedTarget +
        (s.demographicStats d).died

/-- States reachable from a freshly constructed model by the public operations. -/
inductive Reachable (M : JSMath K) (options : Options K) : ParticleModel K → Prop
  | init : Reachable M options (ParticleModel.new M options)
  | addParticle {s s1 : ParticleModel K} (x y : K) (demographic : String) :
      Reachable M options s → addParticle s x y demographic = some s1 → Reachable M options s1
  | addParticlesWithDemographics {s : ParticleModel K} (x y : K) (count : Nat) (rnd : Nat → K) :
      Reachable M options s → Reachable M options (addParticlesWithDemographics s x y count rnd)
  | addTarget {s : ParticleModel K} (x y : K) :
      Reachable M options s → Reachable M options (addTarget s x y).1
  | addBoundary {s : ParticleModel K} (x1 y1 x2 y2 : K) :
      Reachable M options s → Reachable M options (addBoundary s x1 y1 x2 y2)
  | findClosestTargets {s : ParticleModel K} :
      Reachable M options s → Reachable M options (findClosestTargets M s)
  | setStartTime {s : ParticleModel K} (now : K) :
      Reachable M options s → Reachable M options (setStartTime s now)
  | step {s : ParticleModel K} (clock : Nat → K) :
      Reachable M options s → Reachable M options (step M clock s)
  | reset {s : ParticleModel K} :
      Reachable M options s → Reachable M options (reset s)

end Model

/-- Scenario A over the rationals: two adults with centres `0.1` apart, no target and
no boundary. -/
def scenarioA : ParticleModel ℚ :=
  addParticleKey (addParticleKey (ParticleModel.new ratMath {}) 0 0 .ADULT) (1 / 10) 0 .ADULT

/-- The first particle of Scenario A after one step: pushed to the left at escape speed. -/
def pushedLeft : Particle ℚ :=
  { Particle.new (-9 / 160 : ℚ) 0 .ADULT with
    inContact := true, contacts := 1, ve := ⟨-3 / 2, 0, 3 / 2⟩ }

end VaryingPopulation

/-! ## Variant `DeathMarkers`: stress, death and death markers -/

namespace DeathMarkers

/-- The particle (pedestrian) of the death-markers variant. -/
structure Particle (K : Type) where
  x : K
  y : K
  r : K
  vd : Velocity K
  ve : Velocity K
  targetIndex : Int
  inContact : Bool
  reachedTarget : Bool
  contacts : Nat
  stress : K
  dead : Bool
deriving DecidableEq, Repr

/-- Marker for the point of death of a particle. -/
structure DeathMarker (K : Type) where
  x : K
  y : K
deriving DecidableEq, Repr

/-- The class `ParticleModel` of the death-markers variant. -/
structure ParticleModel (K : Type) where
  rMin : K
  rMax : K
  vdMax : K
  ve : K
  beta : K
  tau : K
  dt : K
  stressRate : K
  stressThreshold : K
  crushThreshold : K
  particlesDied : Int
  deathMarkers : List (DeathMarker K)
  particles : List (Particle K)
  boundaries : List (Boundary K)
  targets : List (Target K)
  particlesReachedTarget : Int
  totalParticlesCreated : Int
  startTime : Option K
  endTime : Option K
deriving DecidableEq, Repr

/-- The construction-time parameters of a model, as one record. -/
structure Params (K : Type) where
  rMin : K
  rMax : K
  vdMax : K
  ve : K
  beta : K
  tau : K
  dt : K
  stressRate : K
  stressThreshold : K
  crushThreshold : K
deriving DecidableEq, Repr

/-- The parameters stored in a model. -/
def ParticleModel.params {K : Type} (s : ParticleModel K) : Params K :=
  ⟨s.rMin, s.rMax, s.vdMax, s.ve, s.beta, s.tau, s.dt, s.stressRate, s.stressThreshold,
    s.crushThreshold⟩

section Model
variable {K : Type} [LinearOrderedField K]

/-- The `Particle` constructor. -/
def Particle.new (x y radius : K) : Particle K :=
  { x := x, y := y, r := radius, vd := ⟨0, 0, 0⟩, ve := ⟨0, 0, 0⟩, targetIndex := -1,
    inContact := false, reachedTarget := false, contacts := 0, stress := 0, dead := false }

/-- The `ParticleModel` constructor. -/
def ParticleModel.new (M : JSMath K) (options : Options K) : ParticleModel K :=
  let rMin := jsOr options.rMin 0.2
  let vdMax := jsOr options.vdMax 1.5
  let ve := vdMax
  { rMin := rMin
    rMax := jsOr options.rMax 0.8
    vdMax := vdMax
    ve := ve
    beta := jsOr options.beta 1
    tau := jsOr options.tau 0.5
    dt := M.div rMin (2 * max vdMax ve)
    stressRate := jsOr options.stressRate 2.0
    stressThreshold := jsOr options.stressThreshold 8.0
    crushThreshold := jsOr options.crushThreshold 3
    particlesDied := 0
    deathMarkers := []
    particles := []
    boundaries := []
    targets := []
    particlesReachedTarget := 0
    totalParticlesCreated := 0
    startTime := none
    endTime := none }

/-- Method `addParticle(x, y, radius = this.rMin)`. -/
def addParticle (s : ParticleModel K) (x y : K) (radius : Option K := none) : ParticleModel K :=
  { s with
    particles := s.particles ++ [Particle.new x y (radius.getD s.rMin)]
    totalParticlesCreated := s.totalParticlesCreated + 1 }

/-- Method `addTarget`: the new state and the returned index. -/
def addTarget (s : ParticleModel K) (x y : K) : ParticleModel K × Nat :=
  let s1 := { s with targets := s.targets ++ [⟨x, y⟩] }
  (s1, s1.targets.length - 1)

/-- Method `addBoundary`. -/
def addBoundary (s : ParticleModel K) (x1 y1 x2 y2 : K) : ParticleModel K :=
  { s with boundaries := s.boundaries ++ [⟨x1, y1, x2, y2⟩] }

/-- Body of the loop of `findClosestTargets` for one particle. -/
def closestTarget (M : JSMath K) (targets : List (Target K)) (particle : Particle K) :
    Particle K :=
  { particle with
    targetIndex := closestTargetLoop M particle.x particle.y targets 0 none (-1) }

/-- Method `findClosestTargets`. -/
def findClosestTargets (M : JSMath K) (s : ParticleModel K) : ParticleModel K :=
  { s with particles := s.particles.map (closestTarget M s.targets) }

/-- Accumulator of the `filter` callback of `removeParticlesAtTarget`. -/
structure ArrivalAcc (K : Type) where
  model : ParticleModel K
  kept : List (Particle K)
  calls : Nat

/-- One call of the `filter` callback of `removeParticlesAtTarget`. -/
def arrivalVisit (M : JSMath K) (clock : Nat → K) (acc : ArrivalAcc K)
    (particle : Particle K) : ArrivalAcc K :=
  let targetRadius : K := 0.5
  match assignedTarget acc.model.targets particle.targetIndex with
  | some target =>
    let dx := target.x - particle.x
    let dy := target.y - particle.y
    let distance := M.sqrt (dx * dx + dy * dy)
    if distance ≤ targetRadius then
      let m1 : ParticleModel K := { acc.model with
        particlesReachedTarget := acc.model.particlesReachedTarget + 1 }
      if m1.particlesReachedTarget + m1.particlesDied = m1.totalParticlesCreated then
        { acc with model := { m1 with endTime := some (clock acc.calls) }, calls := acc.calls + 1 }
      else
        { acc with model := m1 }
    else
      { acc with kept := acc.kept ++ [particle] }
  | none => { acc with kept := acc.kept ++ [particle] }

/-- Method `removeParticlesAtTarget`. -/
def removeParticlesAtTarget (M : JSMath K) (clock : Nat → K) (s : ParticleModel K) :
    ParticleModel K :=
  let acc := s.particles.foldl (arrivalVisit M clock) ⟨s, [], 0⟩
  { acc.model with particles := acc.kept }

/-- Method `calculateDesiredVelocity(radius)` (Equation 1). -/
def calculateDesiredVelocity (M : JSMath K) (s : ParticleModel K) (radius : K) : K :=
  s.vdMax * M.pow (M.div (radius - s.rMin) (s.rMax - s.rMin)) s.beta

/-- First loop of `findContacts`: reset contact status. -/
def resetContact (particle : Particle K) : Particle K :=
  { particle with contacts := 0, inContact := false, ve := ⟨0, 0, 0⟩ }

/-- Body of the particle-particle loop of `findContacts` for the index pair `(i, j)`.  The
quotient by `distance` is `M.div` also when `distance` is `0`, where the source computes
`0 / 0 = NaN`. -/
def contactPair (M : JSMath K) (ps : List (Particle K)) (i j : Nat) : List (Particle K) :=
  match ps[i]?, ps[j]? with
  | some pi, some pj =>
    let dx := pi.x - pj.x
    let dy := pi.y - pj.y
    let distance := M.sqrt (dx * dx + dy * dy)
    if distance < pi.r + pj.r then
      let eijx := M.div dx distance
      let eijy := M.div dy distance
      let pi1 := { pi with
        inContact := true
        contacts := pi.contacts + 1
        ve := { pi.ve with x := pi.ve.x + (eijx + pi.vd.x), y := pi.ve.y + (eijy + pi.vd.y) } }
      let pj1 := { pj with
        inContact := true
        contacts := pj.contacts + 1
        ve := { pj.ve with x := pj.ve.x + (-eijx + pj.vd.x), y := pj.ve.y + (-eijy + pj.vd.y) } }
      (ps.set i pi1).set j pj1
    else ps
  | _, _ => ps

/-- The particle-particle loops of `findContacts`: `i` from `0`, `j` from `i + 1`. -/
def particleContacts (M : JSMath K) (ps : List (Particle K)) : List (Particle K) :=
  (List.range ps.length).foldl
    (fun acc i =>
      (List.range' (i + 1) (ps.length - (i + 1))).foldl (fun acc j => contactPair M acc i j) acc)
    ps

/-- Body of the boundary loop of `findContacts` for one particle and one boundary. -/
def boundaryContact (M : JSMath K) (particle : Particle K) (boundary : Boundary K) :
    Particle K :=
  let result := distanceToBoundary M particle.x particle.y
    boundary.x1 boundary.y1 boundary.x2 boundary.y2
  if result.distance < particle.r then
    let p1 := { particle with inContact := true, contacts := particle.contacts + 1 }
    let dx := p1.x - result.pointX
    let dy := p1.y - result.pointY
    let distance := M.sqrt (dx * dx + dy * dy)
    if distance > 0 then
      { p1 with ve := { p1.ve with x := p1.ve.x + M.div dx distance,
                                   y := p1.ve.y + M.div dy distance } }
    else p1
  else particle

/-- Last loop of `findContacts`: normalise the escape velocity (Equation 6); `ve` is
`this.ve`. -/
def normalizeEscape (M : JSMath K) (ve : K) (particle : Particle K) : Particle K :=
  if particle.inContact then
    let magnitude := M.sqrt (particle.ve.x ^ 2 + particle.ve.y ^ 2)
    if magnitude > 0 then
      { particle with ve :=
          { x := M.div particle.ve.x magnitude * ve
            y := M.div particle.ve.y magnitude * ve
            magnitude := ve } }
    else particle
  else particle

/-- Method `findContacts`. -/
def findContacts (M : JSMath K) (s : ParticleModel K) : ParticleModel K :=
  let ps0 := s.particles.map resetContact
  let ps1 := particleContacts M ps0
  let ps2 := ps1.map (fun particle => s.boundaries.foldl (boundaryContact M) particle)
  { s with particles := ps2.map (normalizeEscape M s.ve) }

/-- Body of the loop of `adjustRadii` for one particle (Equation 8); the parameters are
`this.rMin`, `this.rMax`, `this.tau` and `this.dt`. -/
def adjustRadius (M : JSMath K) (rMin rMax tau dt : K) (particle : Particle K) : Particle K :=
  if particle.inContact then
    { particle with r := rMin }
  else
    let dr := M.div rMax tau * dt
    { particle with r := min (particle.r + dr) rMax }

/-- Method `adjustRadii`. -/
def adjustRadii (M : JSMath K) (s : ParticleModel K) : ParticleModel K :=
  { s with particles := s.particles.map (adjustRadius M s.rMin s.rMax s.tau s.dt) }

/-- Body of the loop of `computeDesiredVelocities` for one particle (Equations 1 and 5). -/
def desiredVelocity (M : JSMath K) (s : ParticleModel K) (particle : Particle K) :
    Particle K :=
  match assignedTarget s.targets particle.targetIndex with
  | some target =>
    let dx := target.x - particle.x
    let dy := target.y - particle.y
    let distance := M.sqrt (dx * dx + dy * dy)
    if distance > 0 then
      let magnitude := calculateDesiredVelocity M s particle.r
      { particle with vd :=
          { x := M.div dx distance * magnitude
            y := M.div dy distance * magnitude
            magnitude := magnitude } }
    else
      { particle with vd := ⟨0, 0, 0⟩ }
  | none => particle

/-- Method `computeDesiredVelocities`. -/
def computeDesiredVelocities (M : JSMath K) (s : ParticleModel K) : ParticleModel K :=
  { s with particles := s.particles.map (desiredVelocity M s) }

/-- Body of the loop of `updatePositions` for one particle; `rMin` and `dt` are
`this.rMin` and `this.dt`. -/
def move (rMin dt : K) (particle : Particle K) : Particle K :=
  let vx := if particle.r > rMin then particle.vd.x else particle.ve.x
  let vy := if particle.r > rMin then particle.vd.y else particle.ve.y
  { particle with x := particle.x + vx * dt, y := particle.y + vy * dt }

/-- Method `updatePositions`. -/
def updatePositions (s : ParticleModel K) : ParticleModel K :=
  { s with particles := s.particles.map (move s.rMin s.dt) }

/-- Body of the stress loop of `step` for one particle; the parameters are
`this.crushThreshold`, `this.stressRate`, `this.dt` and `this.stressThreshold`. -/
def stressUpdate (crushThreshold stressRate dt stressThreshold : K) (particle : Particle K) :
    Particle K :=
  let p1 :=
    if (particle.contacts : K) ≥ crushThreshold then
      { particle with stress := particle.stress + stressRate * dt }
    else
      { particle with stress := max 0 (particle.stress - dt) }
  if p1.stress ≥ stressThreshold then { p1 with dead := true } else p1

/-- The stress loop of `step`. -/
def accumulateStress (s : ParticleModel K) : ParticleModel K :=
  { s with
    particles :=
      s.particles.map (stressUpdate s.crushThreshold s.stressRate s.dt s.stressThreshold) }

/-- Accumulator of the `filter` callback that removes dead particles. -/
structure DeathAcc (K : Type) where
  model : ParticleModel K
  kept : List (Particle K)

/-- One call of the `filter` callback that removes dead particles. -/
def deathVisit (acc : DeathAcc K) (particle : Particle K) : DeathAcc K :=
  if particle.dead then
    { acc with model := { acc.model with
        particlesDied := acc.model.particlesDied + 1
        deathMarkers := acc.model.deathMarkers ++ [⟨particle.x, particle.y⟩] } }
  else
    { acc with kept := acc.kept ++ [particle] }

/-- The removal of dead particles in `step`. -/
def removeDead (s : ParticleModel K) : ParticleModel K :=
  let acc := s.particles.foldl deathVisit ⟨s, []⟩
  { acc.model with particles := acc.kept }

/-- The state of `step` right before `updatePositions`. -/
def beforeMove (M : JSMath K) (s : ParticleModel K) : ParticleModel K :=
  computeDesiredVelocities M
    (findClosestTargets M (removeDead (accumulateStress (adjustRadii M (findContacts M s)))))

/-- Method `step`: single simulation step. -/
def step (M : JSMath K) (clock : Nat → K) (s : ParticleModel K) : ParticleModel K :=
  removeParticlesAtTarget M clock (updatePositions (beforeMove M s))

/-- Method `reset`. -/
def reset (s : ParticleModel K) : ParticleModel K :=
  { s with
    particles := []
    boundaries := []
    targets := []
    deathMarkers := []
    particlesDied := 0
    particlesReachedTarget := 0
    totalParticlesCreated := 0
    startTime := none
    endTime := none }

/-- The model built by `setupSimulation` before any boundary, target or particle is added. -/
def setupModel (M : JSMath K) : ParticleModel K :=
  ParticleModel.new M
    { rMin := some 0.2, rMax := some 1.0, vdMax := some 1.5, beta := some 1, tau := some 0.5,
      stressRate := some 5.0, stressThreshold := some 2, crushThreshold := some 3 }

/-- The stress and death flag of one particle over successive ticks: tick `k` overwrites
`contacts` with the count `contacts k` written by that tick's contact pass and applies the
body of the stress loop. -/
def crushTicks (crushThreshold stressRate dt stressThreshold : K) (contacts : Nat → Nat) :
    Nat → Particle K → Particle K
  | 0, p => p
  | k + 1, p =>
    stressUpdate crushThreshold stressRate dt stressThreshold
      { crushTicks crushThreshold stressRate dt stressThreshold contacts k p with
        contacts := contacts k }

end Model

/-- Scenario D in exact arithmetic over the rationals: the model of `setupSimulation` with
one particle at the origin, where three boundaries cross, and no target.  Here
`dt = 1/15` exactly; the double-precision run of the stress loop is `crushTicksDouble`. -/
def scenarioD : ParticleModel ℚ :=
  addParticle
    (addBoundary (addBoundary (addBoundary (setupModel ratMath) (-1) 0 1 0) 0 (-1) 0 1)
      (-1) (-1) 1 1)
    0 0

/-- Scenario D once its particle has died: the active set is empty, one death is counted
and one marker lies at the origin. -/
def crushedDead : ParticleModel ℚ :=
  { scenarioD with particles := [], particlesDied := 1, deathMarkers := [⟨0, 0⟩] }

/-- Scenario D after some ticks: the particle is squeezed at the origin by its three
boundary contacts and carries the stress `stress`. -/
def crushed (stress : ℚ) : ParticleModel ℚ :=
  { scenarioD with
    particles :=
      [{ x := 0, y := 0, r := 1 / 5, vd := ⟨0, 0, 0⟩, ve := ⟨0, 0, 0⟩, targetIndex := -1,
         inContact := true, reachedTarget := false, contacts := 3, stress := stress,
         dead := false }] }

end DeathMarkers

/-! ## Variant `NewMovement`: targets and the new movement rule, no death -/

namespace NewMovement

/-- The particle (pedestrian) of the no-death variant. -/
structure Particle (K : Type) where
  x : K
  y : K
  r : K
  vd : Velocity K
  ve : Velocity K
  targetIndex : Int
  inContact : Bool
  reachedTarget : Bool
deriving DecidableEq, Repr

/-- The class `ParticleModel` of the no-death variant. -/
structure ParticleModel (K : Type) where
  rMin : K
  rMax : K
  vdMax : K
  ve : K
  beta : K
  tau : K
  dt : K
  particles : List (Particle K)
  boundaries : List (Boundary K)
  targets : List (Target K)
  particlesReachedTarget : Int
  totalParticlesCreated : Int
  startTime : Option K
  endTime : Option K
deriving DecidableEq, Repr

/-- The construction-time parameters of a model, as one record. -/
structure Params (K : Type) where
  rMin : K
  rMax : K
  vdMax : K
  ve : K
  beta : K
  tau : K
  dt : K
deriving DecidableEq, Repr

/-- The parameters stored in a model. -/
def ParticleModel.params {K : Type} (s : ParticleModel K) : Params K :=
  ⟨s.rMin, s.rMax, s.vdMax, s.ve, s.beta, s.tau, s.dt⟩

section Model
variable {K : Type} [LinearOrderedField K]

/-- The `Particle` constructor. -/
def Particle.new (x y radius : K) : Particle K :=
  { x := x, y := y, r := radius, vd := ⟨0, 0, 0⟩, ve := ⟨0, 0, 0⟩, targetIndex := -1,
    inContact := false, reachedTarget := false }

/-- The `ParticleModel` constructor. -/
def ParticleModel.new (M : JSMath K) (options : Options K) : ParticleModel K :=
  let rMin := jsOr options.rMin 0.2
  let vdMax := jsOr options.vdMax 1.5
  let ve := vdMax
  { rMin := rMin
    rMax := jsOr options.rMax 0.8
    vdMax := vdMax
    ve := ve
    beta := jsOr options.beta 1
    tau := jsOr options.tau 0.5
    dt := M.div rMin (2 * max vdMax ve)
    particles := []
    boundaries := []
    targets := []
    particlesReachedTarget := 0
    totalParticlesCreated := 0
    startTime := none
    endTime := none }

/-- Method `addParticle(x, y, radius = this.rMin)`. -/
def addParticle (s : ParticleModel K) (x y : K) (radius : Option K := none) : ParticleModel K :=
  { s with
    particles := s.particles ++ [Particle.new x y (radius.getD s.rMin)]
    totalParticlesCreated := s.totalParticlesCreated + 1 }

/-- Method `addTarget`: the new state and the returned index. -/
def addTarget (s : ParticleModel K) (x y : K) : ParticleModel K × Nat :=
  let s1 := { s with targets := s.targets ++ [⟨x, y⟩] }
  (s1, s1.targets.length - 1)

/-- Method `addBoundary`. -/
def addBoundary (s : ParticleModel K) (x1 y1 x2 y2 : K) : ParticleModel K :=
  { s with boundaries := s.boundaries ++ [⟨x1, y1, x2, y2⟩] }

/-- Body of the loop of `findClosestTargets` for one particle. -/
def closestTarget (M : JSMath K) (targets : List (Target K)) (particle : Particle K) :
    Particle K :=
  { particle with
    targetIndex := closestTargetLoop M particle.x particle.y targets 0 none (-1) }

/-- Method `findClosestTargets`. -/
def findClosestTargets (M : JSMath K) (s : ParticleModel K) : ParticleModel K :=
  { s with particles := s.particles.map (closestTarget M s.targets) }

/-- Accumulator of the `filter` callback of `removeParticlesAtTarget`. -/
structure ArrivalAcc (K : Type) where
  model : ParticleModel K
  kept : List (Particle K)
  calls : Nat

/-- One call of the `filter` callback of `removeParticlesAtTarget`. -/
def arrivalVisit (M : JSMath K) (clock : Nat → K) (acc : ArrivalAcc K)
    (particle : Particle K) : ArrivalAcc K :=
  let targetRadius : K := 0.5
  match assignedTarget acc.model.targets particle.targetIndex with
  | some target =>
    let dx := target.x - particle.x
    let dy := target.y - particle.y
    let distance := M.sqrt (dx * dx + dy * dy)
    if distance ≤ targetRadius then
      let m1 : ParticleModel K := { acc.model with
        particlesReachedTarget := acc.model.particlesReachedTarget + 1 }
      if m1.particlesReachedTarget = m1.totalParticlesCreated then
        { acc with model := { m1 with endTime := some (clock acc.calls) }, calls := acc.calls + 1 }
      else
        { acc with model := m1 }
    else
      { acc with kept := acc.kept ++ [particle] }
  | none => { acc with kept := acc.kept ++ [particle] }

/-- Method `removeParticlesAtTarget`. -/
def removeParticlesAtTarget (M : JSMath K) (clock : Nat → K) (s : ParticleModel K) :
    ParticleModel K :=
  let acc := s.particles.foldl (arrivalVisit M clock) ⟨s, [], 0⟩
  { acc.model with particles := acc.kept }

/-- Method `calculateDesiredVelocity(radius)` (Equation 1). -/
def calculateDesiredVelocity (M : JSMath K) (s : ParticleModel K) (radius : K) : K :=
  s.vdMax * M.pow (M.div (radius - s.rMin) (s.rMax - s.rMin)) s.beta

/-- First loop of `findContacts`: reset contact status. -/
def resetContact (particle : Particle K) : Particle K :=
  { particle with inContact := false, ve := ⟨0, 0, 0⟩ }

/-- Body of the particle-particle loop of `findContacts` for the index pair `(i, j)`.  The
quotient by `distance` is `M.div` also when `distance` is `0`, where the source computes
`0 / 0 = NaN`. -/
def contactPair (M : JSMath K) (ps : List (Particle K)) (i j : Nat) : List (Particle K) :=
  match ps[i]?, ps[j]? with
  | some pi, some pj =>
    let dx := pi.x - pj.x
    let dy := pi.y - pj.y
    let distance := M.sqrt (dx * dx + dy * dy)
    if distance < pi.r + pj.r then
      let eijx := M.div dx distance
      let eijy := M.div dy distance
      let pi1 := { pi with
        inContact := true
        ve := { pi.ve with x := pi.ve.x + (eijx + pi.vd.x), y := pi.ve.y + (eijy + pi.vd.y) } }
      let pj1 := { pj with
        inContact := true
        ve := { pj.ve with x := pj.ve.x + (-eijx + pj.vd.x), y := pj.ve.y + (-eijy + pj.vd.y) } }
      (ps.set i pi1).set j pj1
    else ps
  | _, _ => ps

/-- The particle-particle loops of `findContacts`: `i` from `0`, `j` from `i + 1`. -/
def particleContacts (M : JSMath K) (ps : List (Particle K)) : List (Particle K) :=
  (List.range ps.length).foldl
    (fun acc i =>
      (List.range' (i + 1) (ps.length - (i + 1))).foldl (fun acc j => contactPair M acc i j) acc)
    ps

/-- Body of the boundary loop of `findContacts` for one particle and one boundary. -/
def boundaryContact (M : JSMath K) (particle : Particle K) (boundary : Boundary K) :
    Particle K :=
  let result := distanceToBoundary M particle.x particle.y
    boundary.x1 boundary.y1 boundary.x2 boundary.y2
  if result.distance < particle.r then
    let p1 := { particle with inContact := true }
    let dx := p1.x - result.pointX
    let dy := p1.y - result.pointY
    let distance := M.sqrt (dx * dx + dy * dy)
    if distance > 0 then
      { p1 with ve := { p1.ve with x := p1.ve.x + M.div dx distance,
                                   y := p1.ve.y + M.div dy distance } }
    else p1
  else particle

/-- Last loop of `findContacts`: normalise the escape velocity (Equation 6); `ve` is
`this.ve`. -/
def normalizeEscape (M : JSMath K) (ve : K) (particle : Particle K) : Particle K :=
  if particle.inContact then
    let magnitude := M.sqrt (particle.ve.x ^ 2 + particle.ve.y ^ 2)
    if magnitude > 0 then
      { particle with ve :=
          { x := M.div particle.ve.x magnitude * ve
            y := M.div particle.ve.y magnitude * ve
            magnitude := ve } }
    else particle
  else particle

/-- Method `findContacts`. -/
def findContacts (M : JSMath K) (s : ParticleModel K) : ParticleModel K :=
  let ps0 := s.particles.map resetContact
  let ps1 := particleContacts M ps0
  let ps2 := ps1.map (fun particle => s.boundaries.foldl (boundaryContact M) particle)
  { s with particles := ps2.map (normalizeEscape M s.ve) }

/-- Body of the loop of `adjustRadii` for one particle (Equation 8); the parameters are
`this.rMin`, `this.rMax`, `this.tau` and `this.dt`. -/
def adjustRadius (M : JSMath K) (rMin rMax tau dt : K) (particle : Particle K) : Particle K :=
  if particle.inContact then
    { particle with r := rMin }
  else
    let dr := M.div rMax tau * dt
    { particle with r := min (particle.r + dr) rMax }

/-- Method `adjustRadii`. -/
def adjustRadii (M : JSMath K) (s : ParticleModel K) : ParticleModel K :=
  { s with particles := s.particles.map (adjustRadius M s.rMin s.rMax s.tau s.dt) }

/-- Body of the loop of `computeDesiredVelocities` for one particle (Equations 1 and 5). -/
def desiredVelocity (M : JSMath K) (s : ParticleModel K) (particle : Particle K) :
    Particle K :=
  match assignedTarget s.targets particle.targetIndex with
  | some target =>
    let dx := target.x - particle.x
    let dy := target.y - particle.y
    let distance := M.sqrt (dx * dx + dy * dy)
    if distance > 0 then
      let magnitude := calculateDesiredVelocity M s particle.r
      { particle with vd :=
          { x := M.div dx distance * magnitude
            y := M.div dy distance * magnitude
            magnitude := magnitude } }
    else
      { particle with vd := ⟨0, 0, 0⟩ }
  | none => particle

/-- Method `computeDesiredVelocities`. -/
def computeDesiredVelocities (M : JSMath K) (s : ParticleModel K) : ParticleModel K :=
  { s with particles := s.particles.map (desiredVelocity M s) }

/-- Body of the loop of `updatePositions` for one particle; `rMin` and `dt` are
`this.rMin` and `this.dt`. -/
def move (rMin dt : K) (particle : Particle K) : Particle K :=
  let vx := if particle.r > rMin then particle.vd.x else particle.ve.x
  let vy := if particle.r > rMin then particle.vd.y else particle.ve.y
  { particle with x := particle.x + vx * dt, y := particle.y + vy * dt }

/-- Method `updatePositions`. -/
def updatePositions (s : ParticleModel K) : ParticleModel K :=
  { s with particles := s.particles.map (move s.rMin s.dt) }

/-- Method `step`: single simulation step. -/
def step (M : JSMath K) (clock : Nat → K) (s : ParticleModel K) : ParticleModel K :=
  removeParticlesAtTarget M clock
    (updatePositions (computeDesiredVelocities M (findClosestTargets M
      (adjustRadii M (findContacts M s)))))

/-- Method `reset`. -/
def reset (s : ParticleModel K) : ParticleModel K :=
  { s with
    particles := []
    boundaries := []
    targets := []
    particlesReachedTarget := 0
    totalParticlesCreated := 0
    startTime := none
    endTime := none }

end Model

end NewMovement

namespace VaryingPopulation

section SceneDefs
variable {K : Type} [LinearOrderedField K]

/-- Scenario C before target assignment: the default model with one target at `(0.3, 0)`
and one adult at the origin. -/
def oneTarget (M : JSMath K) : ParticleModel K :=
  addParticleKey (addTarget (ParticleModel.new M {}) (3 / 10) 0).1 0 0 .ADULT

/-- Scenario C: one particle whose assigned target is `0.3` away. -/
def scenarioC (M : JSMath K) : ParticleModel K :=
  findClosestTargets M (oneTarget M)

end SceneDefs

end VaryingPopulation

namespace VaryingPopulation

section LatchDefs
variable {K : Type} [LinearOrderedField K]

/-- The number of assignments to `endTime` made by one call of `step`: the clock reads of
the arrival callback. -/
def endTimeWrites (M : JSMath K) (clock : Nat → K) (s : ParticleModel K) : Nat :=
  ((updatePositions (beforeMove M s)).particles.foldl (arrivalVisit M clock)
    ⟨updatePositions (beforeMove M s), [], 0⟩).calls

/-- Later states reached by public operations other than `addParticle`,
`addParticlesWithDemographics` and `reset`. -/
inductive Quiet (M : JSMath K) (s : ParticleModel K) : ParticleModel K → Prop
  | refl : Quiet M s s
  | step {t : ParticleModel K} (clock : Nat → K) : Quiet M s t → Quiet M s (step M clock t)
  | addTarget {t : ParticleModel K} (x y : K) : Quiet M s t → Quiet M s (addTarget t x y).1
  | addBoundary {t : ParticleModel K} (x1 y1 x2 y2 : K) :
      Quiet M s t → Quiet M s (addBoundary t x1 y1 x2 y2)
  | findClosestTargets {t : ParticleModel K} : Quiet M s t → Quiet M s (findClosestTargets M t)
  | setStartTime {t : ParticleModel K} (now : K) : Quiet M s t → Quiet M s (setStartTime t now)

end LatchDefs

end VaryingPopulation

namespace VaryingPopulation

/-- The property names that every object literal inherits from `Object.prototype`: a
property read with one of these names on the registry or on `demographicStats` does not
yield `undefined`. -/
def objectPrototypeKeys : List String :=
  ["constructor", "__proto__", "hasOwnProperty", "isPrototypeOf", "propertyIsEnumerable",
   "toLocaleString", "toString", "valueOf", "__defineGetter__", "__defineSetter__",
   "__lookupGetter__", "__lookupSetter__"]

/-- The value of the property read `DEMOGRAPHICS[demographic]`. -/
inductive RegistryRead where
  | entry (key : DemoKey)
  | inherited
  | undefined
deriving DecidableEq, Repr

/-- The property read `DEMOGRAPHICS[demographic]`: an own entry, else a property found on
the prototype chain, else `undefined`. -/
def readRegistry (demographic : String) : RegistryRead :=
  match DemoKey.ofString demographic with
  | some key => .entry key
  | none => if demographic ∈ objectPrototypeKeys then .inherited else .undefined

section Counts
variable {K : Type} [LinearOrderedField K]

/-- Method `addParticle(x, y, demographic)` on an arbitrary key string, as far as the
length of `particles` and `totalParticlesCreated` go.  `new Particle` evaluates
`this.demo.rMin`: a `TypeError` when the registry read is `undefined`, before anything is
modified (`none`).  On an inherited property the reads of `rMin`, `rMax` and `vdMax` yield
`undefined` and the constructor returns; the particle is pushed, the counter incremented,
and `created++` and `current++` act on the inherited property of `demographicStats`. -/
def addParticleCounts (s : ParticleModel K) (demographic : String) : Option (Nat × Int) :=
  match readRegistry demographic with
  | .undefined => none
  | .entry _ => some (s.particles.length + 1, s.totalParticlesCreated + 1)
  | .inherited => some (s.particles.length + 1, s.totalParticlesCreated + 1)

end Counts

section RunDefs
variable {K : Type} [LinearOrderedField K]

/-- The state after `n` successive calls of `step`; `clock k i` is the `i`-th reading of
`performance.now()` during call `k`. -/
def run (M : JSMath K) (clock : Nat → Nat → K) : Nat → ParticleModel K → ParticleModel K
  | 0, s => s
  | n + 1, s => step M (clock n) (run M clock n s)

/-- A state with its completion timestamp blanked out. -/
def withoutEndTime (s : ParticleModel K) : ParticleModel K :=
  { s with endTime := none }

end RunDefs

end VaryingPopulation

namespace VaryingPopulation

section EscapeDefs
variable {K : Type} [LinearOrderedField K]

/-- The particles of `findContacts` after the two contact loops, right before the
normalisation loop. -/
def accumulateEscape (M : JSMath K) (s : ParticleModel K) : List (Particle K) :=
  (particleContacts M (s.particles.map resetContact)).map
    (fun particle => s.boundaries.foldl (boundaryContact M) particle)

/-- The escape vector stored at index `k` of a particle list (zero past the end). -/
def escapeAt (ps : List (Particle K)) (k : Nat) : K × K :=
  match ps[k]? with
  | some q => (q.ve.x, q.ve.y)
  | none => (0, 0)

/-- What the pair test of `findContacts` adds to the escape vector of `pi` when it
overlaps a particle `pj` of higher index: `eij + vd`. -/
def pushHigher (M : JSMath K) (pi pj : Particle K) : K × K :=
  let dx := pi.x - pj.x
  let dy := pi.y - pj.y
  let distance := M.sqrt (dx * dx + dy * dy)
  (M.div dx distance + pi.vd.x, M.div dy distance + pi.vd.y)

/-- What the pair test of `findContacts` adds to the escape vector of `pj` when a
particle `pi` of lower index overlaps it: `-eij + vd`. -/
def pushLower (M : JSMath K) (pj pi : Particle K) : K × K :=
  let dx := pi.x - pj.x
  let dy := pi.y - pj.y
  let distance := M.sqrt (dx * dx + dy * dy)
  (-M.div dx distance + pj.vd.x, -M.div dy distance + pj.vd.y)

/-- What the boundary test of `findContacts` adds to the escape vector of a particle that
touches the boundary: the outward unit vector, nothing at distance zero. -/
def pushBoundary (M : JSMath K) (p : Particle K) (b : Boundary K) : K × K :=
  let result := distanceToBoundary M p.x p.y b.x1 b.y1 b.x2 b.y2
  let dx := p.x - result.pointX
  let dy := p.y - result.pointY
  let distance := M.sqrt (dx * dx + dy * dy)
  if distance > 0 then (M.div dx distance, M.div dy distance) else (0, 0)

/-- The sum of `f` over the members of `l` that satisfy `c`. -/
def sumOver {α : Type} (f : α → K × K) (c : α → Bool) (l : List α) : K × K :=
  ((l.filter c).map f).sum

/-- The vector from `q` to `p` divided by the distance between them. -/
def awayFrom (M : JSMath K) (p q : Particle K) : K × K :=
  ((p.x - q.x) / M.sqrt ((p.x - q.x) * (p.x - q.x) + (p.y - q.y) * (p.y - q.y)),
   (p.y - q.y) / M.sqrt ((p.x - q.x) * (p.x - q.x) + (p.y - q.y) * (p.y - q.y)))

/-- The unit vector from `q` to `p` plus the desired velocity of `p`: the contribution of
a particle contact as the specification words it. -/
def pairPush (M : JSMath K) (p q : Particle K) : K × K :=
  awayFrom M p q + (p.vd.x, p.vd.y)

/-- The unit vector from the nearest point of the boundary to `p`: the contribution of a
boundary contact as the specification words it. -/
def boundaryPush (M : JSMath K) (p : Particle K) (b : Boundary K) : K × K :=
  ((p.x - (distanceToBoundary M p.x p.y b.x1 b.y1 b.x2 b.y2).pointX) /
      (distanceToBoundary M p.x p.y b.x1 b.y1 b.x2 b.y2).distance,
   (p.y - (distanceToBoundary M p.x p.y b.x1 b.y1 b.x2 b.y2).pointY) /
      (distanceToBoundary M p.x p.y b.x1 b.y1 b.x2 b.y2).distance)

/-- Every contact found by `findContacts` is at a non-zero distance: no overlapping
particles share their centre, and no particle that touches a boundary lies on it. -/
def ContactsApart (M : JSMath K) (s : ParticleModel K) : Prop :=
  (∀ k p, s.particles[k]? = some p → ∀ q ∈ s.particles.eraseIdx k, overlaps M p q = true →
    M.sqrt ((p.x - q.x) * (p.x - q.x) + (p.y - q.y) * (p.y - q.y)) ≠ 0) ∧
  (∀ p ∈ s.particles, ∀ b ∈ s.boundaries, touches M p b = true →
    (distanceToBoundary M p.x p.y b.x1 b.y1 b.x2 b.y2).distance ≠ 0)

end EscapeDefs

section MoreDefs
variable {K : Type} [LinearOrderedField K]

/-- Scenario A over any number type: the default model with two adults `0.1` apart. -/
def twoAdults (M : JSMath K) : ParticleModel K :=
  addParticleKey (addParticleKey (ParticleModel.new M {}) 0 0 .ADULT) (1 / 10) 0 .ADULT

/-- Two adults created at the same point of the default model. -/
def coincident (M : JSMath K) : ParticleModel K :=
  addParticleKey (addParticleKey (ParticleModel.new M {}) 0 0 .ADULT) 0 0 .ADULT

end MoreDefs

/-- The rational built-ins with `z` as the value of every quotient by zero; quotients by a
non-zero number are unchanged. -/
def ratMathWith (z : ℚ) : JSMath ℚ where
  sqrt := ratSqrt
  pow := fun a b => a ^ b.num.toNat
  div := fun a b => if b = 0 then z else a / b

end VaryingPopulation

namespace VaryingPopulation

section RegrowDefs
variable {K : Type} [LinearOrderedField K]

/-- The radius of one particle over successive ticks: tick `k` overwrites `inContact` with
the flag `flags k` written by that tick's contact pass and applies the body of the radius
loop. -/
def regrowTicks (M : JSMath K) (tau dt : K) (flags : Nat → Bool) :
    Nat → Particle K → Particle K
  | 0, p => p
  | k + 1, p => adjustRadius M tau dt { regrowTicks M tau dt flags k p with inContact := flags k }

end RegrowDefs

end VaryingPopulation

namespace VaryingPopulation

section CensusDefs
variable {K : Type} [LinearOrderedField K]

/-- Every `current` counter is the number of active particles of that demographic. -/
def Census (s : ParticleModel K) : Prop :=
  ∀ d, (s.demographicStats d).current =
    (s.particles.countP (fun p => decide (p.demographic = d)) : Nat)

end CensusDefs

end VaryingPopulation

namespace VaryingPopulation

section DriverDefs
variable {K : Type} [LinearOrderedField K]

/-- One call of a public method of `ParticleModel`, with its arguments, the draws of
`Math.random()` it consumes and the readings of `performance.now()` it makes. -/
inductive Call (K : Type) where
  | addParticle (x y : K) (demographic : String)
  | addParticlesWithDemographics (x y : K) (count : Nat) (rnd : Nat → K)
  | addTarget (x y : K)
  | addBoundary (x1 y1 x2 y2 : K)
  | findClosestTargets
  | setStartTime (now : K)
  | step (clock : Nat → K)
  | reset

/-- The state after one call; an `addParticle` that throws leaves the state as it was. -/
def perform (M : JSMath K) (s : ParticleModel K) : Call K → ParticleModel K
  | .addParticle x y demographic => (addParticle s x y demographic).getD s
  | .addParticlesWithDemographics x y count rnd => addParticlesWithDemographics s x y count rnd
  | .addTarget x y => (addTarget s x y).1
  | .addBoundary x1 y1 x2 y2 => addBoundary s x1 y1 x2 y2
  | .findClosestTargets => findClosestTargets M s
  | .setStartTime now => setStartTime s now
  | .step clock => step M clock s
  | .reset => reset s

/-- The state after a sequence of calls. -/
def performAll (M : JSMath K) (s : ParticleModel K) (calls : List (Call K)) : ParticleModel K :=
  calls.foldl (perform M) s

/-- A state with the two model-level thresholds blanked out. -/
def withoutThresholds (s : ParticleModel K) : ParticleModel K :=
  { s with stressThreshold := 0, crushThreshold := 0 }

end DriverDefs

end VaryingPopulation

namespace VaryingPopulation

section WallDefs

/-- One adult standing on a wall: the default model with the boundary from `(-1, 0)` to
`(1, 0)`, a target at `(5, 0)` and an adult created at the origin. -/
def onWall : ParticleModel ℚ :=
  addParticleKey (addTarget (addBoundary (ParticleModel.new ratMath {}) (-1) 0 1 0) 5 0).1
    0 0 .ADULT

/-- The adult of `onWall` once a step has found its boundary contact and its target. -/
def pinned : Particle ℚ :=
  { Particle.new (0 : ℚ) 0 .ADULT with inContact := true, contacts := 1, targetIndex := 0 }

/-- The state `onWall` with the adult pinned on the wall. -/
def onWallPinned : ParticleModel ℚ :=
  { onWall with particles := [pinned] }

end WallDefs

end VaryingPopulation

namespace VaryingPopulation

section ArrivalDefs
variable {K : Type} [LinearOrderedField K]

/-- The number of assignments to `endTime` made by one call of `removeParticlesAtTarget`:
the clock reads of its `filter` callback. -/
def arrivalWrites (M : JSMath K) (clock : Nat → K) (s : ParticleModel K) : Nat :=
  (s.particles.foldl (arrivalVisit M clock) ⟨s, [], 0⟩).calls

end ArrivalDefs

end VaryingPopulation

namespace DeathMarkers

section ReachDefs
variable {K : Type} [LinearOrderedField K]

/-- The number of assignments to `endTime` made by one call of `removeParticlesAtTarget`:
the clock reads of its `filter` callback. -/
def arrivalWrites (M : JSMath K) (clock : Nat → K) (s : ParticleModel K) : Nat :=
  (s.particles.foldl (arrivalVisit M clock) ⟨s, [], 0⟩).calls

/-- The balance of the counters: every particle created is active, arrived or dead. -/
def Balanced (s : ParticleModel K) : Prop :=
  s.totalParticlesCreated =
    (s.particles.length : Int) + s.particlesReachedTarget + s.particlesDied

/-- States reachable from a freshly constructed model by the public operations. -/
inductive Reachable (M : JSMath K) (options : Options K) : ParticleModel K → Prop
  | init : Reachable M options (ParticleModel.new M options)
  | addParticle {s : ParticleModel K} (x y : K) (radius : Option K) :
      Reachable M options s → Reachable M options (addParticle s x y radius)
  | addTarget {s : ParticleModel K} (x y : K) :
      Reachable M options s → Reachable M options (addTarget s x y).1
  | addBoundary {s : ParticleModel K} (x1 y1 x2 y2 : K) :
      Reachable M options s → Reachable M options (addBoundary s x1 y1 x2 y2)
  | findClosestTargets {s : ParticleModel K} :
      Reachable M options s → Reachable M options (findClosestTargets M s)
  | step {s : ParticleModel K} (clock : Nat → K) :
      Reachable M options s → Reachable M options (step M clock s)
  | reset {s : ParticleModel K} :
      Reachable M options s → Reachable M options (reset s)

end ReachDefs

end DeathMarkers

namespace DeathMarkers

section ThinDefs

/-- The default model of the death-markers variant with one particle created with the
explicit radius `0.01`. -/
def thin : ParticleModel ℚ :=
  addParticle (ParticleModel.new ratMath {}) 0 0 (some (1 / 100))

end ThinDefs

end DeathMarkers

namespace NewMovement

section ThinNMDefs

/-- The default model of the no-death variant with one particle created with the explicit
radius `0.01`. -/
def thin : ParticleModel ℚ :=
  addParticle (ParticleModel.new ratMath {}) 0 0 (some (1 / 100))

end ThinNMDefs

end NewMovement

namespace NewMovement

section WritesDefs
variable {K : Type} [LinearOrderedField K]

/-- The number of assignments to `endTime` made by one call of `removeParticlesAtTarget`:
the clock reads of its `filter` callback. -/
def arrivalWrites (M : JSMath K) (clock : Nat → K) (s : ParticleModel K) : Nat :=
  (s.particles.foldl (arrivalVisit M clock) ⟨s, [], 0⟩).calls

/-- The state of `step` right before `removeParticlesAtTarget`. -/
def beforeArrival (M : JSMath K) (s : ParticleModel K) : ParticleModel K :=
  updatePositions (computeDesiredVelocities M (findClosestTargets M
    (adjustRadii M (findContacts M s))))

end WritesDefs

end NewMovement

namespace DeathMarkers

section PlainDefs
variable {K : Type}

/-- The particle of the no-death variant that a particle of the death-markers variant
extends: the fields `contacts`, `stress` and `dead` are dropped. -/
def Particle.toPlain (p : Particle K) : NewMovement.Particle K :=
  { x := p.x, y := p.y, r := p.r, vd := p.vd, ve := p.ve, targetIndex := p.targetIndex,
    inContact := p.inContact, reachedTarget := p.reachedTarget }

/-- The model of the no-death variant with the same parameters, particles, targets,
boundaries, counters and timestamps: the stress parameters, the death counter and the
death markers are dropped. -/
def ParticleModel.toPlain (s : ParticleModel K) : NewMovement.ParticleModel K :=
  { rMin := s.rMin, rMax := s.rMax, vdMax := s.vdMax, ve := s.ve, beta := s.beta, tau := s.tau,
    dt := s.dt, particles := s.particles.map Particle.toPlain, boundaries := s.boundaries,
    targets := s.targets, particlesReachedTarget := s.particlesReachedTarget,
    totalParticlesCreated := s.totalParticlesCreated, startTime := s.startTime,
    endTime := s.endTime }

end PlainDefs

end DeathMarkers

namespace VaryingPopulation

section CreatedDefs
variable {K : Type} [LinearOrderedField K]

/-- The fields `r`, `rMin` and `rMax` written by `new Particle(x, y, demographic)` for an
arbitrary key string; an inner `none` stands for `undefined`.  The constructor throws when
the registry read is `undefined` (outer `none`); on an inherited property the reads
`this.demo.rMin` and `this.demo.rMax` yield `undefined` and the constructor returns. -/
def createdRadii (demographic : String) : Option (Option K × Option K × Option K) :=
  match readRegistry demographic with
  | .undefined => none
  | .entry key =>
    some (some (DEMOGRAPHICS key).rMin, some (DEMOGRAPHICS key).rMin,
      some (DEMOGRAPHICS key).rMax)
  | .inherited => some (none, none, none)

/-- The comparison `a <= b` of JavaScript on values that may be `undefined`: `undefined`
converts to `NaN`, and every comparison with `NaN` is false. -/
def jsLe : Option K → Option K → Bool
  | some a, some b => decide (a ≤ b)
  | _, _ => false

/-- Method `addParticle(x, y, demographic)` on an arbitrary key string, as far as the length
of `particles` and the `current` counters of the three registry keys go (listed in the order
of `Object.keys(DEMOGRAPHICS)`).  On an inherited property `created++` and `current++` act
on that property of `demographicStats`, not on a counter of a registry key. -/
def addParticleCurrent (s : ParticleModel K) (demographic : String) :
    Option (Nat × List Int) :=
  match readRegistry demographic with
  | .undefined => none
  | .entry key =>
    some (s.particles.length + 1,
      DemoKey.keys.map (fun d => ((addParticleKey s 0 0 key).demographicStats d).current))
  | .inherited =>
    some (s.particles.length + 1, DemoKey.keys.map (fun d => (s.demographicStats d).current))

end CreatedDefs

end VaryingPopulation

namespace VaryingPopulation

section ApartDefs
variable {K : Type} [LinearOrderedField K]

/-- No two overlapping particles share their centre: in such a state the pair test of
`findContacts` never divides by a zero distance (in the source, `0 / 0 = NaN`). -/
def PairsApart (M : JSMath K) (s : ParticleModel K) : Prop :=
  ∀ k p, s.particles[k]? = some p → ∀ q ∈ s.particles.eraseIdx k, overlaps M p q = true →
    M.sqrt ((p.x - q.x) * (p.x - q.x) + (p.y - q.y) * (p.y - q.y)) ≠ 0

end ApartDefs

end VaryingPopulation

section ScanDefs
variable {K : Type} [LinearOrderedField K]

/-- A coordinate as the inner loop of `findClosestTargets` reads it from a particle: a
finite number, an infinity of either sign, or `NaN` (which is also what `undefined` becomes
in a subtraction). -/
inductive JSNumber (K : Type) where
  | number (v : K)
  | infinity
  | nan

/-- The value `Math.sqrt(dx * dx + dy * dy)` with `dx = target.x - particle.x` and
`dy = target.y - particle.y` for a target with finite coordinates: `NaN` as soon as one
coordinate of the particle is `NaN`, `Infinity` when one is infinite and none is `NaN`. -/
def scanDistance (M : JSMath K) (px py : JSNumber K) (target : Target K) : JSNumber K :=
  match px, py with
  | .number x, .number y =>
    .number (M.sqrt ((target.x - x) * (target.x - x) + (target.y - y) * (target.y - y)))
  | .nan, _ => .nan
  | _, .nan => .nan
  | _, _ => .infinity

/-- The inner loop of `findClosestTargets` on coordinates that need not be finite numbers:
`distance < closestDistance` is false when `distance` is `NaN` or `Infinity`, so such a
target never replaces the running minimum. -/
def closestTargetScan (M : JSMath K) (px py : JSNumber K) :
    List (Target K) → Nat → Option K → Int → Int
  | [], _, _, closestTargetIndex => closestTargetIndex
  | target :: rest, i, closestDistance, closestTargetIndex =>
    match scanDistance M px py target with
    | .number distance =>
      if ltInfinity distance closestDistance then
        closestTargetScan M px py rest (i + 1) (some distance) (i : Int)
      else
        closestTargetScan M px py rest (i + 1) closestDistance closestTargetIndex
    | _ => closestTargetScan M px py rest (i + 1) closestDistance closestTargetIndex

namespace VaryingPopulation

/-- One adult at the origin with a far target at `(3, 4)` added first and a near target at
`(0.3, 0)` added second. -/
def twoTargets (M : JSMath K) : ParticleModel K :=
  addParticleKey (addTarget (addTarget (ParticleModel.new M {}) 3 4).1 (3 / 10) 0).1
    0 0 .ADULT

end VaryingPopulation

end ScanDefs

namespace VaryingPopulation

section GrownDefs
variable {K : Type} [LinearOrderedField K]

/-- One adult created at the origin of the default model and stepped once without any
target (its radius grows from `0.2` to `0.26`), then a target added at `(3, 0)` and
assigned. -/
def grownAdult (M : JSMath K) : ParticleModel K :=
  findClosestTargets M
    (addTarget (step M (fun _ => 0) (addParticleKey (ParticleModel.new M {}) 0 0 .ADULT)) 3 0).1

end GrownDefs

end VaryingPopulation

section DoubleDefs

/-- A finite non-negative double-precision number, `mant * 2 ^ exp`.  Only the normal
range is modelled: no overflow, no subnormal numbers. -/
structure Dbl where
  mant : Nat
  exp : Int
deriving DecidableEq, Repr

namespace Dbl

/-- The value as a rational number. -/
def toRat (a : Dbl) : ℚ := (a.mant : ℚ) * (2 : ℚ) ^ a.exp

/-- The number of binary digits of `n`, found in at most `fuel` halvings. -/
def bitLenAux : Nat → Nat → Nat
  | 0, _ => 0
  | fuel + 1, n => if n = 0 then 0 else bitLenAux fuel (n / 2) + 1

/-- The number of binary digits of a natural number (`0` for `0`). -/
def bitLen (n : Nat) : Nat := bitLenAux n n

/-- Rounding of `n * 2 ^ e` to 53 significant bits, to nearest with ties to even;
`sticky` tells that the exact value lies above `n * 2 ^ e`, by less than `2 ^ e`. -/
def round (n : Nat) (e : Int) (sticky : Bool) : Dbl :=
  let k := bitLen n - 53
  if k = 0 then ⟨n, e⟩
  else
    let q := n / 2 ^ k
    let r := n % 2 ^ k
    let half := 2 ^ (k - 1)
    if r > half ∨ (r = half ∧ (sticky = true ∨ q % 2 = 1)) then ⟨q + 1, e + k⟩ else ⟨q, e + k⟩

/-- A natural number as a double. -/
def ofNat (n : Nat) : Dbl := round n 0 false

/-- The quotient `a / b` of two doubles, `b` not zero. -/
def div (a b : Dbl) : Dbl :=
  let s := bitLen b.mant + 55
  round (a.mant * 2 ^ s / b.mant) (a.exp - b.exp - s) (decide (a.mant * 2 ^ s % b.mant ≠ 0))

/-- The double written as the decimal fraction `n / d`, such as `0.2 = 2 / 10`. -/
def ofRatio (n d : Nat) : Dbl := div ⟨n, 0⟩ ⟨d, 0⟩

/-- The sum `a + b`. -/
def add (a b : Dbl) : Dbl :=
  round (a.mant * 2 ^ (a.exp - min a.exp b.exp).toNat +
    b.mant * 2 ^ (b.exp - min a.exp b.exp).toNat) (min a.exp b.exp) false

/-- The product `a * b`. -/
def mul (a b : Dbl) : Dbl := round (a.mant * b.mant) (a.exp + b.exp) false

/-- The comparison `a <= b`. -/
def le (a b : Dbl) : Bool :=
  decide (a.mant * 2 ^ (a.exp - min a.exp b.exp).toNat ≤
    b.mant * 2 ^ (b.exp - min a.exp b.exp).toNat)

/-- The call `Math.max(a, b)`. -/
def max (a b : Dbl) : Dbl := if le a b then b else a

/-- The expression `Math.max(0, a - b)`. -/
def subClamp (a b : Dbl) : Dbl :=
  if le b a then
    round (a.mant * 2 ^ (a.exp - min a.exp b.exp).toNat -
      b.mant * 2 ^ (b.exp - min a.exp b.exp).toNat) (min a.exp b.exp) false
  else ⟨0, 0⟩

end Dbl

/-- The stress and the death flag of one particle, in double precision. -/
structure Vital where
  stress : Dbl
  dead : Bool
deriving DecidableEq, Repr

/-- The time step `this.rMin / (2 * Math.max(this.vdMax, this.ve))` of the
single-demographic constructors, in double precision. -/
def dtDouble (rMin vdMax ve : Dbl) : Dbl :=
  Dbl.div rMin (Dbl.mul (Dbl.ofNat 2) (Dbl.max vdMax ve))

/-- Body of the stress loop of `step` for one particle, in double precision. -/
def stressUpdateDouble (crushThreshold stressRate dt stressThreshold : Dbl) (contacts : Nat)
    (particle : Vital) : Vital :=
  let stress :=
    if Dbl.le crushThreshold (Dbl.ofNat contacts) then
      Dbl.add particle.stress (Dbl.mul stressRate dt)
    else Dbl.subClamp particle.stress dt
  if Dbl.le stressThreshold stress then ⟨stress, true⟩ else ⟨stress, particle.dead⟩

/-- The stress and death flag over successive ticks, in double precision; tick `k` sees
the contact count `contacts k`. -/
def crushTicksDouble (crushThreshold stressRate dt stressThreshold : Dbl)
    (contacts : Nat → Nat) : Nat → Vital → Vital
  | 0, p => p
  | k + 1, p =>
    stressUpdateDouble crushThreshold stressRate dt stressThreshold (contacts k)
      (crushTicksDouble crushThreshold stressRate dt stressThreshold contacts k p)

end DoubleDefs

namespace DeathMarkers

section SqueezeDefs

/-- Scenario D with the wider stress threshold `2.1`: the parameters of `setupSimulation`
except for `stressThreshold`, one particle at the origin, where three boundaries cross, and
no target. -/
def scenarioE : ParticleModel ℚ :=
  addParticle
    (addBoundary (addBoundary (addBoundary
      (ParticleModel.new ratMath
        { rMin := some 0.2, rMax := some 1.0, vdMax := some 1.5, beta := some 1,
          tau := some 0.5, stressRate := some 5.0, stressThreshold := some 2.1,
          crushThreshold := some 3 })
      (-1) 0 1 0) 0 (-1) 0 1) (-1) (-1) 1 1)
    0 0

/-- Scenario E after some ticks: the particle is squeezed at the origin by its three
boundary contacts and carries the stress `stress`. -/
def squeezed (stress : ℚ) : ParticleModel ℚ :=
  { scenarioE with
    particles :=
      [{ x := 0, y := 0, r := 1 / 5, vd := ⟨0, 0, 0⟩, ve := ⟨0, 0, 0⟩, targetIndex := -1,
         inContact := true, reachedTarget := false, contacts := 3, stress := stress,
         dead := false }] }

end SqueezeDefs

end DeathMarkers

namespace DeathMarkers

section MixedDefs

/-- The default model of the death-markers variant with two particles three metres apart:
the first created with the default radius, the second with the explicit radius `0.01`. -/
def mixed : ParticleModel ℚ :=
  addParticle (addParticle (ParticleModel.new ratMath {}) 0 0) 3 0 (some (1 / 100))

end MixedDefs

end DeathMarkers

/-! # Verified properties -/

/-! ## The built-ins over the rationals -/

theorem ratMath_divExact : JSMath.DivExact ratMath :=
  ⟨fun _ _ _ => rfl⟩

/-! ## Variant `VaryingPopulation`: frame lemmas -/

namespace VaryingPopulation

section Lemmas
variable {K : Type} [LinearOrderedField K]

theorem dt_of_params {s t : ParticleModel K} (h : s.params = t.params) : s.dt = t.dt :=
  congrArg Params.dt h

theorem deathVisit_frame (acc : DeathAcc K) (p : Particle K) :
    (deathVisit acc p).model.params = acc.model.params ∧
    (deathVisit acc p).model.targets = acc.model.targets ∧
    (deathVisit acc p).model.boundaries = acc.model.boundaries ∧
    (deathVisit acc p).model.startTime = acc.model.startTime ∧
    (deathVisit acc p).model.endTime = acc.model.endTime ∧
    (deathVisit acc p).model.particlesReachedTarget = acc.model.particlesReachedTarget ∧
    (deathVisit acc p).model.totalParticlesCreated = acc.model.totalParticlesCreated := by
  unfold deathVisit
  split <;> simp [ParticleModel.params]

theorem deathFold_frame (ps : List (Particle K)) (acc : DeathAcc K) :
    (ps.foldl deathVisit acc).model.params = acc.model.params ∧
    (ps.foldl deathVisit acc).model.targets = acc.model.targets ∧
    (ps.foldl deathVisit acc).model.boundaries = acc.model.boundaries ∧
    (ps.foldl deathVisit acc).model.startTime = acc.model.startTime ∧
    (ps.foldl deathVisit acc).model.endTime = acc.model.endTime ∧
    (ps.foldl deathVisit acc).model.particlesReachedTarget = acc.model.particlesReachedTarget ∧
    (ps.foldl deathVisit acc).model.totalParticlesCreated = acc.model.totalParticlesCreated := by
  induction ps generalizing acc with
  | nil => simp
  | cons p ps ih =>
    simp only [List.foldl_cons]
    obtain ⟨a1, a2, a3, a4, a5, a6, a7⟩ := deathVisit_frame acc p
    obtain ⟨b1, b2, b3, b4, b5, b6, b7⟩ := ih (deathVisit acc p)
    exact ⟨b1.trans a1, b2.trans a2, b3.trans a3, b4.trans a4, b5.trans a5, b6.trans a6,
      b7.trans a7⟩

theorem removeDead_frame (s : ParticleModel K) :
    (removeDead s).params = s.params ∧ (removeDead s).targets = s.targets ∧
    (removeDead s).boundaries = s.boundaries ∧ (removeDead s).startTime = s.startTime ∧
    (removeDead s).endTime = s.endTime ∧
    (removeDead s).particlesReachedTarget = s.particlesReachedTarget ∧
    (removeDead s).totalParticlesCreated = s.totalParticlesCreated := by
  have h := deathFold_frame s.particles ⟨s, []⟩
  simpa [removeDead, ParticleModel.params] using h

theorem arrivalVisit_frame (M : JSMath K) (clock : Nat → K) (acc : ArrivalAcc K)
    (p : Particle K) :
    (arrivalVisit M clock acc p).model.params = acc.model.params ∧
    (arrivalVisit M clock acc p).model.targets = acc.model.targets ∧
    (arrivalVisit M clock acc p).model.boundaries = acc.model.boundaries ∧
    (arrivalVisit M clock acc p).model.startTime = acc.model.startTime ∧
    (arrivalVisit M clock acc p).model.deathMarkers = acc.model.deathMarkers ∧
    (arrivalVisit M clock acc p).model.particlesDied = acc.model.particlesDied ∧
    (arrivalVisit M clock acc p).model.totalParticlesCreated =
      acc.model.totalParticlesCreated := by
  unfold arrivalVisit
  simp only
  split
  · split
    · split <;> simp [ParticleModel.params]
    · simp
  · simp

theorem arrivalFold_frame (M : JSMath K) (clock : Nat → K) (ps : List (Particle K))
    (acc : ArrivalAcc K) :
    (ps.foldl (arrivalVisit M clock) acc).model.params = acc.model.params ∧
    (ps.foldl (arrivalVisit M clock) acc).model.targets = acc.model.targets ∧
    (ps.foldl (arrivalVisit M clock) acc).model.boundaries = acc.model.boundaries ∧
    (ps.foldl (arrivalVisit M clock) acc).model.startTime = acc.model.startTime ∧
    (ps.foldl (arrivalVisit M clock) acc).model.deathMarkers = acc.model.deathMarkers ∧
    (ps.foldl (arrivalVisit M clock) acc).model.particlesDied = acc.model.particlesDied ∧
    (ps.foldl (arrivalVisit M clock) acc).model.totalParticlesCreated =
      acc.model.totalParticlesCreated := by
  induction ps generalizing acc with
  | nil => simp
  | cons p ps ih =>
    simp only [List.foldl_cons]
    obtain ⟨a1, a2, a3, a4, a5, a6, a7⟩ := arrivalVisit_frame M clock acc p
    obtain ⟨b1, b2, b3, b4, b5, b6, b7⟩ := ih (arrivalVisit M clock acc p)
    exact ⟨b1.trans a1, b2.trans a2, b3.trans a3, b4.trans a4, b5.trans a5, b6.trans a6,
      b7.trans a7⟩

theorem removeParticlesAtTarget_frame (M : JSMath K) (clock : Nat → K) (s : ParticleModel K) :
    (removeParticlesAtTarget M clock s).params = s.params ∧
    (removeParticlesAtTarget M clock s).targets = s.targets ∧
    (removeParticlesAtTarget M clock s).boundaries = s.boundaries ∧
    (removeParticlesAtTarget M clock s).startTime = s.startTime ∧
    (removeParticlesAtTarget M clock s).deathMarkers = s.deathMarkers ∧
    (removeParticlesAtTarget M clock s).particlesDied = s.particlesDied ∧
    (removeParticlesAtTarget M clock s).totalParticlesCreated = s.totalParticlesCreated := by
  have h := arrivalFold_frame M clock s.particles ⟨s, [], 0⟩
  simpa [removeParticlesAtTarget, ParticleModel.params] using h

theorem beforeMove_frame (M : JSMath K) (s : ParticleModel K) :
    (beforeMove M s).params = s.params ∧ (beforeMove M s).targets = s.targets ∧
    (beforeMove M s).boundaries = s.boundaries ∧ (beforeMove M s).startTime = s.startTime ∧
    (beforeMove M s).endTime = s.endTime ∧
    (beforeMove M s).particlesReachedTarget = s.particlesReachedTarget ∧
    (beforeMove M s).totalParticlesCreated = s.totalParticlesCreated := by
  have h := removeDead_frame (accumulateStress (adjustRadii M (findContacts M s)))
  simpa [beforeMove, computeDesiredVelocities, findClosestTargets, accumulateStress,
    adjustRadii, findContacts, ParticleModel.params] using h

theorem step_frame (M : JSMath K) (clock : Nat → K) (s : ParticleModel K) :
    (step M clock s).params = s.params ∧ (step M clock s).targets = s.targets ∧
    (step M clock s).boundaries = s.boundaries ∧ (step M clock s).startTime = s.startTime ∧
    (step M clock s).totalParticlesCreated = s.totalParticlesCreated := by
  obtain ⟨a1, a2, a3, a4, -, -, a7⟩ :=
    removeParticlesAtTarget_frame M clock (updatePositions (beforeMove M s))
  obtain ⟨b1, b2, b3, b4, -, -, b7⟩ := beforeMove_frame M s
  unfold step
  refine ⟨a1.trans ?_, a2.trans ?_, a3.trans ?_, a4.trans ?_, a7.trans ?_⟩
  · simpa [updatePositions, ParticleModel.params] using b1
  · simpa [updatePositions] using b2
  · simpa [updatePositions] using b3
  · simpa [updatePositions] using b4
  · simpa [updatePositions] using b7

theorem addParticlesWithDemographics_frame (s : ParticleModel K) (x y : K) (count : Nat)
    (rnd : Nat → K) :
    (addParticlesWithDemographics s x y count rnd).params = s.params ∧
    (addParticlesWithDemographics s x y count rnd).targets = s.targets ∧
    (addParticlesWithDemographics s x y count rnd).boundaries = s.boundaries := by
  unfold addParticlesWithDemographics
  generalize List.range count = l
  induction l generalizing s with
  | nil => simp
  | cons i l ih =>
    simp only [List.foldl_cons]
    obtain ⟨h1, h2, h3⟩ := ih (addParticleKey s (x + (rnd (3 * i + 1) - 0.5) * 0.5)
      (y + (rnd (3 * i + 2) - 0.5) * 0.5) (sampleDemographic (rnd (3 * i))))
    exact ⟨h1, h2, h3⟩

end Lemmas

end VaryingPopulation

/-! ## Variant `DeathMarkers`: frame lemmas -/

namespace DeathMarkers

section Lemmas
variable {K : Type} [LinearOrderedField K]

theorem dt_of_params_dm {s t : ParticleModel K} (h : s.params = t.params) : s.dt = t.dt :=
  congrArg Params.dt h

theorem deathVisit_frame_dm (acc : DeathAcc K) (p : Particle K) :
    (deathVisit acc p).model.params = acc.model.params ∧
    (deathVisit acc p).model.targets = acc.model.targets ∧
    (deathVisit acc p).model.boundaries = acc.model.boundaries ∧
    (deathVisit acc p).model.startTime = acc.model.startTime ∧
    (deathVisit acc p).model.endTime = acc.model.endTime ∧
    (deathVisit acc p).model.particlesReachedTarget = acc.model.particlesReachedTarget ∧
    (deathVisit acc p).model.totalParticlesCreated = acc.model.totalParticlesCreated := by
  unfold deathVisit
  split <;> simp [ParticleModel.params]

theorem deathFold_frame_dm (ps : List (Particle K)) (acc : DeathAcc K) :
    (ps.foldl deathVisit acc).model.params = acc.model.params ∧
    (ps.foldl deathVisit acc).model.targets = acc.model.targets ∧
    (ps.foldl deathVisit acc).model.boundaries = acc.model.boundaries ∧
    (ps.foldl deathVisit acc).model.startTime = acc.model.startTime ∧
    (ps.foldl deathVisit acc).model.endTime = acc.model.endTime ∧
    (ps.foldl deathVisit acc).model.particlesReachedTarget = acc.model.particlesReachedTarget ∧
    (ps.foldl deathVisit acc).model.totalParticlesCreated = acc.model.totalParticlesCreated := by
  induction ps generalizing acc with
  | nil => simp
  | cons p ps ih =>
    simp only [List.foldl_cons]
    obtain ⟨a1, a2, a3, a4, a5, a6, a7⟩ := deathVisit_frame_dm acc p
    obtain ⟨b1, b2, b3, b4, b5, b6, b7⟩ := ih (deathVisit acc p)
    exact ⟨b1.trans a1, b2.trans a2, b3.trans a3, b4.trans a4, b5.trans a5, b6.trans a6,
      b7.trans a7⟩

theorem removeDead_frame_dm (s : ParticleModel K) :
    (removeDead s).params = s.params ∧ (removeDead s).targets = s.targets ∧
    (removeDead s).boundaries = s.boundaries ∧ (removeDead s).startTime = s.startTime ∧
    (removeDead s).endTime = s.endTime ∧
    (removeDead s).particlesReachedTarget = s.particlesReachedTarget ∧
    (removeDead s).totalParticlesCreated = s.totalParticlesCreated := by
  have h := deathFold_frame_dm s.particles ⟨s, []⟩
  simpa [removeDead, ParticleModel.params] using h

theorem arrivalVisit_frame_dm (M : JSMath K) (clock : Nat → K) (acc : ArrivalAcc K)
    (p : Particle K) :
    (arrivalVisit M clock acc p).model.params = acc.model.params ∧
    (arrivalVisit M clock acc p).model.targets = acc.model.targets ∧
    (arrivalVisit M clock acc p).model.boundaries = acc.model.boundaries ∧
    (arrivalVisit M clock acc p).model.startTime = acc.model.startTime ∧
    (arrivalVisit M clock acc p).model.deathMarkers = acc.model.deathMarkers ∧
    (arrivalVisit M clock acc p).model.particlesDied = acc.model.particlesDied ∧
    (arrivalVisit M clock acc p).model.totalParticlesCreated =
      acc.model.totalParticlesCreated := by
  unfold arrivalVisit
  simp only
  split
  · split
    · split <;> simp [ParticleModel.params]
    · simp
  · simp

theorem arrivalFold_frame_dm (M : JSMath K) (clock : Nat → K) (ps : List (Particle K))
    (acc : ArrivalAcc K) :
    (ps.foldl (arrivalVisit M clock) acc).model.params = acc.model.params ∧
    (ps.foldl (arrivalVisit M clock) acc).model.targets = acc.model.targets ∧
    (ps.foldl (arrivalVisit M clock) acc).model.boundaries = acc.model.boundaries ∧
    (ps.foldl (arrivalVisit M clock) acc).model.startTime = acc.model.startTime ∧
    (ps.foldl (arrivalVisit M clock) acc).model.deathMarkers = acc.model.deathMarkers ∧
    (ps.foldl (arrivalVisit M clock) acc).model.particlesDied = acc.model.particlesDied ∧
    (ps.foldl (arrivalVisit M clock) acc).model.totalParticlesCreated =
      acc.model.totalParticlesCreated := by
  induction ps generalizing acc with
  | nil => simp
  | cons p ps ih =>
    simp only [List.foldl_cons]
    obtain ⟨a1, a2, a3, a4, a5, a6, a7⟩ := arrivalVisit_frame_dm M clock acc p
    obtain ⟨b1, b2, b3, b4, b5, b6, b7⟩ := ih (arrivalVisit M clock acc p)
    exact ⟨b1.trans a1, b2.trans a2, b3.trans a3, b4.trans a4, b5.trans a5, b6.trans a6,
      b7.trans a7⟩

theorem removeParticlesAtTarget_frame_dm (M : JSMath K) (clock : Nat → K) (s : ParticleModel K) :
    (removeParticlesAtTarget M clock s).params = s.params ∧
    (removeParticlesAtTarget M clock s).targets = s.targets ∧
    (removeParticlesAtTarget M clock s).boundaries = s.boundaries ∧
    (removeParticlesAtTarget M clock s).startTime = s.startTime ∧
    (removeParticlesAtTarget M clock s).deathMarkers = s.deathMarkers ∧
    (removeParticlesAtTarget M clock s).particlesDied = s.particlesDied ∧
    (removeParticlesAtTarget M clock s).totalParticlesCreated = s.totalParticlesCreated := by
  have h := arrivalFold_frame_dm M clock s.particles ⟨s, [], 0⟩
  simpa [removeParticlesAtTarget, ParticleModel.params] using h

theorem beforeMove_frame_dm (M : JSMath K) (s : ParticleModel K) :
    (beforeMove M s).params = s.params ∧ (beforeMove M s).targets = s.targets ∧
    (beforeMove M s).boundaries = s.boundaries ∧ (beforeMove M s).startTime = s.startTime ∧
    (beforeMove M s).endTime = s.endTime ∧
    (beforeMove M s).particlesReachedTarget = s.particlesReachedTarget ∧
    (beforeMove M s).totalParticlesCreated = s.totalParticlesCreated := by
  have h := removeDead_frame_dm (accumulateStress (adjustRadii M (findContacts M s)))
  simpa [beforeMove, computeDesiredVelocities, findClosestTargets, accumulateStress,
    adjustRadii, findContacts, ParticleModel.params] using h

theorem step_frame_dm (M : JSMath K) (clock : Nat → K) (s : ParticleModel K) :
    (step M clock s).params = s.params ∧ (step M clock s).targets = s.targets ∧
    (step M clock s).boundaries = s.boundaries ∧ (step M clock s).startTime = s.startTime ∧
    (step M clock s).totalParticlesCreated = s.totalParticlesCreated := by
  obtain ⟨a1, a2, a3, a4, -, -, a7⟩ :=
    removeParticlesAtTarget_frame_dm M clock (updatePositions (beforeMove M s))
  obtain ⟨b1, b2, b3, b4, -, -, b7⟩ := beforeMove_frame_dm M s
  unfold step
  refine ⟨a1.trans ?_, a2.trans ?_, a3.trans ?_, a4.trans ?_, a7.trans ?_⟩
  · simpa [updatePositions, ParticleModel.params] using b1
  · simpa [updatePositions] using b2
  · simpa [updatePositions] using b3
  · simpa [updatePositions] using b4
  · simpa [updatePositions] using b7

end Lemmas

end DeathMarkers

/-! ## Variant `NewMovement`: frame lemmas -/

namespace NewMovement

section Lemmas
variable {K : Type} [LinearOrderedField K]

theorem dt_of_params_nm {s t : ParticleModel K} (h : s.params = t.params) : s.dt = t.dt :=
  congrArg Params.dt h

theorem arrivalVisit_frame_nm (M : JSMath K) (clock : Nat → K) (acc : ArrivalAcc K)
    (p : Particle K) :
    (arrivalVisit M clock acc p).model.params = acc.model.params ∧
    (arrivalVisit M clock acc p).model.targets = acc.model.targets ∧
    (arrivalVisit M clock acc p).model.boundaries = acc.model.boundaries ∧
    (arrivalVisit M clock acc p).model.startTime = acc.model.startTime ∧
    (arrivalVisit M clock acc p).model.totalParticlesCreated =
      acc.model.totalParticlesCreated := by
  unfold arrivalVisit
  simp only
  split
  · split
    · split <;> simp [ParticleModel.params]
    · simp
  · simp

theorem arrivalFold_frame_nm (M : JSMath K) (clock : Nat → K) (ps : List (Particle K))
    (acc : ArrivalAcc K) :
    (ps.foldl (arrivalVisit M clock) acc).model.params = acc.model.params ∧
    (ps.foldl (arrivalVisit M clock) acc).model.targets = acc.model.targets ∧
    (ps.foldl (arrivalVisit M clock) acc).model.boundaries = acc.model.boundaries ∧
    (ps.foldl (arrivalVisit M clock) acc).model.startTime = acc.model.startTime ∧
    (ps.foldl (arrivalVisit M clock) acc).model.totalParticlesCreated =
      acc.model.totalParticlesCreated := by
  induction ps generalizing acc with
  | nil => simp
  | cons p ps ih =>
    simp only [List.foldl_cons]
    obtain ⟨a1, a2, a3, a4, a5⟩ := arrivalVisit_frame_nm M clock acc p
    obtain ⟨b1, b2, b3, b4, b5⟩ := ih (arrivalVisit M clock acc p)
    exact ⟨b1.trans a1, b2.trans a2, b3.trans a3, b4.trans a4, b5.trans a5⟩

theorem removeParticlesAtTarget_frame_nm (M : JSMath K) (clock : Nat → K) (s : ParticleModel K) :
    (removeParticlesAtTarget M clock s).params = s.params ∧
    (removeParticlesAtTarget M clock s).targets = s.targets ∧
    (removeParticlesAtTarget M clock s).boundaries = s.boundaries ∧
    (removeParticlesAtTarget M clock s).startTime = s.startTime ∧
    (removeParticlesAtTarget M clock s).totalParticlesCreated = s.totalParticlesCreated := by
  have h := arrivalFold_frame_nm M clock s.particles ⟨s, [], 0⟩
  simpa [removeParticlesAtTarget, ParticleModel.params] using h

theorem step_frame_nm (M : JSMath K) (clock : Nat → K) (s : ParticleModel K) :
    (step M clock s).params = s.params ∧ (step M clock s).targets = s.targets ∧
    (step M clock s).boundaries = s.boundaries ∧ (step M clock s).startTime = s.startTime ∧
    (step M clock s).totalParticlesCreated = s.totalParticlesCreated := by
  have h := removeParticlesAtTarget_frame_nm M clock
    (updatePositions (computeDesiredVelocities M (findClosestTargets M
      (adjustRadii M (findContacts M s)))))
  simpa [step, updatePositions, computeDesiredVelocities, findClosestTargets, adjustRadii,
    findContacts, ParticleModel.params] using h

end Lemmas

end NewMovement

/-! ## Time step -/

section TimeStep
variable {K : Type} [LinearOrderedField K]

theorem jsOr_ne_zero (v : Option K) (d : K) (hd : d ≠ 0) : jsOr v d ≠ 0 := by
  unfold jsOr
  split
  · split
    · exact hd
    · assumption
  · exact hd

/-- Claim C5.  With exact division, the demographic constructor sets
`dt = 0.15 / (2 * 2.0) = 3/80`, where `0.15` is the least `rMin` and `2.0` the greatest
`vdMax` of the registry, whatever the options; the single-demographic constructors set
`dt = rMin / (2 * max(vdMax, ve))` with `ve = vdMax`; and `step`, `addParticle`,
`addParticlesWithDemographics`, `addTarget`, `addBoundary` and `reset` leave `dt` unchanged
in each of the three variants. -/
theorem timeStep_fixed_at_construction (M : JSMath K) (hM : M.DivExact) (options : Options K) :
    ((VaryingPopulation.ParticleModel.new M options).dt = 0.15 / (2 * 2.0) ∧
      (VaryingPopulation.ParticleModel.new M options).dt = 3 / 80 ∧
      (∀ d, (0.15 : K) ≤ (VaryingPopulation.DEMOGRAPHICS d).rMin) ∧
      (∃ d, (VaryingPopulation.DEMOGRAPHICS (K := K) d).rMin = 0.15) ∧
      (∀ d, (VaryingPopulation.DEMOGRAPHICS d).vdMax ≤ (2.0 : K)) ∧
      (∃ d, (VaryingPopulation.DEMOGRAPHICS (K := K) d).vdMax = 2.0)) ∧
    ((DeathMarkers.ParticleModel.new M options).rMin = jsOr options.rMin 0.2 ∧
      (DeathMarkers.ParticleModel.new M options).vdMax = jsOr options.vdMax 1.5 ∧
      (DeathMarkers.ParticleModel.new M options).ve =
        (DeathMarkers.ParticleModel.new M options).vdMax ∧
      (DeathMarkers.ParticleModel.new M options).dt =
        (DeathMarkers.ParticleModel.new M options).rMin /
          (2 * max (DeathMarkers.ParticleModel.new M options).vdMax
            (DeathMarkers.ParticleModel.new M options).ve)) ∧
    ((NewMovement.ParticleModel.new M options).rMin = jsOr options.rMin 0.2 ∧
      (NewMovement.ParticleModel.new M options).vdMax = jsOr options.vdMax 1.5 ∧
      (NewMovement.ParticleModel.new M options).ve =
        (NewMovement.ParticleModel.new M options).vdMax ∧
      (NewMovement.ParticleModel.new M options).dt =
        (NewMovement.ParticleModel.new M options).rMin /
          (2 * max (NewMovement.ParticleModel.new M options).vdMax
            (NewMovement.ParticleModel.new M options).ve)) ∧
    (∀ (s : VaryingPopulation.ParticleModel K),
      (∀ clock, (VaryingPopulation.step M clock s).dt = s.dt) ∧
      (∀ x y demographic s1, VaryingPopulation.addParticle s x y demographic = some s1 →
        s1.dt = s.dt) ∧
      (∀ x y count rnd,
        (VaryingPopulation.addParticlesWithDemographics s x y count rnd).dt = s.dt) ∧
      (∀ x y, (VaryingPopulation.addTarget s x y).1.dt = s.dt) ∧
      (∀ x1 y1 x2 y2, (VaryingPopulation.addBoundary s x1 y1 x2 y2).dt = s.dt) ∧
      (VaryingPopulation.reset s).dt = s.dt) ∧
    (∀ (s : DeathMarkers.ParticleModel K),
      (∀ clock, (DeathMarkers.step M clock s).dt = s.dt) ∧
      (∀ x y radius, (DeathMarkers.addParticle s x y radius).dt = s.dt) ∧
      (∀ x y, (DeathMarkers.addTarget s x y).1.dt = s.dt) ∧
      (∀ x1 y1 x2 y2, (DeathMarkers.addBoundary s x1 y1 x2 y2).dt = s.dt) ∧
      (DeathMarkers.reset s).dt = s.dt) ∧
    (∀ (s : NewMovement.ParticleModel K),
      (∀ clock, (NewMovement.step M clock s).dt = s.dt) ∧
      (∀ x y radius, (NewMovement.addParticle s x y radius).dt = s.dt) ∧
      (∀ x y, (NewMovement.addTarget s x y).1.dt = s.dt) ∧
      (∀ x1 y1 x2 y2, (NewMovement.addBoundary s x1 y1 x2 y2).dt = s.dt) ∧
      (NewMovement.reset s).dt = s.dt) := by
  have hdemo : (VaryingPopulation.ParticleModel.new M options).dt = 0.15 / (2 * 2.0) := by
    simp only [VaryingPopulation.ParticleModel.new, VaryingPopulation.demographicValues,
      VaryingPopulation.DemoKey.keys, VaryingPopulation.DEMOGRAPHICS, List.map, List.foldl]
    rw [hM.div_eq _ _ (by norm_num)]
    norm_num
  refine ⟨⟨hdemo, ?_, ?_, ⟨.YOUTH, rfl⟩, ?_, ⟨.YOUTH, rfl⟩⟩, ⟨rfl, rfl, rfl, ?_⟩,
    ⟨rfl, rfl, rfl, ?_⟩, ?_, ?_, ?_⟩
  · rw [hdemo]; norm_num
  · intro d; cases d <;> simp only [VaryingPopulation.DEMOGRAPHICS] <;> norm_num
  · intro d; cases d <;> simp only [VaryingPopulation.DEMOGRAPHICS] <;> norm_num
  · simp only [DeathMarkers.ParticleModel.new]
    have h := jsOr_ne_zero options.vdMax (1.5 : K) (by norm_num)
    rw [hM.div_eq _ _ (by simpa using h)]
  · simp only [NewMovement.ParticleModel.new]
    have h := jsOr_ne_zero options.vdMax (1.5 : K) (by norm_num)
    rw [hM.div_eq _ _ (by simpa using h)]
  · intro s
    refine ⟨fun clock => VaryingPopulation.dt_of_params
        (VaryingPopulation.step_frame M clock s).1, ?_,
      fun x y count rnd => VaryingPopulation.dt_of_params
        (VaryingPopulation.addParticlesWithDemographics_frame s x y count rnd).1,
      fun _ _ => rfl, fun _ _ _ _ => rfl, rfl⟩
    intro x y demographic s1 h
    unfold VaryingPopulation.addParticle at h
    split at h
    · cases h; rfl
    · cases h
  · intro s
    exact ⟨fun clock => DeathMarkers.dt_of_params_dm (DeathMarkers.step_frame_dm M clock s).1,
      fun _ _ _ => rfl, fun _ _ => rfl, fun _ _ _ _ => rfl, rfl⟩
  · intro s
    exact ⟨fun clock => NewMovement.dt_of_params_nm (NewMovement.step_frame_nm M clock s).1,
      fun _ _ _ => rfl, fun _ _ => rfl, fun _ _ _ _ => rfl, rfl⟩

/-- Witness for C5: the rational built-ins divide exactly, and the default options give
`dt = 3/80` in the demographic variant. -/
theorem timeStep_fixed_at_construction_witness :
    JSMath.DivExact ratMath ∧
      (VaryingPopulation.ParticleModel.new ratMath ({} : Options ℚ)).dt = 3 / 80 :=
  ⟨ratMath_divExact, (timeStep_fixed_at_construction ratMath ratMath_divExact {}).1.2.1⟩

end TimeStep

/-! ## Generic list lemmas -/

section ListLemmas

theorem foldl_preserves {α β : Type} (P : β → Prop) (f : β → α → β)
    (h : ∀ b a, P b → P (f b a)) (l : List α) (b : β) (hb : P b) : P (l.foldl f b) := by
  induction l generalizing b with
  | nil => exact hb
  | cons a l ih => exact ih (f b a) (h b a hb)

theorem foldl_preserves_mem {α β : Type} (P : β → Prop) (f : β → α → β) (l : List α)
    (h : ∀ b a, a ∈ l → P b → P (f b a)) (b : β) (hb : P b) : P (l.foldl f b) := by
  induction l generalizing b with
  | nil => exact hb
  | cons a l ih =>
    exact ih (fun b c hc => h b c (List.mem_cons_of_mem a hc)) (f b a)
      (h b a (List.mem_cons_self a l) hb)

theorem set_of_getElem? {α : Type} (l : List α) (i : Nat) (a : α) (h : l[i]? = some a) :
    l.set i a = l := by
  apply List.ext_getElem?
  intro k
  rw [List.getElem?_set]
  split
  · next hik =>
    subst hik
    split
    · exact h.symm
    · next hlt =>
      rw [List.getElem?_eq_none (by omega)] at h
      cases h
  · rfl

theorem length_filter_not_add_countP {α : Type} (p : α → Bool) (l : List α) :
    ((l.filter (fun a => !p a)).length : Int) + (l.countP p : Nat) = (l.length : Int) := by
  induction l with
  | nil => simp
  | cons a l ih =>
    cases h : p a
    · simp [List.filter_cons, List.countP_cons, h]
      omega
    · simp [List.filter_cons, List.countP_cons, h]
      omega

theorem lt_length_of_getElem? {α : Type} {l : List α} {k : Nat} {a : α}
    (h : l[k]? = some a) : k < l.length := by
  by_contra hn
  rw [List.getElem?_eq_none (by omega)] at h
  cases h

end ListLemmas

/-! ## Reset -/

namespace VaryingPopulation

section ResetClaim
variable {K : Type} [LinearOrderedField K]

theorem reset_stats (stats : DemoKey → DemographicStat) :
    DemoKey.keys.foldl (fun st demo => updateStat st demo (fun _ => DemographicStat.zero)) stats
      = fun _ => DemographicStat.zero := by
  funext d
  cases d <;> simp [DemoKey.keys, updateStat]

/-- Claim C9.  For every model state, `reset` empties `particles`, `boundaries`, `targets`
and `deathMarkers`, zeroes `particlesDied`, `particlesReachedTarget`,
`totalParticlesCreated` and every per-demographic counter, sets `startTime` and `endTime`
to null, keeps `dt` and the other model parameters, and is idempotent. -/
theorem reset_clears_and_idempotent (s : ParticleModel K) :
    (reset s).particles = [] ∧ (reset s).boundaries = [] ∧ (reset s).targets = [] ∧
    (reset s).deathMarkers = [] ∧ (reset s).particlesDied = 0 ∧
    (reset s).particlesReachedTarget = 0 ∧ (reset s).totalParticlesCreated = 0 ∧
    (∀ d, (reset s).demographicStats d = ⟨0, 0, 0, 0⟩) ∧
    (reset s).startTime = none ∧ (reset s).endTime = none ∧
    (reset s).dt = s.dt ∧ (reset s).rMax = s.rMax ∧ (reset s).beta = s.beta ∧
    (reset s).tau = s.tau ∧ (reset s).stressRate = s.stressRate ∧
    (reset s).stressThreshold = s.stressThreshold ∧
    (reset s).crushThreshold = s.crushThreshold ∧
    reset (reset s) = reset s := by
  refine ⟨rfl, rfl, rfl, rfl, rfl, rfl, rfl, ?_, rfl, rfl, rfl, rfl, rfl, rfl, rfl, rfl, rfl, ?_⟩
  · intro d
    simp only [reset, reset_stats]
    rfl
  · simp only [reset, reset_stats]

end ResetClaim

end VaryingPopulation

/-! ## Variant `VaryingPopulation`: the two purges as filters -/

namespace VaryingPopulation

section Purges
variable {K : Type} [LinearOrderedField K]

theorem updateStat_apply (stats : DemoKey → DemographicStat) (key d : DemoKey)
    (f : DemographicStat → DemographicStat) :
    updateStat stats key f d = if d = key then f (stats d) else stats d := rfl

/-- One call of the death callback, by cases on the `dead` flag. -/
theorem deathVisit_cases (acc : DeathAcc K) (p : Particle K) :
    (p.dead = true ∧ (deathVisit acc p).kept = acc.kept ∧
      (deathVisit acc p).model.particlesDied = acc.model.particlesDied + 1 ∧
      (deathVisit acc p).model.deathMarkers =
        acc.model.deathMarkers ++ [⟨p.x, p.y, p.demographic⟩] ∧
      (deathVisit acc p).model.demographicStats =
        updateStat acc.model.demographicStats p.demographic
          (fun st => { st with died := st.died + 1, current := st.current - 1 })) ∨
    (p.dead = false ∧ (deathVisit acc p).kept = acc.kept ++ [p] ∧
      (deathVisit acc p).model.particlesDied = acc.model.particlesDied ∧
      (deathVisit acc p).model.deathMarkers = acc.model.deathMarkers ∧
      (deathVisit acc p).model.demographicStats = acc.model.demographicStats) := by
  unfold deathVisit
  by_cases hd : p.dead = true
  · left; simp [hd]
  · right
    have hd2 : p.dead = false := by simpa using hd
    simp [hd2]

/-- The death purge: what is kept, what is counted and what is logged. -/
theorem deathFold_spec (ps : List (Particle K)) (acc : DeathAcc K) :
    (ps.foldl deathVisit acc).kept = acc.kept ++ ps.filter (fun p => !p.dead) ∧
    (ps.foldl deathVisit acc).model.particlesDied =
      acc.model.particlesDied + (ps.countP (fun p => p.dead) : Nat) ∧
    (ps.foldl deathVisit acc).model.deathMarkers = acc.model.deathMarkers ++
      (ps.filter (fun p => p.dead)).map (fun p => ⟨p.x, p.y, p.demographic⟩) ∧
    ∀ d, ((ps.foldl deathVisit acc).model.demographicStats d).created =
        (acc.model.demographicStats d).created ∧
      ((ps.foldl deathVisit acc).model.demographicStats d).reachedTarget =
        (acc.model.demographicStats d).reachedTarget ∧
      ((ps.foldl deathVisit acc).model.demographicStats d).died =
        (acc.model.demographicStats d).died +
          (ps.countP (fun p => p.dead && decide (p.demographic = d)) : Nat) ∧
      ((ps.foldl deathVisit acc).model.demographicStats d).current =
        (acc.model.demographicStats d).current -
          (ps.countP (fun p => p.dead && decide (p.demographic = d)) : Nat) := by
  induction ps generalizing acc with
  | nil => simp
  | cons p ps ih =>
    simp only [List.foldl_cons]
    obtain ⟨h1, h2, h3, h4⟩ := ih (deathVisit acc p)
    rcases deathVisit_cases acc p with ⟨hd, hk, hn, hm, hs⟩ | ⟨hd, hk, hn, hm, hs⟩
    · refine ⟨?_, ?_, ?_, ?_⟩
      · rw [h1, hk]; simp [hd]
      · rw [h2, hn]; simp [hd, List.countP_cons]; ring
      · rw [h3, hm]; simp [hd]
      · intro d
        obtain ⟨g1, g2, g3, g4⟩ := h4 d
        rw [g1, g2, g3, g4, hs]
        simp only [updateStat_apply]
        by_cases hkd : d = p.demographic
        · subst hkd
          simp [hd, List.countP_cons]
          constructor <;> ring
        · have hk2 : ¬ p.demographic = d := fun h => hkd h.symm
          simp [hd, hkd, hk2, List.countP_cons]
    · refine ⟨?_, ?_, ?_, ?_⟩
      · rw [h1, hk]; simp [hd]
      · rw [h2, hn]; simp [hd, List.countP_cons]
      · rw [h3, hm]; simp [hd]
      · intro d
        obtain ⟨g1, g2, g3, g4⟩ := h4 d
        rw [g1, g2, g3, g4, hs]
        simp [hd, List.countP_cons]

theorem removeDead_particles (s : ParticleModel K) :
    (removeDead s).particles = s.particles.filter (fun p => !p.dead) := by
  have h := (deathFold_spec s.particles ⟨s, []⟩).1
  simpa [removeDead] using h

theorem arrivalVisit_targets (M : JSMath K) (clock : Nat → K) (acc : ArrivalAcc K)
    (p : Particle K) : (arrivalVisit M clock acc p).model.targets = acc.model.targets :=
  (arrivalVisit_frame M clock acc p).2.1

/-- One call of the arrival callback, by cases on the arrival test. -/
theorem arrivalVisit_cases (M : JSMath K) (clock : Nat → K) (acc : ArrivalAcc K)
    (p : Particle K) :
    (arrives M acc.model.targets p = true ∧
      (arrivalVisit M clock acc p).kept = acc.kept ∧
      (arrivalVisit M clock acc p).model.particlesReachedTarget =
        acc.model.particlesReachedTarget + 1 ∧
      (arrivalVisit M clock acc p).model.demographicStats =
        updateStat acc.model.demographicStats p.demographic
          (fun st => { st with reachedTarget := st.reachedTarget + 1,
                               current := st.current - 1 })) ∨
    (arrives M acc.model.targets p = false ∧
      (arrivalVisit M clock acc p).kept = acc.kept ++ [p] ∧
      (arrivalVisit M clock acc p).model.particlesReachedTarget =
        acc.model.particlesReachedTarget ∧
      (arrivalVisit M clock acc p).model.demographicStats = acc.model.demographicStats) := by
  unfold arrivalVisit arrives
  simp only
  cases hT : assignedTarget acc.model.targets p.targetIndex with
  | none => right; simp
  | some target =>
    simp only
    by_cases hle : M.sqrt ((target.x - p.x) * (target.x - p.x) +
        (target.y - p.y) * (target.y - p.y)) ≤ 0.5
    · left
      rw [if_pos hle]
      refine ⟨by simpa using hle, ?_⟩
      split <;> simp
    · right
      rw [if_neg hle]
      exact ⟨by simpa using hle, rfl, rfl, rfl⟩

/-- The arrival purge: what is kept and what is counted. -/
theorem arrivalFold_spec (M : JSMath K) (clock : Nat → K) (ps : List (Particle K))
    (acc : ArrivalAcc K) :
    (ps.foldl (arrivalVisit M clock) acc).kept =
      acc.kept ++ ps.filter (fun p => !arrives M acc.model.targets p) ∧
    (ps.foldl (arrivalVisit M clock) acc).model.particlesReachedTarget =
      acc.model.particlesReachedTarget +
        (ps.countP (fun p => arrives M acc.model.targets p) : Nat) ∧
    ∀ d, ((ps.foldl (arrivalVisit M clock) acc).model.demographicStats d).created =
        (acc.model.demographicStats d).created ∧
      ((ps.foldl (arrivalVisit M clock) acc).model.demographicStats d).died =
        (acc.model.demographicStats d).died ∧
      ((ps.foldl (arrivalVisit M clock) acc).model.demographicStats d).reachedTarget =
        (acc.model.demographicStats d).reachedTarget +
          (ps.countP (fun p => arrives M acc.model.targets p &&
            decide (p.demographic = d)) : Nat) ∧
      ((ps.foldl (arrivalVisit M clock) acc).model.demographicStats d).current =
        (acc.model.demographicStats d).current -
          (ps.countP (fun p => arrives M acc.model.targets p &&
            decide (p.demographic = d)) : Nat) := by
  induction ps generalizing acc with
  | nil => simp
  | cons p ps ih =>
    simp only [List.foldl_cons]
    obtain ⟨h1, h2, h4⟩ := ih (arrivalVisit M clock acc p)
    rw [arrivalVisit_targets] at h1 h2 h4
    rcases arrivalVisit_cases M clock acc p with ⟨ha, hk, hr, hs⟩ | ⟨ha, hk, hr, hs⟩
    · refine ⟨?_, ?_, ?_⟩
      · rw [h1, hk]; simp [ha]
      · rw [h2, hr]; simp [ha, List.countP_cons]; ring
      · intro d
        obtain ⟨g1, g2, g3, g4⟩ := h4 d
        rw [g1, g2, g3, g4, hs]
        simp only [updateStat_apply]
        by_cases hkd : d = p.demographic
        · subst hkd
          simp [ha, List.countP_cons]
          constructor <;> ring
        · have hk2 : ¬ p.demographic = d := fun h => hkd h.symm
          simp [ha, hkd, hk2, List.countP_cons]
    · refine ⟨?_, ?_, ?_⟩
      · rw [h1, hk]; simp [ha]
      · rw [h2, hr]; simp [ha, List.countP_cons]
      · intro d
        obtain ⟨g1, g2, g3, g4⟩ := h4 d
        rw [g1, g2, g3, g4, hs]
        simp [ha, List.countP_cons]

theorem removeParticlesAtTarget_particles (M : JSMath K) (clock : Nat → K)
    (s : ParticleModel K) :
    (removeParticlesAtTarget M clock s).particles =
      s.particles.filter (fun p => !arrives M s.targets p) := by
  have h := (arrivalFold_spec M clock s.particles ⟨s, [], 0⟩).1
  simpa [removeParticlesAtTarget] using h

end Purges

end VaryingPopulation

/-! ## Variant `VaryingPopulation`: what the contact pass leaves untouched -/

namespace VaryingPopulation

section ContactFrame
variable {K : Type} [LinearOrderedField K]

theorem resetContact_idem (p : Particle K) : resetContact (resetContact p) = resetContact p :=
  rfl

theorem contactPair_map_reset (M : JSMath K) (ps : List (Particle K)) (i j : Nat) :
    (contactPair M ps i j).map resetContact = ps.map resetContact := by
  unfold contactPair
  split
  · next pi pj hi hj =>
    simp only
    split
    · rw [List.map_set, List.map_set]
      have h1 : (ps.map resetContact).set i (resetContact pi) = ps.map resetContact :=
        set_of_getElem? _ _ _ (by simp [hi])
      have h2 : (ps.map resetContact).set j (resetContact pj) = ps.map resetContact :=
        set_of_getElem? _ _ _ (by simp [hj])
      exact (congrArg (fun l => l.set j (resetContact pj)) h1).trans h2
    · rfl
  · rfl

theorem particleContacts_map_reset (M : JSMath K) (ps : List (Particle K)) :
    (particleContacts M ps).map resetContact = ps.map resetContact := by
  unfold particleContacts
  refine foldl_preserves
    (fun (acc : List (Particle K)) => acc.map resetContact = ps.map resetContact) _ ?_ _ _ rfl
  intro acc i hacc
  refine foldl_preserves
    (fun (acc : List (Particle K)) => acc.map resetContact = ps.map resetContact) _ ?_ _ _ hacc
  intro acc2 j h2
  show (contactPair M acc2 i j).map resetContact = ps.map resetContact
  rw [contactPair_map_reset]
  exact h2

theorem boundaryContact_reset (M : JSMath K) (p : Particle K) (b : Boundary K) :
    resetContact (boundaryContact M p b) = resetContact p := by
  unfold boundaryContact
  simp only
  split
  · split <;> rfl
  · rfl

theorem boundaryFold_reset (M : JSMath K) (bs : List (Boundary K)) (p : Particle K) :
    resetContact (bs.foldl (boundaryContact M) p) = resetContact p := by
  refine foldl_preserves (fun (q : Particle K) => resetContact q = resetContact p) _ ?_ _ _ rfl
  intro q b hq
  show resetContact (boundaryContact M q b) = resetContact p
  rw [boundaryContact_reset]
  exact hq

theorem normalizeEscape_reset (M : JSMath K) (p : Particle K) :
    resetContact (normalizeEscape M p) = resetContact p := by
  unfold normalizeEscape
  split
  · simp only
    split <;> rfl
  · rfl

/-- The contact pass writes only `contacts`, `inContact` and `ve`. -/
theorem findContacts_map_reset (M : JSMath K) (s : ParticleModel K) :
    (findContacts M s).particles.map resetContact = s.particles.map resetContact := by
  have h1 : ∀ l : List (Particle K),
      ((l.map (fun particle => s.boundaries.foldl (boundaryContact M) particle)).map
        (normalizeEscape M)).map resetContact = l.map resetContact := by
    intro l
    simp only [List.map_map]
    apply List.map_congr_left
    intro p _
    simp only [Function.comp]
    rw [normalizeEscape_reset, boundaryFold_reset]
  show (((particleContacts M (s.particles.map resetContact)).map _).map _).map resetContact = _
  rw [h1, particleContacts_map_reset, List.map_map]
  rfl

theorem findContacts_length (M : JSMath K) (s : ParticleModel K) :
    (findContacts M s).particles.length = s.particles.length := by
  have h := congrArg List.length (findContacts_map_reset M s)
  simpa using h

/-- Every particle after the contact pass comes from a particle before it, with all
fields other than `contacts`, `inContact` and `ve` equal. -/
theorem findContacts_mem (M : JSMath K) (s : ParticleModel K) (q : Particle K)
    (hq : q ∈ (findContacts M s).particles) :
    ∃ p ∈ s.particles, resetContact q = resetContact p := by
  have h : resetContact q ∈ (findContacts M s).particles.map resetContact :=
    List.mem_map_of_mem _ hq
  rw [findContacts_map_reset] at h
  obtain ⟨p, hp, hpq⟩ := List.mem_map.1 h
  exact ⟨p, hp, hpq.symm⟩

theorem findContacts_getElem? (M : JSMath K) (s : ParticleModel K) (k : Nat) :
    ((findContacts M s).particles[k]?).map resetContact = (s.particles[k]?).map resetContact := by
  have h := congrArg (fun l => l[k]?) (findContacts_map_reset M s)
  simpa using h

end ContactFrame

end VaryingPopulation

/-! ## Counter balance -/

namespace VaryingPopulation

section Balance
variable {K : Type} [LinearOrderedField K]

theorem addParticleKey_balanced (s : ParticleModel K) (x y : K) (key : DemoKey)
    (h : Balanced s) : Balanced (addParticleKey s x y key) := by
  obtain ⟨h1, h2⟩ := h
  refine ⟨?_, ?_⟩
  · simp only [addParticleKey, List.length_append, List.length_singleton, Nat.cast_add,
      Nat.cast_one]
    rw [h1]; ring
  · intro d
    simp only [addParticleKey, updateStat_apply]
    split
    · simp only; rw [h2 d]; ring
    · exact h2 d

theorem removeDead_balanced (s : ParticleModel K) (h : Balanced s) : Balanced (removeDead s) := by
  obtain ⟨h1, h2⟩ := h
  obtain ⟨k1, k2, -, k4⟩ := deathFold_spec s.particles ⟨s, []⟩
  obtain ⟨-, -, -, -, -, f6, f7⟩ := deathFold_frame s.particles ⟨s, []⟩
  have hlen : (s.particles.length : Int) =
      ((s.particles.filter (fun p => !p.dead)).length : Int) +
        (s.particles.countP (fun p => p.dead) : Nat) :=
    (length_filter_not_add_countP (fun p : Particle K => p.dead) s.particles).symm
  refine ⟨?_, ?_⟩
  · show (s.particles.foldl deathVisit ⟨s, []⟩).model.totalParticlesCreated =
      ((s.particles.foldl deathVisit ⟨s, []⟩).kept.length : Int) +
        (s.particles.foldl deathVisit ⟨s, []⟩).model.particlesReachedTarget +
        (s.particles.foldl deathVisit ⟨s, []⟩).model.particlesDied
    rw [f7, f6, k2, k1]
    simp only [List.nil_append]
    rw [h1, hlen]; ring
  · intro d
    obtain ⟨g1, g2, g3, g4⟩ := k4 d
    show ((s.particles.foldl deathVisit ⟨s, []⟩).model.demographicStats d).created = _
    rw [g1]
    show _ = ((s.particles.foldl deathVisit ⟨s, []⟩).model.demographicStats d).current +
      ((s.particles.foldl deathVisit ⟨s, []⟩).model.demographicStats d).reachedTarget +
      ((s.particles.foldl deathVisit ⟨s, []⟩).model.demographicStats d).died
    rw [g2, g3, g4]
    simp only
    rw [h2 d]; ring

theorem removeParticlesAtTarget_balanced (M : JSMath K) (clock : Nat → K) (s : ParticleModel K)
    (h : Balanced s) : Balanced (removeParticlesAtTarget M clock s) := by
  obtain ⟨h1, h2⟩ := h
  obtain ⟨k1, k2, k4⟩ := arrivalFold_spec M clock s.particles ⟨s, [], 0⟩
  obtain ⟨-, -, -, -, -, f6, f7⟩ := arrivalFold_frame M clock s.particles ⟨s, [], 0⟩
  have hlen : (s.particles.length : Int) =
      ((s.particles.filter (fun p => !arrives M s.targets p)).length : Int) +
        (s.particles.countP (fun p => arrives M s.targets p) : Nat) :=
    (length_filter_not_add_countP (fun p : Particle K => arrives M s.targets p)
      s.particles).symm
  refine ⟨?_, ?_⟩
  · show (s.particles.foldl (arrivalVisit M clock) ⟨s, [], 0⟩).model.totalParticlesCreated =
      ((s.particles.foldl (arrivalVisit M clock) ⟨s, [], 0⟩).kept.length : Int) +
        (s.particles.foldl (arrivalVisit M clock) ⟨s, [], 0⟩).model.particlesReachedTarget +
        (s.particles.foldl (arrivalVisit M clock) ⟨s, [], 0⟩).model.particlesDied
    rw [f7, f6, k2, k1]
    simp only [List.nil_append]
    rw [h1, hlen]; ring
  · intro d
    obtain ⟨g1, g2, g3, g4⟩ := k4 d
    show ((s.particles.foldl (arrivalVisit M clock) ⟨s, [], 0⟩).model.demographicStats d).created
      = _
    rw [g1]
    show _ =
      ((s.particles.foldl (arrivalVisit M clock) ⟨s, [], 0⟩).model.demographicStats d).current +
      ((s.particles.foldl (arrivalVisit M clock) ⟨s, [], 0⟩).model.demographicStats d).reachedTarget +
      ((s.particles.foldl (arrivalVisit M clock) ⟨s, [], 0⟩).model.demographicStats d).died
    rw [g2, g3, g4]
    simp only
    rw [h2 d]; ring

theorem findContacts_balanced (M : JSMath K) (s : ParticleModel K) (h : Balanced s) :
    Balanced (findContacts M s) := by
  obtain ⟨h1, h2⟩ := h
  refine ⟨?_, h2⟩
  rw [findContacts_length]
  exact h1

theorem map_balanced (s : ParticleModel K) (f : Particle K → Particle K) (h : Balanced s) :
    Balanced { s with particles := s.particles.map f } := by
  obtain ⟨h1, h2⟩ := h
  refine ⟨?_, h2⟩
  simp only [List.length_map]
  exact h1

theorem step_balanced (M : JSMath K) (clock : Nat → K) (s : ParticleModel K) (h : Balanced s) :
    Balanced (step M clock s) := by
  unfold step beforeMove
  apply removeParticlesAtTarget_balanced
  apply map_balanced
  apply map_balanced
  apply map_balanced
  apply removeDead_balanced
  apply map_balanced
  apply map_balanced
  exact findContacts_balanced M s h

theorem reachable_balanced (M : JSMath K) (options : Options K) (s : ParticleModel K)
    (h : Reachable M options s) : Balanced s := by
  induction h with
  | init => exact ⟨by simp [ParticleModel.new], fun d => by simp [ParticleModel.new,
      DemographicStat.zero]⟩
  | addParticle x y demographic _ hadd ih =>
    unfold addParticle at hadd
    split at hadd
    · cases hadd
      exact addParticleKey_balanced _ _ _ _ ih
    · cases hadd
  | addParticlesWithDemographics x y count rnd _ ih =>
    unfold addParticlesWithDemographics
    exact foldl_preserves Balanced _ (fun b a hb => addParticleKey_balanced _ _ _ _ hb) _ _ ih
  | addTarget x y _ ih => exact ih
  | addBoundary x1 y1 x2 y2 _ ih => exact ih
  | findClosestTargets _ ih => exact map_balanced _ _ ih
  | setStartTime now _ ih => exact ih
  | step clock _ ih => exact step_balanced M clock _ ih
  | reset _ ih =>
    refine ⟨by simp [reset], fun d => ?_⟩
    rw [show (reset _).demographicStats = _ from reset_stats _]
    rfl

/-- Claim C1.  In every state reachable from a freshly constructed model by `addParticle`,
`addParticlesWithDemographics`, `addTarget`, `addBoundary`, `step` and `reset` (and by
`findClosestTargets` and the controller's start-time assignment),
`totalParticlesCreated = particles.length + particlesReachedTarget + particlesDied`
and, for every demographic, `created = current + reachedTarget + died`. -/
theorem counters_balanced (M : JSMath K) (options : Options K) (s : ParticleModel K)
    (h : Reachable M options s) :
    s.totalParticlesCreated =
        (s.particles.length : Int) + s.particlesReachedTarget + s.particlesDied ∧
      ∀ d, (s.demographicStats d).created =
        (s.demographicStats d).current + (s.demographicStats d).reachedTarget +
          (s.demographicStats d).died :=
  reachable_balanced M options s h

end Balance

theorem scenarioA_reachable : Reachable ratMath {} scenarioA :=
  .addParticle (1 / 10) 0 "ADULT" (.addParticle 0 0 "ADULT" .init rfl) rfl

/-- Witness for C1: the state after one step of Scenario A is reachable and balanced. -/
theorem counters_balanced_witness :
    Reachable ratMath {} (step ratMath (fun _ => 0) scenarioA) ∧
      (step ratMath (fun _ => 0) scenarioA).totalParticlesCreated =
        ((step ratMath (fun _ => 0) scenarioA).particles.length : Int) +
          (step ratMath (fun _ => 0) scenarioA).particlesReachedTarget +
          (step ratMath (fun _ => 0) scenarioA).particlesDied :=
  ⟨.step _ scenarioA_reachable,
    (counters_balanced ratMath {} _ (.step _ scenarioA_reachable)).1⟩

end VaryingPopulation

/-! ## Variant `VaryingPopulation`: the particle list after a step -/

namespace VaryingPopulation

section StepShape
variable {K : Type} [LinearOrderedField K]

theorem fields_of_params {s t : ParticleModel K} (h : s.params = t.params) :
    s.rMax = t.rMax ∧ s.beta = t.beta ∧ s.tau = t.tau ∧ s.dt = t.dt ∧
    s.stressRate = t.stressRate ∧ s.stressThreshold = t.stressThreshold ∧
    s.crushThreshold = t.crushThreshold :=
  ⟨congrArg Params.rMax h, congrArg Params.beta h, congrArg Params.tau h,
    congrArg Params.dt h, congrArg Params.stressRate h, congrArg Params.stressThreshold h,
    congrArg Params.crushThreshold h⟩

/-- The particles entering the death purge: contact pass, radius pass and stress pass. -/
theorem accumulateStress_particles (M : JSMath K) (s : ParticleModel K) :
    (accumulateStress (adjustRadii M (findContacts M s))).particles =
      ((findContacts M s).particles.map (adjustRadius M s.tau s.dt)).map
        (stressUpdate s.stressRate s.dt) := rfl

/-- The particles right before the integrator. -/
theorem beforeMove_particles (M : JSMath K) (s : ParticleModel K) :
    (beforeMove M s).particles =
      (((((findContacts M s).particles.map (adjustRadius M s.tau s.dt)).map
        (stressUpdate s.stressRate s.dt)).filter (fun p => !p.dead)).map
          (closestTarget M s.targets)).map (desiredVelocity M s.beta s.targets) := by
  obtain ⟨hp, ht, -⟩ := removeDead_frame (accumulateStress (adjustRadii M (findContacts M s)))
  obtain ⟨-, hb, -⟩ := fields_of_params hp
  show ((removeDead _).particles.map (closestTarget M (removeDead _).targets)).map
    (desiredVelocity M (removeDead _).beta (removeDead _).targets) = _
  rw [ht, hb, removeDead_particles, accumulateStress_particles]
  rfl

/-- The particles after a step. -/
theorem step_particles (M : JSMath K) (clock : Nat → K) (s : ParticleModel K) :
    (step M clock s).particles =
      ((beforeMove M s).particles.map (move s.dt)).filter
        (fun p => !arrives M s.targets p) := by
  obtain ⟨hp, ht, -⟩ := beforeMove_frame M s
  obtain ⟨-, -, -, hd, -⟩ := fields_of_params hp
  unfold step
  rw [removeParticlesAtTarget_particles]
  show ((beforeMove M s).particles.map (move (beforeMove M s).dt)).filter
    (fun p => !arrives M (beforeMove M s).targets p) = _
  rw [ht, hd]

/-- Every particle left by a step is the image of a particle of the contact pass that the
stress pass did not kill and that did not arrive. -/
theorem step_mem (M : JSMath K) (clock : Nat → K) (s : ParticleModel K) (q : Particle K)
    (hq : q ∈ (step M clock s).particles) :
    ∃ p ∈ (findContacts M s).particles,
      (stressUpdate s.stressRate s.dt (adjustRadius M s.tau s.dt p)).dead = false ∧
      q = move s.dt (desiredVelocity M s.beta s.targets (closestTarget M s.targets
        (stressUpdate s.stressRate s.dt (adjustRadius M s.tau s.dt p)))) := by
  rw [step_particles, beforeMove_particles] at hq
  obtain ⟨q1, h1, rfl⟩ := List.mem_map.1 (List.mem_filter.1 hq).1
  obtain ⟨q2, h2, rfl⟩ := List.mem_map.1 h1
  obtain ⟨q3, h3, rfl⟩ := List.mem_map.1 h2
  obtain ⟨h4, hdead⟩ := List.mem_filter.1 h3
  obtain ⟨q5, h5, rfl⟩ := List.mem_map.1 h4
  obtain ⟨p, hp, rfl⟩ := List.mem_map.1 h5
  exact ⟨p, hp, by simpa using hdead, rfl⟩

end StepShape

end VaryingPopulation

/-! ## Variant `VaryingPopulation`: invariants of the active particles -/

namespace VaryingPopulation

section ParticleInvariants
variable {K : Type} [LinearOrderedField K]

/-- The fields the radius pass leaves untouched. -/
theorem adjustRadius_fields (M : JSMath K) (tau dt : K) (p : Particle K) :
    (adjustRadius M tau dt p).x = p.x ∧ (adjustRadius M tau dt p).y = p.y ∧
    (adjustRadius M tau dt p).demographic = p.demographic ∧
    (adjustRadius M tau dt p).demo = p.demo ∧ (adjustRadius M tau dt p).rMin = p.rMin ∧
    (adjustRadius M tau dt p).rMax = p.rMax ∧ (adjustRadius M tau dt p).vdMax = p.vdMax ∧
    (adjustRadius M tau dt p).vd = p.vd ∧ (adjustRadius M tau dt p).ve = p.ve ∧
    (adjustRadius M tau dt p).inContact = p.inContact ∧
    (adjustRadius M tau dt p).contacts = p.contacts ∧
    (adjustRadius M tau dt p).stress = p.stress ∧ (adjustRadius M tau dt p).dead = p.dead := by
  unfold adjustRadius
  split <;> simp

/-- The fields the stress pass leaves untouched. -/
theorem stressUpdate_fields (stressRate dt : K) (p : Particle K) :
    (stressUpdate stressRate dt p).x = p.x ∧ (stressUpdate stressRate dt p).y = p.y ∧
    (stressUpdate stressRate dt p).demographic = p.demographic ∧
    (stressUpdate stressRate dt p).demo = p.demo ∧
    (stressUpdate stressRate dt p).r = p.r ∧ (stressUpdate stressRate dt p).rMin = p.rMin ∧
    (stressUpdate stressRate dt p).rMax = p.rMax ∧
    (stressUpdate stressRate dt p).vdMax = p.vdMax ∧
    (stressUpdate stressRate dt p).vd = p.vd ∧ (stressUpdate stressRate dt p).ve = p.ve ∧
    (stressUpdate stressRate dt p).inContact = p.inContact ∧
    (stressUpdate stressRate dt p).contacts = p.contacts := by
  unfold stressUpdate
  simp only
  split <;> split <;> simp

/-- The stress written by the stress pass. -/
theorem stressUpdate_stress (stressRate dt : K) (p : Particle K) :
    (stressUpdate stressRate dt p).stress =
      if (p.contacts : K) ≥ p.demo.crushThreshold then p.stress + stressRate * dt
      else max 0 (p.stress - dt) := by
  unfold stressUpdate
  simp only
  split <;> split <;> simp_all

/-- The death flag written by the stress pass. -/
theorem stressUpdate_dead (stressRate dt : K) (p : Particle K) :
    (stressUpdate stressRate dt p).dead =
      if (stressUpdate stressRate dt p).stress ≥ p.demo.stressThreshold then true
      else p.dead := by
  unfold stressUpdate
  simp only
  split <;> split <;> simp_all

/-- A particle that the stress pass leaves alive is below its stress threshold. -/
theorem stressUpdate_alive (stressRate dt : K) (p : Particle K)
    (h : (stressUpdate stressRate dt p).dead = false) :
    (stressUpdate stressRate dt p).stress < p.demo.stressThreshold := by
  rw [stressUpdate_dead] at h
  by_contra hlt
  rw [if_pos (le_of_not_lt hlt)] at h
  cases h

/-- The fields the target assignment leaves untouched. -/
theorem closestTarget_fields (M : JSMath K) (targets : List (Target K)) (p : Particle K) :
    (closestTarget M targets p).x = p.x ∧ (closestTarget M targets p).y = p.y ∧
    (closestTarget M targets p).demographic = p.demographic ∧
    (closestTarget M targets p).demo = p.demo ∧ (closestTarget M targets p).r = p.r ∧
    (closestTarget M targets p).rMin = p.rMin ∧ (closestTarget M targets p).rMax = p.rMax ∧
    (closestTarget M targets p).vdMax = p.vdMax ∧ (closestTarget M targets p).vd = p.vd ∧
    (closestTarget M targets p).ve = p.ve ∧
    (closestTarget M targets p).inContact = p.inContact ∧
    (closestTarget M targets p).contacts = p.contacts ∧
    (closestTarget M targets p).stress = p.stress ∧
    (closestTarget M targets p).dead = p.dead :=
  ⟨rfl, rfl, rfl, rfl, rfl, rfl, rfl, rfl, rfl, rfl, rfl, rfl, rfl, rfl⟩

/-- The fields the velocity planner leaves untouched. -/
theorem desiredVelocity_fields (M : JSMath K) (beta : K) (targets : List (Target K))
    (p : Particle K) :
    (desiredVelocity M beta targets p).x = p.x ∧ (desiredVelocity M beta targets p).y = p.y ∧
    (desiredVelocity M beta targets p).demographic = p.demographic ∧
    (desiredVelocity M beta targets p).demo = p.demo ∧
    (desiredVelocity M beta targets p).r = p.r ∧
    (desiredVelocity M beta targets p).rMin = p.rMin ∧
    (desiredVelocity M beta targets p).rMax = p.rMax ∧
    (desiredVelocity M beta targets p).vdMax = p.vdMax ∧
    (desiredVelocity M beta targets p).ve = p.ve ∧
    (desiredVelocity M beta targets p).targetIndex = p.targetIndex ∧
    (desiredVelocity M beta targets p).inContact = p.inContact ∧
    (desiredVelocity M beta targets p).contacts = p.contacts ∧
    (desiredVelocity M beta targets p).stress = p.stress ∧
    (desiredVelocity M beta targets p).dead = p.dead := by
  unfold desiredVelocity
  split
  · simp only
    split <;> simp
  · simp

/-- The fields the integrator leaves untouched. -/
theorem move_fields (dt : K) (p : Particle K) :
    (move dt p).demographic = p.demographic ∧ (move dt p).demo = p.demo ∧
    (move dt p).r = p.r ∧ (move dt p).rMin = p.rMin ∧ (move dt p).rMax = p.rMax ∧
    (move dt p).vdMax = p.vdMax ∧ (move dt p).vd = p.vd ∧ (move dt p).ve = p.ve ∧
    (move dt p).targetIndex = p.targetIndex ∧ (move dt p).inContact = p.inContact ∧
    (move dt p).contacts = p.contacts ∧ (move dt p).stress = p.stress ∧
    (move dt p).dead = p.dead :=
  ⟨rfl, rfl, rfl, rfl, rfl, rfl, rfl, rfl, rfl, rfl, rfl, rfl, rfl⟩

/-- The fields left untouched by target assignment, velocity planning and integration. -/
theorem planMove_fields (M : JSMath K) (beta dt : K) (targets : List (Target K))
    (p : Particle K) :
    (move dt (desiredVelocity M beta targets (closestTarget M targets p))).demographic =
      p.demographic ∧
    (move dt (desiredVelocity M beta targets (closestTarget M targets p))).demo = p.demo ∧
    (move dt (desiredVelocity M beta targets (closestTarget M targets p))).r = p.r ∧
    (move dt (desiredVelocity M beta targets (closestTarget M targets p))).rMin = p.rMin ∧
    (move dt (desiredVelocity M beta targets (closestTarget M targets p))).rMax = p.rMax ∧
    (move dt (desiredVelocity M beta targets (closestTarget M targets p))).vdMax = p.vdMax ∧
    (move dt (desiredVelocity M beta targets (closestTarget M targets p))).ve = p.ve ∧
    (move dt (desiredVelocity M beta targets (closestTarget M targets p))).inContact =
      p.inContact ∧
    (move dt (desiredVelocity M beta targets (closestTarget M targets p))).contacts =
      p.contacts ∧
    (move dt (desiredVelocity M beta targets (closestTarget M targets p))).stress = p.stress ∧
    (move dt (desiredVelocity M beta targets (closestTarget M targets p))).dead = p.dead := by
  obtain ⟨-, -, c3, c4, c5, c6, c7, c8, c9, -, c11, c12, c13, c14⟩ :=
    desiredVelocity_fields M beta targets (closestTarget M targets p)
  exact ⟨c3, c4, c5, c6, c7, c8, c9, c11, c12, c13, c14⟩

/-- The fields the contact pass leaves untouched, read off `resetContact`. -/
theorem fields_of_reset_eq {p q : Particle K} (h : resetContact q = resetContact p) :
    q.x = p.x ∧ q.y = p.y ∧ q.demographic = p.demographic ∧ q.demo = p.demo ∧ q.r = p.r ∧
    q.rMin = p.rMin ∧ q.rMax = p.rMax ∧ q.vdMax = p.vdMax ∧ q.vd = p.vd ∧
    q.targetIndex = p.targetIndex ∧ q.stress = p.stress ∧ q.dead = p.dead :=
  ⟨congrArg (fun a => a.x) h, congrArg (fun a => a.y) h, congrArg (fun a => a.demographic) h,
    congrArg (fun a => a.demo) h, congrArg (fun a => a.r) h, congrArg (fun a => a.rMin) h,
    congrArg (fun a => a.rMax) h, congrArg (fun a => a.vdMax) h, congrArg (fun a => a.vd) h,
    congrArg (fun a => a.targetIndex) h, congrArg (fun a => a.stress) h,
    congrArg (fun a => a.dead) h⟩

/-- The parameters of a reachable state are those set by the constructor. -/
theorem reachable_params (M : JSMath K) (options : Options K) (s : ParticleModel K)
    (h : Reachable M options s) : s.params = (ParticleModel.new M options).params := by
  induction h with
  | init => rfl
  | addParticle x y demographic _ hadd ih =>
    unfold addParticle at hadd
    split at hadd
    · cases hadd; exact ih
    · cases hadd
  | addParticlesWithDemographics x y count rnd _ ih =>
    exact (addParticlesWithDemographics_frame _ x y count rnd).1.trans ih
  | addTarget x y _ ih => exact ih
  | addBoundary x1 y1 x2 y2 _ ih => exact ih
  | findClosestTargets _ ih => exact ih
  | setStartTime now _ ih => exact ih
  | step clock _ ih => exact (step_frame M clock _).1.trans ih
  | reset _ ih => exact ih

/-- Induction principle for a property of the active particles: it holds of a new
particle, is kept by target assignment, and is kept by a step. -/
theorem reachable_particles (M : JSMath K) (options : Options K) (Q : Particle K → Prop)
    (hnew : ∀ x y key, Q (Particle.new x y key))
    (htarget : ∀ targets p, Q p → Q (closestTarget M targets p))
    (hstep : ∀ clock s, Reachable M options s → (∀ p ∈ s.particles, Q p) →
      ∀ q ∈ (step M clock s).particles, Q q)
    (s : ParticleModel K) (h : Reachable M options s) : ∀ p ∈ s.particles, Q p := by
  have hadd : ∀ (t : ParticleModel K) x y key, (∀ p ∈ t.particles, Q p) →
      ∀ p ∈ (addParticleKey t x y key).particles, Q p := by
    intro t x y key ht p hp
    simp only [addParticleKey, List.mem_append, List.mem_singleton] at hp
    rcases hp with hp | rfl
    · exact ht p hp
    · exact hnew x y key
  induction h with
  | init => intro p hp; simp [ParticleModel.new] at hp
  | addParticle x y demographic _ hadd2 ih =>
    unfold addParticle at hadd2
    split at hadd2
    · cases hadd2; exact hadd _ _ _ _ ih
    · cases hadd2
  | addParticlesWithDemographics x y count rnd _ ih =>
    unfold addParticlesWithDemographics
    exact foldl_preserves (fun (t : ParticleModel K) => ∀ p ∈ t.particles, Q p) _
      (fun b a hb => hadd _ _ _ _ hb) _ _ ih
  | addTarget x y _ ih => exact ih
  | addBoundary x1 y1 x2 y2 _ ih => exact ih
  | findClosestTargets _ ih =>
    intro p hp
    simp only [findClosestTargets, List.mem_map] at hp
    obtain ⟨p0, hp0, rfl⟩ := hp
    exact htarget _ _ (ih p0 hp0)
  | setStartTime now _ ih => exact ih
  | step clock hs ih => exact hstep clock _ hs ih
  | reset _ ih => intro p hp; simp [reset] at hp

/-- Every active particle of a reachable state carries its registry entry. -/
theorem reachable_fromRegistry (M : JSMath K) (options : Options K) (s : ParticleModel K)
    (h : Reachable M options s) : ∀ p ∈ s.particles, p.FromRegistry := by
  refine reachable_particles M options Particle.FromRegistry ?_ ?_ ?_ s h
  · intro x y key
    exact ⟨rfl, rfl, rfl, rfl⟩
  · intro targets p hp
    exact hp
  · intro clock s _ ih q hq
    obtain ⟨p, hp, -, rfl⟩ := step_mem M clock s q hq
    obtain ⟨p0, hp0, he⟩ := findContacts_mem M s p hp
    obtain ⟨h1, h2, h3, h4⟩ := ih p0 hp0
    obtain ⟨-, -, e3, e4, -, e6, e7, e8, -⟩ := fields_of_reset_eq he
    obtain ⟨-, -, a3, a4, a5, a6, a7, -⟩ := adjustRadius_fields M s.tau s.dt p
    obtain ⟨-, -, b3, b4, -, b6, b7, b8, -⟩ :=
      stressUpdate_fields s.stressRate s.dt (adjustRadius M s.tau s.dt p)
    obtain ⟨-, -, c3, c4, -, c6, c7, c8, -⟩ := desiredVelocity_fields M s.beta s.targets
      (closestTarget M s.targets (stressUpdate s.stressRate s.dt (adjustRadius M s.tau s.dt p)))
    unfold Particle.FromRegistry
    simp only [(move_fields _ _).1, (move_fields _ _).2.1, (move_fields _ _).2.2.2.1,
      (move_fields _ _).2.2.2.2.1, (move_fields _ _).2.2.2.2.2.1, c3, c4, c6, c7, c8,
      (closestTarget_fields _ _ _).2.2.1, (closestTarget_fields _ _ _).2.2.2.1,
      (closestTarget_fields _ _ _).2.2.2.2.2.1, (closestTarget_fields _ _ _).2.2.2.2.2.2.1,
      (closestTarget_fields _ _ _).2.2.2.2.2.2.2.1, b3, b4, b6, b7, b8, a3, a4, a5, a6, a7,
      e3, e4, e6, e7, e8]
    exact ⟨h1, h2, h3, h4⟩

end ParticleInvariants

end VaryingPopulation

/-! ## Death, stress and radius invariants -/

namespace VaryingPopulation

section StepInvariants
variable {K : Type} [LinearOrderedField K]

/-- After a step from any state, every remaining particle is alive and below the stress
threshold of the registry entry it carries. -/
theorem step_alive (M : JSMath K) (clock : Nat → K) (s : ParticleModel K) (q : Particle K)
    (hq : q ∈ (step M clock s).particles) :
    q.dead = false ∧ q.stress < q.demo.stressThreshold := by
  obtain ⟨p, hp, hdead, rfl⟩ := step_mem M clock s q hq
  have hlt := stressUpdate_alive s.stressRate s.dt (adjustRadius M s.tau s.dt p) hdead
  obtain ⟨-, c2, -, -, -, -, -, -, -, c10, c11⟩ := planMove_fields M s.beta s.dt s.targets
    (stressUpdate s.stressRate s.dt (adjustRadius M s.tau s.dt p))
  rw [c2, c10, c11, (stressUpdate_fields s.stressRate s.dt _).2.2.2.1]
  exact ⟨hdead, hlt⟩

/-- Claim C3.  After a step from a reachable state, no active particle has `dead = true`,
every active particle carries the registry entry of its demographic, and its stress is
strictly below that demographic's `stressThreshold`: a particle whose stress reached the
threshold in the step is not in `particles` any more. -/
theorem step_leaves_no_dead (M : JSMath K) (options : Options K) (clock : Nat → K)
    (s : ParticleModel K) (h : Reachable M options s) (q : Particle K)
    (hq : q ∈ (step M clock s).particles) :
    q.dead = false ∧ q.demo = DEMOGRAPHICS q.demographic ∧
      q.stress < (DEMOGRAPHICS q.demographic).stressThreshold := by
  obtain ⟨h1, h2⟩ := step_alive M clock s q hq
  have h3 := (reachable_fromRegistry M options _ (.step clock h) q hq).1
  exact ⟨h1, h3, h3 ▸ h2⟩

/-- Claim C8.  With `stressRate ≥ 0` and `dt > 0`, every active particle of every state
reachable from a fresh model has `stress ≥ 0`. -/
theorem stress_nonneg (M : JSMath K) (options : Options K)
    (hrate : 0 ≤ (ParticleModel.new M options).stressRate)
    (hdt : 0 < (ParticleModel.new M options).dt)
    (s : ParticleModel K) (h : Reachable M options s) (p : Particle K)
    (hp : p ∈ s.particles) : 0 ≤ p.stress := by
  refine reachable_particles M options (fun p => 0 ≤ p.stress) ?_ ?_ ?_ s h p hp
  · intro x y key
    exact le_refl _
  · intro targets p hp
    exact hp
  · intro clock s hs ih q hq
    obtain ⟨p, hp, -, rfl⟩ := step_mem M clock s q hq
    obtain ⟨p0, hp0, he⟩ := findContacts_mem M s p hp
    have h0 : 0 ≤ p.stress := by
      rw [(fields_of_reset_eq he).2.2.2.2.2.2.2.2.2.2.1]
      exact ih p0 hp0
    obtain ⟨-, -, -, hd, hr, -⟩ := fields_of_params (reachable_params M options s hs)
    rw [(planMove_fields M s.beta s.dt s.targets _).2.2.2.2.2.2.2.2.2.1, stressUpdate_stress, (adjustRadius_fields M s.tau s.dt p).2.2.2.2.2.2.2.2.2.2.2.1]
    split
    · rw [hd, hr]
      exact add_nonneg h0 (mul_nonneg hrate (le_of_lt hdt))
    · exact le_max_left _ _

end StepInvariants

end VaryingPopulation

namespace VaryingPopulation

section RadiusBounds
variable {K : Type} [LinearOrderedField K]

/-- Numeric facts about the registry entries. -/
theorem registry_facts (d : DemoKey) :
    (0 : K) < (DEMOGRAPHICS d).rMin ∧ (DEMOGRAPHICS (K := K) d).rMin < (DEMOGRAPHICS d).rMax ∧
    (0 : K) < (DEMOGRAPHICS d).vdMax ∧ (DEMOGRAPHICS (K := K) d).vdMax ≤ 2 ∧
    (0.15 : K) ≤ (DEMOGRAPHICS d).rMin := by
  cases d <;> simp only [DEMOGRAPHICS] <;> norm_num

/-- With exact division the constructor sets `dt = 3/80`. -/
theorem new_dt (M : JSMath K) (hM : M.DivExact) (options : Options K) :
    (ParticleModel.new M options).dt = 3 / 80 := by
  simp only [ParticleModel.new, demographicValues, DemoKey.keys, DEMOGRAPHICS, List.map,
    List.foldl]
  rw [hM.div_eq _ _ (by norm_num)]
  norm_num

/-- The radius pass puts the radius between the particle's own bounds. -/
theorem adjustRadius_bounds (M : JSMath K) (hM : M.DivExact) (tau dt : K) (htau : 0 < tau)
    (hdt : 0 < dt) (p : Particle K) (hmin : p.rMin ≤ p.rMax) (hmax : 0 ≤ p.rMax)
    (hr : p.rMin ≤ p.r) :
    p.rMin ≤ (adjustRadius M tau dt p).r ∧ (adjustRadius M tau dt p).r ≤ p.rMax := by
  unfold adjustRadius
  split
  · exact ⟨le_refl _, hmin⟩
  · simp only
    rw [hM.div_eq _ _ (ne_of_gt htau)]
    have hdr : 0 ≤ p.rMax / tau * dt :=
      mul_nonneg (div_nonneg hmax (le_of_lt htau)) (le_of_lt hdt)
    exact ⟨le_min (by linarith) hmin, min_le_right _ _⟩

/-- With exact division and `tau > 0`, every active particle of every state
reachable from a fresh model satisfies `rMin ≤ r ≤ rMax` for the `rMin` and `rMax` of its
own demographic. -/
theorem reachable_radius_bounds (M : JSMath K) (hM : M.DivExact) (options : Options K)
    (htau : 0 < (ParticleModel.new M options).tau)
    (s : ParticleModel K) (h : Reachable M options s) (p : Particle K)
    (hp : p ∈ s.particles) :
    (DEMOGRAPHICS p.demographic).rMin ≤ p.r ∧ p.r ≤ (DEMOGRAPHICS p.demographic).rMax := by
  have hreg := reachable_fromRegistry M options s h p hp
  have key : p.rMin ≤ p.r ∧ p.r ≤ p.rMax := by
    refine reachable_particles M options (fun p => p.rMin ≤ p.r ∧ p.r ≤ p.rMax) ?_ ?_ ?_ s h p hp
    · intro x y key
      exact ⟨le_refl _, le_of_lt (registry_facts key).2.1⟩
    · intro targets p hp
      exact hp
    · intro clock s hs ih q hq
      obtain ⟨p, hp, -, rfl⟩ := step_mem M clock s q hq
      obtain ⟨p0, hp0, he⟩ := findContacts_mem M s p hp
      obtain ⟨-, -, e3, -, e5, e6, e7, -⟩ := fields_of_reset_eq he
      obtain ⟨-, g2, g3, -⟩ := reachable_fromRegistry M options s hs p0 hp0
      obtain ⟨i1, i2⟩ := ih p0 hp0
      obtain ⟨-, -, ht, hd, -⟩ := fields_of_params (reachable_params M options s hs)
      obtain ⟨r1, r2, -⟩ := registry_facts (K := K) p0.demographic
      obtain ⟨-, -, c3, c4, c5, -⟩ := planMove_fields M s.beta s.dt s.targets
        (stressUpdate s.stressRate s.dt (adjustRadius M s.tau s.dt p))
      obtain ⟨-, -, -, -, b5, b6, b7, -⟩ :=
        stressUpdate_fields s.stressRate s.dt (adjustRadius M s.tau s.dt p)
      obtain ⟨-, -, -, -, a5, a6, -⟩ := adjustRadius_fields M s.tau s.dt p
      simp only [c3, c4, c5, b5, b6, b7, a5, a6]
      apply adjustRadius_bounds M hM
      · rw [ht]; exact htau
      · rw [hd, new_dt M hM]; norm_num
      · rw [e6, e7, g2, g3]; exact le_of_lt r2
      · rw [e7, g3]; exact le_of_lt (lt_trans r1 r2)
      · rw [e6, e5]; exact i1
  rw [← hreg.2.1, ← hreg.2.2.1]
  exact key

/-- The stress rule of the demographic variant: the particle at index `i` gets
`stress + stressRate * dt` when the contact count written by this step's contact pass is at
least its `crushThreshold`, and `max(0, stress - dt)` otherwise. -/
theorem stress_rule_demographic (M : JSMath K) (s : ParticleModel K) (i : Nat) (p : Particle K)
    (hp : s.particles[i]? = some p) :
    ∃ c q, (findContacts M s).particles[i]? = some c ∧
      (accumulateStress (adjustRadii M (findContacts M s))).particles[i]? = some q ∧
      q.stress =
        if (c.contacts : K) ≥ p.demo.crushThreshold then p.stress + s.stressRate * s.dt
        else max 0 (p.stress - s.dt) := by
  have h := findContacts_getElem? M s i
  rw [hp] at h
  cases hc : (findContacts M s).particles[i]? with
  | none => rw [hc] at h; cases h
  | some c =>
    rw [hc] at h
    have he : resetContact c = resetContact p := by simpa using h
    obtain ⟨-, -, -, e4, -, -, -, -, -, -, e11, -⟩ := fields_of_reset_eq he
    refine ⟨c, stressUpdate s.stressRate s.dt (adjustRadius M s.tau s.dt c), rfl, ?_, ?_⟩
    · rw [accumulateStress_particles]
      simp [hc]
    · obtain ⟨-, -, -, a4, -, -, -, -, -, -, a11, a12, -⟩ := adjustRadius_fields M s.tau s.dt c
      rw [stressUpdate_stress, a4, a11, a12, e4, e11]

end RadiusBounds

end VaryingPopulation

/-! ## Variant `DeathMarkers`: contact frame and stress rule -/

namespace DeathMarkers

section StressRule
variable {K : Type} [LinearOrderedField K]

theorem contactPair_map_reset_dm (M : JSMath K) (ps : List (Particle K)) (i j : Nat) :
    (contactPair M ps i j).map resetContact = ps.map resetContact := by
  unfold contactPair
  split
  · next pi pj hi hj =>
    simp only
    split
    · rw [List.map_set, List.map_set]
      have h1 : (ps.map resetContact).set i (resetContact pi) = ps.map resetContact :=
        set_of_getElem? _ _ _ (by simp [hi])
      have h2 : (ps.map resetContact).set j (resetContact pj) = ps.map resetContact :=
        set_of_getElem? _ _ _ (by simp [hj])
      exact (congrArg (fun l => l.set j (resetContact pj)) h1).trans h2
    · rfl
  · rfl

theorem particleContacts_map_reset_dm (M : JSMath K) (ps : List (Particle K)) :
    (particleContacts M ps).map resetContact = ps.map resetContact := by
  unfold particleContacts
  refine foldl_preserves
    (fun (acc : List (Particle K)) => acc.map resetContact = ps.map resetContact) _ ?_ _ _ rfl
  intro acc i hacc
  refine foldl_preserves
    (fun (acc : List (Particle K)) => acc.map resetContact = ps.map resetContact) _ ?_ _ _ hacc
  intro acc2 j h2
  show (contactPair M acc2 i j).map resetContact = ps.map resetContact
  rw [contactPair_map_reset_dm]
  exact h2

theorem boundaryContact_reset_dm (M : JSMath K) (p : Particle K) (b : Boundary K) :
    resetContact (boundaryContact M p b) = resetContact p := by
  unfold boundaryContact
  simp only
  split
  · split <;> rfl
  · rfl

theorem boundaryFold_reset_dm (M : JSMath K) (bs : List (Boundary K)) (p : Particle K) :
    resetContact (bs.foldl (boundaryContact M) p) = resetContact p := by
  refine foldl_preserves (fun (q : Particle K) => resetContact q = resetContact p) _ ?_ _ _ rfl
  intro q b hq
  show resetContact (boundaryContact M q b) = resetContact p
  rw [boundaryContact_reset_dm]
  exact hq

theorem normalizeEscape_reset_dm (M : JSMath K) (ve : K) (p : Particle K) :
    resetContact (normalizeEscape M ve p) = resetContact p := by
  unfold normalizeEscape
  split
  · simp only
    split <;> rfl
  · rfl

/-- The contact pass writes only `contacts`, `inContact` and `ve`. -/
theorem findContacts_map_reset_dm (M : JSMath K) (s : ParticleModel K) :
    (findContacts M s).particles.map resetContact = s.particles.map resetContact := by
  have h1 : ∀ l : List (Particle K),
      ((l.map (fun particle => s.boundaries.foldl (boundaryContact M) particle)).map
        (normalizeEscape M s.ve)).map resetContact = l.map resetContact := by
    intro l
    simp only [List.map_map]
    apply List.map_congr_left
    intro p _
    simp only [Function.comp]
    rw [normalizeEscape_reset_dm, boundaryFold_reset_dm]
  show (((particleContacts M (s.particles.map resetContact)).map _).map _).map resetContact = _
  rw [h1, particleContacts_map_reset_dm, List.map_map]
  rfl

theorem findContacts_getElem?_dm (M : JSMath K) (s : ParticleModel K) (k : Nat) :
    ((findContacts M s).particles[k]?).map resetContact = (s.particles[k]?).map resetContact := by
  have h := congrArg (fun l => l[k]?) (findContacts_map_reset_dm M s)
  simpa using h

/-- The fields the contact pass leaves untouched, read off `resetContact`. -/
theorem fields_of_reset_eq_dm {p q : Particle K} (h : resetContact q = resetContact p) :
    q.x = p.x ∧ q.y = p.y ∧ q.r = p.r ∧ q.vd = p.vd ∧ q.targetIndex = p.targetIndex ∧
    q.stress = p.stress ∧ q.dead = p.dead :=
  ⟨congrArg (fun a => a.x) h, congrArg (fun a => a.y) h, congrArg (fun a => a.r) h,
    congrArg (fun a => a.vd) h, congrArg (fun a => a.targetIndex) h,
    congrArg (fun a => a.stress) h, congrArg (fun a => a.dead) h⟩

/-- The fields the radius pass leaves untouched. -/
theorem adjustRadius_fields_dm (M : JSMath K) (rMin rMax tau dt : K) (p : Particle K) :
    (adjustRadius M rMin rMax tau dt p).x = p.x ∧ (adjustRadius M rMin rMax tau dt p).y = p.y ∧
    (adjustRadius M rMin rMax tau dt p).vd = p.vd ∧
    (adjustRadius M rMin rMax tau dt p).ve = p.ve ∧
    (adjustRadius M rMin rMax tau dt p).inContact = p.inContact ∧
    (adjustRadius M rMin rMax tau dt p).contacts = p.contacts ∧
    (adjustRadius M rMin rMax tau dt p).stress = p.stress ∧
    (adjustRadius M rMin rMax tau dt p).dead = p.dead := by
  unfold adjustRadius
  split <;> simp

/-- The stress written by the stress pass. -/
theorem stressUpdate_stress_dm (crushThreshold stressRate dt stressThreshold : K)
    (p : Particle K) :
    (stressUpdate crushThreshold stressRate dt stressThreshold p).stress =
      if (p.contacts : K) ≥ crushThreshold then p.stress + stressRate * dt
      else max 0 (p.stress - dt) := by
  unfold stressUpdate
  simp only
  split <;> split <;> simp_all

/-- The death flag written by the stress pass. -/
theorem stressUpdate_dead_dm (crushThreshold stressRate dt stressThreshold : K)
    (p : Particle K) :
    (stressUpdate crushThreshold stressRate dt stressThreshold p).dead =
      if (stressUpdate crushThreshold stressRate dt stressThreshold p).stress ≥ stressThreshold
      then true else p.dead := by
  unfold stressUpdate
  simp only
  split <;> split <;> simp_all

/-- The particles entering the death purge: contact pass, radius pass and stress pass. -/
theorem accumulateStress_particles_dm (M : JSMath K) (s : ParticleModel K) :
    (accumulateStress (adjustRadii M (findContacts M s))).particles =
      ((findContacts M s).particles.map (adjustRadius M s.rMin s.rMax s.tau s.dt)).map
        (stressUpdate s.crushThreshold s.stressRate s.dt s.stressThreshold) := rfl

/-- The stress rule of the death-markers variant. -/
theorem stress_rule_markers_dm (M : JSMath K) (s : ParticleModel K) (i : Nat) (p : Particle K)
    (hp : s.particles[i]? = some p) :
    ∃ c q, (findContacts M s).particles[i]? = some c ∧
      (accumulateStress (adjustRadii M (findContacts M s))).particles[i]? = some q ∧
      q.stress =
        if (c.contacts : K) ≥ s.crushThreshold then p.stress + s.stressRate * s.dt
        else max 0 (p.stress - s.dt) := by
  have h := findContacts_getElem?_dm M s i
  rw [hp] at h
  cases hc : (findContacts M s).particles[i]? with
  | none => rw [hc] at h; cases h
  | some c =>
    rw [hc] at h
    have he : resetContact c = resetContact p := by simpa using h
    obtain ⟨-, -, -, -, -, e6, -⟩ := fields_of_reset_eq_dm he
    refine ⟨c, stressUpdate s.crushThreshold s.stressRate s.dt s.stressThreshold
      (adjustRadius M s.rMin s.rMax s.tau s.dt c), rfl, ?_, ?_⟩
    · rw [accumulateStress_particles_dm]
      simp [hc]
    · obtain ⟨-, -, -, -, -, a6, a7, -⟩ := adjustRadius_fields_dm M s.rMin s.rMax s.tau s.dt c
      rw [stressUpdate_stress_dm, a6, a7, e6]

end StressRule

end DeathMarkers

/-! ## The stress rule -/

section StressRuleClaim
variable {K : Type} [LinearOrderedField K]

/-- Claim C6.  In the stress loop of `step`, in the demographic variant and in the
death-markers variant alike, the particle at index `i` gets `stress + stressRate * dt` when
the contact count written by this step's contact pass is at least the crush threshold
(its demographic's, respectively the model's; equality included, whatever the excess), and
`max(0, stress - dt)` otherwise. -/
theorem stress_rule (M : JSMath K) (i : Nat)
    (s : VaryingPopulation.ParticleModel K) (p : VaryingPopulation.Particle K)
    (hp : s.particles[i]? = some p)
    (t : DeathMarkers.ParticleModel K) (u : DeathMarkers.Particle K)
    (hu : t.particles[i]? = some u) :
    (∃ c q, (VaryingPopulation.findContacts M s).particles[i]? = some c ∧
      (VaryingPopulation.accumulateStress (VaryingPopulation.adjustRadii M
        (VaryingPopulation.findContacts M s))).particles[i]? = some q ∧
      q.stress =
        if (c.contacts : K) ≥ p.demo.crushThreshold then p.stress + s.stressRate * s.dt
        else max 0 (p.stress - s.dt)) ∧
    (∃ c q, (DeathMarkers.findContacts M t).particles[i]? = some c ∧
      (DeathMarkers.accumulateStress (DeathMarkers.adjustRadii M
        (DeathMarkers.findContacts M t))).particles[i]? = some q ∧
      q.stress =
        if (c.contacts : K) ≥ t.crushThreshold then u.stress + t.stressRate * t.dt
        else max 0 (u.stress - t.dt)) :=
  ⟨VaryingPopulation.stress_rule_demographic M s i p hp,
    DeathMarkers.stress_rule_markers_dm M t i u hu⟩

/-- Witness for C6: the first particle of Scenario A and the particle of Scenario D. -/
theorem stress_rule_witness :
    VaryingPopulation.scenarioA.particles[0]? =
        some (VaryingPopulation.Particle.new 0 0 .ADULT) ∧
    DeathMarkers.scenarioD.particles[0]? = some (DeathMarkers.Particle.new 0 0 (1 / 5)) ∧
    ∃ c q, (DeathMarkers.findContacts ratMath DeathMarkers.scenarioD).particles[0]? = some c ∧
      (DeathMarkers.accumulateStress (DeathMarkers.adjustRadii ratMath
        (DeathMarkers.findContacts ratMath DeathMarkers.scenarioD))).particles[0]? = some q ∧
      q.stress =
        if (c.contacts : ℚ) ≥ DeathMarkers.scenarioD.crushThreshold then
          (DeathMarkers.Particle.new (0 : ℚ) 0 (1 / 5)).stress +
            DeathMarkers.scenarioD.stressRate * DeathMarkers.scenarioD.dt
        else max 0 ((DeathMarkers.Particle.new (0 : ℚ) 0 (1 / 5)).stress -
          DeathMarkers.scenarioD.dt) :=
  have h : DeathMarkers.scenarioD.particles[0]? =
      some (DeathMarkers.Particle.new 0 0 (1 / 5)) := by
    simp [DeathMarkers.scenarioD, DeathMarkers.addParticle, DeathMarkers.addBoundary,
      DeathMarkers.setupModel, DeathMarkers.ParticleModel.new, jsOr]
    norm_num
  ⟨rfl, h, (stress_rule ratMath 0 VaryingPopulation.scenarioA
    (VaryingPopulation.Particle.new 0 0 .ADULT) rfl DeathMarkers.scenarioD
    (DeathMarkers.Particle.new 0 0 (1 / 5)) h).2⟩

end StressRuleClaim

/-! ## Contact counts -/

namespace VaryingPopulation

section ContactCounts
variable {K : Type} [LinearOrderedField K]

theorem overlaps_symm (M : JSMath K) (p q : Particle K) : overlaps M p q = overlaps M q p := by
  unfold overlaps
  have h1 : (p.x - q.x) * (p.x - q.x) + (p.y - q.y) * (p.y - q.y) =
      (q.x - p.x) * (q.x - p.x) + (q.y - p.y) * (q.y - p.y) := by ring
  rw [h1, add_comm p.r q.r]

theorem overlaps_of_reset_eq (M : JSMath K) {a b p q : Particle K}
    (ha : resetContact a = resetContact p) (hb : resetContact b = resetContact q) :
    overlaps M a b = overlaps M p q := by
  obtain ⟨a1, a2, -, -, a5, -⟩ := fields_of_reset_eq ha
  obtain ⟨b1, b2, -, -, b5, -⟩ := fields_of_reset_eq hb
  unfold overlaps
  rw [a1, a2, a5, b1, b2, b5]

theorem getElem?_of_map_reset {acc g : List (Particle K)}
    (h : acc.map resetContact = g.map resetContact) (k : Nat) (p : Particle K)
    (hp : g[k]? = some p) : ∃ a, acc[k]? = some a ∧ resetContact a = resetContact p := by
  have h2 := congrArg (fun l => l[k]?) h
  simp only [List.getElem?_map, hp, Option.map_some'] at h2
  cases ha : acc[k]? with
  | none => rw [ha] at h2; cases h2
  | some a =>
    rw [ha] at h2
    exact ⟨a, rfl, by simpa using h2⟩

/-- One pair test of the contact loop adds one to both counts exactly when the two
particles overlap. -/
theorem contactPair_contactsAt (M : JSMath K) (acc g : List (Particle K))
    (hg : acc.map resetContact = g.map resetContact) (i j : Nat) (hij : i ≠ j)
    (pi pj : Particle K) (hi : g[i]? = some pi) (hj : g[j]? = some pj) (k : Nat) :
    contactsAt (contactPair M acc i j) k =
      contactsAt acc k + if (k = i ∨ k = j) ∧ overlaps M pi pj = true then 1 else 0 := by
  obtain ⟨ai, hai, rai⟩ := getElem?_of_map_reset hg i pi hi
  obtain ⟨aj, haj, raj⟩ := getElem?_of_map_reset hg j pj hj
  have hov := overlaps_of_reset_eq M rai raj
  have hilt : i < acc.length := by
    by_contra hn
    rw [List.getElem?_eq_none (by omega)] at hai
    cases hai
  have hjlt : j < acc.length := by
    by_contra hn
    rw [List.getElem?_eq_none (by omega)] at haj
    cases haj
  unfold contactPair
  rw [hai, haj]
  simp only
  by_cases hc : M.sqrt ((ai.x - aj.x) * (ai.x - aj.x) + (ai.y - aj.y) * (ai.y - aj.y)) <
      ai.r + aj.r
  · have ho : overlaps M pi pj = true := by
      rw [← hov]; unfold overlaps; simpa using hc
    rw [if_pos hc]
    unfold contactsAt
    by_cases hkj : k = j
    · subst hkj
      simp [List.getElem?_set, hjlt, haj, ho]
    · by_cases hki : k = i
      · subst hki
        have hne : ¬ j = k := fun h => hkj h.symm
        simp [List.getElem?_set, hilt, hai, ho, hne]
      · have hne1 : ¬ j = k := fun h => hkj h.symm
        have hne2 : ¬ i = k := fun h => hki h.symm
        simp [List.getElem?_set, hne1, hne2, hki, hkj]
  · have ho : overlaps M pi pj = false := by
      rw [← hov]; unfold overlaps; simpa using hc
    rw [if_neg hc]
    simp [ho]

/-- The inner loop for a fixed `i` over `j = i + 1, ..., i + m`: the count of `i` grows by
the number of overlapping particles among those, the count of each of those by one if it
overlaps `i`, and no other count changes. -/
theorem innerLoop_contactsAt (M : JSMath K) (g : List (Particle K)) (i : Nat)
    (pi : Particle K) (hi : g[i]? = some pi) (m : Nat) (hm : i + 1 + m ≤ g.length)
    (acc : List (Particle K)) (hg : acc.map resetContact = g.map resetContact) :
    ((List.range' (i + 1) m).foldl (fun acc j => contactPair M acc i j) acc).map resetContact
        = g.map resetContact ∧
    ∀ k pk, g[k]? = some pk →
      contactsAt ((List.range' (i + 1) m).foldl (fun acc j => contactPair M acc i j) acc) k =
        contactsAt acc k +
          if k = i then ((g.drop (i + 1)).take m).countP (overlaps M pi)
          else if i < k ∧ k < i + 1 + m ∧ overlaps M pi pk = true then 1 else 0 := by
  induction m with
  | zero =>
    refine ⟨by simpa using hg, ?_⟩
    intro k pk hk
    simp only [List.range'_zero, List.foldl_nil, List.take_zero, List.countP_nil]
    split
    · rfl
    · rw [if_neg (by omega)]
      rfl
  | succ m ih =>
    obtain ⟨ih1, ih2⟩ := ih (by omega)
    have hjlt : i + 1 + m < g.length := by omega
    obtain ⟨pj, hj⟩ : ∃ pj, g[i + 1 + m]? = some pj :=
      ⟨g[i + 1 + m], List.getElem?_eq_getElem hjlt⟩
    rw [List.range'_concat, List.foldl_append]
    simp only [List.foldl_cons, List.foldl_nil, one_mul]
    refine ⟨by rw [contactPair_map_reset]; exact ih1, ?_⟩
    intro k pk hk
    rw [contactPair_contactsAt M _ g ih1 i (i + 1 + m) (by omega) pi pj hi hj k, ih2 k pk hk]
    have htake : ((g.drop (i + 1)).take (m + 1)).countP (overlaps M pi) =
        ((g.drop (i + 1)).take m).countP (overlaps M pi) +
          if overlaps M pi pj = true then 1 else 0 := by
      rw [List.take_succ, List.getElem?_drop, hj]
      simp [List.countP_append, List.countP_cons]
    by_cases hki : k = i
    · subst hki
      rw [if_pos rfl, if_pos rfl, htake]
      by_cases ho : overlaps M pi pj = true
      · rw [if_pos ⟨Or.inl rfl, ho⟩, if_pos ho]
        omega
      · rw [if_neg (fun h => ho h.2), if_neg ho]
        omega
    · rw [if_neg hki, if_neg hki]
      by_cases hkj : k = i + 1 + m
      · subst hkj
        have hpk : pk = pj := by
          rw [hj] at hk
          exact (Option.some.inj hk).symm
        subst hpk
        have h1 : ¬ (i < i + 1 + m ∧ i + 1 + m < i + 1 + m ∧ overlaps M pi pk = true) :=
          fun h => absurd h.2.1 (by omega)
        rw [if_neg h1]
        by_cases ho : overlaps M pi pk = true
        · rw [if_pos ⟨Or.inr rfl, ho⟩, if_pos ⟨by omega, by omega, ho⟩]
        · rw [if_neg (fun h => ho h.2), if_neg (fun h => ho h.2.2)]
      · have h2 : ¬ ((k = i ∨ k = i + 1 + m) ∧ overlaps M pi pj = true) :=
          fun h => h.1.elim hki hkj
        rw [if_neg h2]
        by_cases hc : i < k ∧ k < i + 1 + m ∧ overlaps M pi pk = true
        · rw [if_pos hc, if_pos ⟨hc.1, by omega, hc.2.2⟩]
        · rw [if_neg hc, if_neg (fun h => hc ⟨h.1, by omega, h.2.2⟩)]

/-- The outer loop over `i = 0, ..., a - 1`: a particle below `a` has met every other
particle, a particle from `a` on only those below `a`. -/
theorem outerLoop_contactsAt (M : JSMath K) (g g0 : List (Particle K))
    (hg : g0.map resetContact = g.map resetContact) (a : Nat) (ha : a ≤ g.length) :
    ((List.range a).foldl (fun acc i =>
        (List.range' (i + 1) (g.length - (i + 1))).foldl (fun acc j => contactPair M acc i j)
          acc) g0).map resetContact = g.map resetContact ∧
    ∀ k pk, g[k]? = some pk →
      contactsAt ((List.range a).foldl (fun acc i =>
        (List.range' (i + 1) (g.length - (i + 1))).foldl (fun acc j => contactPair M acc i j)
          acc) g0) k =
        contactsAt g0 k +
          if k < a then (g.take k).countP (overlaps M pk) + (g.drop (k + 1)).countP (overlaps M pk)
          else (g.take a).countP (overlaps M pk) := by
  induction a with
  | zero =>
    refine ⟨by simpa using hg, ?_⟩
    intro k pk hk
    simp
  | succ a ih =>
    obtain ⟨ih1, ih2⟩ := ih (by omega)
    have halt : a < g.length := by omega
    obtain ⟨pa, hpa⟩ : ∃ pa, g[a]? = some pa := ⟨g[a], List.getElem?_eq_getElem halt⟩
    rw [List.range_succ, List.foldl_append]
    simp only [List.foldl_cons, List.foldl_nil]
    obtain ⟨in1, in2⟩ := innerLoop_contactsAt M g a pa hpa (g.length - (a + 1)) (by omega) _ ih1
    refine ⟨in1, ?_⟩
    intro k pk hk
    have hklt := lt_length_of_getElem? hk
    rw [in2 k pk hk, ih2 k pk hk]
    have hall : (g.drop (a + 1)).take (g.length - (a + 1)) = g.drop (a + 1) :=
      List.take_of_length_le (by simp)
    rw [hall]
    by_cases hka : k = a
    · subst hka
      have hpk : pk = pa := by
        rw [hpa] at hk
        exact (Option.some.inj hk).symm
      subst hpk
      rw [if_pos rfl, if_neg (show ¬ k < k by omega), if_pos (show k < k + 1 by omega)]
      omega
    · rw [if_neg hka]
      by_cases hlt : k < a
      · have h1 : ¬ (a < k ∧ k < a + 1 + (g.length - (a + 1)) ∧ overlaps M pa pk = true) :=
          fun h => absurd h.1 (by omega)
        rw [if_neg h1, if_pos hlt, if_pos (show k < a + 1 by omega)]
        omega
      · have htake : (g.take (a + 1)).countP (overlaps M pk) =
            (g.take a).countP (overlaps M pk) + if overlaps M pa pk = true then 1 else 0 := by
          rw [List.take_succ, hpa, overlaps_symm M pa pk]
          simp [List.countP_append, List.countP_cons]
        rw [if_neg hlt, if_neg (show ¬ k < a + 1 by omega), htake]
        by_cases ho : overlaps M pa pk = true
        · have h3 : a < k ∧ k < a + 1 + (g.length - (a + 1)) ∧ overlaps M pa pk = true :=
            ⟨by omega, by omega, ho⟩
          rw [if_pos h3, if_pos ho]
          omega
        · have h3 : ¬ (a < k ∧ k < a + 1 + (g.length - (a + 1)) ∧ overlaps M pa pk = true) :=
            fun h => ho h.2.2
          rw [if_neg h3, if_neg ho]
          omega

/-- The particle-particle loops count, for every particle, the other particles that
overlap it. -/
theorem particleContacts_contactsAt (M : JSMath K) (g : List (Particle K)) (k : Nat)
    (pk : Particle K) (hk : g[k]? = some pk) :
    contactsAt (particleContacts M g) k =
      contactsAt g k + (g.eraseIdx k).countP (overlaps M pk) := by
  have h := (outerLoop_contactsAt M g g rfl g.length (le_refl _)).2 k pk hk
  unfold particleContacts
  rw [h, if_pos (lt_length_of_getElem? hk), List.eraseIdx_eq_take_drop_succ,
    List.countP_append]

/-- The fields the boundary test leaves untouched. -/
theorem boundaryContact_geom (M : JSMath K) (q : Particle K) (b : Boundary K) :
    (boundaryContact M q b).x = q.x ∧ (boundaryContact M q b).y = q.y ∧
      (boundaryContact M q b).r = q.r := by
  have h := fields_of_reset_eq (boundaryContact_reset M q b)
  exact ⟨h.1, h.2.1, h.2.2.2.2.1⟩

theorem touches_congr (M : JSMath K) {a q : Particle K} (hx : a.x = q.x) (hy : a.y = q.y)
    (hr : a.r = q.r) (b : Boundary K) : touches M a b = touches M q b := by
  unfold touches
  rw [hx, hy, hr]

/-- One boundary test adds one to the count exactly when the particle touches it. -/
theorem boundaryContact_contacts (M : JSMath K) (q : Particle K) (b : Boundary K) :
    (boundaryContact M q b).contacts = q.contacts + if touches M q b = true then 1 else 0 := by
  by_cases h : (distanceToBoundary M q.x q.y b.x1 b.y1 b.x2 b.y2).distance < q.r
  · have ht : touches M q b = true := by unfold touches; simpa using h
    rw [if_pos ht]
    unfold boundaryContact
    simp only
    rw [if_pos h]
    split <;> rfl
  · have ht : ¬ touches M q b = true := by unfold touches; simpa using h
    rw [if_neg ht]
    unfold boundaryContact
    simp only
    rw [if_neg h]
    rfl

/-- The boundary loop counts the boundaries the particle touches. -/
theorem boundaryFold_contacts (M : JSMath K) (bs : List (Boundary K)) (q : Particle K) :
    (bs.foldl (boundaryContact M) q).contacts = q.contacts + bs.countP (touches M q) := by
  induction bs generalizing q with
  | nil => simp
  | cons b bs ih =>
    simp only [List.foldl_cons]
    rw [ih, boundaryContact_contacts, List.countP_cons]
    obtain ⟨hx, hy, hr⟩ := boundaryContact_geom M q b
    have hc : bs.countP (touches M (boundaryContact M q b)) = bs.countP (touches M q) := by
      congr 1
      funext b2
      exact touches_congr M hx hy hr b2
    rw [hc]
    omega

theorem normalizeEscape_contacts (M : JSMath K) (q : Particle K) :
    (normalizeEscape M q).contacts = q.contacts ∧
      (normalizeEscape M q).inContact = q.inContact := by
  unfold normalizeEscape
  split
  · simp only
    split <;> exact ⟨rfl, rfl⟩
  · exact ⟨rfl, rfl⟩

/-- The contact flag is set exactly on the particles whose count is positive: this holds
after the reset and is kept by every later write of the contact pass. -/
theorem contactPair_flag (M : JSMath K) (ps : List (Particle K)) (i j : Nat)
    (h : ∀ q ∈ ps, (q.inContact = true ↔ 0 < q.contacts)) :
    ∀ q ∈ contactPair M ps i j, (q.inContact = true ↔ 0 < q.contacts) := by
  unfold contactPair
  split
  · next pi pj hi hj =>
    simp only
    split
    · intro q hq
      rcases List.mem_or_eq_of_mem_set hq with hq1 | rfl
      · rcases List.mem_or_eq_of_mem_set hq1 with hq2 | rfl
        · exact h q hq2
        · simp
      · simp
    · exact h
  · exact h

theorem particleContacts_flag (M : JSMath K) (ps : List (Particle K))
    (h : ∀ q ∈ ps, (q.inContact = true ↔ 0 < q.contacts)) :
    ∀ q ∈ particleContacts M ps, (q.inContact = true ↔ 0 < q.contacts) := by
  unfold particleContacts
  refine foldl_preserves
    (fun (acc : List (Particle K)) => ∀ q ∈ acc, (q.inContact = true ↔ 0 < q.contacts))
    _ ?_ _ _ h
  intro acc i hacc
  refine foldl_preserves
    (fun (acc : List (Particle K)) => ∀ q ∈ acc, (q.inContact = true ↔ 0 < q.contacts))
    _ ?_ _ _ hacc
  intro acc2 j h2
  exact contactPair_flag M acc2 i j h2

theorem boundaryContact_flag (M : JSMath K) (q : Particle K) (b : Boundary K)
    (h : q.inContact = true ↔ 0 < q.contacts) :
    ((boundaryContact M q b).inContact = true ↔ 0 < (boundaryContact M q b).contacts) := by
  unfold boundaryContact
  simp only
  split
  · split <;> simp
  · exact h

theorem boundaryFold_flag (M : JSMath K) (bs : List (Boundary K)) (q : Particle K)
    (h : q.inContact = true ↔ 0 < q.contacts) :
    ((bs.foldl (boundaryContact M) q).inContact = true ↔
      0 < (bs.foldl (boundaryContact M) q).contacts) :=
  foldl_preserves (fun (q : Particle K) => (q.inContact = true ↔ 0 < q.contacts)) _
    (fun q b hq => boundaryContact_flag M q b hq) _ _ h

/-- The contact pass at index `k`: the particle found there and its count. -/
theorem findContacts_at (M : JSMath K) (s : ParticleModel K) (k : Nat) (p : Particle K)
    (hp : s.particles[k]? = some p) :
    ∃ q, (findContacts M s).particles[k]? = some q ∧
      q.contacts = (s.particles.eraseIdx k).countP (overlaps M p) +
        s.boundaries.countP (touches M p) ∧
      (q.inContact = true ↔ 0 < q.contacts) ∧ q.x = p.x ∧ q.y = p.y ∧ q.r = p.r := by
  have h0 : (s.particles.map resetContact)[k]? = some (resetContact p) := by
    simp [hp]
  have hcnt := particleContacts_contactsAt M (s.particles.map resetContact) k (resetContact p) h0
  obtain ⟨a, ha, hra⟩ := getElem?_of_map_reset
    (particleContacts_map_reset M (s.particles.map resetContact)) k (resetContact p) h0
  have hflag := particleContacts_flag M (s.particles.map resetContact) (by
    intro q hq
    obtain ⟨q0, -, rfl⟩ := List.mem_map.1 hq
    simp [resetContact]) a (List.getElem?_mem ha)
  have hzero : contactsAt (s.particles.map resetContact) k = 0 := by
    unfold contactsAt
    rw [h0]
    rfl
  have hera : ((s.particles.map resetContact).eraseIdx k).countP (overlaps M (resetContact p)) =
      (s.particles.eraseIdx k).countP (overlaps M p) := by
    rw [List.eraseIdx_eq_take_drop_succ, List.eraseIdx_eq_take_drop_succ, ← List.map_take,
      ← List.map_drop, ← List.map_append, List.countP_map]
    rfl
  have hac : a.contacts = (s.particles.eraseIdx k).countP (overlaps M p) := by
    have h1 : contactsAt (particleContacts M (s.particles.map resetContact)) k = a.contacts := by
      unfold contactsAt
      rw [ha]
    rw [← h1, hcnt, hzero, hera, Nat.zero_add]
  obtain ⟨ax, ay, -, -, ar, -⟩ := fields_of_reset_eq hra
  have ax2 : a.x = p.x := ax
  have ay2 : a.y = p.y := ay
  have ar2 : a.r = p.r := ar
  refine ⟨normalizeEscape M (s.boundaries.foldl (boundaryContact M) a), ?_, ?_, ?_, ?_⟩
  · show (((particleContacts M (s.particles.map resetContact)).map _).map _)[k]? = _
    simp [ha]
  · rw [(normalizeEscape_contacts M _).1, boundaryFold_contacts, hac]
    have hc : s.boundaries.countP (touches M a) = s.boundaries.countP (touches M p) := by
      congr 1
      funext b
      exact touches_congr M ax2 ay2 ar2 b
    rw [hc]
  · rw [(normalizeEscape_contacts M _).1, (normalizeEscape_contacts M _).2]
    exact boundaryFold_flag M s.boundaries a hflag
  · have h2 := fields_of_reset_eq
      ((normalizeEscape_reset M (s.boundaries.foldl (boundaryContact M) a)).trans
        (boundaryFold_reset M s.boundaries a))
    exact ⟨h2.1.trans ax2, h2.2.1.trans ay2, h2.2.2.2.2.1.trans ar2⟩

end ContactCounts

end VaryingPopulation

namespace VaryingPopulation

/-- Scenario A: one pass of the contact resolver marks both particles in contact with
one contact each. -/
theorem scenarioA_contacts :
    (findContacts ratMath scenarioA).particles.map (fun q => (q.inContact, q.contacts)) =
      [(true, 1), (true, 1)] := by
  simp [findContacts, scenarioA, addParticleKey, ParticleModel.new, Particle.new,
    particleContacts, contactPair, resetContact, normalizeEscape, DEMOGRAPHICS, ratMath, ratSqrt,
    List.range, List.range.loop, List.range']
  norm_num [normalizeEscape, Nat.sqrt]
  constructor <;> constructor <;> split <;> simp

end VaryingPopulation

namespace VaryingPopulation

section ContactClaim
variable {K : Type} [LinearOrderedField K]

/-- Claim C10.  After `findContacts`, whatever the counts were before, the particle at
index `k` has `contacts` equal to the number of other particles whose centre distance to it
is below the sum of the radii plus the number of boundaries whose nearest point is closer
than its radius; `inContact` is true iff `contacts > 0`; position and radius are unchanged.
Whenever two particles overlap, both end in contact with a count of at least one.  In
Scenario A both particles end with `inContact = true` and `contacts = 1`. -/
theorem contact_counts (M : JSMath K) (s : ParticleModel K) (k : Nat) (p : Particle K)
    (hp : s.particles[k]? = some p) :
    (∃ q, (findContacts M s).particles[k]? = some q ∧
      q.contacts = (s.particles.eraseIdx k).countP (overlaps M p) +
        s.boundaries.countP (touches M p) ∧
      (q.inContact = true ↔ 0 < q.contacts) ∧ q.x = p.x ∧ q.y = p.y ∧ q.r = p.r) ∧
    (∀ j pj, j ≠ k → s.particles[j]? = some pj → overlaps M p pj = true →
      ∃ qk qj, (findContacts M s).particles[k]? = some qk ∧
        (findContacts M s).particles[j]? = some qj ∧
        qk.inContact = true ∧ qj.inContact = true ∧ 1 ≤ qk.contacts ∧ 1 ≤ qj.contacts) ∧
    (findContacts ratMath scenarioA).particles.map (fun q => (q.inContact, q.contacts)) =
      [(true, 1), (true, 1)] := by
  refine ⟨findContacts_at M s k p hp, ?_, scenarioA_contacts⟩
  intro j pj hjk hpj hov
  obtain ⟨qk, hqk, ck, fk, -⟩ := findContacts_at M s k p hp
  obtain ⟨qj, hqj, cj, fj, -⟩ := findContacts_at M s j pj hpj
  have h1 : 0 < (s.particles.eraseIdx k).countP (overlaps M p) :=
    List.countP_pos_iff.2 ⟨pj, List.mem_eraseIdx_iff_getElem?.2 ⟨j, hjk, hpj⟩, hov⟩
  have h2 : 0 < (s.particles.eraseIdx j).countP (overlaps M pj) :=
    List.countP_pos_iff.2 ⟨p, List.mem_eraseIdx_iff_getElem?.2 ⟨k, fun h => hjk h.symm, hp⟩,
      (overlaps_symm M pj p).trans hov⟩
  have hk1 : 1 ≤ qk.contacts := by omega
  have hj1 : 1 ≤ qj.contacts := by omega
  exact ⟨qk, qj, hqk, hqj, fk.2 (by omega), fj.2 (by omega), hk1, hj1⟩

end ContactClaim

/-- Witness for C10: the first particle of Scenario A. -/
theorem contact_counts_witness :
    scenarioA.particles[0]? = some (Particle.new 0 0 .ADULT) ∧
      ∃ q, (findContacts ratMath scenarioA).particles[0]? = some q ∧
        q.contacts =
          (scenarioA.particles.eraseIdx 0).countP (overlaps ratMath (Particle.new 0 0 .ADULT)) +
            scenarioA.boundaries.countP (touches ratMath (Particle.new 0 0 .ADULT)) ∧
        (q.inContact = true ↔ 0 < q.contacts) ∧ q.x = (Particle.new (0 : ℚ) 0 .ADULT).x ∧
        q.y = (Particle.new (0 : ℚ) 0 .ADULT).y ∧ q.r = (Particle.new (0 : ℚ) 0 .ADULT).r :=
  ⟨rfl, (contact_counts ratMath scenarioA 0 (Particle.new 0 0 .ADULT) rfl).1⟩

end VaryingPopulation

/-! ## Concrete runs over the rationals -/

theorem ratSqrt_one : ratSqrt 1 = 1 := by
  simp [ratSqrt]

theorem ratSqrt_zero : ratSqrt 0 = 0 := by
  simp [ratSqrt]

namespace VaryingPopulation

theorem scenarioA_findContacts :
    (findContacts ratMath scenarioA).particles =
      [{ Particle.new (0 : ℚ) 0 .ADULT with
          inContact := true, contacts := 1, ve := ⟨-3 / 2, 0, 3 / 2⟩ },
       { Particle.new (1 / 10 : ℚ) 0 .ADULT with
          inContact := true, contacts := 1, ve := ⟨3 / 2, 0, 3 / 2⟩ }] := by
  simp [findContacts, scenarioA, addParticleKey, ParticleModel.new, Particle.new,
    particleContacts, contactPair, resetContact, normalizeEscape, DEMOGRAPHICS, ratMath, ratSqrt,
    List.range, List.range.loop, List.range']
  norm_num [normalizeEscape, Nat.sqrt, ratSqrt_one]

/-- One step of Scenario A: the two particles are pushed apart at their escape speed. -/
theorem scenarioA_step :
    (step ratMath (fun _ => 0) scenarioA).particles =
      [{ Particle.new (-9 / 160 : ℚ) 0 .ADULT with
          inContact := true, contacts := 1, ve := ⟨-3 / 2, 0, 3 / 2⟩ },
       { Particle.new (5 / 32 : ℚ) 0 .ADULT with
          inContact := true, contacts := 1, ve := ⟨3 / 2, 0, 3 / 2⟩ }] := by
  rw [step_particles, beforeMove_particles, scenarioA_findContacts]
  simp [scenarioA, addParticleKey, ParticleModel.new, Particle.new, adjustRadius, stressUpdate,
    closestTarget, closestTargetLoop, desiredVelocity, assignedTarget, move, arrives,
    DEMOGRAPHICS, ratMath, demographicValues, DemoKey.keys]
  norm_num [move, desiredVelocity, closestTarget, closestTargetLoop, assignedTarget]

theorem scenarioA_step_mem :
    pushedLeft ∈ (step ratMath (fun _ => 0) scenarioA).particles := by
  rw [scenarioA_step]
  exact List.mem_cons_self _ _

theorem new_params_default :
    (ParticleModel.new ratMath ({} : Options ℚ)).tau = 1 / 2 ∧
    (ParticleModel.new ratMath ({} : Options ℚ)).stressRate = 2 ∧
    (ParticleModel.new ratMath ({} : Options ℚ)).beta = 1 ∧
    (ParticleModel.new ratMath ({} : Options ℚ)).dt = 3 / 80 := by
  refine ⟨?_, ?_, ?_, new_dt ratMath ratMath_divExact {}⟩ <;>
    simp [ParticleModel.new, jsOr] <;> norm_num

/-- Witness for C3: a particle left by one step of Scenario A. -/
theorem step_leaves_no_dead_witness :
    Reachable ratMath {} scenarioA ∧
    pushedLeft ∈ (step ratMath (fun _ => 0) scenarioA).particles ∧
    pushedLeft.dead = false ∧ pushedLeft.demo = DEMOGRAPHICS pushedLeft.demographic ∧
      pushedLeft.stress < (DEMOGRAPHICS pushedLeft.demographic).stressThreshold :=
  ⟨scenarioA_reachable, scenarioA_step_mem,
    step_leaves_no_dead ratMath {} (fun _ => 0) scenarioA scenarioA_reachable _
      scenarioA_step_mem⟩

/-- Witness for C8: a particle left by one step of Scenario A. -/
theorem stress_nonneg_witness :
    0 ≤ (ParticleModel.new ratMath ({} : Options ℚ)).stressRate ∧
    0 < (ParticleModel.new ratMath ({} : Options ℚ)).dt ∧
    Reachable ratMath {} (step ratMath (fun _ => 0) scenarioA) ∧
    pushedLeft ∈ (step ratMath (fun _ => 0) scenarioA).particles ∧ 0 ≤ pushedLeft.stress :=
  ⟨by rw [new_params_default.2.1]; norm_num, by rw [new_params_default.2.2.2]; norm_num,
    .step _ scenarioA_reachable, scenarioA_step_mem,
    stress_nonneg ratMath {} (by rw [new_params_default.2.1]; norm_num)
      (by rw [new_params_default.2.2.2]; norm_num) _ (.step _ scenarioA_reachable) _
      scenarioA_step_mem⟩

end VaryingPopulation

namespace DeathMarkers

theorem setupModel_values :
    (setupModel ratMath).dt = 1 / 15 ∧ (setupModel ratMath).stressRate = 5 ∧
    (setupModel ratMath).stressThreshold = 2 ∧ (setupModel ratMath).crushThreshold = 3 := by
  refine ⟨?_, ?_, ?_, ?_⟩ <;> simp [setupModel, ParticleModel.new, jsOr, ratMath] <;> norm_num

/-- The contact pass of Scenario D: three boundary contacts, no escape direction. -/
theorem crushed_findContacts (σ : ℚ) (c : Nat) (b : Bool) (v : Velocity ℚ) :
    (findContacts ratMath { scenarioD with particles :=
      [{ x := 0, y := 0, r := 1 / 5, vd := ⟨0, 0, 0⟩, ve := v, targetIndex := -1,
         inContact := b, reachedTarget := false, contacts := c, stress := σ,
         dead := false }] }) = crushed σ := by
  simp [findContacts, scenarioD, addParticle, addBoundary, setupModel, ParticleModel.new,
    particleContacts, contactPair, resetContact, boundaryContact, distanceToBoundary,
    normalizeEscape, ratMath, ratSqrt_zero, jsOr, List.range, List.range.loop, List.range',
    crushed]
  norm_num [ratSqrt_zero]

/-- The radius pass and the stress pass of Scenario D. -/
theorem crushed_stress (σ : ℚ) :
    accumulateStress (adjustRadii ratMath (crushed σ)) =
      if 2 ≤ σ + 1 / 3 then
        { crushed (σ + 1 / 3) with particles :=
            [{ x := 0, y := 0, r := 1 / 5, vd := ⟨0, 0, 0⟩, ve := ⟨0, 0, 0⟩, targetIndex := -1,
               inContact := true, reachedTarget := false, contacts := 3, stress := σ + 1 / 3,
               dead := true }] }
      else crushed (σ + 1 / 3) := by
  simp [accumulateStress, adjustRadii, adjustRadius, stressUpdate, crushed, scenarioD,
    addParticle, addBoundary, setupModel, ParticleModel.new, jsOr, ratMath]
  norm_num
  split <;> simp

/-- The rest of the step of Scenario D while the particle is alive. -/
theorem crushed_tail (clock : Nat → ℚ) (σ : ℚ) :
    removeParticlesAtTarget ratMath clock (updatePositions (computeDesiredVelocities ratMath
      (findClosestTargets ratMath (removeDead (crushed σ))))) = crushed σ := by
  simp [removeParticlesAtTarget, arrivalVisit, removeDead, deathVisit,
    updatePositions, move, computeDesiredVelocities, desiredVelocity, findClosestTargets,
    closestTarget, closestTargetLoop, assignedTarget, crushed, scenarioD,
    addParticle, addBoundary, setupModel, ParticleModel.new, jsOr, ratMath]

/-- The rest of the step of Scenario D when the stress pass has killed the particle. -/
theorem crushed_tail_dead (clock : Nat → ℚ) (σ : ℚ) :
    removeParticlesAtTarget ratMath clock (updatePositions (computeDesiredVelocities ratMath
      (findClosestTargets ratMath (removeDead
        { crushed σ with particles :=
            [{ x := 0, y := 0, r := 1 / 5, vd := ⟨0, 0, 0⟩, ve := ⟨0, 0, 0⟩, targetIndex := -1,
               inContact := true, reachedTarget := false, contacts := 3, stress := σ,
               dead := true }] })))) = crushedDead := by
  simp [removeParticlesAtTarget, removeDead, deathVisit,
    updatePositions, computeDesiredVelocities, findClosestTargets, crushed, crushedDead,
    scenarioD, addParticle, addBoundary, setupModel, ParticleModel.new, jsOr, ratMath]

theorem scenarioD_step (clock : Nat → ℚ) : step ratMath clock scenarioD = crushed (1 / 3) := by
  have h0 : scenarioD = { scenarioD with particles :=
      [{ x := 0, y := 0, r := 1 / 5, vd := ⟨0, 0, 0⟩, ve := ⟨0, 0, 0⟩, targetIndex := -1,
         inContact := false, reachedTarget := false, contacts := 0, stress := 0,
         dead := false }] } := by
    simp [scenarioD, addParticle, addBoundary, setupModel, ParticleModel.new, jsOr,
      Particle.new]
    norm_num
  have h1 : findContacts ratMath scenarioD = crushed 0 := by
    rw [h0]
    exact crushed_findContacts 0 0 false ⟨0, 0, 0⟩
  unfold step beforeMove
  rw [h1, crushed_stress, if_neg (by norm_num)]
  norm_num
  exact crushed_tail clock _

theorem crushed_step_alive (clock : Nat → ℚ) (σ : ℚ) (h : σ + 1 / 3 < 2) :
    step ratMath clock (crushed σ) = crushed (σ + 1 / 3) := by
  have h1 : findContacts ratMath (crushed σ) = crushed σ :=
    crushed_findContacts σ 3 true ⟨0, 0, 0⟩
  unfold step beforeMove
  rw [h1, crushed_stress, if_neg (not_le.2 h)]
  exact crushed_tail clock _

theorem crushed_step_dead (clock : Nat → ℚ) (σ : ℚ) (h : 2 ≤ σ + 1 / 3) :
    step ratMath clock (crushed σ) = crushedDead := by
  have h1 : findContacts ratMath (crushed σ) = crushed σ :=
    crushed_findContacts σ 3 true ⟨0, 0, 0⟩
  unfold step beforeMove
  rw [h1, crushed_stress, if_pos h]
  exact crushed_tail_dead clock _

/-- Scenario D run on the model in exact arithmetic: the particle is still active after five
ticks, with stress `5/3`, and is purged by the sixth (in double precision by the
seventh, see `crushTicksDouble_setup`). -/
theorem scenarioD_run (clock : Nat → ℚ) :
    (step ratMath clock)^[5] scenarioD = crushed (5 / 3) ∧
      (step ratMath clock)^[6] scenarioD = crushedDead := by
  have h5 : (step ratMath clock)^[5] scenarioD = crushed (5 / 3) := by
    simp only [Function.iterate_succ, Function.iterate_zero, Function.comp, id]
    rw [scenarioD_step, crushed_step_alive _ _ (by norm_num),
      crushed_step_alive _ _ (by norm_num), crushed_step_alive _ _ (by norm_num),
      crushed_step_alive _ _ (by norm_num)]
    norm_num
  refine ⟨h5, ?_⟩
  rw [Function.iterate_succ_apply', h5]
  exact crushed_step_dead clock _ (by norm_num)

end DeathMarkers

/-! ## Death under sustained crushing -/

namespace DeathMarkers

section CrushClaim
variable {K : Type} [LinearOrderedField K]

theorem crushTicks_succ (crushThreshold stressRate dt stressThreshold : K)
    (contacts : Nat → Nat) (k : Nat) (p : Particle K) :
    crushTicks crushThreshold stressRate dt stressThreshold contacts (k + 1) p =
      stressUpdate crushThreshold stressRate dt stressThreshold
        { crushTicks crushThreshold stressRate dt stressThreshold contacts k p with
          contacts := contacts k } := rfl

/-- Under sustained crushing the stress after `k` ticks is the initial stress plus
`k * stressRate * dt`. -/
theorem crushTicks_stress (crushThreshold stressRate dt stressThreshold : K)
    (contacts : Nat → Nat) (hc : ∀ k, crushThreshold ≤ (contacts k : K)) (p : Particle K)
    (k : Nat) :
    (crushTicks crushThreshold stressRate dt stressThreshold contacts k p).stress =
      p.stress + k * (stressRate * dt) := by
  induction k with
  | zero => simp [crushTicks]
  | succ k ih =>
    rw [crushTicks_succ, stressUpdate_stress_dm]
    simp only
    rw [if_pos (hc k), ih]
    push_cast
    ring

/-- In exact arithmetic, with `stressRate * dt > 0` and `stressThreshold > 0`, a particle
that starts with stress `0`, is alive and has at least `crushThreshold` contacts in every
tick has stress `k * stressRate * dt` after `k` ticks (non-decreasing tick over tick); its
death flag is set in tick `ceil(stressThreshold / (stressRate * dt))` and in no earlier
tick. -/
theorem crushTicks_death [FloorRing K] (crushThreshold stressRate dt stressThreshold : K)
    (hrd : 0 < stressRate * dt) (hthr : 0 < stressThreshold)
    (contacts : Nat → Nat) (hc : ∀ k, crushThreshold ≤ (contacts k : K)) (p : Particle K)
    (hs : p.stress = 0) (hd : p.dead = false) :
    (∀ k, (crushTicks crushThreshold stressRate dt stressThreshold contacts k p).stress =
      k * (stressRate * dt)) ∧
    (∀ k, (crushTicks crushThreshold stressRate dt stressThreshold contacts k p).stress ≤
      (crushTicks crushThreshold stressRate dt stressThreshold contacts (k + 1) p).stress) ∧
    (crushTicks crushThreshold stressRate dt stressThreshold contacts
      (Nat.ceil (stressThreshold / (stressRate * dt))) p).dead = true ∧
    (∀ k, k < Nat.ceil (stressThreshold / (stressRate * dt)) →
      (crushTicks crushThreshold stressRate dt stressThreshold contacts k p).dead = false) := by
  have hst : ∀ k, (crushTicks crushThreshold stressRate dt stressThreshold contacts k p).stress =
      k * (stressRate * dt) := by
    intro k
    rw [crushTicks_stress _ _ _ _ _ hc, hs, zero_add]
  refine ⟨hst, ?_, ?_, ?_⟩
  · intro k
    rw [hst, hst]
    push_cast
    nlinarith
  · have hpos : 0 < Nat.ceil (stressThreshold / (stressRate * dt)) :=
      Nat.ceil_pos.2 (div_pos hthr hrd)
    obtain ⟨n, hn⟩ : ∃ n, Nat.ceil (stressThreshold / (stressRate * dt)) = n + 1 :=
      ⟨Nat.ceil (stressThreshold / (stressRate * dt)) - 1, by omega⟩
    have hge : stressThreshold ≤ ((n + 1 : Nat) : K) * (stressRate * dt) := by
      have h1 := Nat.le_ceil (stressThreshold / (stressRate * dt))
      rw [hn] at h1
      exact (div_le_iff₀ hrd).1 h1
    rw [hn, crushTicks_succ, stressUpdate_dead_dm, ← crushTicks_succ, hst, if_pos hge]
  · intro k hk
    induction k with
    | zero => exact hd
    | succ k ih =>
      have hlt : ((k + 1 : Nat) : K) * (stressRate * dt) < stressThreshold := by
        have h1 := Nat.lt_ceil.1 hk
        exact (lt_div_iff₀ hrd).1 h1
      rw [crushTicks_succ, stressUpdate_dead_dm, ← crushTicks_succ, hst,
        if_neg (not_le.2 hlt)]
      exact ih (by omega)

end CrushClaim

end DeathMarkers

/-! ## Displacement in one step -/

section Norms
variable {K : Type} [LinearOrderedField K]

/-- With an exact square root, `sqrt a ≤ b` follows from `a ≤ b * b` for `b ≥ 0`. -/
theorem sqrt_le_of_le_sq (M : JSMath K) (hM : M.Exact) (a b : K) (ha : 0 ≤ a) (hb : 0 ≤ b)
    (h : a ≤ b * b) : M.sqrt a ≤ b := by
  have h1 := hM.sqrt_nonneg a
  have h2 := hM.sqrt_mul_self a ha
  by_contra hlt
  have h3 : b < M.sqrt a := lt_of_not_ge hlt
  nlinarith

/-- The triangle inequality for the Euclidean norm computed with an exact square root. -/
theorem euclid_add_le (M : JSMath K) (hM : M.Exact) (a b c d : K) :
    M.sqrt ((a + c) * (a + c) + (b + d) * (b + d)) ≤
      M.sqrt (a * a + b * b) + M.sqrt (c * c + d * d) := by
  have hu := hM.sqrt_nonneg (a * a + b * b)
  have hv := hM.sqrt_nonneg (c * c + d * d)
  have hu2 := hM.sqrt_mul_self (a * a + b * b) (by nlinarith [mul_self_nonneg a, mul_self_nonneg b])
  have hv2 := hM.sqrt_mul_self (c * c + d * d) (by nlinarith [mul_self_nonneg c, mul_self_nonneg d])
  apply sqrt_le_of_le_sq M hM
  · nlinarith [mul_self_nonneg (a + c), mul_self_nonneg (b + d)]
  · linarith
  · have hcs : a * c + b * d ≤ M.sqrt (a * a + b * b) * M.sqrt (c * c + d * d) := by
      by_contra hlt
      have h3 := lt_of_not_ge hlt
      have h4 : 0 ≤ M.sqrt (a * a + b * b) * M.sqrt (c * c + d * d) := mul_nonneg hu hv
      have h5 : (M.sqrt (a * a + b * b) * M.sqrt (c * c + d * d)) *
          (M.sqrt (a * a + b * b) * M.sqrt (c * c + d * d)) =
          (a * a + b * b) * (c * c + d * d) := by
        calc _ = (M.sqrt (a * a + b * b) * M.sqrt (a * a + b * b)) *
            (M.sqrt (c * c + d * d) * M.sqrt (c * c + d * d)) := by ring
          _ = _ := by rw [hu2, hv2]
      nlinarith [mul_self_nonneg (a * d - b * c)]
    nlinarith

/-- The distance between two points changes by at most the sum of the lengths of their
displacements. -/
theorem dist_change_le (M : JSMath K) (hM : M.Exact) (ax ay bx yb ux uy vx vy : K) :
    |M.sqrt ((ax + ux - (bx + vx)) * (ax + ux - (bx + vx)) +
        (ay + uy - (yb + vy)) * (ay + uy - (yb + vy))) -
      M.sqrt ((ax - bx) * (ax - bx) + (ay - yb) * (ay - yb))| ≤
      M.sqrt (ux * ux + uy * uy) + M.sqrt (vx * vx + vy * vy) := by
  have h1 := euclid_add_le M hM (ax - bx) (ay - yb) (ux - vx) (uy - vy)
  have h2 := euclid_add_le M hM (ax + ux - (bx + vx)) (ay + uy - (yb + vy)) (vx - ux) (vy - uy)
  have h3 := euclid_add_le M hM ux uy (-vx) (-vy)
  have e1 : (ax - bx + (ux - vx)) = ax + ux - (bx + vx) := by ring
  have e2 : (ay - yb + (uy - vy)) = ay + uy - (yb + vy) := by ring
  have e3 : (ax + ux - (bx + vx) + (vx - ux)) = ax - bx := by ring
  have e4 : (ay + uy - (yb + vy) + (vy - uy)) = ay - yb := by ring
  have e5 : (vx - ux) * (vx - ux) + (vy - uy) * (vy - uy) =
      (ux - vx) * (ux - vx) + (uy - vy) * (uy - vy) := by ring
  have e6 : (ux + -vx) * (ux + -vx) + (uy + -vy) * (uy + -vy) =
      (ux - vx) * (ux - vx) + (uy - vy) * (uy - vy) := by ring
  have e7 : -vx * -vx + -vy * -vy = vx * vx + vy * vy := by ring
  rw [e1, e2] at h1
  rw [e3, e4, e5] at h2
  rw [e6, e7] at h3
  rw [abs_le]
  constructor <;> linarith

end Norms

/-! ## Target assignment -/

section ClosestTarget
variable {K : Type} [LinearOrderedField K]

theorem closestTargetLoop_cons (M : JSMath K) (px py : K) (t : Target K)
    (ts : List (Target K)) (i : Nat) (best : Option K) (idx : Int) :
    closestTargetLoop M px py (t :: ts) i best idx =
      if ltInfinity (targetDistance M px py t) best = true then
        closestTargetLoop M px py ts (i + 1) (some (targetDistance M px py t)) (i : Int)
      else closestTargetLoop M px py ts (i + 1) best idx := rfl

/-- The scan of `findClosestTargets`, started after the targets `pre` with the running
minimum of `pre`, returns the first index of a target at minimum distance. -/
theorem closestTargetLoop_spec (M : JSMath K) (px py : K) (ts pre : List (Target K))
    (best : Option K) (idx : Int)
    (hinv : (pre = [] ∧ best = none ∧ idx = -1) ∨
      ∃ (j : Nat) (t0 : Target K), idx = (j : Int) ∧ best = some (targetDistance M px py t0) ∧
        pre[j]? = some t0 ∧
        (∀ t ∈ pre, targetDistance M px py t0 ≤ targetDistance M px py t) ∧
        ∀ k t, k < j → pre[k]? = some t →
          targetDistance M px py t0 < targetDistance M px py t) :
    (pre ++ ts = [] ∧ closestTargetLoop M px py ts pre.length best idx = -1) ∨
      ∃ (j : Nat) (t0 : Target K),
        closestTargetLoop M px py ts pre.length best idx = (j : Int) ∧
        (pre ++ ts)[j]? = some t0 ∧
        (∀ t ∈ pre ++ ts, targetDistance M px py t0 ≤ targetDistance M px py t) ∧
        ∀ k t, k < j → (pre ++ ts)[k]? = some t →
          targetDistance M px py t0 < targetDistance M px py t := by
  induction ts generalizing pre best idx with
  | nil =>
    rcases hinv with ⟨h1, h2, h3⟩ | ⟨j, t0, h1, h2, h3, h4, h5⟩
    · left
      subst h1
      exact ⟨rfl, h3⟩
    · right
      refine ⟨j, t0, h1, by simpa using h3, by simpa using h4, ?_⟩
      intro k t hk ht
      exact h5 k t hk (by simpa using ht)
  | cons t ts ih =>
    rw [closestTargetLoop_cons]
    have hlen : (pre ++ [t]).length = pre.length + 1 := by simp
    have happ : pre ++ t :: ts = (pre ++ [t]) ++ ts := by simp
    rw [happ]
    right
    have key : ∀ best2 idx2,
        ((pre ++ [t] = [] ∧ best2 = none ∧ idx2 = -1) ∨
          ∃ (j : Nat) (t0 : Target K), idx2 = (j : Int) ∧
            best2 = some (targetDistance M px py t0) ∧ (pre ++ [t])[j]? = some t0 ∧
            (∀ u ∈ pre ++ [t], targetDistance M px py t0 ≤ targetDistance M px py u) ∧
            ∀ k u, k < j → (pre ++ [t])[k]? = some u →
              targetDistance M px py t0 < targetDistance M px py u) →
        ∃ (j : Nat) (t0 : Target K),
          closestTargetLoop M px py ts (pre.length + 1) best2 idx2 = (j : Int) ∧
          (pre ++ [t] ++ ts)[j]? = some t0 ∧
          (∀ u ∈ pre ++ [t] ++ ts, targetDistance M px py t0 ≤ targetDistance M px py u) ∧
          ∀ k u, k < j → (pre ++ [t] ++ ts)[k]? = some u →
            targetDistance M px py t0 < targetDistance M px py u := by
      intro best2 idx2 h
      have := ih (pre ++ [t]) best2 idx2 h
      rw [hlen] at this
      rcases this with ⟨h1, -⟩ | h1
      · simp at h1
      · exact h1
    by_cases hlt : ltInfinity (targetDistance M px py t) best = true
    · rw [if_pos hlt]
      apply key
      right
      refine ⟨pre.length, t, rfl, rfl, by simp, ?_, ?_⟩
      · intro u hu
        rcases List.mem_append.1 hu with hu1 | hu1
        · rcases hinv with ⟨h1, -, -⟩ | ⟨j, t0, -, h2, -, h4, -⟩
          · subst h1; simp at hu1
          · subst h2
            have hb : targetDistance M px py t < targetDistance M px py t0 := by
              simpa [ltInfinity] using hlt
            exact le_of_lt (lt_of_lt_of_le hb (h4 u hu1))
        · simp at hu1
          subst hu1
          exact le_refl _
      · intro k u hk hu
        rw [List.getElem?_append_left hk] at hu
        rcases hinv with ⟨h1, -, -⟩ | ⟨j, t0, -, h2, -, h4, -⟩
        · subst h1; simp at hk
        · subst h2
          have hb : targetDistance M px py t < targetDistance M px py t0 := by
            simpa [ltInfinity] using hlt
          exact lt_of_lt_of_le hb (h4 u (List.getElem?_mem hu))
    · rw [if_neg hlt]
      apply key
      right
      rcases hinv with ⟨-, h2, -⟩ | ⟨j, t0, h1, h2, h3, h4, h5⟩
      · subst h2
        simp [ltInfinity] at hlt
      · subst h2
        have hb : targetDistance M px py t0 ≤ targetDistance M px py t := by
          simpa [ltInfinity] using hlt
        have hj : j < pre.length := lt_length_of_getElem? h3
        refine ⟨j, t0, h1, rfl, ?_, ?_, ?_⟩
        · rw [List.getElem?_append_left hj]; exact h3
        · intro u hu
          rcases List.mem_append.1 hu with hu1 | hu1
          · exact h4 u hu1
          · simp at hu1
            subst hu1
            exact hb
        · intro k u hk hu
          rw [List.getElem?_append_left (by omega)] at hu
          exact h5 k u hk hu

end ClosestTarget

namespace VaryingPopulation

section EscapeBound
variable {K : Type} [LinearOrderedField K]

/-- A particle that no contact test has marked still has the zero escape vector. -/
theorem contactPair_escape_zero (M : JSMath K) (ps : List (Particle K)) (i j : Nat)
    (h : ∀ q ∈ ps, q.inContact = false → q.ve.x = 0 ∧ q.ve.y = 0) :
    ∀ q ∈ contactPair M ps i j, q.inContact = false → q.ve.x = 0 ∧ q.ve.y = 0 := by
  unfold contactPair
  split
  · next pi pj hi hj =>
    simp only
    split
    · intro q hq
      rcases List.mem_or_eq_of_mem_set hq with hq1 | rfl
      · rcases List.mem_or_eq_of_mem_set hq1 with hq2 | rfl
        · exact h q hq2
        · intro hc; simp at hc
      · intro hc; simp at hc
    · exact h
  · exact h

theorem particleContacts_escape_zero (M : JSMath K) (ps : List (Particle K))
    (h : ∀ q ∈ ps, q.inContact = false → q.ve.x = 0 ∧ q.ve.y = 0) :
    ∀ q ∈ particleContacts M ps, q.inContact = false → q.ve.x = 0 ∧ q.ve.y = 0 := by
  unfold particleContacts
  refine foldl_preserves
    (fun (acc : List (Particle K)) => ∀ q ∈ acc, q.inContact = false → q.ve.x = 0 ∧ q.ve.y = 0)
    _ ?_ _ _ h
  intro acc i hacc
  refine foldl_preserves
    (fun (acc : List (Particle K)) => ∀ q ∈ acc, q.inContact = false → q.ve.x = 0 ∧ q.ve.y = 0)
    _ ?_ _ _ hacc
  intro acc2 j h2
  exact contactPair_escape_zero M acc2 i j h2

theorem boundaryContact_escape_zero (M : JSMath K) (q : Particle K) (b : Boundary K)
    (h : q.inContact = false → q.ve.x = 0 ∧ q.ve.y = 0) :
    (boundaryContact M q b).inContact = false →
      (boundaryContact M q b).ve.x = 0 ∧ (boundaryContact M q b).ve.y = 0 := by
  unfold boundaryContact
  simp only
  split
  · split <;> (intro hc; simp at hc)
  · exact h

theorem boundaryFold_escape_zero (M : JSMath K) (bs : List (Boundary K)) (q : Particle K)
    (h : q.inContact = false → q.ve.x = 0 ∧ q.ve.y = 0) :
    (bs.foldl (boundaryContact M) q).inContact = false →
      (bs.foldl (boundaryContact M) q).ve.x = 0 ∧ (bs.foldl (boundaryContact M) q).ve.y = 0 :=
  foldl_preserves (fun (q : Particle K) => q.inContact = false → q.ve.x = 0 ∧ q.ve.y = 0) _
    (fun q b hq => boundaryContact_escape_zero M q b hq) _ _ h

/-- The escape velocity left by the normalisation is either the zero vector or has
Euclidean norm `vdMax`. -/
theorem normalizeEscape_escape (M : JSMath K) (hM : M.Exact) (a : Particle K)
    (h : a.inContact = false → a.ve.x = 0 ∧ a.ve.y = 0) :
    ((normalizeEscape M a).ve.x = 0 ∧ (normalizeEscape M a).ve.y = 0) ∨
    (normalizeEscape M a).ve.x * (normalizeEscape M a).ve.x +
      (normalizeEscape M a).ve.y * (normalizeEscape M a).ve.y = a.vdMax * a.vdMax := by
  unfold normalizeEscape
  by_cases hc : a.inContact = true
  · rw [if_pos hc]
    simp only
    have hnn : 0 ≤ a.ve.x ^ 2 + a.ve.y ^ 2 := by positivity
    have hsq := hM.sqrt_mul_self _ hnn
    by_cases hm : M.sqrt (a.ve.x ^ 2 + a.ve.y ^ 2) > 0
    · rw [if_pos hm]
      right
      simp only
      rw [hM.div_eq _ _ (ne_of_gt hm), hM.div_eq _ _ (ne_of_gt hm)]
      generalize M.sqrt (a.ve.x ^ 2 + a.ve.y ^ 2) = m at hsq hm
      have hne : m ≠ 0 := ne_of_gt hm
      have h1 : a.ve.x / m * a.vdMax * (a.ve.x / m * a.vdMax) +
          a.ve.y / m * a.vdMax * (a.ve.y / m * a.vdMax) =
          (a.ve.x ^ 2 + a.ve.y ^ 2) / (m * m) * (a.vdMax * a.vdMax) := by
        field_simp
        ring
      rw [h1, ← hsq, div_self (mul_ne_zero hne hne), one_mul]
    · rw [if_neg hm]
      left
      have h0 : M.sqrt (a.ve.x ^ 2 + a.ve.y ^ 2) = 0 :=
        le_antisymm (le_of_not_gt hm) (hM.sqrt_nonneg _)
      rw [h0, zero_mul] at hsq
      have hx : a.ve.x ^ 2 = 0 := by nlinarith [sq_nonneg a.ve.x, sq_nonneg a.ve.y]
      have hy : a.ve.y ^ 2 = 0 := by nlinarith [sq_nonneg a.ve.x, sq_nonneg a.ve.y]
      exact ⟨pow_eq_zero_iff (by norm_num) |>.1 hx, pow_eq_zero_iff (by norm_num) |>.1 hy⟩
  · rw [if_neg hc]
    left
    exact h (by simpa using hc)

/-- After the contact pass every escape velocity is zero or of norm `vdMax`. -/
theorem findContacts_escape (M : JSMath K) (hM : M.Exact) (s : ParticleModel K)
    (q : Particle K) (hq : q ∈ (findContacts M s).particles) :
    (q.ve.x = 0 ∧ q.ve.y = 0) ∨ q.ve.x * q.ve.x + q.ve.y * q.ve.y = q.vdMax * q.vdMax := by
  have hq2 : q ∈ ((particleContacts M (s.particles.map resetContact)).map
      (fun particle => s.boundaries.foldl (boundaryContact M) particle)).map
        (normalizeEscape M) := hq
  obtain ⟨a, ha, rfl⟩ := List.mem_map.1 hq2
  obtain ⟨a0, ha0, rfl⟩ := List.mem_map.1 ha
  have hz := particleContacts_escape_zero M (s.particles.map resetContact) (by
    intro q hq _
    obtain ⟨q0, -, rfl⟩ := List.mem_map.1 hq
    exact ⟨rfl, rfl⟩) a0 ha0
  have hb := boundaryFold_escape_zero M s.boundaries a0 hz
  have hv : (normalizeEscape M (s.boundaries.foldl (boundaryContact M) a0)).vdMax =
      (s.boundaries.foldl (boundaryContact M) a0).vdMax :=
    (fields_of_reset_eq (normalizeEscape_reset M _)).2.2.2.2.2.2.2.1
  rw [hv]
  exact normalizeEscape_escape M hM _ hb

end EscapeBound

end VaryingPopulation

section ClosestTarget2
variable {K : Type} [LinearOrderedField K]

theorem assignedTarget_natCast (targets : List (Target K)) (j : Nat) :
    assignedTarget targets (j : Int) = targets[j]? := by
  unfold assignedTarget
  by_cases h : j < targets.length
  · rw [if_pos ⟨by omega, by exact_mod_cast h⟩]
    simp
  · rw [if_neg (fun hc => h (by exact_mod_cast hc.2))]
    exact (List.getElem?_eq_none (by omega)).symm

theorem assignedTarget_nil (targetIndex : Int) :
    assignedTarget ([] : List (Target K)) targetIndex = none := by
  unfold assignedTarget
  split
  · next h => simp at h; omega
  · rfl

/-- The whole scan from index `0`: `-1` for an empty target list, else the first index of
a target at minimum distance. -/
theorem closestTargetLoop_full (M : JSMath K) (px py : K) (targets : List (Target K)) :
    (targets = [] ∧ closestTargetLoop M px py targets 0 none (-1) = -1) ∨
      ∃ (j : Nat) (t0 : Target K),
        closestTargetLoop M px py targets 0 none (-1) = (j : Int) ∧
        targets[j]? = some t0 ∧
        (∀ t ∈ targets, targetDistance M px py t0 ≤ targetDistance M px py t) ∧
        ∀ k t, k < j → targets[k]? = some t →
          targetDistance M px py t0 < targetDistance M px py t := by
  have h := closestTargetLoop_spec M px py targets [] none (-1) (Or.inl ⟨rfl, rfl, rfl⟩)
  simpa using h

end ClosestTarget2

namespace VaryingPopulation

section VelocityBound
variable {K : Type} [LinearOrderedField K]

/-- The desired speed lies between `0` and `vdMax` for a radius between the bounds. -/
theorem calculateDesiredVelocity_bounds (M : JSMath K) (hM : M.Exact) (beta : K)
    (hbeta : 0 < beta) (p : Particle K) (hlt : p.rMin < p.rMax) (h1 : p.rMin ≤ p.r)
    (h2 : p.r ≤ p.rMax) (hv : 0 ≤ p.vdMax) :
    0 ≤ calculateDesiredVelocity M beta p ∧ calculateDesiredVelocity M beta p ≤ p.vdMax := by
  unfold calculateDesiredVelocity
  simp only
  have hd : 0 < p.rMax - p.rMin := by linarith
  rw [hM.div_eq _ _ (ne_of_gt hd)]
  have hn0 : 0 ≤ (p.r - p.rMin) / (p.rMax - p.rMin) := div_nonneg (by linarith) (le_of_lt hd)
  have hn1 : (p.r - p.rMin) / (p.rMax - p.rMin) ≤ 1 := by
    rw [div_le_one hd]
    linarith
  have hp0 : 0 ≤ M.pow ((p.r - p.rMin) / (p.rMax - p.rMin)) beta := by
    have := hM.pow_mono 0 _ beta (le_refl _) hn0 hbeta
    rwa [hM.pow_zero_base beta hbeta] at this
  have hp1 : M.pow ((p.r - p.rMin) / (p.rMax - p.rMin)) beta ≤ 1 := by
    have := hM.pow_mono _ 1 beta hn0 hn1 hbeta
    rwa [hM.pow_one_base beta] at this
  exact ⟨mul_nonneg hv hp0, by nlinarith⟩

/-- The desired velocity written by the planner has norm at most `vdMax`. -/
theorem desiredVelocity_bound (M : JSMath K) (hM : M.Exact) (beta : K) (hbeta : 0 < beta)
    (targets : List (Target K)) (p : Particle K) (hlt : p.rMin < p.rMax)
    (h2 : p.r ≤ p.rMax) (hv : 0 ≤ p.vdMax)
    (hstale : assignedTarget targets p.targetIndex = none → p.vd.x = 0 ∧ p.vd.y = 0)
    (hr : p.rMin < p.r) :
    (desiredVelocity M beta targets p).vd.x * (desiredVelocity M beta targets p).vd.x +
      (desiredVelocity M beta targets p).vd.y * (desiredVelocity M beta targets p).vd.y ≤
      p.vdMax * p.vdMax := by
  unfold desiredVelocity
  cases hT : assignedTarget targets p.targetIndex with
  | none =>
    obtain ⟨hx, hy⟩ := hstale hT
    simp only [hx, hy]
    nlinarith [mul_self_nonneg p.vdMax]
  | some target =>
    simp only
    by_cases hm : M.sqrt ((target.x - p.x) * (target.x - p.x) +
        (target.y - p.y) * (target.y - p.y)) > 0
    · rw [if_pos hm]
      simp only
      obtain ⟨c0, c1⟩ := calculateDesiredVelocity_bounds M hM beta hbeta p hlt (le_of_lt hr) h2 hv
      have hsq := hM.sqrt_mul_self ((target.x - p.x) * (target.x - p.x) +
        (target.y - p.y) * (target.y - p.y))
        (by nlinarith [mul_self_nonneg (target.x - p.x), mul_self_nonneg (target.y - p.y)])
      rw [hM.div_eq _ _ (ne_of_gt hm), hM.div_eq _ _ (ne_of_gt hm)]
      generalize M.sqrt ((target.x - p.x) * (target.x - p.x) +
        (target.y - p.y) * (target.y - p.y)) = m at hsq hm
      generalize calculateDesiredVelocity M beta p = c at c0 c1
      have hne : m ≠ 0 := ne_of_gt hm
      have h1 : (target.x - p.x) / m * c * ((target.x - p.x) / m * c) +
          (target.y - p.y) / m * c * ((target.y - p.y) / m * c) =
          ((target.x - p.x) * (target.x - p.x) + (target.y - p.y) * (target.y - p.y)) /
            (m * m) * (c * c) := by
        field_simp
        ring
      rw [h1, ← hsq, div_self (mul_ne_zero hne hne), one_mul]
      nlinarith
    · rw [if_neg hm]
      simp only
      nlinarith [mul_self_nonneg p.vdMax]

/-- In a reachable state without targets every desired velocity is still the zero vector. -/
theorem reachable_no_target_vd (M : JSMath K) (options : Options K) (s : ParticleModel K)
    (h : Reachable M options s) :
    s.targets = [] → ∀ p ∈ s.particles, p.vd.x = 0 ∧ p.vd.y = 0 := by
  have hadd : ∀ (t : ParticleModel K) x y key,
      (t.targets = [] → ∀ p ∈ t.particles, p.vd.x = 0 ∧ p.vd.y = 0) →
      (addParticleKey t x y key).targets = [] →
        ∀ p ∈ (addParticleKey t x y key).particles, p.vd.x = 0 ∧ p.vd.y = 0 := by
    intro t x y key ht hnil p hp
    simp only [addParticleKey, List.mem_append, List.mem_singleton] at hp
    rcases hp with hp | rfl
    · exact ht hnil p hp
    · exact ⟨rfl, rfl⟩
  induction h with
  | init => intro _ p hp; simp [ParticleModel.new] at hp
  | addParticle x y demographic _ hadd2 ih =>
    unfold addParticle at hadd2
    split at hadd2
    · cases hadd2; exact hadd _ _ _ _ ih
    · cases hadd2
  | addParticlesWithDemographics x y count rnd _ ih =>
    unfold addParticlesWithDemographics
    exact foldl_preserves
      (fun (t : ParticleModel K) => t.targets = [] → ∀ p ∈ t.particles, p.vd.x = 0 ∧ p.vd.y = 0)
      _ (fun b a hb => hadd _ _ _ _ hb) _ _ ih
  | addTarget x y _ ih => intro hnil; simp [addTarget] at hnil
  | addBoundary x1 y1 x2 y2 _ ih => exact ih
  | findClosestTargets _ ih =>
    intro hnil p hp
    simp only [findClosestTargets, List.mem_map] at hp
    obtain ⟨p0, hp0, rfl⟩ := hp
    exact ih hnil p0 hp0
  | setStartTime now _ ih => exact ih
  | @step s clock hs ih =>
    intro hnil q hq
    have ht : s.targets = [] := by rw [← (step_frame M clock s).2.1]; exact hnil
    obtain ⟨p, hp, -, rfl⟩ := step_mem M clock s q hq
    obtain ⟨p0, hp0, he⟩ := findContacts_mem M s p hp
    obtain ⟨hx, hy⟩ := ih ht p0 hp0
    have hvd : p.vd = p0.vd := (fields_of_reset_eq he).2.2.2.2.2.2.2.2.1
    have h1 : (move s.dt (desiredVelocity M s.beta s.targets (closestTarget M s.targets
        (stressUpdate s.stressRate s.dt (adjustRadius M s.tau s.dt p))))).vd = p.vd := by
      rw [(move_fields _ _).2.2.2.2.2.2.1]
      unfold desiredVelocity
      rw [ht, assignedTarget_nil]
      simp only
      rw [(closestTarget_fields _ _ _).2.2.2.2.2.2.2.2.1,
        (stressUpdate_fields _ _ _).2.2.2.2.2.2.2.2.1,
        (adjustRadius_fields _ _ _ _).2.2.2.2.2.2.2.1]
    rw [h1, hvd]
    exact ⟨hx, hy⟩
  | reset _ ih => intro _ p hp; simp [reset] at hp

end VelocityBound

end VaryingPopulation

namespace VaryingPopulation

section Displacement
variable {K : Type} [LinearOrderedField K]

/-- Every particle entering the integrator is the image of a particle of the contact pass
that the stress pass left alive. -/
theorem beforeMove_mem (M : JSMath K) (s : ParticleModel K) (p : Particle K)
    (hp : p ∈ (beforeMove M s).particles) :
    ∃ a ∈ (findContacts M s).particles,
      (stressUpdate s.stressRate s.dt (adjustRadius M s.tau s.dt a)).dead = false ∧
      p = desiredVelocity M s.beta s.targets (closestTarget M s.targets
        (stressUpdate s.stressRate s.dt (adjustRadius M s.tau s.dt a))) := by
  rw [beforeMove_particles] at hp
  obtain ⟨q2, h2, rfl⟩ := List.mem_map.1 hp
  obtain ⟨q3, h3, rfl⟩ := List.mem_map.1 h2
  obtain ⟨h4, hdead⟩ := List.mem_filter.1 h3
  obtain ⟨q5, h5, rfl⟩ := List.mem_map.1 h4
  obtain ⟨a, ha, rfl⟩ := List.mem_map.1 h5
  exact ⟨a, ha, by simpa using hdead, rfl⟩

theorem adjustRadius_le_max (M : JSMath K) (tau dt : K) (a : Particle K)
    (h : a.rMin ≤ a.rMax) : (adjustRadius M tau dt a).r ≤ a.rMax := by
  unfold adjustRadius
  split
  · exact h
  · exact min_le_right _ _

/-- The displacement applied by the integrator to a particle of a reachable state. -/
theorem move_displacement (M : JSMath K) (hM : M.Exact) (options : Options K)
    (hbeta : 0 < (ParticleModel.new M options).beta) (s : ParticleModel K)
    (h : Reachable M options s) (p : Particle K) (hp : p ∈ (beforeMove M s).particles) :
    ∃ ux uy, (move s.dt p).x = p.x + ux ∧ (move s.dt p).y = p.y + uy ∧
      M.sqrt (ux * ux + uy * uy) ≤ p.vdMax * s.dt ∧ p.vdMax * s.dt ≤ 0.15 / 2 := by
  obtain ⟨a, ha, -, rfl⟩ := beforeMove_mem M s p hp
  obtain ⟨a0, ha0, he⟩ := findContacts_mem M s a ha
  obtain ⟨-, -, e3, -, -, e6, e7, e8, e9, -⟩ := fields_of_reset_eq he
  obtain ⟨-, g2, g3, g4⟩ := reachable_fromRegistry M options s h a0 ha0
  obtain ⟨r1, r2, r3, r4, -⟩ := registry_facts (K := K) a0.demographic
  obtain ⟨-, hb, -, hd, -⟩ := fields_of_params (reachable_params M options s h)
  have hdt : s.dt = 3 / 80 := by rw [hd, new_dt M hM.toDivExact]
  have hbeta2 : 0 < s.beta := by rw [hb]; exact hbeta
  have hmin : a.rMin < a.rMax := by rw [e6, e7, g2, g3]; exact r2
  have hv0 : 0 < a.vdMax := by rw [e8, g4]; exact r3
  have hv2 : a.vdMax ≤ 2 := by rw [e8, g4]; exact r4
  -- the particle after the radius, stress and target passes
  obtain ⟨-, -, -, -, a5, a6, a7, a8, a9, -⟩ := adjustRadius_fields M s.tau s.dt a
  obtain ⟨-, -, -, -, b5, b6, b7, b8, b9, b10, -⟩ :=
    stressUpdate_fields s.stressRate s.dt (adjustRadius M s.tau s.dt a)
  obtain ⟨-, -, -, -, c5, c6, c7, c8, c9, -⟩ := desiredVelocity_fields M s.beta s.targets
    (closestTarget M s.targets (stressUpdate s.stressRate s.dt (adjustRadius M s.tau s.dt a)))
  have hr : (closestTarget M s.targets
      (stressUpdate s.stressRate s.dt (adjustRadius M s.tau s.dt a))).r =
      (adjustRadius M s.tau s.dt a).r := b5
  have hrmin : (closestTarget M s.targets
      (stressUpdate s.stressRate s.dt (adjustRadius M s.tau s.dt a))).rMin = a.rMin :=
    b6.trans a5
  have hrmax : (closestTarget M s.targets
      (stressUpdate s.stressRate s.dt (adjustRadius M s.tau s.dt a))).rMax = a.rMax :=
    b7.trans a6
  have hvmax : (closestTarget M s.targets
      (stressUpdate s.stressRate s.dt (adjustRadius M s.tau s.dt a))).vdMax = a.vdMax :=
    b8.trans a7
  have hvd : (closestTarget M s.targets
      (stressUpdate s.stressRate s.dt (adjustRadius M s.tau s.dt a))).vd = a.vd :=
    b9.trans a8
  have hve : (closestTarget M s.targets
      (stressUpdate s.stressRate s.dt (adjustRadius M s.tau s.dt a))).ve = a.ve :=
    b10.trans a9
  generalize hq : closestTarget M s.targets
    (stressUpdate s.stressRate s.dt (adjustRadius M s.tau s.dt a)) = q at *
  have hstale : assignedTarget s.targets q.targetIndex = none → q.vd.x = 0 ∧ q.vd.y = 0 := by
    intro hnone
    have hnil : s.targets = [] := by
      rcases closestTargetLoop_full M (stressUpdate s.stressRate s.dt
          (adjustRadius M s.tau s.dt a)).x (stressUpdate s.stressRate s.dt
          (adjustRadius M s.tau s.dt a)).y s.targets with ⟨h1, -⟩ | ⟨j, t0, h1, h2, -⟩
      · exact h1
      · have : q.targetIndex = (j : Int) := by rw [← hq]; exact h1
        rw [this, assignedTarget_natCast, h2] at hnone
        cases hnone
    obtain ⟨hx, hy⟩ := reachable_no_target_vd M options s h hnil a0 ha0
    rw [hvd, e9]
    exact ⟨hx, hy⟩
  have hle : q.r ≤ q.rMax := by
    rw [hr, hrmax]
    exact adjustRadius_le_max M s.tau s.dt a (le_of_lt hmin)
  have hesc := findContacts_escape M hM s a ha
  have hvel : ∃ vx vy : K, (move s.dt (desiredVelocity M s.beta s.targets q)).x =
        (desiredVelocity M s.beta s.targets q).x + vx * s.dt ∧
      (move s.dt (desiredVelocity M s.beta s.targets q)).y =
        (desiredVelocity M s.beta s.targets q).y + vy * s.dt ∧
      vx * vx + vy * vy ≤ a.vdMax * a.vdMax := by
    by_cases hgt : (desiredVelocity M s.beta s.targets q).r >
        (desiredVelocity M s.beta s.targets q).rMin
    · refine ⟨(desiredVelocity M s.beta s.targets q).vd.x,
        (desiredVelocity M s.beta s.targets q).vd.y, ?_, ?_, ?_⟩
      · unfold move; simp only; rw [if_pos hgt]
      · unfold move; simp only; rw [if_pos hgt]
      · have hgt2 : q.rMin < q.r := by rw [← c5, ← c6]; exact hgt
        have := desiredVelocity_bound M hM s.beta hbeta2 s.targets q
          (by rw [hrmin, hrmax]; exact hmin) hle (by rw [hvmax]; exact le_of_lt hv0) hstale hgt2
        rw [hvmax] at this
        exact this
    · refine ⟨(desiredVelocity M s.beta s.targets q).ve.x,
        (desiredVelocity M s.beta s.targets q).ve.y, ?_, ?_, ?_⟩
      · unfold move; simp only; rw [if_neg hgt]
      · unfold move; simp only; rw [if_neg hgt]
      · rw [c9, hve]
        rcases hesc with ⟨hx, hy⟩ | hn
        · rw [hx, hy, mul_zero, add_zero]
          exact mul_self_nonneg _
        · exact le_of_eq hn
  obtain ⟨vx, vy, hx, hy, hvv⟩ := hvel
  have hdt0 : 0 ≤ s.dt := by rw [hdt]; norm_num
  refine ⟨vx * s.dt, vy * s.dt, hx, hy, ?_, ?_⟩
  · rw [c8, hvmax]
    apply sqrt_le_of_le_sq M hM
    · exact add_nonneg (mul_self_nonneg _) (mul_self_nonneg _)
    · exact mul_nonneg (le_of_lt hv0) hdt0
    · have h1 : vx * s.dt * (vx * s.dt) + vy * s.dt * (vy * s.dt) =
          (vx * vx + vy * vy) * (s.dt * s.dt) := by ring
      have h2 : a.vdMax * s.dt * (a.vdMax * s.dt) = (a.vdMax * a.vdMax) * (s.dt * s.dt) := by
        ring
      rw [h1, h2]
      exact mul_le_mul_of_nonneg_right hvv (mul_self_nonneg _)
  · rw [c8, hvmax, hdt]
    linarith

end Displacement

end VaryingPopulation

namespace VaryingPopulation

section DisplacementClaim
variable {K : Type} [LinearOrderedField K]

/-- The positions entering the integrator are positions of the state the step began with. -/
theorem beforeMove_position (M : JSMath K) (s : ParticleModel K) (p : Particle K)
    (hp : p ∈ (beforeMove M s).particles) : ∃ p0 ∈ s.particles, p.x = p0.x ∧ p.y = p0.y := by
  obtain ⟨a, ha, -, rfl⟩ := beforeMove_mem M s p hp
  obtain ⟨a0, ha0, he⟩ := findContacts_mem M s a ha
  obtain ⟨e1, e2, -⟩ := fields_of_reset_eq he
  obtain ⟨a1, a2, -⟩ := adjustRadius_fields M s.tau s.dt a
  obtain ⟨b1, b2, -⟩ := stressUpdate_fields s.stressRate s.dt (adjustRadius M s.tau s.dt a)
  obtain ⟨c1, c2, -⟩ := desiredVelocity_fields M s.beta s.targets
    (closestTarget M s.targets (stressUpdate s.stressRate s.dt (adjustRadius M s.tau s.dt a)))
  refine ⟨a0, ha0, ?_, ?_⟩
  · rw [c1, (closestTarget_fields _ _ _).1, b1, a1, e1]
  · rw [c2, (closestTarget_fields _ _ _).2.1, b2, a2, e2]

/-- In the demographic variant with exact built-ins and `beta > 0`, one step
from a reachable state moves every particle that enters the integrator (the survivors of
the step are among their images) by a Euclidean distance of at most its own `vdMax * dt`,
which is at most `0.15 / 2 = 0.075`, half the least `rMin` of the registry; hence the
distance between the centres of any two particles changes by at most `0.15` in the step. -/
theorem reachable_displacement_bounded (M : JSMath K) (hM : M.Exact) (options : Options K)
    (hbeta : 0 < (ParticleModel.new M options).beta) (s : ParticleModel K)
    (h : Reachable M options s) (clock : Nat → K) :
    (step M clock s).particles =
      ((beforeMove M s).particles.map (move s.dt)).filter (fun p => !arrives M s.targets p) ∧
    (∀ p ∈ (beforeMove M s).particles, ∃ p0 ∈ s.particles, p.x = p0.x ∧ p.y = p0.y) ∧
    (∀ p ∈ (beforeMove M s).particles,
      M.sqrt (((move s.dt p).x - p.x) * ((move s.dt p).x - p.x) +
        ((move s.dt p).y - p.y) * ((move s.dt p).y - p.y)) ≤ p.vdMax * s.dt ∧
      p.vdMax * s.dt ≤ 0.15 / 2) ∧
    ((0.15 : K) / 2 = 0.075 ∧ (∀ d, (0.15 : K) ≤ (DEMOGRAPHICS d).rMin) ∧
      ∃ d, (DEMOGRAPHICS (K := K) d).rMin = 0.15) ∧
    (∀ p ∈ (beforeMove M s).particles, ∀ q ∈ (beforeMove M s).particles,
      |M.sqrt (((move s.dt p).x - (move s.dt q).x) * ((move s.dt p).x - (move s.dt q).x) +
          ((move s.dt p).y - (move s.dt q).y) * ((move s.dt p).y - (move s.dt q).y)) -
        M.sqrt ((p.x - q.x) * (p.x - q.x) + (p.y - q.y) * (p.y - q.y))| ≤ 0.15) := by
  refine ⟨step_particles M clock s, fun p hp => beforeMove_position M s p hp, ?_,
    ⟨by norm_num, fun d => (registry_facts d).2.2.2.2, ⟨.YOUTH, rfl⟩⟩, ?_⟩
  · intro p hp
    obtain ⟨ux, uy, hx, hy, h1, h2⟩ := move_displacement M hM options hbeta s h p hp
    rw [hx, hy]
    have e1 : p.x + ux - p.x = ux := by ring
    have e2 : p.y + uy - p.y = uy := by ring
    rw [e1, e2]
    exact ⟨h1, h2⟩
  · intro p hp q hq
    obtain ⟨ux, uy, hx, hy, h1, h2⟩ := move_displacement M hM options hbeta s h p hp
    obtain ⟨vx, vy, kx, ky, k1, k2⟩ := move_displacement M hM options hbeta s h q hq
    rw [hx, hy, kx, ky]
    have := dist_change_le M hM p.x p.y q.x q.y ux uy vx vy
    have h3 : (0.15 : K) / 2 + 0.15 / 2 = 0.15 := by norm_num
    linarith

end DisplacementClaim

/-- The built-ins over the reals are exact. -/
theorem real_exact :
    JSMath.Exact (⟨Real.sqrt, fun a b => a ^ b, fun a b => a / b⟩ : JSMath ℝ) where
  div_eq := fun _ _ _ => rfl
  sqrt_nonneg := fun a => Real.sqrt_nonneg a
  sqrt_mul_self := fun a ha => Real.mul_self_sqrt ha
  pow_zero_base := fun b hb => Real.zero_rpow (ne_of_gt hb)
  pow_one_base := fun b => Real.one_rpow b
  pow_mono := fun a c b ha hac hb => Real.rpow_le_rpow ha hac (le_of_lt hb)

end VaryingPopulation

namespace VaryingPopulation

section RadiusClaim
variable {K : Type} [LinearOrderedField K]

/-- Claim C11.  With exact division and `tau ≠ 0`, `adjustRadii` sets the radius of each
particle to its own `rMin` if its `inContact` flag is true and to
`min(r + (rMax / tau) * dt, rMax)` with its own `rMax` otherwise, and changes no other field
of the particle or of the model.  In Scenario A the radius pass that follows the contact
pass leaves both radii at `0.2`. -/
theorem adjustRadii_rule (M : JSMath K) (hM : M.DivExact) (s : ParticleModel K)
    (htau : s.tau ≠ 0) :
    adjustRadii M s =
      { s with particles := s.particles.map (fun p =>
          { p with r := if p.inContact = true then p.rMin
                        else min (p.r + p.rMax / s.tau * s.dt) p.rMax }) } ∧
    ((adjustRadii ratMath (findContacts ratMath scenarioA)).particles.map (fun p => p.r) =
      [1 / 5, 1 / 5]) := by
  constructor
  · unfold adjustRadii
    congr 1
    apply List.map_congr_left
    intro p _
    unfold adjustRadius
    by_cases h : p.inContact = true
    · rw [if_pos h, if_pos h]
    · rw [if_neg h, if_neg h]
      simp only
      rw [hM.div_eq _ _ htau]
  · show ((findContacts ratMath scenarioA).particles.map _).map _ = _
    rw [scenarioA_findContacts]
    simp [adjustRadius, Particle.new, DEMOGRAPHICS]
    norm_num

end RadiusClaim

/-- Witness for C11: Scenario A after its contact pass, where `tau = 0.5`. -/
theorem adjustRadii_rule_witness :
    JSMath.DivExact ratMath ∧ (findContacts ratMath scenarioA).tau ≠ 0 ∧
    (adjustRadii ratMath (findContacts ratMath scenarioA)).particles.map (fun p => p.r) =
      [1 / 5, 1 / 5] :=
  have h : (findContacts ratMath scenarioA).tau ≠ 0 := by
    show (ParticleModel.new ratMath ({} : Options ℚ)).tau ≠ 0
    rw [new_params_default.1]
    norm_num
  ⟨ratMath_divExact, h,
    (adjustRadii_rule ratMath ratMath_divExact (findContacts ratMath scenarioA) h).2⟩

section TargetClaim
variable {K : Type} [LinearOrderedField K]

/-- After `findClosestTargets`, with a non-empty target list the `targetIndex`
of every particle is an index whose target is at minimum distance from the particle among
all targets, and every target with a lower index is strictly farther; with an empty target
list every `targetIndex` is `-1`. -/
theorem findClosestTargets_numbers (M : JSMath K) (s : ParticleModel K) (q : Particle K)
    (hq : q ∈ (findClosestTargets M s).particles) :
    (s.targets = [] → q.targetIndex = -1) ∧
    (s.targets ≠ [] → ∃ (j : Nat) (t0 : Target K), q.targetIndex = (j : Int) ∧
      s.targets[j]? = some t0 ∧
      (∀ t ∈ s.targets, targetDistance M q.x q.y t0 ≤ targetDistance M q.x q.y t) ∧
      ∀ k t, k < j → s.targets[k]? = some t →
        targetDistance M q.x q.y t0 < targetDistance M q.x q.y t) := by
  simp only [findClosestTargets, List.mem_map] at hq
  obtain ⟨p, -, rfl⟩ := hq
  rcases closestTargetLoop_full M p.x p.y s.targets with ⟨h1, h2⟩ | h1
  · exact ⟨fun _ => h2, fun hne => absurd h1 hne⟩
  · refine ⟨fun hnil => ?_, fun _ => h1⟩
    obtain ⟨j, t0, -, h3, -⟩ := h1
    rw [hnil] at h3
    simp at h3

end TargetClaim

end VaryingPopulation

namespace VaryingPopulation

section PlannerClaim
variable {K : Type} [LinearOrderedField K]

theorem sqrt_zero_of_exact (M : JSMath K) (hM : M.Exact) : M.sqrt 0 = 0 := by
  have h := hM.sqrt_mul_self 0 (le_refl _)
  exact mul_self_eq_zero.1 h

/-- Claim C13.  With exact built-ins, after `computeDesiredVelocities` in a reachable state
a particle with a valid `targetIndex` at non-zero distance `d` from its target `T` has
`vd = m * (T - position) / d` and `vd.magnitude = m`, where
`m = vdMax * ((r - rMin) / (rMax - rMin)) ^ beta` with the particle's own `rMin`, `rMax` and
`vdMax`, so that `vd.x² + vd.y² = m²`; a particle at distance zero, in particular one exactly
at its target, has the zero vector with magnitude `0`. -/
theorem desiredVelocity_rule (M : JSMath K) (hM : M.Exact) (options : Options K)
    (s : ParticleModel K) (h : Reachable M options s) (i : Nat) (p : Particle K)
    (hp : s.particles[i]? = some p) (T : Target K)
    (hT : assignedTarget s.targets p.targetIndex = some T) :
    ∃ q, (computeDesiredVelocities M s).particles[i]? = some q ∧
      (targetDistance M p.x p.y T ≠ 0 →
        q.vd.x = p.vdMax * M.pow ((p.r - p.rMin) / (p.rMax - p.rMin)) s.beta *
          ((T.x - p.x) / targetDistance M p.x p.y T) ∧
        q.vd.y = p.vdMax * M.pow ((p.r - p.rMin) / (p.rMax - p.rMin)) s.beta *
          ((T.y - p.y) / targetDistance M p.x p.y T) ∧
        q.vd.magnitude = p.vdMax * M.pow ((p.r - p.rMin) / (p.rMax - p.rMin)) s.beta ∧
        q.vd.x * q.vd.x + q.vd.y * q.vd.y =
          (p.vdMax * M.pow ((p.r - p.rMin) / (p.rMax - p.rMin)) s.beta) *
            (p.vdMax * M.pow ((p.r - p.rMin) / (p.rMax - p.rMin)) s.beta)) ∧
      (targetDistance M p.x p.y T = 0 → q.vd = ⟨0, 0, 0⟩) ∧
      (T.x = p.x ∧ T.y = p.y → q.vd = ⟨0, 0, 0⟩) := by
  obtain ⟨-, g2, g3, -⟩ := reachable_fromRegistry M options s h p (List.getElem?_mem hp)
  obtain ⟨-, r2, -⟩ := registry_facts (K := K) p.demographic
  have hne : p.rMax - p.rMin ≠ 0 := by
    rw [g2, g3]
    exact ne_of_gt (sub_pos.2 r2)
  have hd0 : 0 ≤ targetDistance M p.x p.y T := hM.sqrt_nonneg _
  have hzero : targetDistance M p.x p.y T = 0 →
      (desiredVelocity M s.beta s.targets p).vd = ⟨0, 0, 0⟩ := by
    intro hz
    unfold desiredVelocity
    rw [hT]
    simp only
    have : ¬ M.sqrt ((T.x - p.x) * (T.x - p.x) + (T.y - p.y) * (T.y - p.y)) > 0 := by
      have hz2 : M.sqrt ((T.x - p.x) * (T.x - p.x) + (T.y - p.y) * (T.y - p.y)) = 0 := hz
      rw [hz2]
      exact lt_irrefl _
    rw [if_neg this]
  refine ⟨desiredVelocity M s.beta s.targets p, ?_, ?_, hzero, ?_⟩
  · simp [computeDesiredVelocities, hp]
  · intro hnz
    have hpos : targetDistance M p.x p.y T > 0 := lt_of_le_of_ne hd0 (Ne.symm hnz)
    have hsq := hM.sqrt_mul_self ((T.x - p.x) * (T.x - p.x) + (T.y - p.y) * (T.y - p.y))
      (add_nonneg (mul_self_nonneg _) (mul_self_nonneg _))
    have hvd : (desiredVelocity M s.beta s.targets p).vd =
        ⟨(T.x - p.x) / targetDistance M p.x p.y T *
            (p.vdMax * M.pow ((p.r - p.rMin) / (p.rMax - p.rMin)) s.beta),
          (T.y - p.y) / targetDistance M p.x p.y T *
            (p.vdMax * M.pow ((p.r - p.rMin) / (p.rMax - p.rMin)) s.beta),
          p.vdMax * M.pow ((p.r - p.rMin) / (p.rMax - p.rMin)) s.beta⟩ := by
      unfold desiredVelocity
      rw [hT]
      simp only
      have hpos2 : M.sqrt ((T.x - p.x) * (T.x - p.x) + (T.y - p.y) * (T.y - p.y)) > 0 := hpos
      rw [if_pos hpos2]
      simp only
      unfold calculateDesiredVelocity targetDistance
      simp only
      rw [hM.div_eq _ _ (ne_of_gt hpos2), hM.div_eq _ _ (ne_of_gt hpos2), hM.div_eq _ _ hne]
    rw [hvd]
    simp only
    refine ⟨by ring, by ring, trivial, ?_⟩
    have hsq2 : targetDistance M p.x p.y T * targetDistance M p.x p.y T =
        (T.x - p.x) * (T.x - p.x) + (T.y - p.y) * (T.y - p.y) := hsq
    generalize targetDistance M p.x p.y T = d at hsq2 hnz
    generalize p.vdMax * M.pow ((p.r - p.rMin) / (p.rMax - p.rMin)) s.beta = m
    have h1 : (T.x - p.x) / d * m * ((T.x - p.x) / d * m) +
        (T.y - p.y) / d * m * ((T.y - p.y) / d * m) =
        ((T.x - p.x) * (T.x - p.x) + (T.y - p.y) * (T.y - p.y)) / (d * d) * (m * m) := by
      field_simp
      ring
    rw [h1, ← hsq2, div_self (mul_ne_zero hnz hnz), one_mul]
  · intro hat
    apply hzero
    unfold targetDistance
    rw [hat.1, hat.2]
    simp only [sub_self, mul_zero, add_zero]
    exact sqrt_zero_of_exact M hM

end PlannerClaim

end VaryingPopulation

section SpeedClaim
variable {K : Type} [LinearOrderedField K]

/-- Claim C14.  With exact division and a power function with `0 ^ b = 0` (`b > 0`) and
`1 ^ b = 1`, for `rMax > rMin` and `beta > 0` `calculateDesiredVelocity` returns exactly `0`
at `r = rMin` and exactly `vdMax` at `r = rMax`, in the demographic variant and in the
death-markers variant; with `rMin = 0.2`, `rMax = 0.8`, `beta = 1`, `vdMax = 1.5` and
`r = 0.2` the value is `0`. -/
theorem calculateDesiredVelocity_endpoints (M : JSMath K) (hM : M.DivExact)
    (h0 : ∀ b : K, 0 < b → M.pow 0 b = 0) (h1 : ∀ b : K, M.pow 1 b = 1)
    (beta : K) (hbeta : 0 < beta) :
    (∀ p : VaryingPopulation.Particle K, p.rMin < p.rMax →
      (p.r = p.rMin → VaryingPopulation.calculateDesiredVelocity M beta p = 0) ∧
      (p.r = p.rMax → VaryingPopulation.calculateDesiredVelocity M beta p = p.vdMax)) ∧
    (∀ s : DeathMarkers.ParticleModel K, s.rMin < s.rMax → s.beta = beta →
      DeathMarkers.calculateDesiredVelocity M s s.rMin = 0 ∧
      DeathMarkers.calculateDesiredVelocity M s s.rMax = s.vdMax) ∧
    (VaryingPopulation.calculateDesiredVelocity ratMath 1
        (VaryingPopulation.Particle.new 0 0 .ADULT) = 0 ∧
      DeathMarkers.calculateDesiredVelocity ratMath
        (DeathMarkers.ParticleModel.new ratMath {}) (1 / 5) = 0) := by
  refine ⟨?_, ?_, ?_, ?_⟩
  · intro p hlt
    have hne : p.rMax - p.rMin ≠ 0 := ne_of_gt (sub_pos.2 hlt)
    constructor
    · intro hr
      unfold VaryingPopulation.calculateDesiredVelocity
      simp only
      rw [hM.div_eq _ _ hne, hr, sub_self, zero_div, h0 beta hbeta, mul_zero]
    · intro hr
      unfold VaryingPopulation.calculateDesiredVelocity
      simp only
      rw [hM.div_eq _ _ hne, hr, div_self hne, h1, mul_one]
  · intro s hlt hb
    have hne : s.rMax - s.rMin ≠ 0 := ne_of_gt (sub_pos.2 hlt)
    unfold DeathMarkers.calculateDesiredVelocity
    rw [hM.div_eq _ _ hne, hM.div_eq _ _ hne, sub_self, zero_div, hb, h0 beta hbeta, mul_zero,
      div_self hne, h1, mul_one]
    exact ⟨rfl, rfl⟩
  · simp [VaryingPopulation.calculateDesiredVelocity, VaryingPopulation.Particle.new,
      VaryingPopulation.DEMOGRAPHICS, ratMath]
  · simp [DeathMarkers.calculateDesiredVelocity, DeathMarkers.ParticleModel.new, jsOr, ratMath]
    norm_num

end SpeedClaim

/-- Witness for C14: the rational built-ins and `beta = 1`. -/
theorem calculateDesiredVelocity_endpoints_witness :
    JSMath.DivExact ratMath ∧ (∀ b : ℚ, 0 < b → ratMath.pow 0 b = 0) ∧
    (∀ b : ℚ, ratMath.pow 1 b = 1) ∧ (0 : ℚ) < 1 ∧
    ((VaryingPopulation.Particle.new (0 : ℚ) 0 .ADULT).rMin <
        (VaryingPopulation.Particle.new (0 : ℚ) 0 .ADULT).rMax →
      ((VaryingPopulation.Particle.new (0 : ℚ) 0 .ADULT).r =
          (VaryingPopulation.Particle.new (0 : ℚ) 0 .ADULT).rMin →
        VaryingPopulation.calculateDesiredVelocity ratMath 1
          (VaryingPopulation.Particle.new 0 0 .ADULT) = 0) ∧
      ((VaryingPopulation.Particle.new (0 : ℚ) 0 .ADULT).r =
          (VaryingPopulation.Particle.new (0 : ℚ) 0 .ADULT).rMax →
        VaryingPopulation.calculateDesiredVelocity ratMath 1
          (VaryingPopulation.Particle.new 0 0 .ADULT) =
            (VaryingPopulation.Particle.new (0 : ℚ) 0 .ADULT).vdMax)) :=
  have hp0 : ∀ b : ℚ, 0 < b → ratMath.pow 0 b = 0 := by
    intro b hb
    show (0 : ℚ) ^ b.num.toNat = 0
    have : 0 < b.num := Rat.num_pos.2 hb
    exact zero_pow (by omega)
  have hp1 : ∀ b : ℚ, ratMath.pow 1 b = 1 := fun b => one_pow _
  ⟨ratMath_divExact, hp0, hp1, by norm_num,
    (calculateDesiredVelocity_endpoints ratMath ratMath_divExact hp0 hp1 1 (by norm_num)).1
      (VaryingPopulation.Particle.new 0 0 .ADULT)⟩

namespace VaryingPopulation


section SceneLemmas
variable {K : Type} [LinearOrderedField K]

theorem oneTarget_reachable (M : JSMath K) : Reachable M {} (oneTarget M) :=
  .addParticle 0 0 "ADULT" (.addTarget (3 / 10) 0 .init) rfl

theorem scenarioC_reachable (M : JSMath K) : Reachable M {} (scenarioC M) :=
  .findClosestTargets (oneTarget_reachable M)

theorem oneTarget_targets (M : JSMath K) : (oneTarget M).targets = [⟨3 / 10, 0⟩] := by
  simp [oneTarget, addParticleKey, addTarget, ParticleModel.new]

theorem scenarioC_targets (M : JSMath K) : (scenarioC M).targets = [⟨3 / 10, 0⟩] :=
  oneTarget_targets M

theorem oneTarget_particles (M : JSMath K) :
    (oneTarget M).particles = [Particle.new 0 0 .ADULT] := by
  simp [oneTarget, addParticleKey, addTarget, ParticleModel.new]

theorem scenarioC_particles (M : JSMath K) :
    (scenarioC M).particles = [{ Particle.new (0 : K) 0 .ADULT with targetIndex := 0 }] := by
  unfold scenarioC findClosestTargets
  simp only [oneTarget_particles, oneTarget_targets, List.map_cons, List.map_nil]
  simp [closestTarget, closestTargetLoop, ltInfinity, Particle.new]

end SceneLemmas

end VaryingPopulation

/-! ## The integrator -/

namespace VaryingPopulation

section IntegratorClaim
variable {K : Type} [LinearOrderedField K]

/-- Claim C15.  `updatePositions` keeps the number and order of the particles and moves
the particle at every index by exactly `v * dt`, where `v` is its desired velocity `vd` if
`r > rMin` (its own `rMin`) and its escape velocity `ve` otherwise and `dt` is the model's
`dt`, the same for every particle; every other field of the particle and every other field
of the model is unchanged. -/
theorem updatePositions_rule (s : ParticleModel K) :
    (updatePositions s).particles.length = s.particles.length ∧
    (∀ (i : Nat) (p : Particle K), s.particles[i]? = some p →
      ∃ q, (updatePositions s).particles[i]? = some q ∧
        (p.r > p.rMin → q.x = p.x + p.vd.x * s.dt ∧ q.y = p.y + p.vd.y * s.dt) ∧
        (¬ p.r > p.rMin → q.x = p.x + p.ve.x * s.dt ∧ q.y = p.y + p.ve.y * s.dt) ∧
        q = { p with x := q.x, y := q.y }) ∧
    updatePositions s = { s with particles := (updatePositions s).particles } := by
  refine ⟨?_, ?_, rfl⟩
  · simp [updatePositions]
  · intro i p hp
    refine ⟨move s.dt p, ?_, ?_, ?_, rfl⟩
    · simp [updatePositions, hp]
    · intro h
      unfold move
      simp only
      rw [if_pos h, if_pos h]
      exact ⟨rfl, rfl⟩
    · intro h
      unfold move
      simp only
      rw [if_neg h, if_neg h]
      exact ⟨rfl, rfl⟩

end IntegratorClaim

end VaryingPopulation

/-! ## Arrival at a target -/

namespace VaryingPopulation

section ArrivalClaim
variable {K : Type} [LinearOrderedField K]

theorem arrives_iff (M : JSMath K) (targets : List (Target K)) (p : Particle K) :
    arrives M targets p = true ↔
      ∃ T, assignedTarget targets p.targetIndex = some T ∧
        targetDistance M p.x p.y T ≤ 0.5 := by
  unfold arrives targetDistance
  cases h : assignedTarget targets p.targetIndex with
  | none => simp
  | some T => simp

theorem removeParticlesAtTarget_counts (M : JSMath K) (clock : Nat → K) (s : ParticleModel K) :
    (removeParticlesAtTarget M clock s).particlesReachedTarget =
      s.particlesReachedTarget + (s.particles.countP (fun p => arrives M s.targets p) : Nat) ∧
    ∀ d, ((removeParticlesAtTarget M clock s).demographicStats d).reachedTarget =
        (s.demographicStats d).reachedTarget +
          (s.particles.countP (fun p => arrives M s.targets p &&
            decide (p.demographic = d)) : Nat) := by
  obtain ⟨-, k2, k4⟩ := arrivalFold_spec M clock s.particles ⟨s, [], 0⟩
  exact ⟨k2, fun d => (k4 d).2.2.1⟩

theorem scenarioC_arrival (clock : Nat → ℚ) :
    (removeParticlesAtTarget ratMath clock (scenarioC ratMath)).particles = [] ∧
    (removeParticlesAtTarget ratMath clock (scenarioC ratMath)).particlesReachedTarget = 1 ∧
    (removeParticlesAtTarget ratMath clock (scenarioC ratMath)).endTime = some (clock 0) := by
  have hp := scenarioC_particles ratMath
  have ht := scenarioC_targets ratMath
  have hs : (9 : ℚ) / 100 = (3 / 10) * (3 / 10) := by norm_num
  have hsqrt : ratSqrt (9 / 100) = 3 / 10 := by
    unfold ratSqrt
    have h1 : ((9 : ℚ) / 100).num = 9 := by norm_num
    have h2 : ((9 : ℚ) / 100).den = 100 := by norm_num
    rw [h1, h2]
    have h3 : Nat.sqrt 9 = 3 := by norm_num [Nat.sqrt_eq']
    have h4 : Nat.sqrt 100 = 10 := by norm_num [Nat.sqrt_eq']
    simp [h3, h4]
  unfold removeParticlesAtTarget
  rw [hp]
  simp only [List.foldl_cons, List.foldl_nil]
  unfold arrivalVisit
  simp only [ht]
  simp [assignedTarget, Particle.new, ratMath, scenarioC, oneTarget, findClosestTargets,
    addParticleKey, addTarget, ParticleModel.new]
  norm_num [hsqrt]

/-- Claim C16.  `removeParticlesAtTarget` keeps exactly the particles that do not arrive,
unchanged and in their original order, where a particle arrives when its `targetIndex` is
valid and its distance to that target is at most `0.5`; `particlesReachedTarget` grows by
the number of arriving particles and the `reachedTarget` entry of each demographic by the
number of arriving particles of that demographic.  In Scenario C (a sole particle `0.3`
from its target) one pass empties the active set, leaves `particlesReachedTarget = 1` and
sets `endTime` to the clock reading. -/
theorem removeParticlesAtTarget_rule (M : JSMath K) (clock : Nat → K) (s : ParticleModel K) :
    (removeParticlesAtTarget M clock s).particles =
      s.particles.filter (fun p => !arrives M s.targets p) ∧
    (∀ p : Particle K, arrives M s.targets p = true ↔
      ∃ T, assignedTarget s.targets p.targetIndex = some T ∧
        targetDistance M p.x p.y T ≤ 0.5) ∧
    (removeParticlesAtTarget M clock s).particlesReachedTarget =
      s.particlesReachedTarget + (s.particles.countP (fun p => arrives M s.targets p) : Nat) ∧
    (∀ d, ((removeParticlesAtTarget M clock s).demographicStats d).reachedTarget =
        (s.demographicStats d).reachedTarget +
          (s.particles.countP (fun p => arrives M s.targets p &&
            decide (p.demographic = d)) : Nat)) ∧
    (∀ c : Nat → ℚ,
      (scenarioC ratMath).particles = [{ Particle.new (0 : ℚ) 0 .ADULT with targetIndex := 0 }] ∧
      (scenarioC ratMath).targets = [⟨3 / 10, 0⟩] ∧
      (removeParticlesAtTarget ratMath c (scenarioC ratMath)).particles = [] ∧
      (removeParticlesAtTarget ratMath c (scenarioC ratMath)).particlesReachedTarget = 1 ∧
      (removeParticlesAtTarget ratMath c (scenarioC ratMath)).endTime = some (c 0)) :=
  ⟨removeParticlesAtTarget_particles M clock s, fun p => arrives_iff M s.targets p,
    (removeParticlesAtTarget_counts M clock s).1, (removeParticlesAtTarget_counts M clock s).2,
    fun c => ⟨scenarioC_particles ratMath, scenarioC_targets ratMath, scenarioC_arrival c⟩⟩

end ArrivalClaim

end VaryingPopulation

namespace VaryingPopulation


section Latch
variable {K : Type} [LinearOrderedField K]

/-- One call of the arrival callback: the clock reads and `endTime`. -/
theorem arrivalVisit_latch (M : JSMath K) (clock : Nat → K) (acc : ArrivalAcc K)
    (p : Particle K) :
    (arrives M acc.model.targets p = true ∧
      acc.model.particlesReachedTarget + 1 + acc.model.particlesDied =
        acc.model.totalParticlesCreated ∧
      (arrivalVisit M clock acc p).calls = acc.calls + 1 ∧
      (arrivalVisit M clock acc p).model.endTime = some (clock acc.calls)) ∨
    (arrives M acc.model.targets p = true ∧
      acc.model.particlesReachedTarget + 1 + acc.model.particlesDied ≠
        acc.model.totalParticlesCreated ∧
      (arrivalVisit M clock acc p).calls = acc.calls ∧
      (arrivalVisit M clock acc p).model.endTime = acc.model.endTime) ∨
    (arrives M acc.model.targets p = false ∧
      (arrivalVisit M clock acc p).calls = acc.calls ∧
      (arrivalVisit M clock acc p).model.endTime = acc.model.endTime ∧
      (arrivalVisit M clock acc p).model.particlesReachedTarget =
        acc.model.particlesReachedTarget) := by
  unfold arrivalVisit arrives
  simp only
  cases hT : assignedTarget acc.model.targets p.targetIndex with
  | none => right; right; simp
  | some target =>
    simp only
    by_cases hle : M.sqrt ((target.x - p.x) * (target.x - p.x) +
        (target.y - p.y) * (target.y - p.y)) ≤ 0.5
    · rw [if_pos hle]
      by_cases hc : acc.model.particlesReachedTarget + 1 + acc.model.particlesDied =
          acc.model.totalParticlesCreated
      · left
        rw [if_pos hc]
        exact ⟨by simpa using hle, hc, rfl, rfl⟩
      · right; left
        rw [if_neg hc]
        exact ⟨by simpa using hle, hc, rfl, rfl⟩
    · right; right
      rw [if_neg hle]
      exact ⟨by simpa using hle, rfl, rfl, rfl⟩

/-- The arrival purge assigns `endTime` exactly when some arrival brings
`particlesReachedTarget + particlesDied` up to `totalParticlesCreated`, and then once. -/
theorem arrivalFold_latch (M : JSMath K) (clock : Nat → K) (ps : List (Particle K))
    (acc : ArrivalAcc K) :
    ((1 ≤ acc.model.totalParticlesCreated - acc.model.particlesDied -
          acc.model.particlesReachedTarget ∧
        acc.model.totalParticlesCreated - acc.model.particlesDied -
          acc.model.particlesReachedTarget ≤
            (ps.countP (fun p => arrives M acc.model.targets p) : Nat)) →
      (ps.foldl (arrivalVisit M clock) acc).calls = acc.calls + 1 ∧
      (ps.foldl (arrivalVisit M clock) acc).model.endTime = some (clock acc.calls)) ∧
    (¬ (1 ≤ acc.model.totalParticlesCreated - acc.model.particlesDied -
          acc.model.particlesReachedTarget ∧
        acc.model.totalParticlesCreated - acc.model.particlesDied -
          acc.model.particlesReachedTarget ≤
            (ps.countP (fun p => arrives M acc.model.targets p) : Nat)) →
      (ps.foldl (arrivalVisit M clock) acc).calls = acc.calls ∧
      (ps.foldl (arrivalVisit M clock) acc).model.endTime = acc.model.endTime) := by
  induction ps generalizing acc with
  | nil =>
    constructor
    · rintro ⟨h1, h2⟩
      simp only [List.countP_nil, Nat.cast_zero] at h2
      omega
    · intro _
      exact ⟨rfl, rfl⟩
  | cons p ps ih =>
    simp only [List.foldl_cons]
    obtain ⟨i1, i2⟩ := ih (arrivalVisit M clock acc p)
    obtain ⟨-, ft, -, -, -, fd, fc⟩ := arrivalVisit_frame M clock acc p
    rw [ft, fd, fc] at i1 i2
    rcases arrivalVisit_cases M clock acc p with ⟨ha, -, hr, -⟩ | ⟨ha, -, hr, -⟩
    · rw [hr] at i1 i2
      have hcount : ((p :: ps).countP (fun p => arrives M acc.model.targets p) : Nat) =
          (ps.countP (fun p => arrives M acc.model.targets p) : Nat) + 1 := by
        simp [List.countP_cons, ha]
      rw [hcount]
      rcases arrivalVisit_latch M clock acc p with ⟨-, hc, hcalls, hend⟩ | ⟨-, hc, hcalls, hend⟩ |
        ⟨hb, -⟩
      · have hno := i2 (by omega)
        constructor
        · intro _
          exact ⟨hno.1.trans hcalls, hno.2.trans hend⟩
        · intro hcon
          exfalso
          apply hcon
          push_cast
          constructor <;> omega
      · constructor
        · intro hcon
          have := i1 (by push_cast at hcon; constructor <;> omega)
          rw [hcalls] at this
          exact this
        · intro hcon
          have := i2 (by
            intro h
            apply hcon
            push_cast
            constructor <;> omega)
          rw [hcalls, hend] at this
          exact this
      · rw [ha] at hb
        cases hb
    · rw [hr] at i1 i2
      have hcount : ((p :: ps).countP (fun p => arrives M acc.model.targets p) : Nat) =
          (ps.countP (fun p => arrives M acc.model.targets p) : Nat) := by
        simp [List.countP_cons, ha]
      rw [hcount]
      rcases arrivalVisit_latch M clock acc p with ⟨hb, -⟩ | ⟨hb, -⟩ | ⟨-, hcalls, hend, -⟩
      · rw [ha] at hb
        cases hb
      · rw [ha] at hb
        cases hb
      · rw [hcalls] at i1 i2
        rw [hend] at i2
        exact ⟨i1, i2⟩

theorem moved_balanced (M : JSMath K) (s : ParticleModel K) (h : Balanced s) :
    Balanced (updatePositions (beforeMove M s)) := by
  unfold beforeMove
  apply map_balanced
  apply map_balanced
  apply map_balanced
  apply removeDead_balanced
  apply map_balanced
  apply map_balanced
  exact findContacts_balanced M s h

theorem moved_endTime (M : JSMath K) (s : ParticleModel K) :
    (updatePositions (beforeMove M s)).endTime = s.endTime :=
  (beforeMove_frame M s).2.2.2.2.1

theorem filter_not_eq_nil_of_countP {α : Type} (f : α → Bool) (l : List α)
    (h : l.length ≤ l.countP f) : l.filter (fun a => !f a) = [] := by
  induction l with
  | nil => rfl
  | cons a l ih =>
    by_cases ha : f a = true
    · simp only [List.countP_cons, ha, if_true, List.length_cons] at h
      simp only [List.filter_cons, ha, Bool.not_true]
      exact ih (by omega)
    · have ha2 : f a = false := by simpa using ha
      simp only [List.countP_cons, ha2, List.length_cons] at h
      have := List.countP_le_length f (l := l)
      simp at h
      omega

theorem removeParticlesAtTarget_endTime (M : JSMath K) (clock : Nat → K)
    (u : ParticleModel K) :
    (removeParticlesAtTarget M clock u).endTime =
      (u.particles.foldl (arrivalVisit M clock) ⟨u, [], 0⟩).model.endTime := rfl

/-- The arrival pass on any state: at most one clock read; without one `endTime` is kept;
with one `endTime` is the first clock reading and, in a balanced state, nobody is left. -/
theorem removeParticlesAtTarget_latch (M : JSMath K) (clock : Nat → K) (u : ParticleModel K) :
    (u.particles.foldl (arrivalVisit M clock) ⟨u, [], 0⟩).calls ≤ 1 ∧
    ((u.particles.foldl (arrivalVisit M clock) ⟨u, [], 0⟩).calls = 0 →
      (removeParticlesAtTarget M clock u).endTime = u.endTime) ∧
    ((u.particles.foldl (arrivalVisit M clock) ⟨u, [], 0⟩).calls = 1 →
      (removeParticlesAtTarget M clock u).endTime = some (clock 0) ∧
      (Balanced u → (removeParticlesAtTarget M clock u).particles = [])) := by
  obtain ⟨h1, h2⟩ := arrivalFold_latch M clock u.particles ⟨u, [], 0⟩
  simp only at h1 h2
  rw [removeParticlesAtTarget_endTime]
  by_cases hc : 1 ≤ u.totalParticlesCreated - u.particlesDied - u.particlesReachedTarget ∧
      u.totalParticlesCreated - u.particlesDied - u.particlesReachedTarget ≤
        (u.particles.countP (fun p => arrives M u.targets p) : Nat)
  · obtain ⟨k1, k2⟩ := h1 hc
    rw [k1, k2]
    refine ⟨le_refl _, fun h => by omega, fun _ => ⟨rfl, ?_⟩⟩
    intro hb
    rw [removeParticlesAtTarget_particles]
    apply filter_not_eq_nil_of_countP
    obtain ⟨-, c2⟩ := hc
    rw [hb.1] at c2
    have c3 : (u.particles.length : Int) ≤
        (u.particles.countP (fun p => arrives M u.targets p) : Nat) := by
      linarith
    exact_mod_cast c3
  · obtain ⟨k1, k2⟩ := h2 hc
    rw [k1, k2]
    exact ⟨Nat.zero_le _, fun _ => rfl, fun h => by omega⟩

theorem endTimeWrites_le (M : JSMath K) (clock : Nat → K) (s : ParticleModel K) :
    endTimeWrites M clock s ≤ 1 :=
  (removeParticlesAtTarget_latch M clock (updatePositions (beforeMove M s))).1

theorem step_unlatched (M : JSMath K) (clock : Nat → K) (s : ParticleModel K)
    (hw : endTimeWrites M clock s = 0) : (step M clock s).endTime = s.endTime :=
  ((removeParticlesAtTarget_latch M clock (updatePositions (beforeMove M s))).2.1 hw).trans
    (moved_endTime M s)

theorem step_latched (M : JSMath K) (clock : Nat → K) (s : ParticleModel K) (hb : Balanced s)
    (hw : endTimeWrites M clock s = 1) :
    (step M clock s).endTime = some (clock 0) ∧ (step M clock s).particles = [] :=
  ⟨((removeParticlesAtTarget_latch M clock (updatePositions (beforeMove M s))).2.2 hw).1,
    ((removeParticlesAtTarget_latch M clock (updatePositions (beforeMove M s))).2.2 hw).2
      (moved_balanced M s hb)⟩

theorem step_of_none_left (M : JSMath K) (clock : Nat → K) (s : ParticleModel K)
    (he : (beforeMove M s).particles = []) :
    (step M clock s).particles = [] ∧ endTimeWrites M clock s = 0 ∧
      (step M clock s).endTime = s.endTime := by
  have hm : (updatePositions (beforeMove M s)).particles = [] := by
    show (beforeMove M s).particles.map _ = []
    rw [he]
    rfl
  have hw : endTimeWrites M clock s = 0 := by
    unfold endTimeWrites
    rw [hm]
    rfl
  refine ⟨?_, hw, step_unlatched M clock s hw⟩
  unfold step
  rw [removeParticlesAtTarget_particles, hm]
  rfl

theorem step_of_empty (M : JSMath K) (clock : Nat → K) (s : ParticleModel K)
    (he : s.particles = []) :
    (step M clock s).particles = [] ∧ endTimeWrites M clock s = 0 ∧
      (step M clock s).endTime = s.endTime := by
  apply step_of_none_left
  have hf : (findContacts M s).particles = [] := by
    apply List.eq_nil_of_length_eq_zero
    rw [findContacts_length, he]
    rfl
  rw [beforeMove_particles, hf]
  rfl

/-- A step in which every particle dies empties the active set and leaves `endTime` as it
was: the arrival callback, the only place that assigns `endTime`, is never called. -/
theorem step_all_dead (M : JSMath K) (clock : Nat → K) (s : ParticleModel K)
    (hall : ∀ p ∈ (accumulateStress (adjustRadii M (findContacts M s))).particles,
      p.dead = true) :
    (step M clock s).particles = [] ∧ (step M clock s).endTime = s.endTime := by
  have he : (beforeMove M s).particles = [] := by
    rw [beforeMove_particles, ← accumulateStress_particles]
    have : (accumulateStress (adjustRadii M (findContacts M s))).particles.filter
        (fun p => !p.dead) = [] := by
      rw [List.filter_eq_nil_iff]
      intro p hp
      simp [hall p hp]
    rw [this]
    rfl
  obtain ⟨h1, -, h3⟩ := step_of_none_left M clock s he
  exact ⟨h1, h3⟩

theorem quiet_of_empty (M : JSMath K) (s t : ParticleModel K) (he : s.particles = [])
    (h : Quiet M s t) : t.particles = [] ∧ t.endTime = s.endTime := by
  induction h with
  | refl => exact ⟨he, rfl⟩
  | step clock _ ih =>
    obtain ⟨e1, -, e3⟩ := step_of_empty M clock _ ih.1
    exact ⟨e1, e3.trans ih.2⟩
  | addTarget x y _ ih => exact ih
  | addBoundary x1 y1 x2 y2 _ ih => exact ih
  | findClosestTargets _ ih =>
    refine ⟨?_, ih.2⟩
    show List.map _ _ = []
    rw [ih.1]
    rfl
  | setStartTime now _ ih => exact ih

/-- Claim C18.  Within one step from a reachable state `endTime` is assigned at most once;
a step that assigns it leaves the clock reading in `endTime` and an empty active set, and
in every later state reached by steps and other operations, with no `addParticle`,
`addParticlesWithDemographics` or `reset` in between, `endTime` still holds that value:
each such later step assigns nothing and leaves `endTime` unchanged.  A step that does
not assign leaves `endTime` as it was. -/
theorem endTime_latched_once (M : JSMath K) (options : Options K) (s : ParticleModel K)
    (h : Reachable M options s) (clock : Nat → K) :
    endTimeWrites M clock s ≤ 1 ∧
    (endTimeWrites M clock s = 0 → (step M clock s).endTime = s.endTime) ∧
    (endTimeWrites M clock s = 1 →
      (step M clock s).endTime = some (clock 0) ∧ (step M clock s).particles = [] ∧
      ∀ t, Quiet M (step M clock s) t →
        t.endTime = (step M clock s).endTime ∧
        ∀ c : Nat → K, endTimeWrites M c t = 0 ∧ (step M c t).endTime = t.endTime) := by
  refine ⟨endTimeWrites_le M clock s, step_unlatched M clock s, ?_⟩
  intro hw
  obtain ⟨e1, e2⟩ := step_latched M clock s (reachable_balanced M options s h) hw
  refine ⟨e1, e2, ?_⟩
  intro t ht
  obtain ⟨q1, q2⟩ := quiet_of_empty M _ t e2 ht
  refine ⟨q2, fun c => ?_⟩
  obtain ⟨-, s2, s3⟩ := step_of_empty M c t q1
  exact ⟨s2, s3⟩

end Latch

/-- Witness for C18: Scenario C is reachable, and its step assigns `endTime` at most
once. -/
theorem endTime_latched_once_witness :
    Reachable ratMath {} (scenarioC ratMath) ∧
    endTimeWrites ratMath (fun _ => 0) (scenarioC ratMath) ≤ 1 :=
  ⟨scenarioC_reachable ratMath,
    (endTime_latched_once ratMath {} (scenarioC ratMath) (scenarioC_reachable ratMath)
      (fun _ => 0)).1⟩

end VaryingPopulation

/-! ## Completion after the last death -/

section LastDeath
variable {K : Type} [LinearOrderedField K]

end LastDeath

/-! ## The death log -/

section ZipLemmas

theorem filter_map_zip {α β : Type} (m : α → β) (d : α → Bool) :
    ∀ (P A : List α), P.map m = A.map m →
      (A.filter d).map m = ((P.zip A).filter (fun pa => d pa.2)).map (fun pa => m pa.1)
  | [], [], _ => rfl
  | [], _ :: _, h => by simp at h
  | _ :: _, [], h => by simp at h
  | p :: P, a :: A, h => by
    simp only [List.map_cons, List.cons.injEq] at h
    have ih := filter_map_zip m d P A h.2
    by_cases hd : d a = true
    · simp only [List.filter_cons, hd, if_true, List.map_cons, List.zip_cons_cons, ih, h.1]
    · have hd2 : d a = false := by simpa using hd
      simp only [List.filter_cons, hd2, List.zip_cons_cons, Bool.false_eq_true, if_false]
      exact ih

end ZipLemmas

namespace VaryingPopulation

section DeathLog
variable {K : Type} [LinearOrderedField K]

theorem removeDead_deaths (s : ParticleModel K) :
    (removeDead s).deathMarkers = s.deathMarkers ++
      (s.particles.filter (fun p => p.dead)).map (fun p => ⟨p.x, p.y, p.demographic⟩) ∧
    (removeDead s).particlesDied =
      s.particlesDied + (s.particles.countP (fun p => p.dead) : Nat) := by
  obtain ⟨-, h2, h3, -⟩ := deathFold_spec s.particles ⟨s, []⟩
  exact ⟨h3, h2⟩

/-- The death log and the death counter after a step, in terms of the particles left by
the stress loop of that step. -/
theorem step_deaths (M : JSMath K) (clock : Nat → K) (s : ParticleModel K) :
    (step M clock s).deathMarkers = s.deathMarkers ++
      ((accumulateStress (adjustRadii M (findContacts M s))).particles.filter
        (fun p => p.dead)).map (fun p => ⟨p.x, p.y, p.demographic⟩) ∧
    (step M clock s).particlesDied = s.particlesDied +
      ((accumulateStress (adjustRadii M (findContacts M s))).particles.countP
        (fun p => p.dead) : Nat) := by
  obtain ⟨-, -, -, -, a5, a6, -⟩ :=
    removeParticlesAtTarget_frame M clock (updatePositions (beforeMove M s))
  obtain ⟨d1, d2⟩ := removeDead_deaths (accumulateStress (adjustRadii M (findContacts M s)))
  have m1 : (updatePositions (beforeMove M s)).deathMarkers =
      (removeDead (accumulateStress (adjustRadii M (findContacts M s)))).deathMarkers := by
    simp only [updatePositions, beforeMove, computeDesiredVelocities, findClosestTargets]
  have m2 : (updatePositions (beforeMove M s)).particlesDied =
      (removeDead (accumulateStress (adjustRadii M (findContacts M s)))).particlesDied := by
    simp only [updatePositions, beforeMove, computeDesiredVelocities, findClosestTargets]
  have e1 : (step M clock s).deathMarkers = (updatePositions (beforeMove M s)).deathMarkers := a5
  have e2 : (step M clock s).particlesDied = (updatePositions (beforeMove M s)).particlesDied :=
    a6
  rw [e1, e2, m1, m2]
  exact ⟨d1, d2⟩

theorem addParticlesWithDemographics_deaths (s : ParticleModel K) (x y : K) (count : Nat)
    (rnd : Nat → K) :
    (addParticlesWithDemographics s x y count rnd).deathMarkers = s.deathMarkers ∧
    (addParticlesWithDemographics s x y count rnd).particlesDied = s.particlesDied := by
  unfold addParticlesWithDemographics
  refine foldl_preserves
    (fun (acc : ParticleModel K) => acc.deathMarkers = s.deathMarkers ∧
      acc.particlesDied = s.particlesDied) _ ?_ _ _ ⟨rfl, rfl⟩
  intro b a hb
  exact hb

theorem reachable_deathLog (M : JSMath K) (options : Options K) (s : ParticleModel K)
    (h : Reachable M options s) : (s.deathMarkers.length : Int) = s.particlesDied := by
  induction h with
  | init => simp [ParticleModel.new]
  | addParticle x y demographic _ hadd ih =>
    unfold addParticle at hadd
    split at hadd
    · cases hadd; exact ih
    · cases hadd
  | addParticlesWithDemographics x y count rnd _ ih =>
    obtain ⟨h1, h2⟩ := addParticlesWithDemographics_deaths _ x y count rnd
    rw [h1, h2]
    exact ih
  | addTarget x y _ ih => exact ih
  | addBoundary x1 y1 x2 y2 _ ih => exact ih
  | findClosestTargets _ ih => exact ih
  | setStartTime now _ ih => exact ih
  | step clock _ ih =>
    obtain ⟨h1, h2⟩ := step_deaths M clock _
    rw [h1, h2, List.length_append, List.length_map, ← List.countP_eq_length_filter]
    push_cast
    rw [ih]
  | reset _ ih => simp [reset]

/-- Claim C19.  In every reachable state the death log has `particlesDied` entries.  A step
keeps the previous log as a prefix and appends, in active-set order, one marker for each
particle the stress loop of that step left dead, with that particle's position and
demographic; `addParticle`, `addParticlesWithDemographics`, `addTarget`, `addBoundary`,
`findClosestTargets` and the start-time assignment leave the log as it is, and `reset`
empties it. -/
theorem deathMarkers_log (M : JSMath K) (options : Options K) (s : ParticleModel K)
    (h : Reachable M options s) :
    (s.deathMarkers.length : Int) = s.particlesDied ∧
    (∀ clock : Nat → K, (step M clock s).deathMarkers = s.deathMarkers ++
      ((accumulateStress (adjustRadii M (findContacts M s))).particles.filter
        (fun p => p.dead)).map (fun p => ⟨p.x, p.y, p.demographic⟩)) ∧
    (∀ (x y : K) (key : DemoKey), (addParticleKey s x y key).deathMarkers = s.deathMarkers) ∧
    (∀ (x y : K) (count : Nat) (rnd : Nat → K),
      (addParticlesWithDemographics s x y count rnd).deathMarkers = s.deathMarkers) ∧
    (∀ x y : K, (addTarget s x y).1.deathMarkers = s.deathMarkers) ∧
    (∀ x1 y1 x2 y2 : K, (addBoundary s x1 y1 x2 y2).deathMarkers = s.deathMarkers) ∧
    (findClosestTargets M s).deathMarkers = s.deathMarkers ∧
    (∀ now : K, (setStartTime s now).deathMarkers = s.deathMarkers) ∧
    (reset s).deathMarkers = [] :=
  ⟨reachable_deathLog M options s h, fun clock => (step_deaths M clock s).1,
    fun _ _ _ => rfl, fun x y count rnd => (addParticlesWithDemographics_deaths s x y count rnd).1,
    fun _ _ => rfl, fun _ _ _ _ => rfl, rfl, fun _ => rfl, rfl⟩

end DeathLog

/-- Witness for C19: the state after one step of Scenario A is reachable, and its death log
has as many entries as deaths were counted. -/
theorem deathMarkers_log_witness :
    Reachable ratMath {} (step ratMath (fun _ => 0) scenarioA) ∧
    ((step ratMath (fun _ => 0) scenarioA).deathMarkers.length : Int) =
      (step ratMath (fun _ => 0) scenarioA).particlesDied :=
  ⟨.step (fun _ => 0) scenarioA_reachable,
    (deathMarkers_log ratMath {} _ (.step (fun _ => 0) scenarioA_reachable)).1⟩

section DeadFrame
variable {K : Type} [LinearOrderedField K]

theorem stressed_markers (M : JSMath K) (s : ParticleModel K) :
    s.particles.map (fun p => (⟨p.x, p.y, p.demographic⟩ : DeathMarker K)) =
      (accumulateStress (adjustRadii M (findContacts M s))).particles.map
        (fun p => (⟨p.x, p.y, p.demographic⟩ : DeathMarker K)) := by
  rw [accumulateStress_particles]
  have h1 : ∀ l : List (Particle K),
      l.map (fun p => (⟨p.x, p.y, p.demographic⟩ : DeathMarker K)) =
        (l.map resetContact).map (fun p => (⟨p.x, p.y, p.demographic⟩ : DeathMarker K)) := by
    intro l
    rw [List.map_map]
    rfl
  have h2 : ∀ l : List (Particle K),
      ((l.map (adjustRadius M s.tau s.dt)).map (stressUpdate s.stressRate s.dt)).map
        (fun p => (⟨p.x, p.y, p.demographic⟩ : DeathMarker K)) =
      l.map (fun p => (⟨p.x, p.y, p.demographic⟩ : DeathMarker K)) := by
    intro l
    rw [List.map_map, List.map_map]
    apply List.map_congr_left
    intro p _
    obtain ⟨a1, a2, a3, -⟩ := adjustRadius_fields M s.tau s.dt p
    obtain ⟨b1, b2, b3, -⟩ := stressUpdate_fields s.stressRate s.dt (adjustRadius M s.tau s.dt p)
    simp only [Function.comp]
    rw [b1, b2, b3, a1, a2, a3]
  rw [h2, h1 s.particles, h1 (findContacts M s).particles, findContacts_map_reset]

theorem step_reached (M : JSMath K) (clock : Nat → K) (s : ParticleModel K) :
    (step M clock s).particlesReachedTarget = s.particlesReachedTarget +
      (((beforeMove M s).particles.map (move s.dt)).countP
        (fun p => arrives M s.targets p) : Nat) := by
  obtain ⟨hp, ht, -, -, -, hr, -⟩ := beforeMove_frame M s
  obtain ⟨-, -, -, hd, -⟩ := fields_of_params hp
  have h := (removeParticlesAtTarget_counts M clock (updatePositions (beforeMove M s))).1
  unfold step
  rw [h]
  show (beforeMove M s).particlesReachedTarget +
    (((beforeMove M s).particles.map (move (beforeMove M s).dt)).countP
      (fun p => arrives M (beforeMove M s).targets p) : Nat) = _
  rw [hr, ht, hd]

/-- Claim C20.  For every step: the stress loop leaves one particle per particle of the
start of the step, at the same index; the markers appended by the step are the positions
and demographics that the particles left dead had when the step began, in order; the
integrator receives only the particles left alive; and `particlesReachedTarget` grows by
the number of moved survivors that arrive, hence by at most the number of survivors and by
nothing when every particle dies, wherever the dead particles lie. -/
theorem dead_never_move_nor_arrive (M : JSMath K) (clock : Nat → K) (s : ParticleModel K) :
    (accumulateStress (adjustRadii M (findContacts M s))).particles.length =
      s.particles.length ∧
    (step M clock s).deathMarkers = s.deathMarkers ++
      ((s.particles.zip (accumulateStress (adjustRadii M (findContacts M s))).particles).filter
        (fun pa => pa.2.dead)).map (fun pa => ⟨pa.1.x, pa.1.y, pa.1.demographic⟩) ∧
    (beforeMove M s).particles =
      (((accumulateStress (adjustRadii M (findContacts M s))).particles.filter
        (fun p => !p.dead)).map (closestTarget M s.targets)).map
          (desiredVelocity M s.beta s.targets) ∧
    (step M clock s).particlesReachedTarget = s.particlesReachedTarget +
      (((beforeMove M s).particles.map (move s.dt)).countP
        (fun p => arrives M s.targets p) : Nat) ∧
    (step M clock s).particlesReachedTarget ≤ s.particlesReachedTarget +
      ((accumulateStress (adjustRadii M (findContacts M s))).particles.countP
        (fun p => !p.dead) : Nat) ∧
    ((∀ p ∈ (accumulateStress (adjustRadii M (findContacts M s))).particles, p.dead = true) →
      (step M clock s).particlesReachedTarget = s.particlesReachedTarget) := by
  have hb : (beforeMove M s).particles =
      (((accumulateStress (adjustRadii M (findContacts M s))).particles.filter
        (fun p => !p.dead)).map (closestTarget M s.targets)).map
          (desiredVelocity M s.beta s.targets) := by
    rw [beforeMove_particles, ← accumulateStress_particles]
  have hle : (((beforeMove M s).particles.map (move s.dt)).countP
      (fun p => arrives M s.targets p)) ≤
      (accumulateStress (adjustRadii M (findContacts M s))).particles.countP
        (fun p => !p.dead) := by
    refine le_trans (List.countP_le_length _) ?_
    rw [hb, List.length_map, List.length_map, List.length_map, List.countP_eq_length_filter]
  refine ⟨?_, ?_, hb, step_reached M clock s, ?_, ?_⟩
  · rw [accumulateStress_particles, List.length_map, List.length_map, findContacts_length]
  · rw [(step_deaths M clock s).1]
    congr 1
    exact filter_map_zip (fun (p : Particle K) => (⟨p.x, p.y, p.demographic⟩ : DeathMarker K))
      (fun (p : Particle K) => p.dead) _ _ (stressed_markers M s)
  · rw [step_reached]
    have : ((((beforeMove M s).particles.map (move s.dt)).countP
        (fun p => arrives M s.targets p) : Nat) : Int) ≤
        ((accumulateStress (adjustRadii M (findContacts M s))).particles.countP
          (fun p => !p.dead) : Nat) := by exact_mod_cast hle
    linarith
  · intro hall
    rw [step_reached]
    have h0 : (accumulateStress (adjustRadii M (findContacts M s))).particles.countP
        (fun p => !p.dead) = 0 := by
      rw [List.countP_eq_zero]
      intro p hp
      simp [hall p hp]
    rw [h0] at hle
    have : ((beforeMove M s).particles.map (move s.dt)).countP
        (fun p => arrives M s.targets p) = 0 := by omega
    rw [this]
    simp

end DeadFrame

end VaryingPopulation

/-! ## Particle creation, sampling, the empty target list and determinism -/

namespace VaryingPopulation


section Creation
variable {K : Type} [LinearOrderedField K]

/-- Claim C21 (the code diverges).  When the registry read of the key is `undefined`,
`addParticle` fails before anything is modified.  For a key in the registry the call
succeeds.  The key `"constructor"` is not in the registry, yet its read is not `undefined`:
the call does not fail, the active set grows by one and `totalParticlesCreated` is
incremented. -/
theorem addParticle_unknown_key (s : ParticleModel K) (x y : K) :
    (∀ demographic, readRegistry demographic = .undefined →
      addParticle s x y demographic = none ∧ addParticleCounts s demographic = none) ∧
    (∀ demographic key, DemoKey.ofString demographic = some key →
      addParticle s x y demographic = some (addParticleKey s x y key) ∧
      addParticleCounts s demographic =
        some ((addParticleKey s x y key).particles.length,
          (addParticleKey s x y key).totalParticlesCreated)) ∧
    DemoKey.ofString "constructor" = none ∧
    readRegistry "constructor" = .inherited ∧
    addParticleCounts s "constructor" =
      some (s.particles.length + 1, s.totalParticlesCreated + 1) := by
  refine ⟨?_, ?_, by decide, by decide, ?_⟩
  · intro demographic h
    unfold readRegistry at h
    cases hk : DemoKey.ofString demographic with
    | some key => rw [hk] at h; cases h
    | none =>
      refine ⟨?_, ?_⟩
      · unfold addParticle
        rw [hk]
      · unfold addParticleCounts readRegistry
        rw [hk] at h ⊢
        simp only at h ⊢
        split at h
        · cases h
        · rename_i hn
          rw [if_neg hn]
  · intro demographic key hk
    refine ⟨?_, ?_⟩
    · unfold addParticle
      rw [hk]
    · unfold addParticleCounts readRegistry
      rw [hk]
      simp [addParticleKey]
  · have h : readRegistry "constructor" = .inherited := by decide
    unfold addParticleCounts
    rw [h]

/-- Claim C29.  `addTarget` appends the point and returns its index, which is the number
of targets before the call; every earlier target keeps its index; nothing else changes.
`addBoundary` appends one segment and changes nothing else.  `step` leaves the targets
list and the boundaries list as they are. -/
theorem targets_and_boundaries_frame (M : JSMath K) (clock : Nat → K) (s : ParticleModel K)
    (x y x1 y1 x2 y2 : K) :
    (addTarget s x y).1.targets = s.targets ++ [⟨x, y⟩] ∧
    (addTarget s x y).2 = s.targets.length ∧
    (addTarget s x y).1.targets[(addTarget s x y).2]? = some ⟨x, y⟩ ∧
    (∀ i, i < s.targets.length → (addTarget s x y).1.targets[i]? = s.targets[i]?) ∧
    (addTarget s x y).1 = { s with targets := s.targets ++ [⟨x, y⟩] } ∧
    addBoundary s x1 y1 x2 y2 = { s with boundaries := s.boundaries ++ [⟨x1, y1, x2, y2⟩] } ∧
    (addBoundary s x1 y1 x2 y2).boundaries.length = s.boundaries.length + 1 ∧
    (step M clock s).targets = s.targets ∧
    (step M clock s).boundaries = s.boundaries := by
  refine ⟨rfl, ?_, ?_, ?_, rfl, rfl, ?_, (step_frame M clock s).2.1, (step_frame M clock s).2.2.1⟩
  · simp [addTarget]
  · simp [addTarget]
  · intro i hi
    simp only [addTarget]
    rw [List.getElem?_append_left hi]
  · simp [addBoundary]

/-- Claim C30.  For a key `d` of the registry `addParticle(x, y, d)` appends exactly one
particle, at `(x, y)`, with `r = rMin(d)`, `rMin`, `rMax` and `vdMax` copied from the entry
of `d`, stress `0`, contacts `0`, `dead` and `inContact` false, zero desired and escape
velocities and `targetIndex = -1`; `totalParticlesCreated` and the `created` and `current`
counters of `d` grow by one; the existing particles, the other counters of `d`, the
counters of every other demographic and all other model fields are unchanged. -/
theorem addParticle_creates (s : ParticleModel K) (x y : K) (demographic : String)
    (d : DemoKey) (hd : DemoKey.ofString demographic = some d) :
    ∃ s1, addParticle s x y demographic = some s1 ∧
      s1.particles = s.particles ++
        [{ x := x, y := y, demographic := d, demo := DEMOGRAPHICS d,
           r := (DEMOGRAPHICS d).rMin, rMin := (DEMOGRAPHICS d).rMin,
           rMax := (DEMOGRAPHICS d).rMax, vdMax := (DEMOGRAPHICS d).vdMax,
           vd := ⟨0, 0, 0⟩, ve := ⟨0, 0, 0⟩, targetIndex := -1, inContact := false,
           reachedTarget := false, contacts := 0, stress := 0, dead := false }] ∧
      s1.totalParticlesCreated = s.totalParticlesCreated + 1 ∧
      (s1.demographicStats d).created = (s.demographicStats d).created + 1 ∧
      (s1.demographicStats d).current = (s.demographicStats d).current + 1 ∧
      (s1.demographicStats d).reachedTarget = (s.demographicStats d).reachedTarget ∧
      (s1.demographicStats d).died = (s.demographicStats d).died ∧
      (∀ e, e ≠ d → s1.demographicStats e = s.demographicStats e) ∧
      s1 = { s with particles := s1.particles,
                    totalParticlesCreated := s1.totalParticlesCreated,
                    demographicStats := s1.demographicStats } := by
  refine ⟨addParticleKey s x y d, ?_, rfl, rfl, ?_, ?_, ?_, ?_, ?_, rfl⟩
  · unfold addParticle
    rw [hd]
  · simp [addParticleKey, updateStat]
  · simp [addParticleKey, updateStat]
  · simp [addParticleKey, updateStat]
  · simp [addParticleKey, updateStat]
  · intro e he
    simp [addParticleKey, updateStat, he]

end Creation

/-- Witness for C30: an adult added to the fresh default model over the rationals. -/
theorem addParticle_creates_witness :
    DemoKey.ofString "ADULT" = some .ADULT ∧
    ∃ s1, addParticle (ParticleModel.new ratMath {}) (0 : ℚ) 0 "ADULT" = some s1 ∧
      s1.totalParticlesCreated = (ParticleModel.new ratMath {}).totalParticlesCreated + 1 :=
  ⟨rfl, by
    obtain ⟨s1, h1, -, h3, -⟩ :=
      addParticle_creates (ParticleModel.new ratMath {}) (0 : ℚ) 0 "ADULT" .ADULT rfl
    exact ⟨s1, h1, h3⟩⟩

end VaryingPopulation

namespace VaryingPopulation

section Sampling
variable {K : Type} [LinearOrderedField K]

theorem sampleDemographic_eq (u : K) :
    sampleDemographic u =
      if u ≤ 0.2 then .YOUTH else if u ≤ 0.8 then .ADULT else if u ≤ 1 then .ELDERLY
      else .ADULT := by
  unfold sampleDemographic
  simp only [DemoKey.keys, sampleLoop, DEMOGRAPHICS]
  have e1 : (0 : K) + 0.2 = 0.2 := by norm_num
  have e2 : (0.2 : K) + 0.6 = 0.8 := by norm_num
  have e3 : (0.8 : K) + 0.2 = 1 := by norm_num
  rw [e1, e2, e3]

theorem addParticlesWithDemographics_particles (s : ParticleModel K) (x y : K) (count : Nat)
    (rnd : Nat → K) :
    (addParticlesWithDemographics s x y count rnd).particles = s.particles ++
      (List.range count).map (fun i =>
        Particle.new (x + (rnd (3 * i + 1) - 0.5) * 0.5) (y + (rnd (3 * i + 2) - 0.5) * 0.5)
          (sampleDemographic (rnd (3 * i)))) ∧
    (addParticlesWithDemographics s x y count rnd).totalParticlesCreated =
      s.totalParticlesCreated + (count : Int) := by
  unfold addParticlesWithDemographics
  induction count with
  | zero => simp
  | succ n ih =>
    rw [List.range_succ, List.foldl_append, List.map_append]
    simp only [List.foldl_cons, List.foldl_nil, List.map_cons, List.map_nil]
    obtain ⟨h1, h2⟩ := ih
    constructor
    · show (List.foldl _ s (List.range n)).particles ++ [_] = _
      rw [h1, List.append_assoc]
    · show (List.foldl _ s (List.range n)).totalParticlesCreated + 1 = _
      rw [h2]
      push_cast
      ring

/-- Claim C27.  For a draw `u < 1` the sampled demographic is `YOUTH` iff `u ≤ 0.2`,
`ADULT` iff `0.2 < u ≤ 0.8` and `ELDERLY` iff `0.8 < u`: the first key in registry order
whose cumulative proportion (`0.2`, `0.8`, `1`) reaches `u`.  A call of
`addParticlesWithDemographics` with count `n` appends exactly `n` particles after the
existing ones, the `i`-th with the demographic sampled from the first draw of iteration
`i`, and raises `totalParticlesCreated` by `n`. -/
theorem sampling_rule (u : K) (hu : u < 1) :
    (sampleDemographic u = .YOUTH ↔ u ≤ 0.2) ∧
    (sampleDemographic u = .ADULT ↔ 0.2 < u ∧ u ≤ 0.8) ∧
    (sampleDemographic u = .ELDERLY ↔ 0.8 < u) ∧
    (DemoKey.keys.map (fun d => (DEMOGRAPHICS (K := K) d).proportion) = [0.2, 0.6, 0.2]) ∧
    ∀ (s : ParticleModel K) (x y : K) (n : Nat) (rnd : Nat → K),
      (addParticlesWithDemographics s x y n rnd).particles = s.particles ++
        (List.range n).map (fun i =>
          Particle.new (x + (rnd (3 * i + 1) - 0.5) * 0.5) (y + (rnd (3 * i + 2) - 0.5) * 0.5)
            (sampleDemographic (rnd (3 * i)))) ∧
      (addParticlesWithDemographics s x y n rnd).particles.length = s.particles.length + n ∧
      (addParticlesWithDemographics s x y n rnd).totalParticlesCreated =
        s.totalParticlesCreated + (n : Int) := by
  have h28 : (0.2 : K) < 0.8 := by norm_num
  rw [sampleDemographic_eq]
  refine ⟨?_, ?_, ?_, rfl, ?_⟩
  · by_cases h1 : u ≤ 0.2
    · simp [h1]
    · rw [if_neg h1]
      by_cases h2 : u ≤ 0.8
      · simp [h1, h2]
      · simp [h1, h2, le_of_lt hu]
  · by_cases h1 : u ≤ 0.2
    · simp [h1, not_lt.2 h1]
    · rw [if_neg h1]
      by_cases h2 : u ≤ 0.8
      · simp [h2, lt_of_not_ge h1]
      · simp [h2, le_of_lt hu]
  · by_cases h1 : u ≤ 0.2
    · have : ¬ (0.8 : K) < u := not_lt.2 (le_trans h1 (le_of_lt h28))
      simp [h1, this]
    · rw [if_neg h1]
      by_cases h2 : u ≤ 0.8
      · simp [h2, not_lt.2 h2]
      · simp [h2, le_of_lt hu, lt_of_not_ge h2]
  · intro s x y n rnd
    obtain ⟨h1, h2⟩ := addParticlesWithDemographics_particles s x y n rnd
    refine ⟨h1, ?_, h2⟩
    rw [h1]
    simp

end Sampling

/-- Witness for C27: the draw `1/2` samples an adult. -/
theorem sampling_rule_witness :
    (1 / 2 : ℚ) < 1 ∧ (sampleDemographic (1 / 2 : ℚ) = .ADULT ↔ (0.2 : ℚ) < 1 / 2 ∧ (1 / 2 : ℚ) ≤ 0.8) :=
  ⟨by norm_num, (sampling_rule (1 / 2 : ℚ) (by norm_num)).2.1⟩

end VaryingPopulation

namespace VaryingPopulation


section NoTarget
variable {K : Type} [LinearOrderedField K]

theorem run_reachable (M : JSMath K) (options : Options K) (clock : Nat → Nat → K) (n : Nat)
    (s : ParticleModel K) (h : Reachable M options s) : Reachable M options (run M clock n s) := by
  induction n with
  | zero => exact h
  | succ n ih => exact .step (clock n) ih

theorem run_frame (M : JSMath K) (clock : Nat → Nat → K) (n : Nat) (s : ParticleModel K) :
    (run M clock n s).targets = s.targets ∧ (run M clock n s).boundaries = s.boundaries := by
  induction n with
  | zero => exact ⟨rfl, rfl⟩
  | succ n ih =>
    obtain ⟨-, h2, h3, -⟩ := step_frame M (clock n) (run M clock n s)
    exact ⟨h2.trans ih.1, h3.trans ih.2⟩

/-- In a reachable state without targets no particle has a target index or a desired
velocity. -/
theorem reachable_no_target (M : JSMath K) (options : Options K) (s : ParticleModel K)
    (h : Reachable M options s) :
    s.targets = [] → ∀ p ∈ s.particles, p.targetIndex = -1 ∧ p.vd = ⟨0, 0, 0⟩ := by
  have hadd : ∀ (t : ParticleModel K) x y key,
      (t.targets = [] → ∀ p ∈ t.particles, p.targetIndex = -1 ∧ p.vd = ⟨0, 0, 0⟩) →
      (addParticleKey t x y key).targets = [] →
        ∀ p ∈ (addParticleKey t x y key).particles, p.targetIndex = -1 ∧ p.vd = ⟨0, 0, 0⟩ := by
    intro t x y key ht hnil p hp
    simp only [addParticleKey, List.mem_append, List.mem_singleton] at hp
    rcases hp with hp | rfl
    · exact ht hnil p hp
    · exact ⟨rfl, rfl⟩
  induction h with
  | init => intro _ p hp; simp [ParticleModel.new] at hp
  | addParticle x y demographic _ hadd2 ih =>
    unfold addParticle at hadd2
    split at hadd2
    · cases hadd2; exact hadd _ _ _ _ ih
    · cases hadd2
  | addParticlesWithDemographics x y count rnd _ ih =>
    unfold addParticlesWithDemographics
    exact foldl_preserves
      (fun (t : ParticleModel K) => t.targets = [] →
        ∀ p ∈ t.particles, p.targetIndex = -1 ∧ p.vd = ⟨0, 0, 0⟩)
      _ (fun b a hb => hadd _ _ _ _ hb) _ _ ih
  | addTarget x y _ ih => intro hnil; simp [addTarget] at hnil
  | addBoundary x1 y1 x2 y2 _ ih => exact ih
  | @findClosestTargets s _ ih =>
    intro hnil p hp
    have hnil2 : s.targets = [] := hnil
    simp only [findClosestTargets, List.mem_map] at hp
    obtain ⟨p0, hp0, rfl⟩ := hp
    refine ⟨?_, (ih hnil2 p0 hp0).2⟩
    rw [hnil2]
    rfl
  | setStartTime now _ ih => exact ih
  | @step s clock hs ih =>
    intro hnil q hq
    have ht : s.targets = [] := by rw [← (step_frame M clock s).2.1]; exact hnil
    obtain ⟨p, hp, -, rfl⟩ := step_mem M clock s q hq
    obtain ⟨p0, hp0, he⟩ := findContacts_mem M s p hp
    obtain ⟨-, hv0⟩ := ih ht p0 hp0
    have hvd : p.vd = p0.vd := (fields_of_reset_eq he).2.2.2.2.2.2.2.2.1
    have hplan : desiredVelocity M s.beta s.targets (closestTarget M s.targets
        (stressUpdate s.stressRate s.dt (adjustRadius M s.tau s.dt p))) =
        closestTarget M s.targets
          (stressUpdate s.stressRate s.dt (adjustRadius M s.tau s.dt p)) := by
      unfold desiredVelocity
      rw [ht, assignedTarget_nil]
    rw [hplan]
    constructor
    · rw [(move_fields _ _).2.2.2.2.2.2.2.2.1, ht]
      rfl
    · rw [(move_fields _ _).2.2.2.2.2.2.1, (closestTarget_fields _ _ _).2.2.2.2.2.2.2.2.1,
        (stressUpdate_fields _ _ _).2.2.2.2.2.2.2.2.1,
        (adjustRadius_fields _ _ _ _).2.2.2.2.2.2.2.1, hvd, hv0]
  | reset _ ih => intro _ p hp; simp [reset] at hp

/-- Claim C22.  From a reachable state whose target list is empty, after any number of
steps the target list is still empty and every active particle has `targetIndex = -1` and
the zero desired velocity with magnitude `0`; `step` is a total function of the state, so
every step returns. -/
theorem no_target_no_desire (M : JSMath K) (options : Options K) (s : ParticleModel K)
    (h : Reachable M options s) (ht : s.targets = []) (clock : Nat → Nat → K) (n : Nat) :
    Reachable M options (run M clock n s) ∧
    (run M clock n s).targets = [] ∧
    ∀ p ∈ (run M clock n s).particles, p.targetIndex = -1 ∧ p.vd = ⟨0, 0, 0⟩ := by
  have hr := run_reachable M options clock n s h
  have hn : (run M clock n s).targets = [] := (run_frame M clock n s).1.trans ht
  exact ⟨hr, hn, reachable_no_target M options _ hr hn⟩

end NoTarget

/-- Witness for C22: Scenario A has no target; after three steps its particles have no
target index and no desired velocity. -/
theorem no_target_no_desire_witness :
    Reachable ratMath {} scenarioA ∧ scenarioA.targets = [] ∧
    ∀ p ∈ (run ratMath (fun _ _ => 0) 3 scenarioA).particles,
      p.targetIndex = -1 ∧ p.vd = ⟨0, 0, 0⟩ :=
  ⟨scenarioA_reachable, rfl,
    (no_target_no_desire ratMath {} scenarioA scenarioA_reachable rfl (fun _ _ => 0) 3).2.2⟩

section Determinism
variable {K : Type} [LinearOrderedField K]

theorem withoutEndTime_pass (f : ParticleModel K → List (Particle K))
    (hf : ∀ s e, f { s with endTime := e } = f s) (s t : ParticleModel K)
    (h : withoutEndTime s = withoutEndTime t) :
    withoutEndTime { s with particles := f s } = withoutEndTime { t with particles := f t } := by
  have e1 : f s = f (withoutEndTime s) := (hf s none).symm
  have e2 : f t = f (withoutEndTime t) := (hf t none).symm
  have h3 : withoutEndTime { s with particles := f s } =
      { withoutEndTime s with particles := f (withoutEndTime s) } := by
    rw [← e1]; rfl
  have h4 : withoutEndTime { t with particles := f t } =
      { withoutEndTime t with particles := f (withoutEndTime t) } := by
    rw [← e2]; rfl
  rw [h3, h4, h]

theorem deathVisit_withoutEndTime (a b : DeathAcc K) (p : Particle K)
    (hk : a.kept = b.kept) (hm : withoutEndTime a.model = withoutEndTime b.model) :
    (deathVisit a p).kept = (deathVisit b p).kept ∧
    withoutEndTime (deathVisit a p).model = withoutEndTime (deathVisit b p).model := by
  obtain ⟨ma, ka⟩ := a
  obtain ⟨mb, kb⟩ := b
  cases ma
  cases mb
  simp only [withoutEndTime, ParticleModel.mk.injEq] at hm
  simp only at hk
  obtain ⟨h1, h2, h3, h4, h5, h6, h7, h8, h9, h10, h11, h12, h13, h14, h15, -, h17⟩ := hm
  subst h1 h2 h3 h4 h5 h6 h7 h8 h9 h10 h11 h12 h13 h14 h15 h17 hk
  unfold deathVisit
  split
  · exact ⟨rfl, rfl⟩
  · exact ⟨rfl, rfl⟩

theorem arrivalVisit_withoutEndTime (M : JSMath K) (c1 c2 : Nat → K) (a b : ArrivalAcc K)
    (p : Particle K) (hk : a.kept = b.kept)
    (hm : withoutEndTime a.model = withoutEndTime b.model) :
    (arrivalVisit M c1 a p).kept = (arrivalVisit M c2 b p).kept ∧
    withoutEndTime (arrivalVisit M c1 a p).model =
      withoutEndTime (arrivalVisit M c2 b p).model := by
  obtain ⟨ma, ka, ca⟩ := a
  obtain ⟨mb, kb, cb⟩ := b
  cases ma
  cases mb
  simp only [withoutEndTime, ParticleModel.mk.injEq] at hm
  simp only at hk
  obtain ⟨h1, h2, h3, h4, h5, h6, h7, h8, h9, h10, h11, h12, h13, h14, h15, -, h17⟩ := hm
  subst h1 h2 h3 h4 h5 h6 h7 h8 h9 h10 h11 h12 h13 h14 h15 h17 hk
  unfold arrivalVisit
  simp only
  split
  · split
    · split
      · exact ⟨rfl, rfl⟩
      · exact ⟨rfl, rfl⟩
    · exact ⟨rfl, rfl⟩
  · exact ⟨rfl, rfl⟩

theorem deathFold_withoutEndTime (ps : List (Particle K)) (a b : DeathAcc K)
    (hk : a.kept = b.kept) (hm : withoutEndTime a.model = withoutEndTime b.model) :
    (ps.foldl deathVisit a).kept = (ps.foldl deathVisit b).kept ∧
    withoutEndTime (ps.foldl deathVisit a).model =
      withoutEndTime (ps.foldl deathVisit b).model := by
  induction ps generalizing a b with
  | nil => exact ⟨hk, hm⟩
  | cons p ps ih =>
    simp only [List.foldl_cons]
    obtain ⟨h1, h2⟩ := deathVisit_withoutEndTime a b p hk hm
    exact ih _ _ h1 h2

theorem arrivalFold_withoutEndTime (M : JSMath K) (c1 c2 : Nat → K) (ps : List (Particle K))
    (a b : ArrivalAcc K) (hk : a.kept = b.kept)
    (hm : withoutEndTime a.model = withoutEndTime b.model) :
    (ps.foldl (arrivalVisit M c1) a).kept = (ps.foldl (arrivalVisit M c2) b).kept ∧
    withoutEndTime (ps.foldl (arrivalVisit M c1) a).model =
      withoutEndTime (ps.foldl (arrivalVisit M c2) b).model := by
  induction ps generalizing a b with
  | nil => exact ⟨hk, hm⟩
  | cons p ps ih =>
    simp only [List.foldl_cons]
    obtain ⟨h1, h2⟩ := arrivalVisit_withoutEndTime M c1 c2 a b p hk hm
    exact ih _ _ h1 h2

theorem withoutEndTime_particles {s t : ParticleModel K}
    (h : withoutEndTime s = withoutEndTime t) : s.particles = t.particles :=
  congrArg (fun u => u.particles) h

theorem withoutEndTime_with (s t : ParticleModel K) (ps qs : List (Particle K))
    (h : withoutEndTime s = withoutEndTime t) (hp : ps = qs) :
    withoutEndTime { s with particles := ps } = withoutEndTime { t with particles := qs } := by
  subst hp
  have h3 : withoutEndTime { s with particles := ps } =
      { withoutEndTime s with particles := ps } := rfl
  have h4 : withoutEndTime { t with particles := ps } =
      { withoutEndTime t with particles := ps } := rfl
  rw [h3, h4, h]

theorem removeDead_withoutEndTime (s t : ParticleModel K)
    (h : withoutEndTime s = withoutEndTime t) :
    withoutEndTime (removeDead s) = withoutEndTime (removeDead t) := by
  have hp := withoutEndTime_particles h
  obtain ⟨h1, h2⟩ := deathFold_withoutEndTime s.particles ⟨s, []⟩ ⟨t, []⟩ rfl h
  unfold removeDead
  simp only
  rw [← hp]
  exact withoutEndTime_with _ _ _ _ h2 h1

theorem removeParticlesAtTarget_withoutEndTime (M : JSMath K) (c1 c2 : Nat → K)
    (s t : ParticleModel K) (h : withoutEndTime s = withoutEndTime t) :
    withoutEndTime (removeParticlesAtTarget M c1 s) =
      withoutEndTime (removeParticlesAtTarget M c2 t) := by
  have hp := withoutEndTime_particles h
  obtain ⟨h1, h2⟩ :=
    arrivalFold_withoutEndTime M c1 c2 s.particles ⟨s, [], 0⟩ ⟨t, [], 0⟩ rfl h
  unfold removeParticlesAtTarget
  simp only
  rw [← hp]
  exact withoutEndTime_with _ _ _ _ h2 h1

/-- A step does not read `endTime` or the clock for anything but `endTime`. -/
theorem step_withoutEndTime (M : JSMath K) (c1 c2 : Nat → K) (s t : ParticleModel K)
    (h : withoutEndTime s = withoutEndTime t) :
    withoutEndTime (step M c1 s) = withoutEndTime (step M c2 t) := by
  have h1 : withoutEndTime (findContacts M s) = withoutEndTime (findContacts M t) :=
    withoutEndTime_pass (fun u => (findContacts M u).particles) (fun _ _ => rfl) s t h
  have h2 : withoutEndTime (adjustRadii M (findContacts M s)) =
      withoutEndTime (adjustRadii M (findContacts M t)) :=
    withoutEndTime_pass (fun u => (adjustRadii M u).particles) (fun _ _ => rfl) _ _ h1
  have h3 : withoutEndTime (accumulateStress (adjustRadii M (findContacts M s))) =
      withoutEndTime (accumulateStress (adjustRadii M (findContacts M t))) :=
    withoutEndTime_pass (fun u => (accumulateStress u).particles) (fun _ _ => rfl) _ _ h2
  have h4 := removeDead_withoutEndTime _ _ h3
  have h5 : withoutEndTime (findClosestTargets M
        (removeDead (accumulateStress (adjustRadii M (findContacts M s))))) =
      withoutEndTime (findClosestTargets M
        (removeDead (accumulateStress (adjustRadii M (findContacts M t))))) :=
    withoutEndTime_pass (fun u => (findClosestTargets M u).particles) (fun _ _ => rfl) _ _ h4
  have h6 : withoutEndTime (beforeMove M s) = withoutEndTime (beforeMove M t) :=
    withoutEndTime_pass (fun u => (computeDesiredVelocities M u).particles)
      (fun _ _ => rfl) _ _ h5
  have h7 : withoutEndTime (updatePositions (beforeMove M s)) =
      withoutEndTime (updatePositions (beforeMove M t)) :=
    withoutEndTime_pass (fun u => (updatePositions u).particles) (fun _ _ => rfl) _ _ h6
  exact removeParticlesAtTarget_withoutEndTime M c1 c2 _ _ h7

theorem run_withoutEndTime (M : JSMath K) (clock1 clock2 : Nat → Nat → K) (n : Nat)
    (s t : ParticleModel K) (h : withoutEndTime s = withoutEndTime t) :
    withoutEndTime (run M clock1 n s) = withoutEndTime (run M clock2 n t) := by
  induction n with
  | zero => exact h
  | succ n ih => exact step_withoutEndTime M (clock1 n) (clock2 n) _ _ ih

/-- Claim C28.  `step` takes the model state and the clock and nothing else: it has no
random input.  Two runs of `n` steps from equal states with equal clock readings end in
equal states.  Two runs of `n` steps from the same state with different clock readings end
in states that are equal once `endTime` is blanked out: the particles, the counters, the
per-demographic statistics and the death markers are equal. -/
theorem step_deterministic (M : JSMath K) (clock1 clock2 : Nat → Nat → K) (n : Nat)
    (s : ParticleModel K) :
    (∀ t, s = t → run M clock1 n s = run M clock1 n t) ∧
    withoutEndTime (run M clock1 n s) = withoutEndTime (run M clock2 n s) ∧
    (run M clock1 n s).particles = (run M clock2 n s).particles ∧
    (run M clock1 n s).particlesReachedTarget = (run M clock2 n s).particlesReachedTarget ∧
    (run M clock1 n s).particlesDied = (run M clock2 n s).particlesDied ∧
    (run M clock1 n s).totalParticlesCreated = (run M clock2 n s).totalParticlesCreated ∧
    (run M clock1 n s).demographicStats = (run M clock2 n s).demographicStats ∧
    (run M clock1 n s).deathMarkers = (run M clock2 n s).deathMarkers := by
  have h := run_withoutEndTime M clock1 clock2 n s s rfl
  exact ⟨fun t ht => by rw [ht], h, congrArg (fun u => u.particles) h,
    congrArg (fun u => u.particlesReachedTarget) h, congrArg (fun u => u.particlesDied) h,
    congrArg (fun u => u.totalParticlesCreated) h, congrArg (fun u => u.demographicStats) h,
    congrArg (fun u => u.deathMarkers) h⟩

end Determinism

end VaryingPopulation

/-! ## Distance to a boundary segment -/

section Segment
variable {K : Type} [LinearOrderedField K]

/-- An exact square root is monotone on the non-negative numbers. -/
theorem sqrt_mono_of_exact (M : JSMath K) (hM : M.Exact) (a b : K) (ha : 0 ≤ a) (hab : a ≤ b) :
    M.sqrt a ≤ M.sqrt b := by
  apply sqrt_le_of_le_sq M hM a (M.sqrt b) ha (hM.sqrt_nonneg b)
  rw [hM.sqrt_mul_self b (le_trans ha hab)]
  exact hab

/-- The clamped projection parameter minimises the squared distance over the segment. -/
theorem clamp_minimises (A B C D t u param : K) (hL : 0 < C * C + D * D)
    (hpar : param * (C * C + D * D) = A * C + B * D) (hu0 : 0 ≤ u) (hu1 : u ≤ 1)
    (ht : (param < 0 ∧ t = 0) ∨ (1 < param ∧ t = 1) ∨ (0 ≤ param ∧ param ≤ 1 ∧ t = param)) :
    (A - t * C) * (A - t * C) + (B - t * D) * (B - t * D) ≤
      (A - u * C) * (A - u * C) + (B - u * D) * (B - u * D) := by
  have key : (A - u * C) * (A - u * C) + (B - u * D) * (B - u * D) -
      ((A - t * C) * (A - t * C) + (B - t * D) * (B - t * D)) =
      (C * C + D * D) * ((u - t) * (u + t - 2 * param)) := by
    have : (A - u * C) * (A - u * C) + (B - u * D) * (B - u * D) -
        ((A - t * C) * (A - t * C) + (B - t * D) * (B - t * D)) =
        (u - t) * ((u + t) * (C * C + D * D) - 2 * (A * C + B * D)) := by ring
    rw [this, ← hpar]
    ring
  have hnn : 0 ≤ (u - t) * (u + t - 2 * param) := by
    rcases ht with ⟨hp, rfl⟩ | ⟨hp, rfl⟩ | ⟨-, -, rfl⟩
    · apply mul_nonneg <;> linarith
    · apply mul_nonneg_of_nonpos_of_nonpos <;> linarith
    · have : (u - t) * (u + t - 2 * t) = (u - t) * (u - t) := by ring
      rw [this]
      exact mul_self_nonneg _
  have := mul_nonneg (le_of_lt hL) hnn
  linarith

/-- Claim C24.  With exact square root and division, for every point `(px, py)` and every
segment from `(x1, y1)` to `(x2, y2)`, the degenerate segment included, the point returned
by `distanceToBoundary` is `a + t * (b - a)` for some `t` in `[0, 1]`, the returned
distance is the Euclidean distance from `(px, py)` to that point, and it is at most the
distance from `(px, py)` to any point `a + u * (b - a)` of the segment, `u` in `[0, 1]`. -/
theorem distanceToBoundary_nearest (M : JSMath K) (hM : M.Exact) (px py x1 y1 x2 y2 : K) :
    ∃ t : K, 0 ≤ t ∧ t ≤ 1 ∧
      (distanceToBoundary M px py x1 y1 x2 y2).pointX = x1 + t * (x2 - x1) ∧
      (distanceToBoundary M px py x1 y1 x2 y2).pointY = y1 + t * (y2 - y1) ∧
      (distanceToBoundary M px py x1 y1 x2 y2).distance =
        M.sqrt ((px - (distanceToBoundary M px py x1 y1 x2 y2).pointX) *
            (px - (distanceToBoundary M px py x1 y1 x2 y2).pointX) +
          (py - (distanceToBoundary M px py x1 y1 x2 y2).pointY) *
            (py - (distanceToBoundary M px py x1 y1 x2 y2).pointY)) ∧
      0 ≤ (distanceToBoundary M px py x1 y1 x2 y2).distance ∧
      (distanceToBoundary M px py x1 y1 x2 y2).distance *
          (distanceToBoundary M px py x1 y1 x2 y2).distance =
        (px - (distanceToBoundary M px py x1 y1 x2 y2).pointX) *
            (px - (distanceToBoundary M px py x1 y1 x2 y2).pointX) +
          (py - (distanceToBoundary M px py x1 y1 x2 y2).pointY) *
            (py - (distanceToBoundary M px py x1 y1 x2 y2).pointY) ∧
      ∀ u : K, 0 ≤ u → u ≤ 1 →
        (distanceToBoundary M px py x1 y1 x2 y2).distance ≤
          M.sqrt ((px - (x1 + u * (x2 - x1))) * (px - (x1 + u * (x2 - x1))) +
            (py - (y1 + u * (y2 - y1))) * (py - (y1 + u * (y2 - y1)))) := by
  have hdist : (distanceToBoundary M px py x1 y1 x2 y2).distance =
      M.sqrt ((px - (distanceToBoundary M px py x1 y1 x2 y2).pointX) *
          (px - (distanceToBoundary M px py x1 y1 x2 y2).pointX) +
        (py - (distanceToBoundary M px py x1 y1 x2 y2).pointY) *
          (py - (distanceToBoundary M px py x1 y1 x2 y2).pointY)) := rfl
  -- the parameter of the returned point
  have hpt : ∃ t : K, 0 ≤ t ∧ t ≤ 1 ∧
      (distanceToBoundary M px py x1 y1 x2 y2).pointX = x1 + t * (x2 - x1) ∧
      (distanceToBoundary M px py x1 y1 x2 y2).pointY = y1 + t * (y2 - y1) ∧
      ∀ u : K, 0 ≤ u → u ≤ 1 →
        ((px - x1) - t * (x2 - x1)) * ((px - x1) - t * (x2 - x1)) +
            ((py - y1) - t * (y2 - y1)) * ((py - y1) - t * (y2 - y1)) ≤
          ((px - x1) - u * (x2 - x1)) * ((px - x1) - u * (x2 - x1)) +
            ((py - y1) - u * (y2 - y1)) * ((py - y1) - u * (y2 - y1)) := by
    by_cases hL : (x2 - x1) * (x2 - x1) + (y2 - y1) * (y2 - y1) ≠ 0
    · have hLpos : 0 < (x2 - x1) * (x2 - x1) + (y2 - y1) * (y2 - y1) :=
        lt_of_le_of_ne (add_nonneg (mul_self_nonneg _) (mul_self_nonneg _)) (Ne.symm hL)
      have hpar : M.div ((px - x1) * (x2 - x1) + (py - y1) * (y2 - y1))
            ((x2 - x1) * (x2 - x1) + (y2 - y1) * (y2 - y1)) *
          ((x2 - x1) * (x2 - x1) + (y2 - y1) * (y2 - y1)) =
          (px - x1) * (x2 - x1) + (py - y1) * (y2 - y1) := by
        rw [hM.div_eq _ _ hL, div_mul_cancel₀ _ hL]
      have hparam : ∀ c : K, (if (x2 - x1) * (x2 - x1) + (y2 - y1) * (y2 - y1) ≠ 0 then
          M.div ((px - x1) * (x2 - x1) + (py - y1) * (y2 - y1))
            ((x2 - x1) * (x2 - x1) + (y2 - y1) * (y2 - y1)) else c) =
          M.div ((px - x1) * (x2 - x1) + (py - y1) * (y2 - y1))
            ((x2 - x1) * (x2 - x1) + (y2 - y1) * (y2 - y1)) := fun c => if_pos hL
      unfold distanceToBoundary
      simp only [hparam]
      generalize M.div ((px - x1) * (x2 - x1) + (py - y1) * (y2 - y1))
        ((x2 - x1) * (x2 - x1) + (y2 - y1) * (y2 - y1)) = param at hpar
      by_cases h0 : param < 0
      · refine ⟨0, le_refl _, zero_le_one, ?_, ?_, ?_⟩
        · rw [if_pos h0]; ring
        · rw [if_pos h0]; ring
        · intro u hu0 hu1
          exact clamp_minimises _ _ _ _ 0 u param hLpos hpar hu0 hu1 (Or.inl ⟨h0, rfl⟩)
      · by_cases h1 : param > 1
        · refine ⟨1, zero_le_one, le_refl _, ?_, ?_, ?_⟩
          · rw [if_neg h0, if_pos h1]; ring
          · rw [if_neg h0, if_pos h1]; ring
          · intro u hu0 hu1
            exact clamp_minimises _ _ _ _ 1 u param hLpos hpar hu0 hu1 (Or.inr (Or.inl ⟨h1, rfl⟩))
        · refine ⟨param, le_of_not_lt h0, le_of_not_gt h1, ?_, ?_, ?_⟩
          · rw [if_neg h0, if_neg h1]
          · rw [if_neg h0, if_neg h1]
          · intro u hu0 hu1
            exact clamp_minimises _ _ _ _ param u param hLpos hpar hu0 hu1
              (Or.inr (Or.inr ⟨le_of_not_lt h0, le_of_not_gt h1, rfl⟩))
    · have hL0 : (x2 - x1) * (x2 - x1) + (y2 - y1) * (y2 - y1) = 0 := by
        by_contra hne
        exact hL hne
      have hC : x2 - x1 = 0 := by
        have := mul_self_nonneg (x2 - x1)
        have := mul_self_nonneg (y2 - y1)
        exact mul_self_eq_zero.1 (by linarith)
      have hD : y2 - y1 = 0 := by
        have := mul_self_nonneg (x2 - x1)
        have := mul_self_nonneg (y2 - y1)
        exact mul_self_eq_zero.1 (by linarith)
      have hparam : (if (x2 - x1) * (x2 - x1) + (y2 - y1) * (y2 - y1) ≠ 0 then
          M.div ((px - x1) * (x2 - x1) + (py - y1) * (y2 - y1))
            ((x2 - x1) * (x2 - x1) + (y2 - y1) * (y2 - y1)) else (-1 : K)) = -1 := if_neg hL
      have hneg : (-1 : K) < 0 := by norm_num
      unfold distanceToBoundary
      simp only [hparam, if_pos hneg]
      refine ⟨0, le_refl _, zero_le_one, by ring, by ring, ?_⟩
      intro u _ _
      rw [hC, hD]
      simp
  obtain ⟨t, ht0, ht1, hx, hy, hmin⟩ := hpt
  refine ⟨t, ht0, ht1, hx, hy, hdist, hM.sqrt_nonneg _, ?_, ?_⟩
  · rw [hdist]
    exact hM.sqrt_mul_self _ (add_nonneg (mul_self_nonneg _) (mul_self_nonneg _))
  · intro u hu0 hu1
    rw [hdist]
    apply sqrt_mono_of_exact M hM _ _ (add_nonneg (mul_self_nonneg _) (mul_self_nonneg _))
    rw [hx, hy]
    have := hmin u hu0 hu1
    have e1 : ∀ (w : K), px - (x1 + w * (x2 - x1)) = (px - x1) - w * (x2 - x1) := fun w => by ring
    have e2 : ∀ (w : K), py - (y1 + w * (y2 - y1)) = (py - y1) - w * (y2 - y1) := fun w => by ring
    rw [e1, e2, e1, e2]
    exact this

end Segment

/-! ## The escape vector of the contact pass -/

namespace VaryingPopulation


section EscapeSum
variable {K : Type} [LinearOrderedField K]

theorem sumOver_nil {α : Type} (f : α → K × K) (c : α → Bool) : sumOver f c [] = 0 := rfl

theorem sumOver_append {α : Type} (f : α → K × K) (c : α → Bool) (l1 l2 : List α) :
    sumOver f c (l1 ++ l2) = sumOver f c l1 + sumOver f c l2 := by
  unfold sumOver
  rw [List.filter_append, List.map_append, List.sum_append]

theorem sumOver_singleton {α : Type} (f : α → K × K) (c : α → Bool) (a : α) :
    sumOver f c [a] = if c a = true then f a else 0 := by
  unfold sumOver
  by_cases h : c a = true
  · simp [h]
  · simp [h]

theorem escapeAt_of_getElem? {ps : List (Particle K)} {k : Nat} {q : Particle K}
    (h : ps[k]? = some q) : escapeAt ps k = (q.ve.x, q.ve.y) := by
  unfold escapeAt
  rw [h]

theorem escapeAt_set_self (l : List (Particle K)) (k : Nat) (a : Particle K)
    (h : k < l.length) : escapeAt (l.set k a) k = (a.ve.x, a.ve.y) := by
  unfold escapeAt
  rw [List.getElem?_set_self h]

theorem escapeAt_set_ne (l : List (Particle K)) (i k : Nat) (a : Particle K) (h : i ≠ k) :
    escapeAt (l.set i a) k = escapeAt l k := by
  unfold escapeAt
  rw [List.getElem?_set_ne h]

/-- One pair test of the contact loop adds the two pushes exactly when the two particles
overlap. -/
theorem contactPair_escapeAt (M : JSMath K) (acc g : List (Particle K))
    (hg : acc.map resetContact = g.map resetContact) (i j : Nat) (hij : i ≠ j)
    (pi pj : Particle K) (hi : g[i]? = some pi) (hj : g[j]? = some pj) (k : Nat) :
    escapeAt (contactPair M acc i j) k =
      escapeAt acc k +
        if overlaps M pi pj = true then
          (if k = i then pushHigher M pi pj else if k = j then pushLower M pj pi else 0)
        else 0 := by
  obtain ⟨ai, hai, rai⟩ := getElem?_of_map_reset hg i pi hi
  obtain ⟨aj, haj, raj⟩ := getElem?_of_map_reset hg j pj hj
  have hov := overlaps_of_reset_eq M rai raj
  obtain ⟨ix, iy, -, -, -, -, -, -, ivd, -⟩ := fields_of_reset_eq rai
  obtain ⟨jx, jy, -, -, -, -, -, -, jvd, -⟩ := fields_of_reset_eq raj
  have hilt : i < acc.length := lt_length_of_getElem? hai
  have hjlt : j < acc.length := lt_length_of_getElem? haj
  unfold contactPair
  rw [hai, haj]
  simp only
  by_cases hc : M.sqrt ((ai.x - aj.x) * (ai.x - aj.x) + (ai.y - aj.y) * (ai.y - aj.y)) <
      ai.r + aj.r
  · have ho : overlaps M pi pj = true := by
      rw [← hov]; unfold overlaps; simpa using hc
    rw [if_pos hc, if_pos ho]
    by_cases hkj : k = j
    · subst hkj
      have hki : ¬ k = i := fun h => hij h.symm
      rw [if_neg hki, if_pos rfl, escapeAt_set_self _ _ _ (by simpa using hjlt),
        escapeAt_of_getElem? haj]
      unfold pushLower
      simp only [Prod.mk_add_mk]
      rw [ix, iy, jx, jy, jvd]
    · by_cases hki : k = i
      · subst hki
        rw [if_pos rfl, escapeAt_set_ne _ _ _ _ (fun h => hkj h.symm),
          escapeAt_set_self _ _ _ hilt, escapeAt_of_getElem? hai]
        unfold pushHigher
        simp only [Prod.mk_add_mk]
        rw [ix, iy, jx, jy, ivd]
      · rw [if_neg hki, if_neg hkj, add_zero, escapeAt_set_ne _ _ _ _ (fun h => hkj h.symm),
          escapeAt_set_ne _ _ _ _ (fun h => hki h.symm)]
  · have ho : ¬ overlaps M pi pj = true := by
      rw [← hov]; unfold overlaps; simpa using hc
    rw [if_neg hc, if_neg ho, add_zero]

/-- The inner loop for a fixed `i` over `j = i + 1, ..., i + m`: the escape vector of `i`
grows by the pushes of the overlapping particles among those, the escape vector of each of
those by its push if it overlaps `i`, and no other escape vector changes. -/
theorem innerLoop_escapeAt (M : JSMath K) (g : List (Particle K)) (i : Nat)
    (pi : Particle K) (hi : g[i]? = some pi) (m : Nat) (hm : i + 1 + m ≤ g.length)
    (acc : List (Particle K)) (hg : acc.map resetContact = g.map resetContact) :
    ∀ k pk, g[k]? = some pk →
      escapeAt ((List.range' (i + 1) m).foldl (fun acc j => contactPair M acc i j) acc) k =
        escapeAt acc k +
          if k = i then sumOver (pushHigher M pi) (overlaps M pi) ((g.drop (i + 1)).take m)
          else if i < k ∧ k < i + 1 + m ∧ overlaps M pi pk = true then pushLower M pk pi
          else 0 := by
  induction m with
  | zero =>
    intro k pk hk
    simp only [List.range'_zero, List.foldl_nil, List.take_zero, sumOver_nil]
    split
    · rw [add_zero]
    · rw [if_neg (by omega), add_zero]
  | succ m ih =>
    have ih2 := ih (by omega)
    have ih1 := (innerLoop_contactsAt M g i pi hi m (by omega) acc hg).1
    have hjlt : i + 1 + m < g.length := by omega
    obtain ⟨pj, hj⟩ : ∃ pj, g[i + 1 + m]? = some pj :=
      ⟨g[i + 1 + m], List.getElem?_eq_getElem hjlt⟩
    rw [List.range'_concat, List.foldl_append]
    simp only [List.foldl_cons, List.foldl_nil, one_mul]
    intro k pk hk
    rw [contactPair_escapeAt M _ g ih1 i (i + 1 + m) (by omega) pi pj hi hj k, ih2 k pk hk]
    have htake : sumOver (pushHigher M pi) (overlaps M pi) ((g.drop (i + 1)).take (m + 1)) =
        sumOver (pushHigher M pi) (overlaps M pi) ((g.drop (i + 1)).take m) +
          if overlaps M pi pj = true then pushHigher M pi pj else 0 := by
      rw [List.take_succ, List.getElem?_drop, hj]
      simp only [Option.toList]
      rw [sumOver_append, sumOver_singleton]
    by_cases hki : k = i
    · subst hki
      rw [if_pos rfl, if_pos rfl, if_pos rfl, htake, add_assoc]
    · rw [if_neg hki, if_neg hki, if_neg hki]
      by_cases hkj : k = i + 1 + m
      · subst hkj
        have hpk : pk = pj := by
          rw [hj] at hk
          exact (Option.some.inj hk).symm
        subst hpk
        have h1 : ¬ (i < i + 1 + m ∧ i + 1 + m < i + 1 + m ∧ overlaps M pi pk = true) :=
          fun h => absurd h.2.1 (by omega)
        rw [if_neg h1, if_pos rfl, add_zero]
        by_cases ho : overlaps M pi pk = true
        · rw [if_pos ho, if_pos ⟨by omega, by omega, ho⟩]
        · rw [if_neg ho, if_neg (fun h => ho h.2.2)]
      · rw [if_neg hkj]
        have h0 : (if overlaps M pi pj = true then (0 : K × K) else 0) = 0 := by
          split <;> rfl
        rw [h0, add_zero]
        by_cases hc : i < k ∧ k < i + 1 + m ∧ overlaps M pi pk = true
        · rw [if_pos hc, if_pos ⟨hc.1, by omega, hc.2.2⟩]
        · rw [if_neg hc, if_neg (fun h => hc ⟨h.1, by omega, h.2.2⟩)]

/-- The outer loop over `i = 0, ..., a - 1`: a particle below `a` has been pushed by every
other particle that overlaps it, a particle from `a` on only by those below `a`. -/
theorem outerLoop_escapeAt (M : JSMath K) (g g0 : List (Particle K))
    (hg : g0.map resetContact = g.map resetContact) (a : Nat) (ha : a ≤ g.length) :
    ∀ k pk, g[k]? = some pk →
      escapeAt ((List.range a).foldl (fun acc i =>
        (List.range' (i + 1) (g.length - (i + 1))).foldl (fun acc j => contactPair M acc i j)
          acc) g0) k =
        escapeAt g0 k +
          if k < a then sumOver (pushLower M pk) (overlaps M pk) (g.take k) +
            sumOver (pushHigher M pk) (overlaps M pk) (g.drop (k + 1))
          else sumOver (pushLower M pk) (overlaps M pk) (g.take a) := by
  induction a with
  | zero =>
    intro k pk hk
    simp [sumOver_nil]
  | succ a ih =>
    have ih2 := ih (by omega)
    have ih1 := (outerLoop_contactsAt M g g0 hg a (by omega)).1
    have halt : a < g.length := by omega
    obtain ⟨pa, hpa⟩ : ∃ pa, g[a]? = some pa := ⟨g[a], List.getElem?_eq_getElem halt⟩
    rw [List.range_succ, List.foldl_append]
    simp only [List.foldl_cons, List.foldl_nil]
    have in2 := innerLoop_escapeAt M g a pa hpa (g.length - (a + 1)) (by omega) _ ih1
    intro k pk hk
    have hklt := lt_length_of_getElem? hk
    rw [in2 k pk hk, ih2 k pk hk]
    have hall : (g.drop (a + 1)).take (g.length - (a + 1)) = g.drop (a + 1) :=
      List.take_of_length_le (by simp)
    rw [hall]
    by_cases hka : k = a
    · subst hka
      have hpk : pk = pa := by
        rw [hpa] at hk
        exact (Option.some.inj hk).symm
      subst hpk
      rw [if_pos rfl, if_neg (show ¬ k < k by omega), if_pos (show k < k + 1 by omega),
        add_assoc]
    · rw [if_neg hka]
      by_cases hlt : k < a
      · have h1 : ¬ (a < k ∧ k < a + 1 + (g.length - (a + 1)) ∧ overlaps M pa pk = true) :=
          fun h => absurd h.1 (by omega)
        rw [if_neg h1, if_pos hlt, if_pos (show k < a + 1 by omega), add_zero]
      · have htake : sumOver (pushLower M pk) (overlaps M pk) (g.take (a + 1)) =
            sumOver (pushLower M pk) (overlaps M pk) (g.take a) +
              if overlaps M pa pk = true then pushLower M pk pa else 0 := by
          rw [List.take_succ, hpa, overlaps_symm M pa pk]
          simp only [Option.toList]
          rw [sumOver_append, sumOver_singleton]
        rw [if_neg hlt, if_neg (show ¬ k < a + 1 by omega), htake]
        by_cases ho : overlaps M pa pk = true
        · have h3 : a < k ∧ k < a + 1 + (g.length - (a + 1)) ∧ overlaps M pa pk = true :=
            ⟨by omega, by omega, ho⟩
          rw [if_pos h3, if_pos ho, add_assoc]
        · have h3 : ¬ (a < k ∧ k < a + 1 + (g.length - (a + 1)) ∧ overlaps M pa pk = true) :=
            fun h => ho h.2.2
          rw [if_neg h3, if_neg ho, add_assoc]

/-- The particle-particle loops add to every escape vector the pushes of the overlapping
particles of lower index and those of the overlapping particles of higher index. -/
theorem particleContacts_escapeAt (M : JSMath K) (g : List (Particle K)) (k : Nat)
    (pk : Particle K) (hk : g[k]? = some pk) :
    escapeAt (particleContacts M g) k =
      escapeAt g k + (sumOver (pushLower M pk) (overlaps M pk) (g.take k) +
        sumOver (pushHigher M pk) (overlaps M pk) (g.drop (k + 1))) := by
  have h := outerLoop_escapeAt M g g rfl g.length (le_refl _) k pk hk
  unfold particleContacts
  rw [h, if_pos (lt_length_of_getElem? hk)]

theorem sumOver_congr {α : Type} (f h : α → K × K) (c : α → Bool) (l : List α)
    (hfh : ∀ a ∈ l, c a = true → f a = h a) : sumOver f c l = sumOver h c l := by
  unfold sumOver
  congr 1
  apply List.map_congr_left
  intro a ha
  obtain ⟨h1, h2⟩ := List.mem_filter.1 ha
  exact hfh a h1 h2

theorem sumOver_map {α β : Type} (f : β → K × K) (c : β → Bool) (h : α → β) (l : List α) :
    sumOver f c (l.map h) = sumOver (fun a => f (h a)) (fun a => c (h a)) l := by
  unfold sumOver
  rw [List.filter_map, List.map_map]
  rfl

theorem pushBoundary_congr (M : JSMath K) {a q : Particle K} (hx : a.x = q.x) (hy : a.y = q.y)
    (b : Boundary K) : pushBoundary M a b = pushBoundary M q b := by
  unfold pushBoundary
  rw [hx, hy]

/-- One boundary test adds the outward unit vector exactly when the particle touches the
boundary at a positive distance. -/
theorem boundaryContact_escape (M : JSMath K) (q : Particle K) (b : Boundary K) :
    ((boundaryContact M q b).ve.x, (boundaryContact M q b).ve.y) =
      (q.ve.x, q.ve.y) + if touches M q b = true then pushBoundary M q b else 0 := by
  by_cases h : (distanceToBoundary M q.x q.y b.x1 b.y1 b.x2 b.y2).distance < q.r
  · have ht : touches M q b = true := by unfold touches; simpa using h
    rw [if_pos ht]
    unfold boundaryContact pushBoundary
    simp only
    rw [if_pos h]
    split
    · simp only [Prod.mk_add_mk]
    · simp only [Prod.mk_add_mk, add_zero]
  · have ht : ¬ touches M q b = true := by unfold touches; simpa using h
    rw [if_neg ht, add_zero]
    unfold boundaryContact
    simp only
    rw [if_neg h]

/-- The boundary loop adds the pushes of the boundaries the particle touches. -/
theorem boundaryFold_escape (M : JSMath K) (bs : List (Boundary K)) (q : Particle K) :
    ((bs.foldl (boundaryContact M) q).ve.x, (bs.foldl (boundaryContact M) q).ve.y) =
      (q.ve.x, q.ve.y) + sumOver (pushBoundary M q) (touches M q) bs := by
  induction bs generalizing q with
  | nil => simp [sumOver_nil]
  | cons b bs ih =>
    simp only [List.foldl_cons]
    rw [ih, boundaryContact_escape]
    obtain ⟨hx, hy, hr⟩ := boundaryContact_geom M q b
    have hc : sumOver (pushBoundary M (boundaryContact M q b))
        (touches M (boundaryContact M q b)) bs = sumOver (pushBoundary M q) (touches M q) bs := by
      have e1 : pushBoundary M (boundaryContact M q b) = pushBoundary M q := by
        funext b2
        exact pushBoundary_congr M hx hy b2
      have e2 : touches M (boundaryContact M q b) = touches M q := by
        funext b2
        exact touches_congr M hx hy hr b2
      rw [e1, e2]
    have hcons : sumOver (pushBoundary M q) (touches M q) (b :: bs) =
        (if touches M q b = true then pushBoundary M q b else 0) +
          sumOver (pushBoundary M q) (touches M q) bs := by
      have : b :: bs = [b] ++ bs := rfl
      rw [this, sumOver_append, sumOver_singleton]
    rw [hc, hcons, add_assoc]

/-- The contact loops at index `k`: the particle found there right before the
normalisation, and its escape vector as the sum of the pushes it received. -/
theorem accumulateEscape_at (M : JSMath K) (s : ParticleModel K) (k : Nat) (p : Particle K)
    (hp : s.particles[k]? = some p) :
    ∃ a, (accumulateEscape M s)[k]? = some a ∧ resetContact a = resetContact p ∧
      (a.ve.x, a.ve.y) =
        sumOver (pushLower M p) (overlaps M p) (s.particles.take k) +
          sumOver (pushHigher M p) (overlaps M p) (s.particles.drop (k + 1)) +
          sumOver (pushBoundary M p) (touches M p) s.boundaries := by
  have h0 : (s.particles.map resetContact)[k]? = some (resetContact p) := by
    simp [hp]
  have hsum := particleContacts_escapeAt M (s.particles.map resetContact) k (resetContact p) h0
  obtain ⟨a0, ha0, hra⟩ := getElem?_of_map_reset
    (particleContacts_map_reset M (s.particles.map resetContact)) k (resetContact p) h0
  have hra2 : resetContact a0 = resetContact p := hra
  rw [escapeAt_of_getElem? ha0, escapeAt_of_getElem? h0, ← List.map_take, ← List.map_drop,
    sumOver_map, sumOver_map] at hsum
  have hzero : ((resetContact p).ve.x, (resetContact p).ve.y) = ((0, 0) : K × K) := rfl
  rw [hzero] at hsum
  have hz2 : ((0, 0) : K × K) = 0 := rfl
  rw [hz2, zero_add] at hsum
  obtain ⟨ax, ay, -, -, ar, -⟩ := fields_of_reset_eq hra2
  refine ⟨s.boundaries.foldl (boundaryContact M) a0, ?_, ?_, ?_⟩
  · unfold accumulateEscape
    simp [ha0]
  · rw [boundaryFold_reset]
    exact hra2
  · rw [boundaryFold_escape, hsum]
    have e1 : pushBoundary M a0 = pushBoundary M p := by
      funext b2
      exact pushBoundary_congr M ax ay b2
    have e2 : touches M a0 = touches M p := by
      funext b2
      exact touches_congr M ax ay ar b2
    rw [e1, e2]
    rfl

theorem pushHigher_eq (M : JSMath K) (hM : M.DivExact) (p q : Particle K)
    (hd : M.sqrt ((p.x - q.x) * (p.x - q.x) + (p.y - q.y) * (p.y - q.y)) ≠ 0) :
    pushHigher M p q = pairPush M p q := by
  unfold pushHigher pairPush awayFrom
  simp only [Prod.mk_add_mk]
  rw [hM.div_eq _ _ hd, hM.div_eq _ _ hd]

theorem pushLower_eq (M : JSMath K) (hM : M.DivExact) (p q : Particle K)
    (hd : M.sqrt ((p.x - q.x) * (p.x - q.x) + (p.y - q.y) * (p.y - q.y)) ≠ 0) :
    pushLower M p q = pairPush M p q := by
  have hsymm : (q.x - p.x) * (q.x - p.x) + (q.y - p.y) * (q.y - p.y) =
      (p.x - q.x) * (p.x - q.x) + (p.y - q.y) * (p.y - q.y) := by ring
  unfold pushLower pairPush awayFrom
  simp only [Prod.mk_add_mk]
  rw [hsymm, hM.div_eq _ _ hd, hM.div_eq _ _ hd]
  have e1 : -((q.x - p.x) / M.sqrt ((p.x - q.x) * (p.x - q.x) + (p.y - q.y) * (p.y - q.y))) =
      (p.x - q.x) / M.sqrt ((p.x - q.x) * (p.x - q.x) + (p.y - q.y) * (p.y - q.y)) := by
    rw [← neg_div, neg_sub]
  have e2 : -((q.y - p.y) / M.sqrt ((p.x - q.x) * (p.x - q.x) + (p.y - q.y) * (p.y - q.y))) =
      (p.y - q.y) / M.sqrt ((p.x - q.x) * (p.x - q.x) + (p.y - q.y) * (p.y - q.y)) := by
    rw [← neg_div, neg_sub]
  rw [e1, e2]

theorem pushBoundary_eq (M : JSMath K) (hM : M.DivExact) (hsqrt : ∀ a, 0 ≤ M.sqrt a)
    (p : Particle K) (b : Boundary K)
    (hd : (distanceToBoundary M p.x p.y b.x1 b.y1 b.x2 b.y2).distance ≠ 0) :
    pushBoundary M p b = boundaryPush M p b := by
  have hd2 : M.sqrt ((p.x - (distanceToBoundary M p.x p.y b.x1 b.y1 b.x2 b.y2).pointX) *
        (p.x - (distanceToBoundary M p.x p.y b.x1 b.y1 b.x2 b.y2).pointX) +
      (p.y - (distanceToBoundary M p.x p.y b.x1 b.y1 b.x2 b.y2).pointY) *
        (p.y - (distanceToBoundary M p.x p.y b.x1 b.y1 b.x2 b.y2).pointY)) ≠ 0 := hd
  have hpos := lt_of_le_of_ne (hsqrt _) (Ne.symm hd2)
  have hdist : (distanceToBoundary M p.x p.y b.x1 b.y1 b.x2 b.y2).distance =
      M.sqrt ((p.x - (distanceToBoundary M p.x p.y b.x1 b.y1 b.x2 b.y2).pointX) *
        (p.x - (distanceToBoundary M p.x p.y b.x1 b.y1 b.x2 b.y2).pointX) +
      (p.y - (distanceToBoundary M p.x p.y b.x1 b.y1 b.x2 b.y2).pointY) *
        (p.y - (distanceToBoundary M p.x p.y b.x1 b.y1 b.x2 b.y2).pointY)) := rfl
  unfold pushBoundary boundaryPush
  simp only
  rw [if_pos hpos, hM.div_eq _ _ hd2, hM.div_eq _ _ hd2, hdist]

theorem sum_pairPush (M : JSMath K) (p : Particle K) (l : List (Particle K)) :
    (l.map (pairPush M p)).sum = (l.map (awayFrom M p)).sum + l.length • (p.vd.x, p.vd.y) := by
  induction l with
  | nil => simp
  | cons q l ih =>
    simp only [List.map_cons, List.sum_cons, List.length_cons]
    rw [ih, succ_nsmul]
    unfold pairPush
    abel

end EscapeSum

end VaryingPopulation

namespace VaryingPopulation


theorem ratMathWith_divExact (z : ℚ) : JSMath.DivExact (ratMathWith z) :=
  ⟨fun a b hb => by simp [ratMathWith, hb]⟩

theorem coincident_accumulated (z : ℚ) :
    (accumulateEscape (ratMathWith z) (coincident (ratMathWith z))).map
        (fun p => (p.x, p.y, p.inContact, p.contacts, p.ve.x, p.ve.y)) =
      [(0, 0, true, 1, z, z), (0, 0, true, 1, -z, -z)] := by
  simp [accumulateEscape, coincident, addParticleKey, ParticleModel.new, Particle.new,
    particleContacts, contactPair, resetContact, DEMOGRAPHICS, ratMathWith, ratSqrt,
    List.range, List.range.loop, List.range']
  norm_num

theorem ratSqrt_two : ratSqrt 2 = 1 := by
  unfold ratSqrt
  have h1 : ((2 : ℚ)).num = 2 := rfl
  have h2 : ((2 : ℚ)).den = 1 := rfl
  have h3 : Nat.sqrt 2 = 1 := by
    symm
    rw [Nat.eq_sqrt]
    constructor <;> norm_num
  rw [h1, h2]
  simp [h3]

theorem coincident_final_one :
    (findContacts (ratMathWith 1) (coincident (ratMathWith 1))).particles.map (fun p => p.ve) =
      [⟨3 / 2, 3 / 2, 3 / 2⟩, ⟨-3 / 2, -3 / 2, 3 / 2⟩] := by
  simp [findContacts, coincident, addParticleKey, ParticleModel.new, Particle.new,
    particleContacts, contactPair, resetContact, normalizeEscape, DEMOGRAPHICS, ratMathWith,
    List.range, List.range.loop, List.range']
  norm_num [normalizeEscape, ratSqrt_two, ratSqrt_zero]

theorem coincident_final_zero :
    (findContacts (ratMathWith 0) (coincident (ratMathWith 0))).particles.map (fun p => p.ve) =
      [⟨0, 0, 0⟩, ⟨0, 0, 0⟩] := by
  simp [findContacts, coincident, addParticleKey, ParticleModel.new, Particle.new,
    particleContacts, contactPair, resetContact, normalizeEscape, DEMOGRAPHICS, ratMathWith,
    List.range, List.range.loop, List.range']
  norm_num [normalizeEscape, ratSqrt_zero]

/-- Claim C23 (the code diverges).  For two adults created at the same point the pair test
of `findContacts` marks both in contact with one contact each, and it does divide by the
zero distance: with `z` standing for the value of a quotient by zero, the escape vectors
accumulated for the pair are `(z, z)` and `(-z, -z)`, so the result of `findContacts`
changes with `z` although every quotient by a non-zero number is exact. -/
theorem coincident_divides_by_zero (z : ℚ) :
    JSMath.DivExact (ratMathWith z) ∧
    (accumulateEscape (ratMathWith z) (coincident (ratMathWith z))).map
        (fun p => (p.x, p.y, p.inContact, p.contacts, p.ve.x, p.ve.y)) =
      [(0, 0, true, 1, z, z), (0, 0, true, 1, -z, -z)] ∧
    (findContacts (ratMathWith 1) (coincident (ratMathWith 1))).particles.map (fun p => p.ve) =
      [⟨3 / 2, 3 / 2, 3 / 2⟩, ⟨-3 / 2, -3 / 2, 3 / 2⟩] ∧
    (findContacts (ratMathWith 0) (coincident (ratMathWith 0))).particles.map (fun p => p.ve) =
      [⟨0, 0, 0⟩, ⟨0, 0, 0⟩] :=
  ⟨ratMathWith_divExact z, coincident_accumulated z, coincident_final_one, coincident_final_zero⟩

section EscapeClaims
variable {K : Type} [LinearOrderedField K]

theorem findContacts_of_accumulate (M : JSMath K) (s : ParticleModel K) :
    (findContacts M s).particles = (accumulateEscape M s).map (normalizeEscape M) := rfl

/-- Claim C26.  With exact division and a non-negative square root, in a state where every
contact is at a non-zero distance, the escape vector that `findContacts` has accumulated
for the particle at index `k` right before the normalisation is the sum, over the other
particles in contact with it, of the unit vector away from that particle plus its own
desired velocity as it stood before the call, plus the sum, over the boundaries in contact
with it, of the unit vector away from the nearest point of the boundary.  The desired
velocity enters once per particle contact. -/
theorem escape_accumulation (M : JSMath K) (hM : M.DivExact) (hsqrt : ∀ a, 0 ≤ M.sqrt a)
    (s : ParticleModel K) (hnz : ContactsApart M s) (k : Nat) (p : Particle K)
    (hp : s.particles[k]? = some p) :
    ∃ a, (accumulateEscape M s)[k]? = some a ∧
      (findContacts M s).particles[k]? = some (normalizeEscape M a) ∧
      a.x = p.x ∧ a.y = p.y ∧ a.vd = p.vd ∧
      (a.ve.x, a.ve.y) =
        (((s.particles.eraseIdx k).filter (overlaps M p)).map (pairPush M p)).sum +
          ((s.boundaries.filter (touches M p)).map (boundaryPush M p)).sum ∧
      (((s.particles.eraseIdx k).filter (overlaps M p)).map (pairPush M p)).sum =
        (((s.particles.eraseIdx k).filter (overlaps M p)).map (awayFrom M p)).sum +
          ((s.particles.eraseIdx k).countP (overlaps M p)) • (p.vd.x, p.vd.y) := by
  obtain ⟨a, ha, hra, hsum⟩ := accumulateEscape_at M s k p hp
  obtain ⟨ax, ay, -, -, -, -, -, -, avd, -⟩ := fields_of_reset_eq hra
  refine ⟨a, ha, ?_, ax, ay, avd, ?_, ?_⟩
  · rw [findContacts_of_accumulate]
    simp [ha]
  · rw [hsum]
    have hmem1 : ∀ q ∈ s.particles.take k, q ∈ s.particles.eraseIdx k := by
      intro q hq
      rw [List.eraseIdx_eq_take_drop_succ]
      exact List.mem_append_left _ hq
    have hmem2 : ∀ q ∈ s.particles.drop (k + 1), q ∈ s.particles.eraseIdx k := by
      intro q hq
      rw [List.eraseIdx_eq_take_drop_succ]
      exact List.mem_append_right _ hq
    rw [sumOver_congr (pushLower M p) (pairPush M p) (overlaps M p) _
        (fun q hq ho => pushLower_eq M hM p q (hnz.1 k p hp q (hmem1 q hq) ho)),
      sumOver_congr (pushHigher M p) (pairPush M p) (overlaps M p) _
        (fun q hq ho => pushHigher_eq M hM p q (hnz.1 k p hp q (hmem2 q hq) ho)),
      sumOver_congr (pushBoundary M p) (boundaryPush M p) (touches M p) _
        (fun b hb ht => pushBoundary_eq M hM hsqrt p b
          (hnz.2 p (List.getElem?_mem hp) b hb ht)),
      ← sumOver_append, ← List.eraseIdx_eq_take_drop_succ]
    rfl
  · rw [sum_pairPush, List.countP_eq_length_filter]

theorem contactPair_magnitude (M : JSMath K) (ps : List (Particle K)) (i j : Nat)
    (h : ∀ q ∈ ps, q.ve.magnitude = 0) : ∀ q ∈ contactPair M ps i j, q.ve.magnitude = 0 := by
  unfold contactPair
  split
  · next pi pj hi hj =>
    simp only
    split
    · intro q hq
      rcases List.mem_or_eq_of_mem_set hq with hq1 | rfl
      · rcases List.mem_or_eq_of_mem_set hq1 with hq2 | rfl
        · exact h q hq2
        · exact h pi (List.getElem?_mem hi)
      · exact h pj (List.getElem?_mem hj)
    · exact h
  · exact h

theorem particleContacts_magnitude (M : JSMath K) (ps : List (Particle K))
    (h : ∀ q ∈ ps, q.ve.magnitude = 0) : ∀ q ∈ particleContacts M ps, q.ve.magnitude = 0 := by
  unfold particleContacts
  refine foldl_preserves
    (fun (acc : List (Particle K)) => ∀ q ∈ acc, q.ve.magnitude = 0) _ ?_ _ _ h
  intro acc i hacc
  refine foldl_preserves
    (fun (acc : List (Particle K)) => ∀ q ∈ acc, q.ve.magnitude = 0) _ ?_ _ _ hacc
  intro acc2 j h2
  exact contactPair_magnitude M acc2 i j h2

theorem boundaryContact_magnitude (M : JSMath K) (q : Particle K) (b : Boundary K)
    (h : q.ve.magnitude = 0) : (boundaryContact M q b).ve.magnitude = 0 := by
  unfold boundaryContact
  simp only
  split
  · split <;> exact h
  · exact h

theorem boundaryFold_magnitude (M : JSMath K) (bs : List (Boundary K)) (q : Particle K)
    (h : q.ve.magnitude = 0) : (bs.foldl (boundaryContact M) q).ve.magnitude = 0 :=
  foldl_preserves (fun (q : Particle K) => q.ve.magnitude = 0) _
    (fun q b hq => boundaryContact_magnitude M q b hq) _ _ h

/-- Right before the normalisation a particle that is not in contact has the zero escape
vector, and no `magnitude` field has been written. -/
theorem accumulateEscape_zero (M : JSMath K) (s : ParticleModel K) (a : Particle K)
    (ha : a ∈ accumulateEscape M s) :
    a.ve.magnitude = 0 ∧ (a.inContact = false → a.ve.x = 0 ∧ a.ve.y = 0) := by
  unfold accumulateEscape at ha
  obtain ⟨a0, ha0, rfl⟩ := List.mem_map.1 ha
  have hreset : ∀ q ∈ s.particles.map resetContact, q.ve.magnitude = 0 := by
    intro q hq
    obtain ⟨q0, -, rfl⟩ := List.mem_map.1 hq
    rfl
  have hz := particleContacts_escape_zero M (s.particles.map resetContact) (by
    intro q hq _
    obtain ⟨q0, -, rfl⟩ := List.mem_map.1 hq
    exact ⟨rfl, rfl⟩) a0 ha0
  exact ⟨boundaryFold_magnitude M s.boundaries a0
      (particleContacts_magnitude M _ hreset a0 ha0),
    boundaryFold_escape_zero M s.boundaries a0 hz⟩

/-- With an exact square root the norm of a vector is positive exactly when the vector is
not zero. -/
theorem norm_pos_iff_of_exact (M : JSMath K) (hM : M.Exact) (x y : K) :
    0 < M.sqrt (x ^ 2 + y ^ 2) ↔ (x ≠ 0 ∨ y ≠ 0) := by
  have hnn : 0 ≤ x ^ 2 + y ^ 2 := by positivity
  have hsq := hM.sqrt_mul_self _ hnn
  have h0 := hM.sqrt_nonneg (x ^ 2 + y ^ 2)
  constructor
  · intro hpos
    by_contra hcon
    push_neg at hcon
    rw [hcon.1, hcon.2] at hsq hpos
    have : M.sqrt ((0 : K) ^ 2 + 0 ^ 2) * M.sqrt ((0 : K) ^ 2 + 0 ^ 2) = 0 := by
      rw [hsq]; norm_num
    have := mul_self_eq_zero.1 this
    rw [this] at hpos
    exact lt_irrefl _ hpos
  · intro hne
    apply lt_of_le_of_ne h0
    intro hz
    rw [← hz, zero_mul] at hsq
    have hx : x ^ 2 = 0 := by nlinarith [sq_nonneg x, sq_nonneg y]
    have hy : y ^ 2 = 0 := by nlinarith [sq_nonneg x, sq_nonneg y]
    rcases hne with h | h
    · exact h (pow_eq_zero_iff (by norm_num) |>.1 hx)
    · exact h (pow_eq_zero_iff (by norm_num) |>.1 hy)

/-- With exact square root and division: after `findContacts` a particle that is in contact and whose
accumulated escape vector is not zero has the accumulated vector divided by its norm and
multiplied by its own `vdMax` as escape velocity, of Euclidean norm exactly `vdMax` and
with `ve.magnitude = vdMax`; every other particle has the zero escape velocity with
magnitude `0`. -/
theorem findContacts_normalised (M : JSMath K) (hM : M.Exact) (s : ParticleModel K)
    (k : Nat) (p : Particle K) (hp : s.particles[k]? = some p) :
    ∃ a q, (accumulateEscape M s)[k]? = some a ∧ (findContacts M s).particles[k]? = some q ∧
      q.vdMax = p.vdMax ∧ q.inContact = a.inContact ∧
      (a.inContact = true ∧ (a.ve.x ≠ 0 ∨ a.ve.y ≠ 0) →
        0 < M.sqrt (a.ve.x ^ 2 + a.ve.y ^ 2) ∧
        q.ve.x = a.ve.x / M.sqrt (a.ve.x ^ 2 + a.ve.y ^ 2) * p.vdMax ∧
        q.ve.y = a.ve.y / M.sqrt (a.ve.x ^ 2 + a.ve.y ^ 2) * p.vdMax ∧
        q.ve.magnitude = p.vdMax ∧
        q.ve.x * q.ve.x + q.ve.y * q.ve.y = p.vdMax * p.vdMax) ∧
      (¬ (a.inContact = true ∧ (a.ve.x ≠ 0 ∨ a.ve.y ≠ 0)) → q.ve = ⟨0, 0, 0⟩) := by
  obtain ⟨a, ha, hra, -⟩ := accumulateEscape_at M s k p hp
  obtain ⟨hmag, hzero⟩ := accumulateEscape_zero M s a (List.getElem?_mem ha)
  have hvd : a.vdMax = p.vdMax := (fields_of_reset_eq hra).2.2.2.2.2.2.2.1
  have hq : (findContacts M s).particles[k]? = some (normalizeEscape M a) := by
    rw [findContacts_of_accumulate]
    simp [ha]
  have hnv : (normalizeEscape M a).vdMax = a.vdMax :=
    (fields_of_reset_eq (normalizeEscape_reset M a)).2.2.2.2.2.2.2.1
  refine ⟨a, normalizeEscape M a, ha, hq, hnv.trans hvd, (normalizeEscape_contacts M a).2, ?_, ?_⟩
  · rintro ⟨hc, hne⟩
    have hpos := (norm_pos_iff_of_exact M hM a.ve.x a.ve.y).2 hne
    have hsq := hM.sqrt_mul_self (a.ve.x ^ 2 + a.ve.y ^ 2) (by positivity)
    have hve : (normalizeEscape M a).ve =
        ⟨a.ve.x / M.sqrt (a.ve.x ^ 2 + a.ve.y ^ 2) * a.vdMax,
          a.ve.y / M.sqrt (a.ve.x ^ 2 + a.ve.y ^ 2) * a.vdMax, a.vdMax⟩ := by
      unfold normalizeEscape
      rw [if_pos hc]
      simp only
      rw [if_pos hpos, hM.div_eq _ _ (ne_of_gt hpos), hM.div_eq _ _ (ne_of_gt hpos)]
    rw [hve, ← hvd]
    refine ⟨hpos, rfl, rfl, rfl, ?_⟩
    simp only
    generalize M.sqrt (a.ve.x ^ 2 + a.ve.y ^ 2) = m at hsq hpos
    have hne2 : m ≠ 0 := ne_of_gt hpos
    have h1 : a.ve.x / m * a.vdMax * (a.ve.x / m * a.vdMax) +
        a.ve.y / m * a.vdMax * (a.ve.y / m * a.vdMax) =
        (a.ve.x ^ 2 + a.ve.y ^ 2) / (m * m) * (a.vdMax * a.vdMax) := by
      field_simp
      ring
    rw [h1, ← hsq, div_self (mul_ne_zero hne2 hne2), one_mul]
  · intro hnot
    have hve0 : a.ve = ⟨0, 0, 0⟩ := by
      have hxy : a.ve.x = 0 ∧ a.ve.y = 0 := by
        by_cases hc : a.inContact = true
        · by_contra hcon
          apply hnot
          refine ⟨hc, ?_⟩
          by_contra hcon2
          push_neg at hcon2
          exact hcon hcon2
        · exact hzero (by simpa using hc)
      cases hv : a.ve with
      | mk x y m =>
        rw [hv] at hxy hmag
        simp only at hxy hmag
        rw [hxy.1, hxy.2, hmag]
    have hsame : (normalizeEscape M a).ve = a.ve := by
      unfold normalizeEscape
      by_cases hc : a.inContact = true
      · rw [if_pos hc]
        simp only
        have hnpos : ¬ M.sqrt (a.ve.x ^ 2 + a.ve.y ^ 2) > 0 := by
          intro hpos
          have := (norm_pos_iff_of_exact M hM a.ve.x a.ve.y).1 hpos
          exact hnot ⟨hc, this⟩
        rw [if_neg hnpos]
      · rw [if_neg hc]
    rw [hsame, hve0]

end EscapeClaims

section Witnesses
variable {K : Type} [LinearOrderedField K]

theorem twoAdults_particles (M : JSMath K) :
    (twoAdults M).particles = [Particle.new 0 0 .ADULT, Particle.new (1 / 10) 0 .ADULT] := by
  simp [twoAdults, addParticleKey, ParticleModel.new]

theorem twoAdults_apart (M : JSMath K) (h : M.sqrt (1 / 100) ≠ 0) :
    ContactsApart M (twoAdults M) := by
  have hbs : (twoAdults M).boundaries = [] := by
    simp [twoAdults, addParticleKey, ParticleModel.new]
  refine ⟨?_, ?_⟩
  · intro k p hp q hq _
    rw [twoAdults_particles] at hp hq
    match k, hp, hq with
    | 0, hp, hq =>
      simp only [List.getElem?_cons_zero, Option.some.injEq] at hp
      simp only [List.eraseIdx_cons_zero, List.mem_singleton] at hq
      subst hp hq
      have e : ((Particle.new (0 : K) 0 .ADULT).x - (Particle.new (1 / 10 : K) 0 .ADULT).x) *
          ((Particle.new (0 : K) 0 .ADULT).x - (Particle.new (1 / 10 : K) 0 .ADULT).x) +
          ((Particle.new (0 : K) 0 .ADULT).y - (Particle.new (1 / 10 : K) 0 .ADULT).y) *
          ((Particle.new (0 : K) 0 .ADULT).y - (Particle.new (1 / 10 : K) 0 .ADULT).y) =
          1 / 100 := by
        simp only [Particle.new]
        norm_num
      rw [e]
      exact h
    | 1, hp, hq =>
      simp only [List.getElem?_cons_succ, List.getElem?_cons_zero, Option.some.injEq] at hp
      simp only [List.eraseIdx_cons_succ, List.eraseIdx_cons_zero, List.mem_singleton] at hq
      subst hp hq
      have e : ((Particle.new (1 / 10 : K) 0 .ADULT).x - (Particle.new (0 : K) 0 .ADULT).x) *
          ((Particle.new (1 / 10 : K) 0 .ADULT).x - (Particle.new (0 : K) 0 .ADULT).x) +
          ((Particle.new (1 / 10 : K) 0 .ADULT).y - (Particle.new (0 : K) 0 .ADULT).y) *
          ((Particle.new (1 / 10 : K) 0 .ADULT).y - (Particle.new (0 : K) 0 .ADULT).y) =
          1 / 100 := by
        simp only [Particle.new]
        norm_num
      rw [e]
      exact h
    | k + 2, hp, _ => simp at hp
  · intro p _ b hb
    rw [hbs] at hb
    cases hb

end Witnesses

theorem ratSqrt_hundredth : ratSqrt (1 / 100) = 1 / 10 := by
  unfold ratSqrt
  have h1 : ((1 : ℚ) / 100).num = 1 := by norm_num
  have h2 : ((1 : ℚ) / 100).den = 100 := by norm_num
  have h3 : Nat.sqrt 1 = 1 := by norm_num [Nat.sqrt_eq']
  have h4 : Nat.sqrt 100 = 10 := by norm_num [Nat.sqrt_eq']
  rw [h1, h2]
  simp [h3, h4]

theorem ratSqrt_nonneg (a : ℚ) : 0 ≤ ratSqrt a := by
  unfold ratSqrt
  positivity

/-- Witness for C26: the first particle of Scenario A over the rationals. -/
theorem escape_accumulation_witness :
    JSMath.DivExact ratMath ∧ (∀ a, 0 ≤ ratMath.sqrt a) ∧ ContactsApart ratMath (twoAdults ratMath) ∧
    (twoAdults ratMath).particles[0]? = some (Particle.new 0 0 .ADULT) ∧
    ∃ a, (accumulateEscape ratMath (twoAdults ratMath))[0]? = some a ∧
      a.vd = (Particle.new (0 : ℚ) 0 .ADULT).vd :=
  have hap : ContactsApart ratMath (twoAdults ratMath) :=
    twoAdults_apart ratMath (by
      show ratSqrt (1 / 100) ≠ 0
      rw [ratSqrt_hundredth]
      norm_num)
  have hp : (twoAdults ratMath).particles[0]? = some (Particle.new 0 0 .ADULT) := by
    rw [twoAdults_particles]
    rfl
  ⟨ratMath_divExact, ratSqrt_nonneg, hap, hp, by
    obtain ⟨a, h1, -, -, -, h5, -⟩ :=
      escape_accumulation ratMath ratMath_divExact ratSqrt_nonneg _ hap 0 _ hp
    exact ⟨a, h1, h5⟩⟩

end VaryingPopulation

/-- Witness for C24: the point `(0, 1)` over the segment from `(-1, 0)` to `(1, 0)`, over
the reals. -/
theorem distanceToBoundary_nearest_witness :
    JSMath.Exact (⟨Real.sqrt, fun a b => a ^ b, fun a b => a / b⟩ : JSMath ℝ) ∧
    ∃ t : ℝ, 0 ≤ t ∧ t ≤ 1 ∧
      (distanceToBoundary (⟨Real.sqrt, fun a b => a ^ b, fun a b => a / b⟩ : JSMath ℝ)
        0 1 (-1) 0 1 0).pointX = -1 + t * (1 - -1) :=
  ⟨VaryingPopulation.real_exact, by
    obtain ⟨t, h0, h1, hx, -⟩ :=
      distanceToBoundary_nearest _ VaryingPopulation.real_exact (0 : ℝ) 1 (-1) 0 1 0
    exact ⟨t, h0, h1, hx⟩⟩

namespace VaryingPopulation

section SpeedLaw
variable {K : Type} [LinearOrderedField K]

/-- Claim C31.  With exact built-ins, `rMax > rMin`, `vdMax ≥ 0` and `beta > 0`: for radii
`rMin ≤ r1 ≤ r2 ≤ rMax` the particle with radius `r1` has a desired speed that is at most
the desired speed of the same particle with radius `r2`, and both speeds lie in
`[0, vdMax]`. -/
theorem calculateDesiredVelocity_monotone (M : JSMath K) (hM : M.Exact) (beta : K)
    (hbeta : 0 < beta) (p : Particle K) (hlt : p.rMin < p.rMax) (hv : 0 ≤ p.vdMax)
    (r1 r2 : K) (h1 : p.rMin ≤ r1) (h12 : r1 ≤ r2) (h2 : r2 ≤ p.rMax) :
    calculateDesiredVelocity M beta { p with r := r1 } ≤
      calculateDesiredVelocity M beta { p with r := r2 } ∧
    0 ≤ calculateDesiredVelocity M beta { p with r := r1 } ∧
    calculateDesiredVelocity M beta { p with r := r2 } ≤ p.vdMax := by
  have hd : 0 < p.rMax - p.rMin := by linarith
  have b1 := calculateDesiredVelocity_bounds M hM beta hbeta { p with r := r1 } hlt h1
    (le_trans h12 h2) hv
  have b2 := calculateDesiredVelocity_bounds M hM beta hbeta { p with r := r2 } hlt
    (le_trans h1 h12) h2 hv
  refine ⟨?_, b1.1, b2.2⟩
  unfold calculateDesiredVelocity
  simp only
  rw [hM.div_eq _ _ (ne_of_gt hd), hM.div_eq _ _ (ne_of_gt hd)]
  apply mul_le_mul_of_nonneg_left _ hv
  apply hM.pow_mono _ _ beta (div_nonneg (by linarith) (le_of_lt hd)) _ hbeta
  apply div_le_div_of_nonneg_right _ (le_of_lt hd)
  linarith

end SpeedLaw

/-- Witness for C31: an adult at radii `0.3` and `0.5`, over the reals with `beta = 1`. -/
theorem calculateDesiredVelocity_monotone_witness :
    JSMath.Exact (⟨Real.sqrt, fun a b => a ^ b, fun a b => a / b⟩ : JSMath ℝ) ∧
    (0 : ℝ) < 1 ∧ (Particle.new (0 : ℝ) 0 .ADULT).rMin < (Particle.new (0 : ℝ) 0 .ADULT).rMax ∧
    0 ≤ (Particle.new (0 : ℝ) 0 .ADULT).vdMax ∧
    (Particle.new (0 : ℝ) 0 .ADULT).rMin ≤ 3 / 10 ∧ (3 / 10 : ℝ) ≤ 1 / 2 ∧
    (1 / 2 : ℝ) ≤ (Particle.new (0 : ℝ) 0 .ADULT).rMax ∧
    calculateDesiredVelocity (⟨Real.sqrt, fun a b => a ^ b, fun a b => a / b⟩ : JSMath ℝ) 1
        { Particle.new (0 : ℝ) 0 .ADULT with r := 3 / 10 } ≤
      calculateDesiredVelocity (⟨Real.sqrt, fun a b => a ^ b, fun a b => a / b⟩ : JSMath ℝ) 1
        { Particle.new (0 : ℝ) 0 .ADULT with r := 1 / 2 } :=
  have a1 : (Particle.new (0 : ℝ) 0 .ADULT).rMin < (Particle.new (0 : ℝ) 0 .ADULT).rMax := by
    simp only [Particle.new, DEMOGRAPHICS]; norm_num
  have a2 : 0 ≤ (Particle.new (0 : ℝ) 0 .ADULT).vdMax := by
    simp only [Particle.new, DEMOGRAPHICS]; norm_num
  have a3 : (Particle.new (0 : ℝ) 0 .ADULT).rMin ≤ 3 / 10 := by
    simp only [Particle.new, DEMOGRAPHICS]; norm_num
  have a4 : (1 / 2 : ℝ) ≤ (Particle.new (0 : ℝ) 0 .ADULT).rMax := by
    simp only [Particle.new, DEMOGRAPHICS]; norm_num
  ⟨real_exact, by norm_num, a1, a2, a3, by norm_num, a4,
    (calculateDesiredVelocity_monotone _ real_exact 1 (by norm_num) _ a1 a2 (3 / 10) (1 / 2)
      a3 (by norm_num) a4).1⟩

section Regrow
variable {K : Type} [LinearOrderedField K]

theorem regrowTicks_fields (M : JSMath K) (tau dt : K) (flags : Nat → Bool) (n : Nat)
    (p : Particle K) :
    (regrowTicks M tau dt flags n p).rMax = p.rMax ∧
    (regrowTicks M tau dt flags n p).rMin = p.rMin := by
  induction n with
  | zero => exact ⟨rfl, rfl⟩
  | succ n ih =>
    show (adjustRadius M tau dt _).rMax = _ ∧ (adjustRadius M tau dt _).rMin = _
    obtain ⟨-, -, -, -, a5, a6, -⟩ := adjustRadius_fields M tau dt
      { regrowTicks M tau dt flags n p with inContact := flags n }
    rw [a5, a6]
    exact ih

/-- The radius after `n` ticks without contact. -/
theorem regrowTicks_free (M : JSMath K) (hM : M.DivExact) (tau dt : K) (htau : 0 < tau)
    (hdt : 0 ≤ dt) (p : Particle K) (hmax : 0 < p.rMax) (hr0 : p.r ≤ p.rMax)
    (flags : Nat → Bool) (n : Nat) (hfree : ∀ k, k < n → flags k = false) :
    (regrowTicks M tau dt flags n p).r = min (p.r + n * (p.rMax / tau * dt)) p.rMax := by
  have hg : 0 ≤ p.rMax / tau * dt := mul_nonneg (div_nonneg (le_of_lt hmax) (le_of_lt htau)) hdt
  induction n with
  | zero =>
    show p.r = _
    simp only [Nat.cast_zero, zero_mul, add_zero]
    exact (min_eq_left hr0).symm
  | succ n ih =>
    have ih2 := ih (fun k hk => hfree k (by omega))
    have hf := hfree n (by omega)
    obtain ⟨e1, -⟩ := regrowTicks_fields M tau dt flags n p
    show (adjustRadius M tau dt _).r = _
    unfold adjustRadius
    simp only [hf]
    rw [if_neg (by simp), hM.div_eq _ _ (ne_of_gt htau), e1, ih2]
    push_cast
    rcases le_total (p.r + n * (p.rMax / tau * dt)) p.rMax with h | h
    · rw [min_eq_left h]
      congr 1
      ring
    · rw [min_eq_right h, min_eq_right (by linarith), min_eq_right]
      have : p.r + (n + 1) * (p.rMax / tau * dt) =
          p.r + n * (p.rMax / tau * dt) + p.rMax / tau * dt := by ring
      linarith

/-- One step seen from one surviving particle: its radius is the result of one tick of the
radius loop on its radius before the step with this step's contact flag, and the later
passes of the step leave that radius alone. -/
theorem step_radius (M : JSMath K) (clock : Nat → K) (s : ParticleModel K) (q : Particle K)
    (hq : q ∈ (step M clock s).particles) :
    ∃ p0 ∈ s.particles, q.rMax = p0.rMax ∧ q.rMin = p0.rMin ∧
      q.r = (adjustRadius M s.tau s.dt { p0 with inContact := q.inContact }).r := by
  obtain ⟨p, hp, -, rfl⟩ := step_mem M clock s q hq
  obtain ⟨p0, hp0, he⟩ := findContacts_mem M s p hp
  obtain ⟨-, -, -, -, e5, e6, e7, -⟩ := fields_of_reset_eq he
  obtain ⟨-, -, c3, c4, c5, -, -, c8, -⟩ := planMove_fields M s.beta s.dt s.targets
    (stressUpdate s.stressRate s.dt (adjustRadius M s.tau s.dt p))
  obtain ⟨-, -, -, -, b5, b6, b7, -, -, -, b11, -⟩ :=
    stressUpdate_fields s.stressRate s.dt (adjustRadius M s.tau s.dt p)
  obtain ⟨-, -, -, -, a5, a6, -, -, -, a10, -⟩ := adjustRadius_fields M s.tau s.dt p
  refine ⟨p0, hp0, ?_, ?_, ?_⟩
  · rw [c5, b7, a6, e7]
  · rw [c4, b6, a5, e6]
  · rw [c3, b5, c8, b11, a10]
    unfold adjustRadius
    simp only
    split
    · exact e6
    · rw [e5, e7]

/-- Claim C32.  With exact division, `tau > 0`, `dt ≥ 0` and `rMax > 0`: a particle that is
out of contact in each of `n` consecutive ticks and starts from `r0 ≤ rMax` ends with
`r = min(r0 + n * (rMax / tau) * dt, rMax)`; if moreover `r0 ≥ 0` and `n * dt ≥ tau`, its
radius is exactly `rMax`.  In a step the radius of a surviving particle is one such tick
applied to its radius before the step with the contact flag of that step. -/
theorem regrow_without_contact (M : JSMath K) (hM : M.DivExact) (tau dt : K) (htau : 0 < tau)
    (hdt : 0 ≤ dt) (p : Particle K) (hmax : 0 < p.rMax) (hr0 : p.r ≤ p.rMax)
    (flags : Nat → Bool) (n : Nat) (hfree : ∀ k, k < n → flags k = false) :
    (regrowTicks M tau dt flags n p).r = min (p.r + n * (p.rMax / tau * dt)) p.rMax ∧
    (0 ≤ p.r → tau ≤ n * dt → (regrowTicks M tau dt flags n p).r = p.rMax) ∧
    (∀ (clock : Nat → K) (s : ParticleModel K), ∀ q ∈ (step M clock s).particles,
      ∃ p0 ∈ s.particles, q.rMax = p0.rMax ∧ q.rMin = p0.rMin ∧
        q.r = (adjustRadius M s.tau s.dt { p0 with inContact := q.inContact }).r) := by
  have hfree2 := regrowTicks_free M hM tau dt htau hdt p hmax hr0 flags n hfree
  refine ⟨hfree2, ?_, fun clock s q hq => step_radius M clock s q hq⟩
  intro h0 hn
  rw [hfree2]
  apply min_eq_right
  have h1 : 1 ≤ n * dt / tau := by
    rw [le_div_iff₀ htau]
    linarith
  have h2 : (n : K) * (p.rMax / tau * dt) = p.rMax * (n * dt / tau) := by
    field_simp
    ring
  rw [h2]
  nlinarith

end Regrow

/-- Witness for C32: an adult with the default `tau = 1/2` and `dt = 3/80` is back at
`rMax = 0.8` after ten ticks without contact. -/
theorem regrow_without_contact_witness :
    JSMath.DivExact ratMath ∧ (0 : ℚ) < 1 / 2 ∧ (0 : ℚ) ≤ 3 / 80 ∧
    0 < (Particle.new (0 : ℚ) 0 .ADULT).rMax ∧
    (Particle.new (0 : ℚ) 0 .ADULT).r ≤ (Particle.new (0 : ℚ) 0 .ADULT).rMax ∧
    (∀ k, k < 10 → (fun _ => false) k = false) ∧
    (regrowTicks ratMath (1 / 2) (3 / 80) (fun _ => false) 10 (Particle.new 0 0 .ADULT)).r =
      min ((Particle.new (0 : ℚ) 0 .ADULT).r +
        (10 : Nat) * ((Particle.new (0 : ℚ) 0 .ADULT).rMax / (1 / 2) * (3 / 80)))
        (Particle.new (0 : ℚ) 0 .ADULT).rMax :=
  have a1 : 0 < (Particle.new (0 : ℚ) 0 .ADULT).rMax := by
    simp only [Particle.new, DEMOGRAPHICS]; norm_num
  have a2 : (Particle.new (0 : ℚ) 0 .ADULT).r ≤ (Particle.new (0 : ℚ) 0 .ADULT).rMax := by
    simp only [Particle.new, DEMOGRAPHICS]; norm_num
  ⟨ratMath_divExact, by norm_num, by norm_num, a1, a2, fun _ _ => rfl,
    (regrow_without_contact ratMath ratMath_divExact (1 / 2) (3 / 80) (by norm_num)
      (by norm_num) _ a1 a2 (fun _ => false) 10 (fun _ _ => rfl)).1⟩

end VaryingPopulation

namespace VaryingPopulation

section Squeezed
variable {K : Type} [LinearOrderedField K]

/-- Claim C36.  With exact division and `tau > 0`, after a step from a reachable state
every surviving particle has `r = rMin` exactly when its `inContact` flag is true; the
integrator moved the in-contact particles by their escape velocity and all others by their
desired velocity. -/
theorem squeezed_iff_inContact (M : JSMath K) (hM : M.DivExact) (options : Options K)
    (htau : 0 < (ParticleModel.new M options).tau)
    (s : ParticleModel K) (h : Reachable M options s) (clock : Nat → K) (q : Particle K)
    (hq : q ∈ (step M clock s).particles) :
    (q.r = q.rMin ↔ q.inContact = true) ∧
    ∃ m ∈ (beforeMove M s).particles, q = move s.dt m ∧ m.inContact = q.inContact ∧
      (q.inContact = true → q.x = m.x + m.ve.x * s.dt ∧ q.y = m.y + m.ve.y * s.dt) ∧
      (q.inContact = false → q.x = m.x + m.vd.x * s.dt ∧ q.y = m.y + m.vd.y * s.dt) := by
  have hiff : q.r = q.rMin ↔ q.inContact = true := by
    obtain ⟨p, hp, -, rfl⟩ := step_mem M clock s q hq
    obtain ⟨p0, hp0, he⟩ := findContacts_mem M s p hp
    obtain ⟨-, -, -, -, e5, e6, e7, -⟩ := fields_of_reset_eq he
    obtain ⟨-, g2, g3, -⟩ := reachable_fromRegistry M options s h p0 hp0
    obtain ⟨i1, -⟩ := reachable_radius_bounds M hM options htau s h p0 hp0
    obtain ⟨-, -, ht, hd, -⟩ := fields_of_params (reachable_params M options s h)
    obtain ⟨r1, r2, -⟩ := registry_facts (K := K) p0.demographic
    obtain ⟨-, -, c3, c4, -, -, -, c8, -⟩ := planMove_fields M s.beta s.dt s.targets
      (stressUpdate s.stressRate s.dt (adjustRadius M s.tau s.dt p))
    obtain ⟨-, -, -, -, b5, b6, -, -, -, -, b11, -⟩ :=
      stressUpdate_fields s.stressRate s.dt (adjustRadius M s.tau s.dt p)
    obtain ⟨-, -, -, -, a5, -, -, -, -, a10, -⟩ := adjustRadius_fields M s.tau s.dt p
    rw [c3, c4, c8, b5, b6, b11, a5, a10]
    have htau2 : 0 < s.tau := by rw [ht]; exact htau
    have hdt2 : 0 < s.dt := by rw [hd, new_dt M hM]; norm_num
    unfold adjustRadius
    by_cases hc : p.inContact = true
    · rw [if_pos hc]
      exact ⟨fun _ => hc, fun _ => rfl⟩
    · rw [if_neg hc]
      simp only
      constructor
      · intro hr
        exfalso
        rw [hM.div_eq _ _ (ne_of_gt htau2)] at hr
        have hdr : 0 < p.rMax / s.tau * s.dt := by
          apply mul_pos (div_pos _ htau2) hdt2
          rw [e7, g3]
          exact lt_trans r1 r2
        have h1 : p.rMin < p.r + p.rMax / s.tau * s.dt := by
          rw [e6, e5, g2]
          linarith
        have h2 : p.rMin < p.rMax := by
          rw [e6, e7, g2, g3]
          exact r2
        have := lt_min h1 h2
        rw [hr] at this
        exact lt_irrefl _ this
      · intro hc2
        exact absurd hc2 hc
  refine ⟨hiff, ?_⟩
  rw [step_particles] at hq
  obtain ⟨m, hm, rfl⟩ := List.mem_map.1 (List.mem_filter.1 hq).1
  have hr : (move s.dt m).r = m.r := rfl
  have hrm : (move s.dt m).rMin = m.rMin := rfl
  rw [hr, hrm] at hiff
  refine ⟨m, hm, rfl, rfl, ?_, ?_⟩
  · intro hc
    have hc2 : m.inContact = true := hc
    have hnot : ¬ m.r > m.rMin := by
      rw [hiff.2 hc2]
      exact lt_irrefl _
    unfold move
    simp only
    rw [if_neg hnot, if_neg hnot]
    exact ⟨rfl, rfl⟩
  · intro hc
    have hc2 : m.inContact = false := hc
    obtain ⟨p, hp, -, hmp⟩ := beforeMove_mem M s m hm
    obtain ⟨p0, hp0, he⟩ := findContacts_mem M s p hp
    have hge : m.rMin ≤ m.r := by
      have hmem : move s.dt m ∈ (step M clock s).particles := by
        rw [step_particles]
        exact hq
      have hb := reachable_radius_bounds M hM options htau _ (.step clock h) _ hmem
      have hreg := reachable_fromRegistry M options _ (.step clock h) _ hmem
      have h2 : (move s.dt m).rMin ≤ (move s.dt m).r := by
        rw [hreg.2.1]
        exact hb.1
      exact h2
    have hgt : m.r > m.rMin := by
      apply lt_of_le_of_ne hge
      intro heq
      have := hiff.1 heq.symm
      rw [hc] at this
      cases this
    unfold move
    simp only
    rw [if_pos hgt, if_pos hgt]
    exact ⟨rfl, rfl⟩

end Squeezed

/-- Witness for C36: a particle left by one step of Scenario A is in contact and at its
minimum radius. -/
theorem squeezed_iff_inContact_witness :
    JSMath.DivExact ratMath ∧ 0 < (ParticleModel.new ratMath ({} : Options ℚ)).tau ∧
    Reachable ratMath {} scenarioA ∧
    pushedLeft ∈ (step ratMath (fun _ => 0) scenarioA).particles ∧
    (pushedLeft.r = pushedLeft.rMin ↔ pushedLeft.inContact = true) :=
  ⟨ratMath_divExact, by rw [new_params_default.1]; norm_num, scenarioA_reachable,
    scenarioA_step_mem,
    (squeezed_iff_inContact ratMath ratMath_divExact {} (by rw [new_params_default.1]; norm_num)
      _ scenarioA_reachable _ _ scenarioA_step_mem).1⟩

section CensusProof
variable {K : Type} [LinearOrderedField K]

theorem countP_filter_not {α : Type} (c f : α → Bool) (l : List α) :
    ((l.filter (fun a => !c a)).countP f : Int) =
      (l.countP f : Nat) - (l.countP (fun a => c a && f a) : Nat) := by
  induction l with
  | nil => simp
  | cons a l ih =>
    cases hc : c a <;> cases hf : f a <;>
      simp [List.filter_cons, List.countP_cons, hc, hf, ih] <;> ring

theorem census_map (s : ParticleModel K) (f : Particle K → Particle K)
    (hf : ∀ p, (f p).demographic = p.demographic) (h : Census s) :
    Census { s with particles := s.particles.map f } := by
  intro d
  rw [h d]
  simp only [List.countP_map]
  congr 2
  funext p
  simp [hf p]

theorem census_addParticleKey (s : ParticleModel K) (x y : K) (key : DemoKey) (h : Census s) :
    Census (addParticleKey s x y key) := by
  intro d
  simp only [addParticleKey, updateStat_apply, List.countP_append]
  by_cases hd : d = key
  · subst hd
    rw [if_pos rfl]
    simp only
    rw [h d]
    simp [Particle.new]
  · rw [if_neg hd, h d]
    have : ¬ key = d := fun e => hd e.symm
    simp [Particle.new, this]

theorem census_removeDead (s : ParticleModel K) (h : Census s) : Census (removeDead s) := by
  intro d
  obtain ⟨k1, -, -, k4⟩ := deathFold_spec s.particles ⟨s, []⟩
  obtain ⟨-, -, -, g4⟩ := k4 d
  show ((s.particles.foldl deathVisit ⟨s, []⟩).model.demographicStats d).current =
    ((s.particles.foldl deathVisit ⟨s, []⟩).kept.countP
      (fun p => decide (p.demographic = d)) : Nat)
  rw [g4, k1]
  simp only [List.nil_append]
  rw [countP_filter_not (fun p : Particle K => p.dead)
    (fun p => decide (p.demographic = d)), h d]

theorem census_removeParticlesAtTarget (M : JSMath K) (clock : Nat → K) (s : ParticleModel K)
    (h : Census s) : Census (removeParticlesAtTarget M clock s) := by
  intro d
  obtain ⟨k1, -, k4⟩ := arrivalFold_spec M clock s.particles ⟨s, [], 0⟩
  obtain ⟨-, -, -, g4⟩ := k4 d
  show ((s.particles.foldl (arrivalVisit M clock) ⟨s, [], 0⟩).model.demographicStats d).current =
    ((s.particles.foldl (arrivalVisit M clock) ⟨s, [], 0⟩).kept.countP
      (fun p => decide (p.demographic = d)) : Nat)
  rw [g4, k1]
  simp only [List.nil_append]
  rw [countP_filter_not (fun p : Particle K => arrives M s.targets p)
    (fun p => decide (p.demographic = d)), h d]

theorem census_findContacts (M : JSMath K) (s : ParticleModel K) (h : Census s) :
    Census (findContacts M s) := by
  intro d
  have hstat : (findContacts M s).demographicStats = s.demographicStats := rfl
  rw [hstat, h d]
  have h1 : ∀ l : List (Particle K),
      l.countP (fun p => decide (p.demographic = d)) =
        (l.map resetContact).countP (fun p => decide (p.demographic = d)) := by
    intro l
    rw [List.countP_map]
    rfl
  rw [h1 s.particles, h1 (findContacts M s).particles, findContacts_map_reset]

theorem census_step (M : JSMath K) (clock : Nat → K) (s : ParticleModel K) (h : Census s) :
    Census (step M clock s) := by
  unfold step beforeMove
  apply census_removeParticlesAtTarget
  refine census_map _ _ ?_ ?_
  · intro p
    rfl
  refine census_map _ _ ?_ ?_
  · intro p
    exact (desiredVelocity_fields M _ _ p).2.2.1
  refine census_map _ _ ?_ ?_
  · intro p
    rfl
  apply census_removeDead
  refine census_map _ _ ?_ ?_
  · intro p
    exact (stressUpdate_fields _ _ p).2.2.1
  refine census_map _ _ ?_ ?_
  · intro p
    exact (adjustRadius_fields M _ _ p).2.2.1
  exact census_findContacts M s h

theorem reachable_census (M : JSMath K) (options : Options K) (s : ParticleModel K)
    (h : Reachable M options s) : Census s := by
  induction h with
  | init => intro d; simp [ParticleModel.new, DemographicStat.zero]
  | addParticle x y demographic _ hadd ih =>
    unfold addParticle at hadd
    split at hadd
    · cases hadd
      exact census_addParticleKey _ _ _ _ ih
    · cases hadd
  | addParticlesWithDemographics x y count rnd _ ih =>
    unfold addParticlesWithDemographics
    exact foldl_preserves Census _ (fun b a hb => census_addParticleKey _ _ _ _ hb) _ _ ih
  | addTarget x y _ ih => exact ih
  | addBoundary x1 y1 x2 y2 _ ih => exact ih
  | findClosestTargets _ ih => exact census_map _ _ (fun p => rfl) ih
  | setStartTime now _ ih => exact ih
  | step clock _ ih => exact census_step M clock _ ih
  | reset _ ih =>
    intro d
    rw [show (reset _).demographicStats = _ from reset_stats _]
    simp [reset, DemographicStat.zero]

theorem sum_countP_keys (l : List (Particle K)) :
    ((DemoKey.keys.map (fun d => ((l.countP (fun p => decide (p.demographic = d)) : Nat) :
      Int))).sum) = l.length := by
  induction l with
  | nil => simp [DemoKey.keys]
  | cons p l ih =>
    simp only [DemoKey.keys, List.map_cons, List.map_nil, List.sum_cons, List.sum_nil,
      List.countP_cons, List.length_cons] at ih ⊢
    cases hd : p.demographic <;> simp <;> linarith

end CensusProof

end VaryingPopulation

namespace VaryingPopulation

section NoTargetMotion
variable {K : Type} [LinearOrderedField K]

/-- A particle that the contact pass leaves out of contact has a zero escape vector. -/
theorem findContacts_free_escape (M : JSMath K) (s : ParticleModel K) (p : Particle K)
    (hp : p ∈ (findContacts M s).particles) (hc : p.inContact = false) :
    p.ve.x = 0 ∧ p.ve.y = 0 := by
  rw [findContacts_of_accumulate] at hp
  obtain ⟨a, ha, rfl⟩ := List.mem_map.1 hp
  have hca : a.inContact = false := by
    rw [← (normalizeEscape_contacts M a).2]
    exact hc
  have hz := (accumulateEscape_zero M s a ha).2 hca
  unfold normalizeEscape
  rw [if_neg (by simp [hca])]
  exact hz

/-- Claim C34 (amended).  In a reachable state with an empty target list, a step leaves
every surviving particle with a zero desired velocity; a survivor that is not in contact
keeps its position, and a survivor that is in contact is displaced by its escape velocity
times `dt`. -/
theorem no_target_motion (M : JSMath K) (options : Options K) (s : ParticleModel K)
    (h : Reachable M options s) (ht : s.targets = []) (clock : Nat → K) (q : Particle K)
    (hq : q ∈ (step M clock s).particles) :
    ∃ p0 ∈ s.particles, q.vd = ⟨0, 0, 0⟩ ∧
      (q.inContact = false → q.x = p0.x ∧ q.y = p0.y) ∧
      (q.inContact = true → q.x = p0.x + q.ve.x * s.dt ∧ q.y = p0.y + q.ve.y * s.dt) := by
  obtain ⟨p, hp, -, rfl⟩ := step_mem M clock s q hq
  obtain ⟨p0, hp0, he⟩ := findContacts_mem M s p hp
  obtain ⟨e1, e2, -, -, -, -, -, -, e9, -⟩ := fields_of_reset_eq he
  obtain ⟨-, hvd⟩ := reachable_no_target M options s h ht p0 hp0
  refine ⟨p0, hp0, ?_⟩
  have hdv : ∀ a : Particle K, desiredVelocity M s.beta s.targets a = a := by
    intro a
    unfold desiredVelocity
    rw [ht, assignedTarget_nil]
  rw [hdv]
  obtain ⟨c1, c2, -, -, c5, c6, -, -, c9, c10, c11, -⟩ := closestTarget_fields M s.targets
    (stressUpdate s.stressRate s.dt (adjustRadius M s.tau s.dt p))
  obtain ⟨b1, b2, -, -, b5, b6, -, -, b9, b10, b11, -⟩ :=
    stressUpdate_fields s.stressRate s.dt (adjustRadius M s.tau s.dt p)
  obtain ⟨a1, a2, -, -, a5, -, -, a8, a9, a10, -⟩ := adjustRadius_fields M s.tau s.dt p
  have hx := c1.trans (b1.trans (a1.trans e1))
  have hy := c2.trans (b2.trans (a2.trans e2))
  have hv := c9.trans (b9.trans (a8.trans (e9.trans hvd)))
  have hve := c10.trans (b10.trans a9)
  have hic := c11.trans (b11.trans a10)
  have hr := c5.trans b5
  have hrm := c6.trans (b6.trans a5)
  refine ⟨hv, ?_, ?_⟩
  · intro hc
    have hc2 : p.inContact = false := by
      rw [← hic]
      exact hc
    obtain ⟨z1, z2⟩ := findContacts_free_escape M s p hp hc2
    unfold move
    simp only
    rw [hv, hve, z1, z2, hx, hy]
    simp
  · intro hc
    have hc2 : p.inContact = true := by
      rw [← hic]
      exact hc
    have hnot : ¬ (closestTarget M s.targets
        (stressUpdate s.stressRate s.dt (adjustRadius M s.tau s.dt p))).r >
        (closestTarget M s.targets
          (stressUpdate s.stressRate s.dt (adjustRadius M s.tau s.dt p))).rMin := by
      rw [hr, hrm]
      unfold adjustRadius
      rw [if_pos hc2]
      exact lt_irrefl _
    unfold move
    simp only
    rw [if_neg hnot, if_neg hnot, hx, hy]
    exact ⟨rfl, rfl⟩

end NoTargetMotion

/-- Witness for C34 (amended): the first particle left by one step of Scenario A, which has
no target, has no desired velocity. -/
theorem no_target_motion_witness :
    Reachable ratMath {} scenarioA ∧ scenarioA.targets = [] ∧
    pushedLeft ∈ (step ratMath (fun _ => 0) scenarioA).particles ∧
    ∃ p0 ∈ scenarioA.particles, pushedLeft.vd = ⟨0, 0, 0⟩ ∧
      (pushedLeft.inContact = false → pushedLeft.x = p0.x ∧ pushedLeft.y = p0.y) ∧
      (pushedLeft.inContact = true →
        pushedLeft.x = p0.x + pushedLeft.ve.x * scenarioA.dt ∧
        pushedLeft.y = p0.y + pushedLeft.ve.y * scenarioA.dt) :=
  ⟨scenarioA_reachable, rfl, scenarioA_step_mem,
    no_target_motion ratMath {} scenarioA scenarioA_reachable rfl (fun _ => 0) pushedLeft
      scenarioA_step_mem⟩

/-- Counterexample for C34: Scenario A is reachable and has no target, its two particles
stand at `(0, 0)` and `(1/10, 0)`, and one step moves them to `(-9/160, 0)` and
`(5/32, 0)`. -/
theorem no_target_still_moves :
    Reachable ratMath {} scenarioA ∧ scenarioA.targets = [] ∧
    scenarioA.particles.map (fun p => (p.x, p.y)) = [(0, 0), (1 / 10, 0)] ∧
    (step ratMath (fun _ => 0) scenarioA).particles.map (fun p => (p.x, p.y)) =
      [(-9 / 160, 0), (5 / 32, 0)] := by
  refine ⟨scenarioA_reachable, rfl, ?_, ?_⟩
  · simp [scenarioA, addParticleKey, ParticleModel.new, Particle.new]
  · rw [scenarioA_step]
    simp [Particle.new]

end VaryingPopulation

namespace VaryingPopulation

section UnusedOptions
variable {K : Type} [LinearOrderedField K]

theorem deathVisit_withoutThresholds (m : ParticleModel K) (k : List (Particle K))
    (p : Particle K) :
    deathVisit ⟨withoutThresholds m, k⟩ p =
      ⟨withoutThresholds (deathVisit ⟨m, k⟩ p).model, (deathVisit ⟨m, k⟩ p).kept⟩ := by
  unfold deathVisit
  split <;> rfl

theorem deathFold_withoutThresholds (ps : List (Particle K)) (m : ParticleModel K)
    (k : List (Particle K)) :
    ps.foldl deathVisit ⟨withoutThresholds m, k⟩ =
      ⟨withoutThresholds (ps.foldl deathVisit ⟨m, k⟩).model,
        (ps.foldl deathVisit ⟨m, k⟩).kept⟩ := by
  induction ps generalizing m k with
  | nil => rfl
  | cons p ps ih =>
    simp only [List.foldl_cons]
    rw [deathVisit_withoutThresholds, ih]

theorem arrivalVisit_withoutThresholds (M : JSMath K) (clock : Nat → K) (m : ParticleModel K)
    (k : List (Particle K)) (c : Nat) (p : Particle K) :
    arrivalVisit M clock ⟨withoutThresholds m, k, c⟩ p =
      ⟨withoutThresholds (arrivalVisit M clock ⟨m, k, c⟩ p).model,
        (arrivalVisit M clock ⟨m, k, c⟩ p).kept, (arrivalVisit M clock ⟨m, k, c⟩ p).calls⟩ := by
  unfold arrivalVisit
  simp only
  have ht : (withoutThresholds m).targets = m.targets := rfl
  rw [ht]
  split
  · split
    · split
      · next h1 =>
        have h2 : m.particlesReachedTarget + 1 + m.particlesDied = m.totalParticlesCreated :=
          h1
        rw [if_pos h2]
        rfl
      · next h1 =>
        have h2 : ¬ m.particlesReachedTarget + 1 + m.particlesDied =
            m.totalParticlesCreated := h1
        rw [if_neg h2]
        rfl
    · rfl
  · rfl

theorem arrivalFold_withoutThresholds (M : JSMath K) (clock : Nat → K) (ps : List (Particle K))
    (m : ParticleModel K) (k : List (Particle K)) (c : Nat) :
    ps.foldl (arrivalVisit M clock) ⟨withoutThresholds m, k, c⟩ =
      ⟨withoutThresholds (ps.foldl (arrivalVisit M clock) ⟨m, k, c⟩).model,
        (ps.foldl (arrivalVisit M clock) ⟨m, k, c⟩).kept,
        (ps.foldl (arrivalVisit M clock) ⟨m, k, c⟩).calls⟩ := by
  induction ps generalizing m k c with
  | nil => rfl
  | cons p ps ih =>
    simp only [List.foldl_cons]
    rw [arrivalVisit_withoutThresholds, ih]

theorem removeDead_withoutThresholds (s : ParticleModel K) :
    removeDead (withoutThresholds s) = withoutThresholds (removeDead s) := by
  unfold removeDead
  simp only
  have hp : (withoutThresholds s).particles = s.particles := rfl
  rw [hp, deathFold_withoutThresholds]
  rfl

theorem removeParticlesAtTarget_withoutThresholds (M : JSMath K) (clock : Nat → K)
    (s : ParticleModel K) :
    removeParticlesAtTarget M clock (withoutThresholds s) =
      withoutThresholds (removeParticlesAtTarget M clock s) := by
  unfold removeParticlesAtTarget
  simp only
  have hp : (withoutThresholds s).particles = s.particles := rfl
  rw [hp, arrivalFold_withoutThresholds]
  rfl

/-- A step neither reads nor writes the model-level `stressThreshold` and
`crushThreshold`. -/
theorem step_withoutThresholds (M : JSMath K) (clock : Nat → K) (s : ParticleModel K) :
    step M clock (withoutThresholds s) = withoutThresholds (step M clock s) := by
  have h1 : findContacts M (withoutThresholds s) = withoutThresholds (findContacts M s) := rfl
  have h2 : ∀ u : ParticleModel K,
      adjustRadii M (withoutThresholds u) = withoutThresholds (adjustRadii M u) := fun _ => rfl
  have h3 : ∀ u : ParticleModel K,
      accumulateStress (withoutThresholds u) = withoutThresholds (accumulateStress u) :=
    fun _ => rfl
  have h5 : ∀ u : ParticleModel K,
      findClosestTargets M (withoutThresholds u) = withoutThresholds (findClosestTargets M u) :=
    fun _ => rfl
  have h6 : ∀ u : ParticleModel K, computeDesiredVelocities M (withoutThresholds u) =
      withoutThresholds (computeDesiredVelocities M u) := fun _ => rfl
  have h7 : ∀ u : ParticleModel K,
      updatePositions (withoutThresholds u) = withoutThresholds (updatePositions u) :=
    fun _ => rfl
  unfold step beforeMove
  rw [h1, h2, h3, removeDead_withoutThresholds, h5, h6, h7,
    removeParticlesAtTarget_withoutThresholds]

theorem addParticles_withoutThresholds (s : ParticleModel K) (x y : K) (count : Nat)
    (rnd : Nat → K) :
    addParticlesWithDemographics (withoutThresholds s) x y count rnd =
      withoutThresholds (addParticlesWithDemographics s x y count rnd) := by
  unfold addParticlesWithDemographics
  generalize List.range count = l
  induction l generalizing s with
  | nil => rfl
  | cons i l ih =>
    simp only [List.foldl_cons]
    exact ih (addParticleKey s _ _ _)

theorem perform_withoutThresholds (M : JSMath K) (s : ParticleModel K) (c : Call K) :
    perform M (withoutThresholds s) c = withoutThresholds (perform M s c) := by
  cases c with
  | addParticle x y demographic =>
    show (addParticle (withoutThresholds s) x y demographic).getD (withoutThresholds s) =
      withoutThresholds ((addParticle s x y demographic).getD s)
    unfold addParticle
    cases DemoKey.ofString demographic <;> rfl
  | addParticlesWithDemographics x y count rnd => exact addParticles_withoutThresholds s x y count rnd
  | addTarget x y => rfl
  | addBoundary x1 y1 x2 y2 => rfl
  | findClosestTargets => rfl
  | setStartTime now => rfl
  | step clock => exact step_withoutThresholds M clock s
  | reset => rfl

theorem performAll_withoutThresholds (M : JSMath K) (s : ParticleModel K)
    (calls : List (Call K)) :
    performAll M (withoutThresholds s) calls = withoutThresholds (performAll M s calls) := by
  unfold performAll
  induction calls generalizing s with
  | nil => rfl
  | cons c calls ih =>
    simp only [List.foldl_cons]
    rw [perform_withoutThresholds, ih]

/-- Claim C38.  Two models built with options that differ only in `rMin`, `vdMax`,
`stressThreshold` and `crushThreshold` and driven by the same sequence of calls are equal
up to the stored `stressThreshold` and `crushThreshold`: they have equal `dt`, particles,
counters, per-demographic statistics, death markers and timestamps. -/
theorem unused_options (M : JSMath K) (options : Options K) (rMin vdMax stressThreshold
    crushThreshold : Option K) (calls : List (Call K)) :
    withoutThresholds (performAll M (ParticleModel.new M options) calls) =
      withoutThresholds (performAll M (ParticleModel.new M { options with
        rMin := rMin, vdMax := vdMax, stressThreshold := stressThreshold,
        crushThreshold := crushThreshold }) calls) ∧
    (performAll M (ParticleModel.new M options) calls).dt =
      (performAll M (ParticleModel.new M { options with
        rMin := rMin, vdMax := vdMax, stressThreshold := stressThreshold,
        crushThreshold := crushThreshold }) calls).dt ∧
    (performAll M (ParticleModel.new M options) calls).particles =
      (performAll M (ParticleModel.new M { options with
        rMin := rMin, vdMax := vdMax, stressThreshold := stressThreshold,
        crushThreshold := crushThreshold }) calls).particles ∧
    (performAll M (ParticleModel.new M options) calls).particlesReachedTarget =
      (performAll M (ParticleModel.new M { options with
        rMin := rMin, vdMax := vdMax, stressThreshold := stressThreshold,
        crushThreshold := crushThreshold }) calls).particlesReachedTarget ∧
    (performAll M (ParticleModel.new M options) calls).particlesDied =
      (performAll M (ParticleModel.new M { options with
        rMin := rMin, vdMax := vdMax, stressThreshold := stressThreshold,
        crushThreshold := crushThreshold }) calls).particlesDied ∧
    (performAll M (ParticleModel.new M options) calls).totalParticlesCreated =
      (performAll M (ParticleModel.new M { options with
        rMin := rMin, vdMax := vdMax, stressThreshold := stressThreshold,
        crushThreshold := crushThreshold }) calls).totalParticlesCreated ∧
    (performAll M (ParticleModel.new M options) calls).demographicStats =
      (performAll M (ParticleModel.new M { options with
        rMin := rMin, vdMax := vdMax, stressThreshold := stressThreshold,
        crushThreshold := crushThreshold }) calls).demographicStats ∧
    (performAll M (ParticleModel.new M options) calls).deathMarkers =
      (performAll M (ParticleModel.new M { options with
        rMin := rMin, vdMax := vdMax, stressThreshold := stressThreshold,
        crushThreshold := crushThreshold }) calls).deathMarkers := by
  have h0 : withoutThresholds (ParticleModel.new M options) =
      withoutThresholds (ParticleModel.new M { options with
        rMin := rMin, vdMax := vdMax, stressThreshold := stressThreshold,
        crushThreshold := crushThreshold }) := rfl
  have h : withoutThresholds (performAll M (ParticleModel.new M options) calls) =
      withoutThresholds (performAll M (ParticleModel.new M { options with
        rMin := rMin, vdMax := vdMax, stressThreshold := stressThreshold,
        crushThreshold := crushThreshold }) calls) := by
    rw [← performAll_withoutThresholds, ← performAll_withoutThresholds, h0]
  exact ⟨h, congrArg (fun u => u.dt) h, congrArg (fun u => u.particles) h,
    congrArg (fun u => u.particlesReachedTarget) h, congrArg (fun u => u.particlesDied) h,
    congrArg (fun u => u.totalParticlesCreated) h, congrArg (fun u => u.demographicStats) h,
    congrArg (fun u => u.deathMarkers) h⟩

end UnusedOptions

end VaryingPopulation

namespace VaryingPopulation

section OnBoundary
variable {K : Type} [LinearOrderedField K]

theorem sumOver_eq_zero {α : Type} (f : α → K × K) (c : α → Bool) (l : List α)
    (h : ∀ a ∈ l, c a = true → f a = 0) : sumOver f c l = 0 := by
  rw [sumOver_congr f (fun _ => 0) c l h]
  unfold sumOver
  induction l.filter c with
  | nil => rfl
  | cons a l ih =>
    simp only [List.map_cons, List.sum_cons, ih, add_zero]

/-- The distance `distanceToBoundary` returns when the nearest point is the centre. -/
theorem distance_of_point_eq (M : JSMath K) (px py : K) (b : Boundary K)
    (hx : (distanceToBoundary M px py b.x1 b.y1 b.x2 b.y2).pointX = px)
    (hy : (distanceToBoundary M px py b.x1 b.y1 b.x2 b.y2).pointY = py) :
    (distanceToBoundary M px py b.x1 b.y1 b.x2 b.y2).distance = M.sqrt 0 := by
  have h : (distanceToBoundary M px py b.x1 b.y1 b.x2 b.y2).distance =
      M.sqrt ((px - (distanceToBoundary M px py b.x1 b.y1 b.x2 b.y2).pointX) *
          (px - (distanceToBoundary M px py b.x1 b.y1 b.x2 b.y2).pointX) +
        (py - (distanceToBoundary M px py b.x1 b.y1 b.x2 b.y2).pointY) *
          (py - (distanceToBoundary M px py b.x1 b.y1 b.x2 b.y2).pointY)) := rfl
  rw [h, hx, hy]
  congr 1
  ring

theorem pushBoundary_of_point_eq (M : JSMath K) (hsq : M.sqrt 0 = 0) (p : Particle K)
    (b : Boundary K)
    (hx : (distanceToBoundary M p.x p.y b.x1 b.y1 b.x2 b.y2).pointX = p.x)
    (hy : (distanceToBoundary M p.x p.y b.x1 b.y1 b.x2 b.y2).pointY = p.y) :
    pushBoundary M p b = 0 := by
  unfold pushBoundary
  simp only
  rw [hx, hy]
  have h0 : (p.x - p.x) * (p.x - p.x) + (p.y - p.y) * (p.y - p.y) = 0 := by ring
  rw [h0, hsq, if_neg (lt_irrefl _)]
  rfl

/-- The contact pass on a particle that no other particle overlaps and whose touched
boundaries all pass through its centre: a zero escape velocity. -/
theorem findContacts_on_boundary (M : JSMath K) (hsq : M.sqrt 0 = 0) (s : ParticleModel K)
    (k : Nat) (p : Particle K) (hp : s.particles[k]? = some p)
    (hno : ∀ q ∈ s.particles.eraseIdx k, overlaps M p q = false)
    (hon : ∀ b ∈ s.boundaries, touches M p b = true →
      (distanceToBoundary M p.x p.y b.x1 b.y1 b.x2 b.y2).pointX = p.x ∧
      (distanceToBoundary M p.x p.y b.x1 b.y1 b.x2 b.y2).pointY = p.y) :
    ∃ q, (findContacts M s).particles[k]? = some q ∧ resetContact q = resetContact p ∧
      q.contacts = s.boundaries.countP (touches M p) ∧
      (q.inContact = true ↔ 0 < q.contacts) ∧ q.ve = ⟨0, 0, 0⟩ := by
  obtain ⟨a, ha, hra, hsum⟩ := accumulateEscape_at M s k p hp
  obtain ⟨q, hq, hc, hflag, -⟩ := findContacts_at M s k p hp
  have hq2 : (findContacts M s).particles[k]? = some (normalizeEscape M a) := by
    rw [findContacts_of_accumulate, List.getElem?_map, ha]
    rfl
  have hqa : q = normalizeEscape M a := by
    rw [hq] at hq2
    exact Option.some.inj hq2
  have herase : s.particles.eraseIdx k = s.particles.take k ++ s.particles.drop (k + 1) :=
    List.eraseIdx_eq_take_drop_succ _ _
  have hcount : (s.particles.eraseIdx k).countP (overlaps M p) = 0 := by
    rw [List.countP_eq_zero]
    intro x hx
    rw [hno x hx]
    simp
  have h1 : sumOver (pushLower M p) (overlaps M p) (s.particles.take k) = 0 := by
    apply sumOver_eq_zero
    intro x hx hov
    rw [hno x (by rw [herase]; exact List.mem_append_left _ hx)] at hov
    cases hov
  have h2 : sumOver (pushHigher M p) (overlaps M p) (s.particles.drop (k + 1)) = 0 := by
    apply sumOver_eq_zero
    intro x hx hov
    rw [hno x (by rw [herase]; exact List.mem_append_right _ hx)] at hov
    cases hov
  have h3 : sumOver (pushBoundary M p) (touches M p) s.boundaries = 0 := by
    apply sumOver_eq_zero
    intro b hb ht
    exact pushBoundary_of_point_eq M hsq p b (hon b hb ht).1 (hon b hb ht).2
  rw [h1, h2, h3, add_zero, add_zero] at hsum
  have hx : a.ve.x = 0 := congrArg Prod.fst hsum
  have hy : a.ve.y = 0 := congrArg Prod.snd hsum
  have hm : a.ve.magnitude = 0 := (accumulateEscape_zero M s a (List.getElem?_mem ha)).1
  have hve : a.ve = ⟨0, 0, 0⟩ := by
    have : a.ve = ⟨a.ve.x, a.ve.y, a.ve.magnitude⟩ := rfl
    rw [this, hx, hy, hm]
  have hnorm : normalizeEscape M a = a := by
    unfold normalizeEscape
    split
    · simp only
      rw [hx, hy]
      have h0 : (0 : K) ^ 2 + 0 ^ 2 = 0 := by ring
      rw [h0, hsq, if_neg (lt_irrefl _)]
    · rfl
  rw [hnorm] at hqa
  subst hqa
  refine ⟨q, hq, hra, ?_, hflag, hve⟩
  rw [hc, hcount, zero_add]

/-- Claim C40.  Let `M.sqrt 0 = 0`, and let the particle `p` at index `k` have
`0 < rMin ≤ r`, overlap no other particle, and touch exactly one boundary, whose nearest
point is the centre of `p`.  Then `findContacts` marks it in contact with `contacts = 1`
and a zero escape velocity, and its image under the passes of `step` has the same position
and `r = rMin`; that image belongs to the particles after the step unless the stress pass
kills it or it arrives at its target; and it again touches exactly one boundary of the new
state, whose nearest point is its centre. -/
theorem on_boundary_stays (M : JSMath K) (hsq : M.sqrt 0 = 0) (clock : Nat → K)
    (s : ParticleModel K) (k : Nat) (p : Particle K) (hp : s.particles[k]? = some p)
    (hmin : 0 < p.rMin) (hr : p.rMin ≤ p.r)
    (hno : ∀ q ∈ s.particles.eraseIdx k, overlaps M p q = false)
    (hone : s.boundaries.countP (touches M p) = 1)
    (hon : ∀ b ∈ s.boundaries, touches M p b = true →
      (distanceToBoundary M p.x p.y b.x1 b.y1 b.x2 b.y2).pointX = p.x ∧
      (distanceToBoundary M p.x p.y b.x1 b.y1 b.x2 b.y2).pointY = p.y) :
    ∃ q, (findContacts M s).particles[k]? = some q ∧
      q.inContact = true ∧ q.contacts = 1 ∧ q.ve = ⟨0, 0, 0⟩ ∧
      ∃ q1, q1 = move s.dt (desiredVelocity M s.beta s.targets (closestTarget M s.targets
          (stressUpdate s.stressRate s.dt (adjustRadius M s.tau s.dt q)))) ∧
        q1.x = p.x ∧ q1.y = p.y ∧ q1.r = p.rMin ∧ q1.rMin = p.rMin ∧
        q1.inContact = true ∧ q1.contacts = 1 ∧
        (q1.dead = false → arrives M s.targets q1 = false →
          q1 ∈ (step M clock s).particles) ∧
        (step M clock s).boundaries.countP (touches M q1) = 1 ∧
        ∀ b ∈ (step M clock s).boundaries, touches M q1 b = true →
          (distanceToBoundary M q1.x q1.y b.x1 b.y1 b.x2 b.y2).pointX = q1.x ∧
          (distanceToBoundary M q1.x q1.y b.x1 b.y1 b.x2 b.y2).pointY = q1.y := by
  obtain ⟨q, hq, hres, hc, hflag, hve⟩ := findContacts_on_boundary M hsq s k p hp hno hon
  rw [hone] at hc
  have hic : q.inContact = true := hflag.2 (by rw [hc]; exact Nat.one_pos)
  refine ⟨q, hq, hic, hc, hve, _, rfl, ?_⟩
  obtain ⟨e1, e2, -, -, -, e6, -⟩ := fields_of_reset_eq hres
  obtain ⟨d1, d2, -, -, d5, d6, -, -, d9, -, d11, d12, -, d14⟩ :=
    desiredVelocity_fields M s.beta s.targets (closestTarget M s.targets
      (stressUpdate s.stressRate s.dt (adjustRadius M s.tau s.dt q)))
  obtain ⟨c1, c2, -, -, c5, c6, -, -, -, c10, c11, c12, -, c14⟩ := closestTarget_fields M s.targets
    (stressUpdate s.stressRate s.dt (adjustRadius M s.tau s.dt q))
  obtain ⟨b1, b2, -, -, b5, b6, -, -, -, b10, b11, b12⟩ :=
    stressUpdate_fields s.stressRate s.dt (adjustRadius M s.tau s.dt q)
  obtain ⟨a1, a2, -, -, a5, -, -, -, a9, a10, a11, -⟩ := adjustRadius_fields M s.tau s.dt q
  have hx := d1.trans (c1.trans (b1.trans (a1.trans e1)))
  have hy := d2.trans (c2.trans (b2.trans (a2.trans e2)))
  have hrm := d6.trans (c6.trans (b6.trans (a5.trans e6)))
  have hvel := d9.trans (c10.trans (b10.trans (a9.trans hve)))
  have hcon := d11.trans (c11.trans (b11.trans (a10.trans hic)))
  have hcnt := d12.trans (c12.trans (b12.trans (a11.trans hc)))
  have hrad : (desiredVelocity M s.beta s.targets (closestTarget M s.targets
      (stressUpdate s.stressRate s.dt (adjustRadius M s.tau s.dt q)))).r = p.rMin := by
    rw [d5, c5, b5]
    unfold adjustRadius
    rw [if_pos hic]
    exact e6
  have hnot : ¬ (desiredVelocity M s.beta s.targets (closestTarget M s.targets
      (stressUpdate s.stressRate s.dt (adjustRadius M s.tau s.dt q)))).r >
      (desiredVelocity M s.beta s.targets (closestTarget M s.targets
        (stressUpdate s.stressRate s.dt (adjustRadius M s.tau s.dt q)))).rMin := by
    rw [hrad, hrm]
    exact lt_irrefl _
  have hmx : (move s.dt (desiredVelocity M s.beta s.targets (closestTarget M s.targets
      (stressUpdate s.stressRate s.dt (adjustRadius M s.tau s.dt q))))).x = p.x := by
    unfold move
    simp only
    rw [if_neg hnot, hvel, hx]
    simp
  have hmy : (move s.dt (desiredVelocity M s.beta s.targets (closestTarget M s.targets
      (stressUpdate s.stressRate s.dt (adjustRadius M s.tau s.dt q))))).y = p.y := by
    unfold move
    simp only
    rw [if_neg hnot, hvel, hy]
    simp
  have hmr : (move s.dt (desiredVelocity M s.beta s.targets (closestTarget M s.targets
      (stressUpdate s.stressRate s.dt (adjustRadius M s.tau s.dt q))))).r = p.rMin := hrad
  have htouch : ∀ b ∈ s.boundaries,
      touches M (move s.dt (desiredVelocity M s.beta s.targets (closestTarget M s.targets
        (stressUpdate s.stressRate s.dt (adjustRadius M s.tau s.dt q))))) b = touches M p b := by
    intro b hb
    unfold touches
    rw [hmx, hmy, hmr]
    by_cases ht : touches M p b = true
    · have hd := distance_of_point_eq M p.x p.y b (hon b hb ht).1 (hon b hb ht).2
      rw [hd, hsq]
      have h1 : (0 : K) < p.r := lt_of_lt_of_le hmin hr
      simp [hmin, h1]
    · have ht2 : ¬ (distanceToBoundary M p.x p.y b.x1 b.y1 b.x2 b.y2).distance < p.r := by
        unfold touches at ht
        simpa using ht
      have ht3 : ¬ (distanceToBoundary M p.x p.y b.x1 b.y1 b.x2 b.y2).distance < p.rMin :=
        fun h => ht2 (lt_of_lt_of_le h hr)
      simp [ht2, ht3]
  have hbd : (step M clock s).boundaries = s.boundaries := (step_frame M clock s).2.2.1
  refine ⟨hmx, hmy, hmr, hrm, hcon, hcnt, ?_, ?_, ?_⟩
  · intro hdead harr
    rw [step_particles, beforeMove_particles]
    refine List.mem_filter.2 ⟨List.mem_map_of_mem _ (List.mem_map_of_mem _
      (List.mem_map_of_mem _ (List.mem_filter.2 ⟨List.mem_map_of_mem _
        (List.mem_map_of_mem _ (List.getElem?_mem hq)), ?_⟩))), ?_⟩
    · have hd2 : (stressUpdate s.stressRate s.dt (adjustRadius M s.tau s.dt q)).dead = false := by
        rw [← c14, ← d14]
        exact hdead
      simp [hd2]
    · simp [harr]
  · rw [hbd, ← hone]
    exact List.countP_congr (fun b hb => by rw [htouch b hb])
  · intro b hb ht
    rw [hbd] at hb
    rw [htouch b hb] at ht
    rw [hmx, hmy]
    exact hon b hb ht

end OnBoundary

end VaryingPopulation

namespace VaryingPopulation

theorem ratSqrt_25 : ratSqrt 25 = 5 := by
  unfold ratSqrt
  have h1 : ((25 : ℚ)).num = 25 := rfl
  have h2 : ((25 : ℚ)).den = 1 := rfl
  have h3 : Nat.sqrt 25 = 5 := by norm_num [Nat.sqrt_eq']
  have h4 : Nat.sqrt 1 = 1 := by norm_num [Nat.sqrt_eq']
  rw [h1, h2]
  simp [h3, h4]

theorem onWall_findContacts (c : Nat) (b : Bool) (v : Velocity ℚ) (ti : Int) :
    findContacts ratMath { onWall with particles :=
      [{ Particle.new (0 : ℚ) 0 .ADULT with
          inContact := b, contacts := c, ve := v, targetIndex := ti }] } =
    { onWall with particles :=
      [{ Particle.new (0 : ℚ) 0 .ADULT with
          inContact := true, contacts := 1, targetIndex := ti }] } := by
  simp [findContacts, onWall, addParticleKey, addTarget, addBoundary, ParticleModel.new,
    Particle.new, particleContacts, contactPair, resetContact, boundaryContact,
    distanceToBoundary, normalizeEscape, ratMath, ratSqrt_zero, jsOr, List.range,
    List.range.loop, List.range', DEMOGRAPHICS]
  norm_num [ratSqrt_zero]

theorem onWall_tail (clock : Nat → ℚ) (ti : Int) :
    removeParticlesAtTarget ratMath clock (updatePositions (computeDesiredVelocities ratMath
      (findClosestTargets ratMath (removeDead (accumulateStress (adjustRadii ratMath
        { onWall with particles :=
          [{ Particle.new (0 : ℚ) 0 .ADULT with
              inContact := true, contacts := 1, targetIndex := ti }] })))))) =
      onWallPinned := by
  simp [removeParticlesAtTarget, arrivalVisit, removeDead, deathVisit, accumulateStress,
    adjustRadii, adjustRadius, stressUpdate,
    updatePositions, move, computeDesiredVelocities, desiredVelocity, findClosestTargets,
    closestTarget, closestTargetLoop, assignedTarget, onWallPinned, pinned, onWall,
    calculateDesiredVelocity, ltInfinity,
    addParticleKey, addTarget, addBoundary, ParticleModel.new, Particle.new, jsOr, ratMath,
    DEMOGRAPHICS, ratSqrt_25, demographicValues, DemoKey.keys]
  norm_num [ratSqrt_25, arrivalVisit, move, desiredVelocity, closestTarget, closestTargetLoop,
    assignedTarget, calculateDesiredVelocity, ltInfinity]

end VaryingPopulation

namespace VaryingPopulation

theorem onWall_step (clock : Nat → ℚ) : step ratMath clock onWall = onWallPinned := by
  have h0 : onWall = { onWall with particles :=
      [{ Particle.new (0 : ℚ) 0 .ADULT with
          inContact := false, contacts := 0, ve := ⟨0, 0, 0⟩, targetIndex := -1 }] } := by
    simp [onWall, addParticleKey, addTarget, addBoundary, ParticleModel.new, Particle.new]
  have h1 := onWall_findContacts 0 false ⟨0, 0, 0⟩ (-1)
  rw [← h0] at h1
  unfold step beforeMove
  rw [h1]
  exact onWall_tail clock (-1)

theorem onWallPinned_step (clock : Nat → ℚ) : step ratMath clock onWallPinned = onWallPinned := by
  have h1 : findContacts ratMath onWallPinned = onWallPinned :=
    onWall_findContacts 1 true ⟨0, 0, 0⟩ 0
  unfold step beforeMove
  rw [h1]
  exact onWall_tail clock 0

theorem onWall_run (clock : Nat → Nat → ℚ) (n : Nat) :
    run ratMath clock (n + 1) onWall = onWallPinned := by
  induction n with
  | zero => exact onWall_step (clock 0)
  | succ n ih =>
    show step ratMath (clock (n + 1)) (run ratMath clock (n + 1) onWall) = onWallPinned
    rw [ih]
    exact onWallPinned_step _

/-- Witness for C40: the adult of `onWall` stands on the wall, with a target at `(5, 0)`;
the contact pass marks it in contact with one contact and a zero escape velocity, and after
any number of steps it is still the only active particle, at the origin, with its minimum
radius. -/
theorem on_boundary_stays_witness :
    ratMath.sqrt 0 = 0 ∧ onWall.particles[0]? = some (Particle.new 0 0 .ADULT) ∧
    onWall.targets = [⟨5, 0⟩] ∧
    (∃ q, (findContacts ratMath onWall).particles[0]? = some q ∧
      q.inContact = true ∧ q.contacts = 1 ∧ q.ve = ⟨0, 0, 0⟩) ∧
    ∀ (clock : Nat → Nat → ℚ) (n : Nat),
      (run ratMath clock (n + 1) onWall).particles = [pinned] ∧
      pinned.x = 0 ∧ pinned.y = 0 ∧ pinned.r = pinned.rMin ∧ pinned.targetIndex = 0 := by
  have hp : onWall.particles[0]? = some (Particle.new 0 0 .ADULT) := by
    simp [onWall, addParticleKey, addTarget, addBoundary, ParticleModel.new]
  have hb : onWall.boundaries = [⟨-1, 0, 1, 0⟩] := by
    simp [onWall, addParticleKey, addTarget, addBoundary, ParticleModel.new]
  have hpt : (distanceToBoundary ratMath (0 : ℚ) 0 (-1) 0 1 0).pointX = 0 ∧
      (distanceToBoundary ratMath (0 : ℚ) 0 (-1) 0 1 0).pointY = 0 := by
    simp [distanceToBoundary, ratMath]
    norm_num
  have ht : touches ratMath (Particle.new (0 : ℚ) 0 .ADULT) ⟨-1, 0, 1, 0⟩ = true := by
    unfold touches
    have hd := distance_of_point_eq ratMath (0 : ℚ) 0 ⟨-1, 0, 1, 0⟩ hpt.1 hpt.2
    have hx : (Particle.new (0 : ℚ) 0 .ADULT).x = 0 := rfl
    have hy : (Particle.new (0 : ℚ) 0 .ADULT).y = 0 := rfl
    rw [hx, hy, hd]
    simp [ratMath, ratSqrt_zero, Particle.new, DEMOGRAPHICS]
    norm_num
  obtain ⟨q, h1, h2, h3, h4, -⟩ := on_boundary_stays ratMath ratSqrt_zero (fun _ => 0) onWall 0
    (Particle.new 0 0 .ADULT) hp
    (by norm_num [Particle.new, DEMOGRAPHICS]) (le_refl _)
    (by
      intro q hq
      simp [onWall, addParticleKey, addTarget, addBoundary, ParticleModel.new] at hq)
    (by rw [hb]; simp [ht])
    (by
      intro b hb2 _
      rw [hb] at hb2
      simp only [List.mem_singleton] at hb2
      subst hb2
      exact hpt)
  refine ⟨ratSqrt_zero, hp, ?_, ⟨q, h1, h2, h3, h4⟩, ?_⟩
  · simp [onWall, addParticleKey, addTarget, addBoundary, ParticleModel.new]
  · intro clock n
    rw [onWall_run]
    exact ⟨rfl, rfl, rfl, rfl, rfl⟩

end VaryingPopulation

namespace VaryingPopulation

end VaryingPopulation

namespace DeathMarkers

section LatchDM
variable {K : Type} [LinearOrderedField K]

theorem findContacts_length_dm (M : JSMath K) (s : ParticleModel K) :
    (findContacts M s).particles.length = s.particles.length := by
  have h := congrArg List.length (findContacts_map_reset_dm M s)
  simpa using h

/-- The death purge keeps the counters in balance while it runs. -/
theorem deathFold_balance_dm (ps : List (Particle K)) (acc : DeathAcc K)
    (h : acc.model.totalParticlesCreated = (acc.kept.length : Int) + ps.length +
      acc.model.particlesReachedTarget + acc.model.particlesDied) :
    (ps.foldl deathVisit acc).model.totalParticlesCreated =
      ((ps.foldl deathVisit acc).kept.length : Int) +
        (ps.foldl deathVisit acc).model.particlesReachedTarget +
        (ps.foldl deathVisit acc).model.particlesDied := by
  induction ps generalizing acc with
  | nil => simpa using h
  | cons p ps ih =>
    simp only [List.foldl_cons]
    apply ih
    unfold deathVisit
    split
    · simp only [List.length_cons] at h ⊢
      push_cast at h ⊢
      linarith
    · simp only [List.length_cons, List.length_append, List.length_nil] at h ⊢
      push_cast at h ⊢
      linarith

theorem removeDead_balanced_dm (s : ParticleModel K) (h : Balanced s) :
    Balanced (removeDead s) := by
  have := deathFold_balance_dm s.particles ⟨s, []⟩ (by simpa [Balanced] using h)
  exact this

/-- The arrival purge: it keeps the counters in balance while it runs, reads the clock at
most once, leaves `endTime` alone when it does not, and when it does it stores the reading
and keeps no particle. -/
theorem arrivalFold_balance_dm (M : JSMath K) (clock : Nat → K) (ps : List (Particle K))
    (acc : ArrivalAcc K)
    (h : acc.model.totalParticlesCreated = (acc.kept.length : Int) + ps.length +
      acc.model.particlesReachedTarget + acc.model.particlesDied) :
    (ps.foldl (arrivalVisit M clock) acc).model.totalParticlesCreated =
      ((ps.foldl (arrivalVisit M clock) acc).kept.length : Int) +
        (ps.foldl (arrivalVisit M clock) acc).model.particlesReachedTarget +
        (ps.foldl (arrivalVisit M clock) acc).model.particlesDied ∧
    (((ps.foldl (arrivalVisit M clock) acc).calls = acc.calls ∧
      (ps.foldl (arrivalVisit M clock) acc).model.endTime = acc.model.endTime) ∨
     ((ps.foldl (arrivalVisit M clock) acc).calls = acc.calls + 1 ∧
      (ps.foldl (arrivalVisit M clock) acc).model.endTime = some (clock acc.calls) ∧
      (ps.foldl (arrivalVisit M clock) acc).kept = [] ∧
      (ps.foldl (arrivalVisit M clock) acc).model.particlesReachedTarget +
        (ps.foldl (arrivalVisit M clock) acc).model.particlesDied =
        (ps.foldl (arrivalVisit M clock) acc).model.totalParticlesCreated)) := by
  induction ps generalizing acc with
  | nil => exact ⟨by simpa using h, Or.inl ⟨rfl, rfl⟩⟩
  | cons p ps ih =>
    simp only [List.foldl_cons]
    simp only [List.length_cons] at h
    push_cast at h
    have hlen : (0 : Int) ≤ (acc.kept.length : Int) := Int.natCast_nonneg _
    have hlen2 : (0 : Int) ≤ (ps.length : Int) := Int.natCast_nonneg _
    unfold arrivalVisit
    simp only
    split
    · split
      · split
        · next hc =>
          have hk : acc.kept.length = 0 := by omega
          have hp : ps.length = 0 := by omega
          have hk2 : acc.kept = [] := List.eq_nil_of_length_eq_zero hk
          have hp2 : ps = [] := List.eq_nil_of_length_eq_zero hp
          subst hp2
          simp only [List.foldl_nil]
          refine ⟨?_, Or.inr ⟨?_, ?_, ?_, ?_⟩⟩
          · simp only [hk2, List.length_nil]
            push_cast
            linarith
          · trivial
          · trivial
          · exact hk2
          · exact hc
        · exact ih _ (by
            simp only
            linarith)
      · exact ih _ (by
          simp only [List.length_append, List.length_cons, List.length_nil]
          push_cast
          linarith)
    · exact ih _ (by
        simp only [List.length_append, List.length_cons, List.length_nil]
        push_cast
        linarith)

theorem removeParticlesAtTarget_balanced_dm (M : JSMath K) (clock : Nat → K)
    (s : ParticleModel K) (h : Balanced s) : Balanced (removeParticlesAtTarget M clock s) :=
  (arrivalFold_balance_dm M clock s.particles ⟨s, [], 0⟩ (by simpa [Balanced] using h)).1

theorem moved_balanced_dm (M : JSMath K) (s : ParticleModel K) (h : Balanced s) :
    Balanced (updatePositions (beforeMove M s)) := by
  have h1 : Balanced (findContacts M s) := by
    unfold Balanced at h ⊢
    rw [findContacts_length_dm]
    exact h
  have hmap : ∀ (u : ParticleModel K) (f : Particle K → Particle K), Balanced u →
      Balanced { u with particles := u.particles.map f } := by
    intro u f hu
    unfold Balanced at hu ⊢
    simp only [List.length_map]
    exact hu
  unfold beforeMove
  apply hmap
  apply hmap
  apply hmap
  apply removeDead_balanced_dm
  apply hmap
  apply hmap
  exact h1

theorem step_balanced_dm (M : JSMath K) (clock : Nat → K) (s : ParticleModel K)
    (h : Balanced s) : Balanced (step M clock s) :=
  removeParticlesAtTarget_balanced_dm M clock _ (moved_balanced_dm M s h)

theorem reachable_balanced_dm (M : JSMath K) (options : Options K) (s : ParticleModel K)
    (h : Reachable M options s) : Balanced s := by
  induction h with
  | init => simp [Balanced, ParticleModel.new]
  | addParticle x y radius _ ih =>
    unfold Balanced at ih ⊢
    simp only [addParticle, List.length_append, List.length_singleton]
    push_cast
    linarith
  | addTarget x y _ ih => exact ih
  | addBoundary x1 y1 x2 y2 _ ih => exact ih
  | findClosestTargets _ ih =>
    unfold Balanced at ih ⊢
    simp only [findClosestTargets, List.length_map]
    exact ih
  | step clock _ ih => exact step_balanced_dm M clock _ ih
  | reset _ ih => simp [Balanced, reset]

/-- The arrival pass of the death-markers variant on a balanced state. -/
theorem removeParticlesAtTarget_latch_dm (M : JSMath K) (clock : Nat → K)
    (u : ParticleModel K) (hb : Balanced u) :
    arrivalWrites M clock u ≤ 1 ∧
    (arrivalWrites M clock u = 0 → (removeParticlesAtTarget M clock u).endTime = u.endTime) ∧
    (arrivalWrites M clock u = 1 →
      (removeParticlesAtTarget M clock u).particles = [] ∧
      (removeParticlesAtTarget M clock u).endTime = some (clock 0) ∧
      (removeParticlesAtTarget M clock u).particlesReachedTarget +
        (removeParticlesAtTarget M clock u).particlesDied =
        (removeParticlesAtTarget M clock u).totalParticlesCreated) := by
  obtain ⟨-, h⟩ := arrivalFold_balance_dm M clock u.particles ⟨u, [], 0⟩
    (by simpa [Balanced] using hb)
  unfold arrivalWrites
  have he : (removeParticlesAtTarget M clock u).endTime =
      (u.particles.foldl (arrivalVisit M clock) ⟨u, [], 0⟩).model.endTime := rfl
  have hp : (removeParticlesAtTarget M clock u).particles =
      (u.particles.foldl (arrivalVisit M clock) ⟨u, [], 0⟩).kept := rfl
  have hr : (removeParticlesAtTarget M clock u).particlesReachedTarget =
      (u.particles.foldl (arrivalVisit M clock) ⟨u, [], 0⟩).model.particlesReachedTarget := rfl
  have hd : (removeParticlesAtTarget M clock u).particlesDied =
      (u.particles.foldl (arrivalVisit M clock) ⟨u, [], 0⟩).model.particlesDied := rfl
  have ht : (removeParticlesAtTarget M clock u).totalParticlesCreated =
      (u.particles.foldl (arrivalVisit M clock) ⟨u, [], 0⟩).model.totalParticlesCreated := rfl
  rw [he, hp, hr, hd, ht]
  rcases h with ⟨h1, h2⟩ | ⟨h1, h2, h3, h4⟩
  · simp only at h1 h2
    rw [h1, h2]
    exact ⟨Nat.zero_le _, fun _ => rfl, fun h => by omega⟩
  · simp only at h1 h2
    rw [h1, h2, h3]
    exact ⟨le_refl _, fun h => by omega, fun _ => ⟨rfl, rfl, h4⟩⟩

end LatchDM

end DeathMarkers

section LastArrival
variable {K : Type} [LinearOrderedField K]

/-- Claim C37.  In the demographic variant and in the death-markers variant, take a state
`s` reachable from a fresh model and let `u` be `s` itself or the state on which `step`
calls `removeParticlesAtTarget`.  The call assigns `endTime` at most once; when it does not,
`endTime` is unchanged; when it does, the active set it returns is empty, `endTime` holds
the clock reading, and (death-markers variant)
`particlesReachedTarget + particlesDied = totalParticlesCreated`. -/
theorem endTime_only_with_empty_set (M : JSMath K) (clock : Nat → K) :
    (∀ (options : Options K) (s u : VaryingPopulation.ParticleModel K),
      VaryingPopulation.Reachable M options s →
      (u = s ∨ u = VaryingPopulation.updatePositions (VaryingPopulation.beforeMove M s)) →
      VaryingPopulation.arrivalWrites M clock u ≤ 1 ∧
      (VaryingPopulation.arrivalWrites M clock u = 0 →
        (VaryingPopulation.removeParticlesAtTarget M clock u).endTime = u.endTime) ∧
      (VaryingPopulation.arrivalWrites M clock u = 1 →
        (VaryingPopulation.removeParticlesAtTarget M clock u).particles = [] ∧
        (VaryingPopulation.removeParticlesAtTarget M clock u).endTime = some (clock 0))) ∧
    (∀ (options : Options K) (s u : DeathMarkers.ParticleModel K),
      DeathMarkers.Reachable M options s →
      (u = s ∨ u = DeathMarkers.updatePositions (DeathMarkers.beforeMove M s)) →
      DeathMarkers.arrivalWrites M clock u ≤ 1 ∧
      (DeathMarkers.arrivalWrites M clock u = 0 →
        (DeathMarkers.removeParticlesAtTarget M clock u).endTime = u.endTime) ∧
      (DeathMarkers.arrivalWrites M clock u = 1 →
        (DeathMarkers.removeParticlesAtTarget M clock u).particles = [] ∧
        (DeathMarkers.removeParticlesAtTarget M clock u).endTime = some (clock 0) ∧
        (DeathMarkers.removeParticlesAtTarget M clock u).particlesReachedTarget +
          (DeathMarkers.removeParticlesAtTarget M clock u).particlesDied =
          (DeathMarkers.removeParticlesAtTarget M clock u).totalParticlesCreated)) := by
  constructor
  · intro options s u hs hu
    have hb : VaryingPopulation.Balanced u := by
      rcases hu with rfl | rfl
      · exact VaryingPopulation.reachable_balanced M options _ hs
      · exact VaryingPopulation.moved_balanced M s
          (VaryingPopulation.reachable_balanced M options s hs)
    obtain ⟨h1, h2, h3⟩ := VaryingPopulation.removeParticlesAtTarget_latch M clock u
    exact ⟨h1, h2, fun hw => ⟨(h3 hw).2 hb, (h3 hw).1⟩⟩
  · intro options s u hs hu
    have hb : DeathMarkers.Balanced u := by
      rcases hu with rfl | rfl
      · exact DeathMarkers.reachable_balanced_dm M options _ hs
      · exact DeathMarkers.moved_balanced_dm M s
          (DeathMarkers.reachable_balanced_dm M options s hs)
    exact DeathMarkers.removeParticlesAtTarget_latch_dm M clock u hb

end LastArrival

/-- Witness for C37: Scenario C is reachable; its one particle stands within the target
radius, so `removeParticlesAtTarget` assigns `endTime` once and returns no particle. -/
theorem endTime_only_with_empty_set_witness :
    VaryingPopulation.Reachable ratMath {} (VaryingPopulation.scenarioC ratMath) ∧
    VaryingPopulation.arrivalWrites ratMath (fun _ => 7) (VaryingPopulation.scenarioC ratMath) = 1 ∧
    (VaryingPopulation.removeParticlesAtTarget ratMath (fun _ => 7)
      (VaryingPopulation.scenarioC ratMath)).particles = [] ∧
    (VaryingPopulation.removeParticlesAtTarget ratMath (fun _ => 7)
      (VaryingPopulation.scenarioC ratMath)).endTime = some 7 := by
  obtain ⟨h1, h2, h3⟩ := (endTime_only_with_empty_set ratMath (fun _ => (7 : ℚ))).1 {}
    (VaryingPopulation.scenarioC ratMath) _ (VaryingPopulation.scenarioC_reachable ratMath)
    (Or.inl rfl)
  have he := (VaryingPopulation.scenarioC_arrival (fun _ => (7 : ℚ))).2.2
  have hw : VaryingPopulation.arrivalWrites ratMath (fun _ => 7)
      (VaryingPopulation.scenarioC ratMath) = 1 := by
    by_contra hne
    have h0 : VaryingPopulation.arrivalWrites ratMath (fun _ => 7)
        (VaryingPopulation.scenarioC ratMath) = 0 := by omega
    have := h2 h0
    rw [he] at this
    have hnone : (VaryingPopulation.scenarioC ratMath).endTime = none := rfl
    rw [hnone] at this
    cases this
  exact ⟨VaryingPopulation.scenarioC_reachable ratMath, hw, (h3 hw).1, (h3 hw).2⟩

namespace DeathMarkers

section RadiusDM
variable {K : Type} [LinearOrderedField K]

theorem contactPair_radius_dm (M : JSMath K) (R : K → Prop) (ps : List (Particle K)) (i j : Nat)
    (h : ∀ q ∈ ps, R q.r) : ∀ q ∈ contactPair M ps i j, R q.r := by
  unfold contactPair
  split
  · next pi pj hi hj =>
    simp only
    split
    · intro q hq
      rcases List.mem_or_eq_of_mem_set hq with hq1 | rfl
      · rcases List.mem_or_eq_of_mem_set hq1 with hq2 | rfl
        · exact h q hq2
        · exact h pi (List.getElem?_mem hi)
      · exact h pj (List.getElem?_mem hj)
    · exact h
  · exact h

theorem boundaryContact_radius_dm (M : JSMath K) (a : Particle K) (b : Boundary K) :
    (boundaryContact M a b).r = a.r := by
  unfold boundaryContact
  simp only
  split
  · split <;> rfl
  · rfl

theorem boundaryFold_radius_dm (M : JSMath K) (bs : List (Boundary K)) (a : Particle K) :
    (bs.foldl (boundaryContact M) a).r = a.r := by
  induction bs generalizing a with
  | nil => rfl
  | cons b bs ih =>
    simp only [List.foldl_cons]
    rw [ih, boundaryContact_radius_dm]

theorem normalizeEscape_radius_dm (M : JSMath K) (ve : K) (a : Particle K) :
    (normalizeEscape M ve a).r = a.r := by
  unfold normalizeEscape
  split
  · simp only
    split <;> rfl
  · rfl

theorem findContacts_radius_dm (M : JSMath K) (R : K → Prop) (s : ParticleModel K)
    (h : ∀ p ∈ s.particles, R p.r) : ∀ q ∈ (findContacts M s).particles, R q.r := by
  have h0 : ∀ q ∈ s.particles.map resetContact, R q.r := by
    intro q hq
    obtain ⟨p, hp, rfl⟩ := List.mem_map.1 hq
    exact h p hp
  have h1 : ∀ q ∈ particleContacts M (s.particles.map resetContact), R q.r := by
    unfold particleContacts
    refine foldl_preserves
      (fun (acc : List (Particle K)) => ∀ q ∈ acc, R q.r) _ ?_ _ _ h0
    intro acc i hacc
    refine foldl_preserves
      (fun (acc : List (Particle K)) => ∀ q ∈ acc, R q.r) _ ?_ _ _ hacc
    intro acc2 j h2
    exact contactPair_radius_dm M R acc2 i j h2
  intro q hq
  unfold findContacts at hq
  simp only at hq
  obtain ⟨q1, hq1, rfl⟩ := List.mem_map.1 hq
  obtain ⟨q2, hq2, rfl⟩ := List.mem_map.1 hq1
  have h3 : (normalizeEscape M s.ve (s.boundaries.foldl (boundaryContact M) q2)).r = q2.r :=
    (normalizeEscape_radius_dm M s.ve _).trans (boundaryFold_radius_dm M s.boundaries q2)
  rw [h3]
  exact h1 q2 hq2

theorem deathFold_kept_dm (ps : List (Particle K)) (acc : DeathAcc K) :
    ∀ q ∈ (ps.foldl deathVisit acc).kept, q ∈ acc.kept ∨ q ∈ ps := by
  induction ps generalizing acc with
  | nil => intro q hq; exact Or.inl hq
  | cons p ps ih =>
    intro q hq
    simp only [List.foldl_cons] at hq
    rcases ih _ q hq with h1 | h1
    · unfold deathVisit at h1
      split at h1
      · exact Or.inl h1
      · rcases List.mem_append.1 h1 with h2 | h2
        · exact Or.inl h2
        · rw [List.mem_singleton.1 h2]
          exact Or.inr (List.mem_cons_self _ _)
    · exact Or.inr (List.mem_cons_of_mem _ h1)

theorem arrivalFold_kept_dm (M : JSMath K) (clock : Nat → K) (ps : List (Particle K))
    (acc : ArrivalAcc K) :
    ∀ q ∈ (ps.foldl (arrivalVisit M clock) acc).kept, q ∈ acc.kept ∨ q ∈ ps := by
  induction ps generalizing acc with
  | nil => intro q hq; exact Or.inl hq
  | cons p ps ih =>
    intro q hq
    simp only [List.foldl_cons] at hq
    rcases ih _ q hq with h1 | h1
    · have hsub : ∀ a ∈ (arrivalVisit M clock acc p).kept, a ∈ acc.kept ∨ a = p := by
        unfold arrivalVisit
        simp only
        split
        · split
          · split
            · intro a ha; exact Or.inl ha
            · intro a ha; exact Or.inl ha
          · intro a ha
            rcases List.mem_append.1 ha with h2 | h2
            · exact Or.inl h2
            · exact Or.inr (List.mem_singleton.1 h2)
        · intro a ha
          rcases List.mem_append.1 ha with h2 | h2
          · exact Or.inl h2
          · exact Or.inr (List.mem_singleton.1 h2)
      rcases hsub q h1 with h2 | rfl
      · exact Or.inl h2
      · exact Or.inr (List.mem_cons_self _ _)
    · exact Or.inr (List.mem_cons_of_mem _ h1)

/-- Every particle left by a step of the death-markers variant carries the radius that
the radius pass gave to a particle of the contact pass. -/
theorem step_radius_dm (M : JSMath K) (clock : Nat → K) (s : ParticleModel K) (q : Particle K)
    (hq : q ∈ (step M clock s).particles) :
    ∃ p ∈ (findContacts M s).particles,
      q.r = (adjustRadius M s.rMin s.rMax s.tau s.dt p).r := by
  have h1 : q ∈ (updatePositions (beforeMove M s)).particles := by
    rcases arrivalFold_kept_dm M clock _ ⟨updatePositions (beforeMove M s), [], 0⟩ q hq with h | h
    · cases h
    · exact h
  obtain ⟨q1, h2, rfl⟩ := List.mem_map.1 h1
  obtain ⟨q2, h3, rfl⟩ := List.mem_map.1 h2
  obtain ⟨q3, h4, rfl⟩ := List.mem_map.1 h3
  have h5 : q3 ∈ (accumulateStress (adjustRadii M (findContacts M s))).particles := by
    rcases deathFold_kept_dm _ ⟨accumulateStress (adjustRadii M (findContacts M s)), []⟩ q3 h4
      with h | h
    · cases h
    · exact h
  obtain ⟨q4, h6, rfl⟩ := List.mem_map.1 h5
  obtain ⟨p, h7, rfl⟩ := List.mem_map.1 h6
  refine ⟨p, h7, ?_⟩
  have e1 : ∀ a : Particle K, (move (beforeMove M s).rMin (beforeMove M s).dt a).r = a.r :=
    fun _ => rfl
  have e2 : ∀ (u : ParticleModel K) (a : Particle K), (desiredVelocity M u a).r = a.r := by
    intro u a
    unfold desiredVelocity
    split
    · simp only
      split <;> rfl
    · rfl
  have e3 : ∀ (ts : List (Target K)) (a : Particle K), (closestTarget M ts a).r = a.r :=
    fun _ _ => rfl
  have e4 : ∀ (c1 c2 c3 c4 : K) (a : Particle K), (stressUpdate c1 c2 c3 c4 a).r = a.r := by
    intro c1 c2 c3 c4 a
    unfold stressUpdate
    simp only
    split <;> split <;> rfl
  rw [e1, e2, e3, e4]
  rfl

theorem adjustRadius_range_dm (M : JSMath K) (hM : M.DivExact) (rMin rMax tau dt : K)
    (hle : rMin ≤ rMax) (hmax : 0 ≤ rMax) (htau : 0 < tau) (hdt : 0 ≤ dt) (p : Particle K) :
    (adjustRadius M rMin rMax tau dt p).r ≤ rMax ∧
    (rMin ≤ p.r → rMin ≤ (adjustRadius M rMin rMax tau dt p).r) := by
  unfold adjustRadius
  split
  · exact ⟨hle, fun _ => le_refl _⟩
  · simp only
    refine ⟨min_le_right _ _, fun hp => le_min ?_ hle⟩
    rw [hM.div_eq _ _ (ne_of_gt htau)]
    have : 0 ≤ rMax / tau * dt := mul_nonneg (div_nonneg hmax (le_of_lt htau)) hdt
    linarith

end RadiusDM

end DeathMarkers

namespace NewMovement

section RadiusNM
variable {K : Type} [LinearOrderedField K]

theorem contactPair_radius_nm (M : JSMath K) (R : K → Prop) (ps : List (Particle K)) (i j : Nat)
    (h : ∀ q ∈ ps, R q.r) : ∀ q ∈ contactPair M ps i j, R q.r := by
  unfold contactPair
  split
  · next pi pj hi hj =>
    simp only
    split
    · intro q hq
      rcases List.mem_or_eq_of_mem_set hq with hq1 | rfl
      · rcases List.mem_or_eq_of_mem_set hq1 with hq2 | rfl
        · exact h q hq2
        · exact h pi (List.getElem?_mem hi)
      · exact h pj (List.getElem?_mem hj)
    · exact h
  · exact h

theorem boundaryContact_radius_nm (M : JSMath K) (a : Particle K) (b : Boundary K) :
    (boundaryContact M a b).r = a.r := by
  unfold boundaryContact
  simp only
  split
  · split <;> rfl
  · rfl

theorem boundaryFold_radius_nm (M : JSMath K) (bs : List (Boundary K)) (a : Particle K) :
    (bs.foldl (boundaryContact M) a).r = a.r := by
  induction bs generalizing a with
  | nil => rfl
  | cons b bs ih =>
    simp only [List.foldl_cons]
    rw [ih, boundaryContact_radius_nm]

theorem normalizeEscape_radius_nm (M : JSMath K) (ve : K) (a : Particle K) :
    (normalizeEscape M ve a).r = a.r := by
  unfold normalizeEscape
  split
  · simp only
    split <;> rfl
  · rfl

theorem findContacts_radius_nm (M : JSMath K) (R : K → Prop) (s : ParticleModel K)
    (h : ∀ p ∈ s.particles, R p.r) : ∀ q ∈ (findContacts M s).particles, R q.r := by
  have h0 : ∀ q ∈ s.particles.map resetContact, R q.r := by
    intro q hq
    obtain ⟨p, hp, rfl⟩ := List.mem_map.1 hq
    exact h p hp
  have h1 : ∀ q ∈ particleContacts M (s.particles.map resetContact), R q.r := by
    unfold particleContacts
    refine foldl_preserves
      (fun (acc : List (Particle K)) => ∀ q ∈ acc, R q.r) _ ?_ _ _ h0
    intro acc i hacc
    refine foldl_preserves
      (fun (acc : List (Particle K)) => ∀ q ∈ acc, R q.r) _ ?_ _ _ hacc
    intro acc2 j h2
    exact contactPair_radius_nm M R acc2 i j h2
  intro q hq
  unfold findContacts at hq
  simp only at hq
  obtain ⟨q1, hq1, rfl⟩ := List.mem_map.1 hq
  obtain ⟨q2, hq2, rfl⟩ := List.mem_map.1 hq1
  have h3 : (normalizeEscape M s.ve (s.boundaries.foldl (boundaryContact M) q2)).r = q2.r :=
    (normalizeEscape_radius_nm M s.ve _).trans (boundaryFold_radius_nm M s.boundaries q2)
  rw [h3]
  exact h1 q2 hq2

theorem arrivalFold_kept_nm (M : JSMath K) (clock : Nat → K) (ps : List (Particle K))
    (acc : ArrivalAcc K) :
    ∀ q ∈ (ps.foldl (arrivalVisit M clock) acc).kept, q ∈ acc.kept ∨ q ∈ ps := by
  induction ps generalizing acc with
  | nil => intro q hq; exact Or.inl hq
  | cons p ps ih =>
    intro q hq
    simp only [List.foldl_cons] at hq
    rcases ih _ q hq with h1 | h1
    · have hsub : ∀ a ∈ (arrivalVisit M clock acc p).kept, a ∈ acc.kept ∨ a = p := by
        unfold arrivalVisit
        simp only
        split
        · split
          · split
            · intro a ha; exact Or.inl ha
            · intro a ha; exact Or.inl ha
          · intro a ha
            rcases List.mem_append.1 ha with h2 | h2
            · exact Or.inl h2
            · exact Or.inr (List.mem_singleton.1 h2)
        · intro a ha
          rcases List.mem_append.1 ha with h2 | h2
          · exact Or.inl h2
          · exact Or.inr (List.mem_singleton.1 h2)
      rcases hsub q h1 with h2 | rfl
      · exact Or.inl h2
      · exact Or.inr (List.mem_cons_self _ _)
    · exact Or.inr (List.mem_cons_of_mem _ h1)

/-- Every particle left by a step of the no-death variant carries the radius that the
radius pass gave to a particle of the contact pass. -/
theorem step_radius_nm (M : JSMath K) (clock : Nat → K) (s : ParticleModel K) (q : Particle K)
    (hq : q ∈ (step M clock s).particles) :
    ∃ p ∈ (findContacts M s).particles,
      q.r = (adjustRadius M s.rMin s.rMax s.tau s.dt p).r := by
  have h1 : q ∈ (updatePositions (computeDesiredVelocities M (findClosestTargets M
      (adjustRadii M (findContacts M s))))).particles := by
    rcases arrivalFold_kept_nm M clock _ ⟨updatePositions (computeDesiredVelocities M
      (findClosestTargets M (adjustRadii M (findContacts M s)))), [], 0⟩ q hq with h | h
    · cases h
    · exact h
  obtain ⟨q1, h2, rfl⟩ := List.mem_map.1 h1
  obtain ⟨q2, h3, rfl⟩ := List.mem_map.1 h2
  obtain ⟨q3, h4, rfl⟩ := List.mem_map.1 h3
  obtain ⟨p, h7, rfl⟩ := List.mem_map.1 h4
  refine ⟨p, h7, ?_⟩
  have e1 : ∀ (c1 c2 : K) (a : Particle K), (move c1 c2 a).r = a.r := fun _ _ _ => rfl
  have e2 : ∀ (u : ParticleModel K) (a : Particle K), (desiredVelocity M u a).r = a.r := by
    intro u a
    unfold desiredVelocity
    split
    · simp only
      split <;> rfl
    · rfl
  have e3 : ∀ (ts : List (Target K)) (a : Particle K), (closestTarget M ts a).r = a.r :=
    fun _ _ => rfl
  rw [e1, e2, e3]
  rfl

theorem adjustRadius_range_nm (M : JSMath K) (hM : M.DivExact) (rMin rMax tau dt : K)
    (hle : rMin ≤ rMax) (hmax : 0 ≤ rMax) (htau : 0 < tau) (hdt : 0 ≤ dt) (p : Particle K) :
    (adjustRadius M rMin rMax tau dt p).r ≤ rMax ∧
    (rMin ≤ p.r → rMin ≤ (adjustRadius M rMin rMax tau dt p).r) := by
  unfold adjustRadius
  split
  · exact ⟨hle, fun _ => le_refl _⟩
  · simp only
    refine ⟨min_le_right _ _, fun hp => le_min ?_ hle⟩
    rw [hM.div_eq _ _ (ne_of_gt htau)]
    have : 0 ≤ rMax / tau * dt := mul_nonneg (div_nonneg hmax (le_of_lt htau)) hdt
    linarith

end RadiusNM

end NewMovement

namespace DeathMarkers

end DeathMarkers

theorem rMin_of_params_dm {K : Type} {s t : DeathMarkers.ParticleModel K}
    (h : s.params = t.params) : s.rMin = t.rMin ∧ s.rMax = t.rMax :=
  ⟨congrArg DeathMarkers.Params.rMin h, congrArg DeathMarkers.Params.rMax h⟩

theorem rMin_of_params_nm {K : Type} {s t : NewMovement.ParticleModel K}
    (h : s.params = t.params) : s.rMin = t.rMin ∧ s.rMax = t.rMax :=
  ⟨congrArg NewMovement.Params.rMin h, congrArg NewMovement.Params.rMax h⟩

theorem thin_step_dm (clock : Nat → ℚ) :
    (DeathMarkers.step ratMath clock DeathMarkers.thin).particles.map (fun p => p.r) =
      [7 / 60] ∧
    (DeathMarkers.step ratMath clock DeathMarkers.thin).rMin = 1 / 5 := by
  constructor
  · simp [DeathMarkers.step, DeathMarkers.beforeMove, DeathMarkers.thin,
      DeathMarkers.removeParticlesAtTarget, DeathMarkers.arrivalVisit,
      DeathMarkers.removeDead, DeathMarkers.deathVisit, DeathMarkers.accumulateStress,
      DeathMarkers.adjustRadii, DeathMarkers.adjustRadius, DeathMarkers.stressUpdate,
      DeathMarkers.updatePositions, DeathMarkers.move, DeathMarkers.computeDesiredVelocities,
      DeathMarkers.desiredVelocity, DeathMarkers.findClosestTargets,
      DeathMarkers.closestTarget, closestTargetLoop, assignedTarget,
      DeathMarkers.findContacts, DeathMarkers.particleContacts, DeathMarkers.contactPair,
      DeathMarkers.resetContact, DeathMarkers.normalizeEscape,
      DeathMarkers.addParticle, DeathMarkers.ParticleModel.new, DeathMarkers.Particle.new,
      jsOr, ratMath, List.range, List.range.loop, List.range']
    norm_num [DeathMarkers.arrivalVisit, DeathMarkers.move, DeathMarkers.desiredVelocity,
      DeathMarkers.closestTarget, closestTargetLoop, assignedTarget, DeathMarkers.deathVisit,
      DeathMarkers.stressUpdate, DeathMarkers.adjustRadius]
  · rw [(rMin_of_params_dm (DeathMarkers.step_frame_dm ratMath clock DeathMarkers.thin).1).1]
    simp [DeathMarkers.thin, DeathMarkers.addParticle, DeathMarkers.ParticleModel.new, jsOr]
    norm_num

theorem thin_step_nm (clock : Nat → ℚ) :
    (NewMovement.step ratMath clock NewMovement.thin).particles.map (fun p => p.r) =
      [7 / 60] ∧
    (NewMovement.step ratMath clock NewMovement.thin).rMin = 1 / 5 := by
  constructor
  · simp [NewMovement.step, NewMovement.thin,
      NewMovement.removeParticlesAtTarget, NewMovement.arrivalVisit,
      NewMovement.adjustRadii, NewMovement.adjustRadius,
      NewMovement.updatePositions, NewMovement.move, NewMovement.computeDesiredVelocities,
      NewMovement.desiredVelocity, NewMovement.findClosestTargets,
      NewMovement.closestTarget, closestTargetLoop, assignedTarget,
      NewMovement.findContacts, NewMovement.particleContacts, NewMovement.contactPair,
      NewMovement.resetContact, NewMovement.normalizeEscape,
      NewMovement.addParticle, NewMovement.ParticleModel.new, NewMovement.Particle.new,
      jsOr, ratMath, List.range, List.range.loop, List.range']
    norm_num [NewMovement.arrivalVisit, NewMovement.move, NewMovement.desiredVelocity,
      NewMovement.closestTarget, closestTargetLoop, assignedTarget,
      NewMovement.adjustRadius]
  · rw [(rMin_of_params_nm (NewMovement.step_frame_nm ratMath clock NewMovement.thin).1).1]
    simp [NewMovement.thin, NewMovement.addParticle, NewMovement.ParticleModel.new, jsOr]
    norm_num

/-- Counterexample for C33: in both single-demographic variants a particle created with
radius `0.01` in the default model (`rMin = 0.2`) has radius `7/60 < rMin` after one
step. -/
theorem created_radius_below_rMin :
    (DeathMarkers.step ratMath (fun _ => 0) DeathMarkers.thin).particles.map (fun p => p.r) =
      [7 / 60] ∧
    (DeathMarkers.step ratMath (fun _ => 0) DeathMarkers.thin).rMin = 1 / 5 ∧
    (NewMovement.step ratMath (fun _ => 0) NewMovement.thin).particles.map (fun p => p.r) =
      [7 / 60] ∧
    (NewMovement.step ratMath (fun _ => 0) NewMovement.thin).rMin = 1 / 5 ∧
    (7 / 60 : ℚ) < 1 / 5 :=
  ⟨(thin_step_dm _).1, (thin_step_dm _).2, (thin_step_nm _).1, (thin_step_nm _).2,
    by norm_num⟩

namespace DeathMarkers

section Refinement
variable {K : Type} [LinearOrderedField K]

theorem foldl_commute {α β γ : Type} (g : β → γ) (f : β → α → β) (f2 : γ → α → γ)
    (h : ∀ b a, g (f b a) = f2 (g b) a) (l : List α) (b : β) :
    g (l.foldl f b) = l.foldl f2 (g b) := by
  induction l generalizing b with
  | nil => rfl
  | cons a l ih =>
    simp only [List.foldl_cons]
    rw [ih, h]

theorem contactPair_toPlain (M : JSMath K) (ps : List (Particle K)) (i j : Nat) :
    (contactPair M ps i j).map Particle.toPlain =
      NewMovement.contactPair M (ps.map Particle.toPlain) i j := by
  unfold contactPair NewMovement.contactPair
  simp only [List.getElem?_map]
  cases hi : ps[i]? with
  | none => rfl
  | some pi =>
    cases hj : ps[j]? with
    | none => rfl
    | some pj =>
      simp only [Option.map_some']
      by_cases hc : M.sqrt ((pi.x - pj.x) * (pi.x - pj.x) + (pi.y - pj.y) * (pi.y - pj.y)) <
          pi.r + pj.r
      · have hc2 : M.sqrt ((pi.toPlain.x - pj.toPlain.x) * (pi.toPlain.x - pj.toPlain.x) +
            (pi.toPlain.y - pj.toPlain.y) * (pi.toPlain.y - pj.toPlain.y)) <
            pi.toPlain.r + pj.toPlain.r := hc
        rw [if_pos hc, if_pos hc2, List.map_set, List.map_set]
        rfl
      · have hc2 : ¬ M.sqrt ((pi.toPlain.x - pj.toPlain.x) * (pi.toPlain.x - pj.toPlain.x) +
            (pi.toPlain.y - pj.toPlain.y) * (pi.toPlain.y - pj.toPlain.y)) <
            pi.toPlain.r + pj.toPlain.r := hc
        rw [if_neg hc, if_neg hc2]

theorem particleContacts_toPlain (M : JSMath K) (ps : List (Particle K)) :
    (particleContacts M ps).map Particle.toPlain =
      NewMovement.particleContacts M (ps.map Particle.toPlain) := by
  unfold particleContacts NewMovement.particleContacts
  rw [List.length_map]
  apply foldl_commute (List.map Particle.toPlain)
  intro acc i
  apply foldl_commute (List.map Particle.toPlain)
  intro acc2 j
  exact contactPair_toPlain M acc2 i j

theorem boundaryContact_toPlain (M : JSMath K) (p : Particle K) (b : Boundary K) :
    (boundaryContact M p b).toPlain = NewMovement.boundaryContact M p.toPlain b := by
  unfold boundaryContact NewMovement.boundaryContact
  simp only
  by_cases h1 : (distanceToBoundary M p.x p.y b.x1 b.y1 b.x2 b.y2).distance < p.r
  · have h1b : (distanceToBoundary M p.toPlain.x p.toPlain.y b.x1 b.y1 b.x2 b.y2).distance <
        p.toPlain.r := h1
    rw [if_pos h1, if_pos h1b]
    by_cases h2 : M.sqrt
        ((p.x - (distanceToBoundary M p.x p.y b.x1 b.y1 b.x2 b.y2).pointX) *
            (p.x - (distanceToBoundary M p.x p.y b.x1 b.y1 b.x2 b.y2).pointX) +
          (p.y - (distanceToBoundary M p.x p.y b.x1 b.y1 b.x2 b.y2).pointY) *
            (p.y - (distanceToBoundary M p.x p.y b.x1 b.y1 b.x2 b.y2).pointY)) > 0
    · have h2b : M.sqrt
          ((p.toPlain.x -
              (distanceToBoundary M p.toPlain.x p.toPlain.y b.x1 b.y1 b.x2 b.y2).pointX) *
            (p.toPlain.x -
              (distanceToBoundary M p.toPlain.x p.toPlain.y b.x1 b.y1 b.x2 b.y2).pointX) +
          (p.toPlain.y -
              (distanceToBoundary M p.toPlain.x p.toPlain.y b.x1 b.y1 b.x2 b.y2).pointY) *
            (p.toPlain.y -
              (distanceToBoundary M p.toPlain.x p.toPlain.y b.x1 b.y1 b.x2 b.y2).pointY)) > 0 :=
        h2
      rw [if_pos h2, if_pos h2b]
      rfl
    · have h2b : ¬ M.sqrt
          ((p.toPlain.x -
              (distanceToBoundary M p.toPlain.x p.toPlain.y b.x1 b.y1 b.x2 b.y2).pointX) *
            (p.toPlain.x -
              (distanceToBoundary M p.toPlain.x p.toPlain.y b.x1 b.y1 b.x2 b.y2).pointX) +
          (p.toPlain.y -
              (distanceToBoundary M p.toPlain.x p.toPlain.y b.x1 b.y1 b.x2 b.y2).pointY) *
            (p.toPlain.y -
              (distanceToBoundary M p.toPlain.x p.toPlain.y b.x1 b.y1 b.x2 b.y2).pointY)) > 0 :=
        h2
      rw [if_neg h2, if_neg h2b]
      rfl
  · have h1b : ¬ (distanceToBoundary M p.toPlain.x p.toPlain.y b.x1 b.y1 b.x2 b.y2).distance <
        p.toPlain.r := h1
    rw [if_neg h1, if_neg h1b]

theorem normalizeEscape_toPlain (M : JSMath K) (ve : K) (p : Particle K) :
    (normalizeEscape M ve p).toPlain = NewMovement.normalizeEscape M ve p.toPlain := by
  unfold normalizeEscape NewMovement.normalizeEscape
  by_cases h1 : p.inContact = true
  · have h1b : p.toPlain.inContact = true := h1
    rw [if_pos h1, if_pos h1b]
    simp only
    by_cases h2 : M.sqrt (p.ve.x ^ 2 + p.ve.y ^ 2) > 0
    · have h2b : M.sqrt (p.toPlain.ve.x ^ 2 + p.toPlain.ve.y ^ 2) > 0 := h2
      rw [if_pos h2, if_pos h2b]
      rfl
    · have h2b : ¬ M.sqrt (p.toPlain.ve.x ^ 2 + p.toPlain.ve.y ^ 2) > 0 := h2
      rw [if_neg h2, if_neg h2b]
  · have h1b : ¬ p.toPlain.inContact = true := h1
    rw [if_neg h1, if_neg h1b]

theorem toPlain_particles (s : ParticleModel K) (ps : List (Particle K)) :
    ({ s with particles := ps } : ParticleModel K).toPlain =
      { s.toPlain with particles := ps.map Particle.toPlain } := rfl

theorem findContacts_toPlain (M : JSMath K) (s : ParticleModel K) :
    (findContacts M s).toPlain = NewMovement.findContacts M s.toPlain := by
  unfold findContacts NewMovement.findContacts
  simp only
  rw [toPlain_particles]
  have h : ((((particleContacts M (s.particles.map resetContact)).map
      (fun particle => s.boundaries.foldl (boundaryContact M) particle)).map
        (normalizeEscape M s.ve)).map Particle.toPlain) =
      (((NewMovement.particleContacts M (s.toPlain.particles.map NewMovement.resetContact)).map
        (fun particle => s.toPlain.boundaries.foldl (NewMovement.boundaryContact M) particle)).map
          (NewMovement.normalizeEscape M s.toPlain.ve)) := by
    have e0 : s.toPlain.particles.map NewMovement.resetContact =
        (s.particles.map resetContact).map Particle.toPlain := by
      show (s.particles.map Particle.toPlain).map NewMovement.resetContact = _
      rw [List.map_map, List.map_map]
      rfl
    rw [e0, ← particleContacts_toPlain, List.map_map, List.map_map, List.map_map, List.map_map]
    apply List.map_congr_left
    intro a _
    simp only [Function.comp]
    rw [normalizeEscape_toPlain]
    congr 1
    exact foldl_commute Particle.toPlain _ _ (fun q b => boundaryContact_toPlain M q b) _ _
  rw [h]

theorem adjustRadius_toPlain (M : JSMath K) (rMin rMax tau dt : K) (p : Particle K) :
    (adjustRadius M rMin rMax tau dt p).toPlain =
      NewMovement.adjustRadius M rMin rMax tau dt p.toPlain := by
  unfold adjustRadius NewMovement.adjustRadius
  by_cases h1 : p.inContact = true
  · have h1b : p.toPlain.inContact = true := h1
    rw [if_pos h1, if_pos h1b]
    rfl
  · have h1b : ¬ p.toPlain.inContact = true := h1
    rw [if_neg h1, if_neg h1b]
    rfl

theorem stressUpdate_toPlain (c1 c2 c3 c4 : K) (p : Particle K) :
    (stressUpdate c1 c2 c3 c4 p).toPlain = p.toPlain := by
  unfold stressUpdate
  simp only
  split <;> split <;> rfl

theorem closestTarget_toPlain (M : JSMath K) (targets : List (Target K)) (p : Particle K) :
    (closestTarget M targets p).toPlain = NewMovement.closestTarget M targets p.toPlain := rfl

theorem desiredVelocity_toPlain (M : JSMath K) (s : ParticleModel K) (p : Particle K) :
    (desiredVelocity M s p).toPlain = NewMovement.desiredVelocity M s.toPlain p.toPlain := by
  unfold desiredVelocity NewMovement.desiredVelocity
  have ht : s.toPlain.targets = s.targets := rfl
  have hi : p.toPlain.targetIndex = p.targetIndex := rfl
  rw [ht, hi]
  cases assignedTarget s.targets p.targetIndex with
  | none => rfl
  | some target =>
    simp only
    by_cases h2 : M.sqrt ((target.x - p.x) * (target.x - p.x) +
        (target.y - p.y) * (target.y - p.y)) > 0
    · have h2b : M.sqrt ((target.x - p.toPlain.x) * (target.x - p.toPlain.x) +
          (target.y - p.toPlain.y) * (target.y - p.toPlain.y)) > 0 := h2
      rw [if_pos h2, if_pos h2b]
      rfl
    · have h2b : ¬ M.sqrt ((target.x - p.toPlain.x) * (target.x - p.toPlain.x) +
          (target.y - p.toPlain.y) * (target.y - p.toPlain.y)) > 0 := h2
      rw [if_neg h2, if_neg h2b]
      rfl

theorem move_toPlain (rMin dt : K) (p : Particle K) :
    (move rMin dt p).toPlain = NewMovement.move rMin dt p.toPlain := rfl

/-- The death purge removes nothing and counts nothing when no particle is flagged. -/
theorem deathFold_of_none_dead (ps : List (Particle K)) (acc : DeathAcc K)
    (h : ∀ p ∈ ps, p.dead = false) :
    ps.foldl deathVisit acc = ⟨acc.model, acc.kept ++ ps⟩ := by
  induction ps generalizing acc with
  | nil => simp
  | cons p ps ih =>
    simp only [List.foldl_cons]
    have hp : p.dead = false := h p (List.mem_cons_self _ _)
    have hv : deathVisit acc p = ⟨acc.model, acc.kept ++ [p]⟩ := by
      unfold deathVisit
      rw [if_neg (by simp [hp])]
    rw [hv, ih _ (fun q hq => h q (List.mem_cons_of_mem _ hq))]
    simp

theorem removeDead_of_none_dead (s : ParticleModel K) (h : ∀ p ∈ s.particles, p.dead = false) :
    removeDead s = s := by
  unfold removeDead
  simp only
  rw [deathFold_of_none_dead s.particles ⟨s, []⟩ h]
  simp

/-- One call of the arrival callback, seen through the projection, while no particle has
died. -/
theorem arrivalVisit_toPlain (M : JSMath K) (clock : Nat → K) (acc : ArrivalAcc K)
    (p : Particle K) (hd : acc.model.particlesDied = 0) :
    NewMovement.arrivalVisit M clock
        ⟨acc.model.toPlain, acc.kept.map Particle.toPlain, acc.calls⟩ p.toPlain =
      ⟨(arrivalVisit M clock acc p).model.toPlain,
        (arrivalVisit M clock acc p).kept.map Particle.toPlain,
        (arrivalVisit M clock acc p).calls⟩ := by
  unfold arrivalVisit NewMovement.arrivalVisit
  simp only
  have ht : acc.model.toPlain.targets = acc.model.targets := rfl
  have hi : p.toPlain.targetIndex = p.targetIndex := rfl
  rw [ht, hi]
  cases assignedTarget acc.model.targets p.targetIndex with
  | none => simp
  | some target =>
    simp only
    by_cases h2 : M.sqrt ((target.x - p.x) * (target.x - p.x) +
        (target.y - p.y) * (target.y - p.y)) ≤ 0.5
    · have h2b : M.sqrt ((target.x - p.toPlain.x) * (target.x - p.toPlain.x) +
          (target.y - p.toPlain.y) * (target.y - p.toPlain.y)) ≤ 0.5 := h2
      rw [if_pos h2, if_pos h2b]
      by_cases h3 : acc.model.particlesReachedTarget + 1 + acc.model.particlesDied =
          acc.model.totalParticlesCreated
      · have h3b : acc.model.toPlain.particlesReachedTarget + 1 =
            acc.model.toPlain.totalParticlesCreated := by
          rw [hd, add_zero] at h3
          exact h3
        rw [if_pos h3, if_pos h3b]
        rfl
      · have h3b : ¬ acc.model.toPlain.particlesReachedTarget + 1 =
            acc.model.toPlain.totalParticlesCreated := by
          rw [hd, add_zero] at h3
          exact h3
        rw [if_neg h3, if_neg h3b]
        rfl
    · have h2b : ¬ M.sqrt ((target.x - p.toPlain.x) * (target.x - p.toPlain.x) +
          (target.y - p.toPlain.y) * (target.y - p.toPlain.y)) ≤ 0.5 := h2
      rw [if_neg h2, if_neg h2b]
      simp

theorem arrivalFold_toPlain (M : JSMath K) (clock : Nat → K) (ps : List (Particle K))
    (acc : ArrivalAcc K) (hd : acc.model.particlesDied = 0) :
    (ps.map Particle.toPlain).foldl (NewMovement.arrivalVisit M clock)
        ⟨acc.model.toPlain, acc.kept.map Particle.toPlain, acc.calls⟩ =
      ⟨(ps.foldl (arrivalVisit M clock) acc).model.toPlain,
        (ps.foldl (arrivalVisit M clock) acc).kept.map Particle.toPlain,
        (ps.foldl (arrivalVisit M clock) acc).calls⟩ := by
  induction ps generalizing acc with
  | nil => rfl
  | cons p ps ih =>
    simp only [List.map_cons, List.foldl_cons]
    rw [arrivalVisit_toPlain M clock acc p hd]
    exact ih _ ((arrivalVisit_frame_dm M clock acc p).2.2.2.2.2.1.trans hd)

theorem removeParticlesAtTarget_toPlain (M : JSMath K) (clock : Nat → K) (s : ParticleModel K)
    (hd : s.particlesDied = 0) :
    (removeParticlesAtTarget M clock s).toPlain =
      NewMovement.removeParticlesAtTarget M clock s.toPlain ∧
    arrivalWrites M clock s = NewMovement.arrivalWrites M clock s.toPlain := by
  have h := arrivalFold_toPlain M clock s.particles ⟨s, [], 0⟩ hd
  have h2 : (s.toPlain.particles).foldl (NewMovement.arrivalVisit M clock) ⟨s.toPlain, [], 0⟩ =
      ⟨(s.particles.foldl (arrivalVisit M clock) ⟨s, [], 0⟩).model.toPlain,
        (s.particles.foldl (arrivalVisit M clock) ⟨s, [], 0⟩).kept.map Particle.toPlain,
        (s.particles.foldl (arrivalVisit M clock) ⟨s, [], 0⟩).calls⟩ := h
  constructor
  · unfold removeParticlesAtTarget NewMovement.removeParticlesAtTarget
    simp only
    rw [h2]
    rfl
  · unfold arrivalWrites NewMovement.arrivalWrites
    rw [h2]

theorem toPlain_fields (u : ParticleModel K) :
    u.toPlain.particles = u.particles.map Particle.toPlain ∧
    u.toPlain.particlesReachedTarget = u.particlesReachedTarget ∧
    u.toPlain.endTime = u.endTime := ⟨rfl, rfl, rfl⟩

theorem mapPass_toPlain (u : ParticleModel K) (f : Particle K → Particle K)
    (f2 : NewMovement.Particle K → NewMovement.Particle K)
    (h : ∀ p, (f p).toPlain = f2 p.toPlain) :
    ({ u with particles := u.particles.map f } : ParticleModel K).toPlain =
      { u.toPlain with particles := u.toPlain.particles.map f2 } := by
  rw [toPlain_particles]
  have e : (u.particles.map f).map Particle.toPlain = u.toPlain.particles.map f2 := by
    show _ = (u.particles.map Particle.toPlain).map f2
    rw [List.map_map, List.map_map]
    apply List.map_congr_left
    intro a _
    exact h a
  rw [e]

theorem adjustRadii_toPlain (M : JSMath K) (u : ParticleModel K) :
    (adjustRadii M u).toPlain = NewMovement.adjustRadii M u.toPlain :=
  mapPass_toPlain u _ _ (adjustRadius_toPlain M u.rMin u.rMax u.tau u.dt)

theorem accumulateStress_toPlain (u : ParticleModel K) :
    (accumulateStress u).toPlain = u.toPlain := by
  have h := mapPass_toPlain u (stressUpdate u.crushThreshold u.stressRate u.dt u.stressThreshold)
    id (stressUpdate_toPlain _ _ _ _)
  unfold accumulateStress
  rw [h, List.map_id]

theorem findClosestTargets_toPlain (M : JSMath K) (u : ParticleModel K) :
    (findClosestTargets M u).toPlain = NewMovement.findClosestTargets M u.toPlain :=
  mapPass_toPlain u _ _ (closestTarget_toPlain M u.targets)

theorem computeDesiredVelocities_toPlain (M : JSMath K) (u : ParticleModel K) :
    (computeDesiredVelocities M u).toPlain =
      NewMovement.computeDesiredVelocities M u.toPlain :=
  mapPass_toPlain u _ _ (desiredVelocity_toPlain M u)

theorem updatePositions_toPlain (u : ParticleModel K) :
    (updatePositions u).toPlain = NewMovement.updatePositions u.toPlain :=
  mapPass_toPlain u _ _ (move_toPlain u.rMin u.dt)

/-- No particle is flagged by the stress pass when none was flagged before and no stress
reaches the threshold. -/
theorem none_dead_of_low_stress (M : JSMath K) (s : ParticleModel K)
    (halive : ∀ p ∈ s.particles, p.dead = false)
    (hstress : ∀ p ∈ (accumulateStress (adjustRadii M (findContacts M s))).particles,
      p.stress < s.stressThreshold) :
    ∀ p ∈ (accumulateStress (adjustRadii M (findContacts M s))).particles, p.dead = false := by
  intro p hp
  have hs := hstress p hp
  rw [accumulateStress_particles_dm] at hp
  obtain ⟨a, ha, rfl⟩ := List.mem_map.1 hp
  obtain ⟨c, hc, rfl⟩ := List.mem_map.1 ha
  rw [stressUpdate_dead_dm, if_neg (not_le.2 hs)]
  rw [(adjustRadius_fields_dm M s.rMin s.rMax s.tau s.dt c).2.2.2.2.2.2.2]
  have hmem : resetContact c ∈ (findContacts M s).particles.map resetContact :=
    List.mem_map_of_mem _ hc
  rw [findContacts_map_reset_dm] at hmem
  obtain ⟨c0, hc0, he⟩ := List.mem_map.1 hmem
  rw [(fields_of_reset_eq_dm he.symm).2.2.2.2.2.2]
  exact halive c0 hc0

/-- The state on which `step` calls `removeParticlesAtTarget`, in a step without death. -/
theorem moved_toPlain (M : JSMath K) (s : ParticleModel K)
    (hnone : ∀ p ∈ (accumulateStress (adjustRadii M (findContacts M s))).particles,
      p.dead = false) :
    (updatePositions (beforeMove M s)).toPlain = NewMovement.beforeArrival M s.toPlain ∧
    (updatePositions (beforeMove M s)).particlesDied = s.particlesDied := by
  have h4 := removeDead_of_none_dead _ hnone
  have d1 : ∀ u : ParticleModel K, (updatePositions u).particlesDied = u.particlesDied :=
    fun _ => rfl
  have d2 : ∀ u : ParticleModel K,
      (computeDesiredVelocities M u).particlesDied = u.particlesDied := fun _ => rfl
  have d3 : ∀ u : ParticleModel K, (findClosestTargets M u).particlesDied = u.particlesDied :=
    fun _ => rfl
  have d4 : ∀ u : ParticleModel K, (accumulateStress u).particlesDied = u.particlesDied :=
    fun _ => rfl
  have d5 : ∀ u : ParticleModel K, (adjustRadii M u).particlesDied = u.particlesDied :=
    fun _ => rfl
  have d6 : (findContacts M s).particlesDied = s.particlesDied := rfl
  unfold beforeMove NewMovement.beforeArrival
  rw [h4]
  constructor
  · rw [updatePositions_toPlain, computeDesiredVelocities_toPlain, findClosestTargets_toPlain,
      accumulateStress_toPlain, adjustRadii_toPlain, findContacts_toPlain]
  · rw [d1, d2, d3, d4, d5, d6]

/-- Claim C35.  Take a state of the death-markers variant in which no particle has died
(`particlesDied = 0`, no particle flagged dead) and a step during which no particle's stress
reaches `stressThreshold`.  Dropping the death fields commutes with the step: the
death-markers step followed by the projection is the no-death step of the projected state.
So both steps give the same active particles (positions, radii, desired and escape
velocities, contact flags, target indices), the same `particlesReachedTarget`, the same
number of assignments to `endTime` and the same `endTime`; `particlesDied` is still `0`. -/
theorem no_death_special_case (M : JSMath K) (clock : Nat → K) (s : ParticleModel K)
    (hdied : s.particlesDied = 0) (halive : ∀ p ∈ s.particles, p.dead = false)
    (hstress : ∀ p ∈ (accumulateStress (adjustRadii M (findContacts M s))).particles,
      p.stress < s.stressThreshold) :
    (step M clock s).toPlain = NewMovement.step M clock s.toPlain ∧
    (step M clock s).particles.map Particle.toPlain =
      (NewMovement.step M clock s.toPlain).particles ∧
    (step M clock s).particlesReachedTarget =
      (NewMovement.step M clock s.toPlain).particlesReachedTarget ∧
    arrivalWrites M clock (updatePositions (beforeMove M s)) =
      NewMovement.arrivalWrites M clock (NewMovement.beforeArrival M s.toPlain) ∧
    (step M clock s).endTime = (NewMovement.step M clock s.toPlain).endTime ∧
    (step M clock s).particlesDied = 0 := by
  have hnone := none_dead_of_low_stress M s halive hstress
  obtain ⟨h1, h2⟩ := moved_toPlain M s hnone
  obtain ⟨h3, h4⟩ := removeParticlesAtTarget_toPlain M clock (updatePositions (beforeMove M s))
    (h2.trans hdied)
  have hstep : (step M clock s).toPlain = NewMovement.step M clock s.toPlain := by
    have e : NewMovement.step M clock s.toPlain =
        NewMovement.removeParticlesAtTarget M clock (NewMovement.beforeArrival M s.toPlain) :=
      rfl
    rw [e, ← h1]
    exact h3
  obtain ⟨f1, f2, f3⟩ := toPlain_fields (step M clock s)
  refine ⟨hstep, f1.symm.trans (congrArg (fun u => u.particles) hstep),
    f2.symm.trans (congrArg (fun u => u.particlesReachedTarget) hstep), ?_,
    f3.symm.trans (congrArg (fun u => u.endTime) hstep), ?_⟩
  · rw [h4, h1]
  · exact ((removeParticlesAtTarget_frame_dm M clock _).2.2.2.2.2.1.trans h2).trans hdied

end Refinement

end DeathMarkers

namespace DeathMarkers

/-- Witness for C35: the first step of Scenario D.  The particle touches three boundaries
and its stress rises to `1/3`, below the threshold `2`; nobody has died. -/
theorem no_death_special_case_witness :
    scenarioD.particlesDied = 0 ∧ (∀ p ∈ scenarioD.particles, p.dead = false) ∧
    (∀ p ∈ (accumulateStress (adjustRadii ratMath (findContacts ratMath scenarioD))).particles,
      p.stress < scenarioD.stressThreshold) ∧
    (step ratMath (fun _ => 0) scenarioD).toPlain =
      NewMovement.step ratMath (fun _ => 0) scenarioD.toPlain ∧
    (step ratMath (fun _ => 0) scenarioD).particlesDied = 0 := by
  have h0 : scenarioD = { scenarioD with particles :=
      [{ x := 0, y := 0, r := 1 / 5, vd := ⟨0, 0, 0⟩, ve := ⟨0, 0, 0⟩, targetIndex := -1,
         inContact := false, reachedTarget := false, contacts := 0, stress := 0,
         dead := false }] } := by
    simp [scenarioD, addParticle, addBoundary, setupModel, ParticleModel.new, jsOr,
      Particle.new]
    norm_num
  have h1 : findContacts ratMath scenarioD = crushed 0 := by
    rw [h0]
    exact crushed_findContacts 0 0 false ⟨0, 0, 0⟩
  have hd : scenarioD.particlesDied = 0 := by
    simp [scenarioD, addParticle, addBoundary, setupModel, ParticleModel.new]
  have ha : ∀ p ∈ scenarioD.particles, p.dead = false := by
    intro p hp
    rw [h0] at hp
    simp only [List.mem_singleton] at hp
    rw [hp]
  have ht : scenarioD.stressThreshold = 2 := by
    simp [scenarioD, addParticle, addBoundary, setupModel, ParticleModel.new, jsOr]
  have hs : ∀ p ∈ (accumulateStress (adjustRadii ratMath
      (findContacts ratMath scenarioD))).particles, p.stress < scenarioD.stressThreshold := by
    intro p hp
    rw [h1, crushed_stress, if_neg (by norm_num)] at hp
    simp only [crushed, List.mem_singleton] at hp
    rw [hp, ht]
    norm_num
  obtain ⟨c1, -, -, -, -, c6⟩ := no_death_special_case ratMath (fun _ => 0) scenarioD hd ha hs
  exact ⟨hd, ha, hs, c1, c6⟩

end DeathMarkers

namespace VaryingPopulation

section InheritedKey
variable {K : Type} [LinearOrderedField K]

theorem readRegistry_of_key (demographic : String) (key : DemoKey)
    (h : DemoKey.ofString demographic = some key) : readRegistry demographic = .entry key := by
  unfold readRegistry
  rw [h]

/-- Claim C2 (the code diverges).  With exact division and `tau > 0`, every active particle
of every state reached from a fresh model by calls that use registry keys satisfies
`rMin ≤ r ≤ rMax` for the `rMin` and `rMax` of its own demographic, and a particle created
with a registry key starts at `r = rMin`.  The key `"constructor"` is not a registry key,
yet `addParticle` does not fail on it: the particle it pushes into the active set has `r`,
`rMin` and `rMax` undefined, and both comparisons `rMin <= r` and `r <= rMax` are false. -/
theorem radius_within_bounds (M : JSMath K) (hM : M.DivExact) (options : Options K)
    (htau : 0 < (ParticleModel.new M options).tau) :
    (∀ s, Reachable M options s → ∀ p ∈ s.particles,
      (DEMOGRAPHICS p.demographic).rMin ≤ p.r ∧ p.r ≤ (DEMOGRAPHICS p.demographic).rMax) ∧
    (∀ demographic key, DemoKey.ofString demographic = some key →
      createdRadii (K := K) demographic =
        some (some (DEMOGRAPHICS key).rMin, some (DEMOGRAPHICS key).rMin,
          some (DEMOGRAPHICS key).rMax)) ∧
    DemoKey.ofString "constructor" = none ∧
    readRegistry "constructor" = .inherited ∧
    (∀ s : ParticleModel K, addParticleCounts s "constructor" =
      some (s.particles.length + 1, s.totalParticlesCreated + 1)) ∧
    ∃ r rMin rMax : Option K, createdRadii "constructor" = some (r, rMin, rMax) ∧
      jsLe rMin r = false ∧ jsLe r rMax = false := by
  have hc : readRegistry "constructor" = .inherited := by decide
  refine ⟨fun s h p hp => reachable_radius_bounds M hM options htau s h p hp, ?_, by decide,
    hc, ?_, ⟨none, none, none, ?_, rfl, rfl⟩⟩
  · intro demographic key hk
    unfold createdRadii
    rw [readRegistry_of_key demographic key hk]
  · intro s
    unfold addParticleCounts
    rw [hc]
  · unfold createdRadii
    rw [hc]

/-- Claim C39 (the code diverges).  In every state reached from a fresh model by calls
that use registry keys, the `current` counter of every demographic `d` is the number of
active particles whose tag is `d`, and the three counters add up to the number of active
particles.  `addParticle` with the key `"constructor"` on a fresh model does not fail: it
leaves one active particle while the three `current` counters are still `0`. -/
theorem current_counts_active (M : JSMath K) (options : Options K) :
    (∀ s, Reachable M options s →
      (∀ d, (s.demographicStats d).current =
        (s.particles.countP (fun p => decide (p.demographic = d)) : Nat)) ∧
      (DemoKey.keys.map (fun d => (s.demographicStats d).current)).sum = s.particles.length) ∧
    (∀ (s : ParticleModel K) (x y : K) demographic key,
      DemoKey.ofString demographic = some key →
      addParticleCurrent s demographic =
        some ((addParticleKey s x y key).particles.length,
          DemoKey.keys.map (fun d => ((addParticleKey s x y key).demographicStats d).current))) ∧
    readRegistry "constructor" = .inherited ∧
    addParticleCurrent (ParticleModel.new M options) "constructor" = some (1, [0, 0, 0]) ∧
    ∃ n counters, addParticleCurrent (ParticleModel.new M options) "constructor" =
        some (n, counters) ∧ counters.sum ≠ (n : Int) := by
  have hc : readRegistry "constructor" = .inherited := by decide
  have hnew : addParticleCurrent (ParticleModel.new M options) "constructor" =
      some (1, [0, 0, 0]) := by
    unfold addParticleCurrent
    rw [hc]
    simp [ParticleModel.new, DemoKey.keys, DemographicStat.zero]
  refine ⟨?_, ?_, hc, hnew, ⟨1, [0, 0, 0], hnew, by norm_num⟩⟩
  · intro s h
    have hcen := reachable_census M options s h
    refine ⟨hcen, ?_⟩
    have : DemoKey.keys.map (fun d => (s.demographicStats d).current) =
        DemoKey.keys.map (fun d => ((s.particles.countP
          (fun p => decide (p.demographic = d)) : Nat) : Int)) := by
      apply List.map_congr_left
      intro d _
      exact hcen d
    rw [this, sum_countP_keys]
  · intro s x y demographic key hk
    unfold addParticleCurrent
    rw [readRegistry_of_key demographic key hk]
    simp [addParticleKey]

end InheritedKey

/-- Witness for C2: a particle left by one step of Scenario A. -/
theorem radius_within_bounds_witness :
    JSMath.DivExact ratMath ∧ 0 < (ParticleModel.new ratMath ({} : Options ℚ)).tau ∧
    Reachable ratMath {} (step ratMath (fun _ => 0) scenarioA) ∧
    pushedLeft ∈ (step ratMath (fun _ => 0) scenarioA).particles ∧
    (DEMOGRAPHICS pushedLeft.demographic).rMin ≤ pushedLeft.r ∧
      pushedLeft.r ≤ (DEMOGRAPHICS pushedLeft.demographic).rMax :=
  ⟨ratMath_divExact, by rw [new_params_default.1]; norm_num, .step _ scenarioA_reachable,
    scenarioA_step_mem,
    (radius_within_bounds ratMath ratMath_divExact {}
      (by rw [new_params_default.1]; norm_num)).1
      _ (.step _ scenarioA_reachable) _ scenarioA_step_mem⟩

/-- Witness for C39: after one step of Scenario A the `current` counter of the adults is
the number of active adults, which is `2`. -/
theorem current_counts_active_witness :
    Reachable ratMath {} (step ratMath (fun _ => 0) scenarioA) ∧
    ((step ratMath (fun _ => 0) scenarioA).demographicStats .ADULT).current =
      ((step ratMath (fun _ => 0) scenarioA).particles.countP
        (fun p => decide (p.demographic = .ADULT)) : Nat) ∧
    (step ratMath (fun _ => 0) scenarioA).particles.countP
      (fun p => decide (p.demographic = .ADULT)) = 2 := by
  refine ⟨.step _ scenarioA_reachable,
    ((current_counts_active ratMath {}).1 _ (.step (fun _ => 0) scenarioA_reachable)).1 .ADULT,
    ?_⟩
  rw [scenarioA_step]
  simp [Particle.new]

end VaryingPopulation

namespace VaryingPopulation

section ApartClaims
variable {K : Type} [LinearOrderedField K]

/-- In a state in which no two overlapping particles share their centre, every quotient of
the pair loop has a non-zero divisor: the escape vector accumulated for the particle at
index `k` is the sum, over the other particles that overlap it, of the unit vector away
from that particle plus its own desired velocity, plus the pushes of the boundaries it
touches. -/
theorem accumulated_of_pairsApart (M : JSMath K) (hM : M.DivExact) (s : ParticleModel K)
    (hap : PairsApart M s) (k : Nat) (p : Particle K) (hp : s.particles[k]? = some p) :
    ∃ a, (accumulateEscape M s)[k]? = some a ∧
      (a.ve.x, a.ve.y) =
        (((s.particles.eraseIdx k).filter (overlaps M p)).map (pairPush M p)).sum +
          sumOver (pushBoundary M p) (touches M p) s.boundaries := by
  obtain ⟨a, ha, -, hsum⟩ := accumulateEscape_at M s k p hp
  refine ⟨a, ha, ?_⟩
  rw [hsum]
  have hmem1 : ∀ q ∈ s.particles.take k, q ∈ s.particles.eraseIdx k := by
    intro q hq
    rw [List.eraseIdx_eq_take_drop_succ]
    exact List.mem_append_left _ hq
  have hmem2 : ∀ q ∈ s.particles.drop (k + 1), q ∈ s.particles.eraseIdx k := by
    intro q hq
    rw [List.eraseIdx_eq_take_drop_succ]
    exact List.mem_append_right _ hq
  rw [sumOver_congr (pushLower M p) (pairPush M p) (overlaps M p) _
      (fun q hq ho => pushLower_eq M hM p q (hap k p hp q (hmem1 q hq) ho)),
    sumOver_congr (pushHigher M p) (pairPush M p) (overlaps M p) _
      (fun q hq ho => pushHigher_eq M hM p q (hap k p hp q (hmem2 q hq) ho)),
    ← sumOver_append, ← List.eraseIdx_eq_take_drop_succ]
  rfl

/-- Claim C4 (the code diverges).  In the demographic variant with exact built-ins and
`beta > 0`, take a reachable state in which no two overlapping particles share their
centre.  One step moves every particle that enters the integrator (the survivors of the
step are among their images) by a Euclidean distance of at most its own `vdMax * dt`, which
is at most `0.15 / 2 = 0.075`, half the least `rMin` of the registry; hence the distance
between the centres of any two particles changes by at most `0.15` in the step.  In such a
state every quotient of the pair loop of the contact pass has a non-zero divisor, and the
escape vector accumulated for a particle is the sum of the unit vectors away from the
particles that overlap it, each with its own desired velocity added, and of the pushes of
the boundaries it touches.  For two overlapping particles at the same centre the source
divides `0` by `0` and the bound is lost. -/
theorem step_displacement_bounded (M : JSMath K) (hM : M.Exact) (options : Options K)
    (hbeta : 0 < (ParticleModel.new M options).beta) (s : ParticleModel K)
    (h : Reachable M options s) (hap : PairsApart M s) (clock : Nat → K) :
    (step M clock s).particles =
      ((beforeMove M s).particles.map (move s.dt)).filter (fun p => !arrives M s.targets p) ∧
    (∀ p ∈ (beforeMove M s).particles, ∃ p0 ∈ s.particles, p.x = p0.x ∧ p.y = p0.y) ∧
    (∀ p ∈ (beforeMove M s).particles,
      M.sqrt (((move s.dt p).x - p.x) * ((move s.dt p).x - p.x) +
        ((move s.dt p).y - p.y) * ((move s.dt p).y - p.y)) ≤ p.vdMax * s.dt ∧
      p.vdMax * s.dt ≤ 0.15 / 2) ∧
    ((0.15 : K) / 2 = 0.075 ∧ (∀ d, (0.15 : K) ≤ (DEMOGRAPHICS d).rMin) ∧
      ∃ d, (DEMOGRAPHICS (K := K) d).rMin = 0.15) ∧
    (∀ p ∈ (beforeMove M s).particles, ∀ q ∈ (beforeMove M s).particles,
      |M.sqrt (((move s.dt p).x - (move s.dt q).x) * ((move s.dt p).x - (move s.dt q).x) +
          ((move s.dt p).y - (move s.dt q).y) * ((move s.dt p).y - (move s.dt q).y)) -
        M.sqrt ((p.x - q.x) * (p.x - q.x) + (p.y - q.y) * (p.y - q.y))| ≤ 0.15) ∧
    (∀ k p, s.particles[k]? = some p →
      ∃ a, (accumulateEscape M s)[k]? = some a ∧
        (a.ve.x, a.ve.y) =
          (((s.particles.eraseIdx k).filter (overlaps M p)).map (pairPush M p)).sum +
            sumOver (pushBoundary M p) (touches M p) s.boundaries) := by
  obtain ⟨h1, h2, h3, h4, h5⟩ := reachable_displacement_bounded M hM options hbeta s h clock
  exact ⟨h1, h2, h3, h4, h5,
    fun k p hp => accumulated_of_pairsApart M hM.toDivExact s hap k p hp⟩

/-- Claim C25 (the code diverges).  With exact square root and division, in a state in
which no two overlapping particles share their centre: after `findContacts` a particle that
is in contact and whose accumulated escape vector is not zero has the accumulated vector
divided by its norm and multiplied by its own `vdMax` as escape velocity, of Euclidean norm
exactly `vdMax` and with `ve.magnitude = vdMax`; every other particle, not in contact or
with a zero accumulated vector such as a particle standing on a boundary, has the zero
escape velocity with magnitude `0`.  The accumulated vector itself is the sum of the unit
vectors away from the particles that overlap it, each with its own desired velocity added,
and of the pushes of the boundaries it touches: every quotient of the pair loop has a
non-zero divisor.  For two overlapping particles at the same centre the source divides `0`
by `0` and the escape velocity is neither. -/
theorem escape_normalised (M : JSMath K) (hM : M.Exact) (s : ParticleModel K)
    (hap : PairsApart M s) (k : Nat) (p : Particle K) (hp : s.particles[k]? = some p) :
    ∃ a q, (accumulateEscape M s)[k]? = some a ∧ (findContacts M s).particles[k]? = some q ∧
      q.vdMax = p.vdMax ∧ q.inContact = a.inContact ∧
      (a.inContact = true ∧ (a.ve.x ≠ 0 ∨ a.ve.y ≠ 0) →
        0 < M.sqrt (a.ve.x ^ 2 + a.ve.y ^ 2) ∧
        q.ve.x = a.ve.x / M.sqrt (a.ve.x ^ 2 + a.ve.y ^ 2) * p.vdMax ∧
        q.ve.y = a.ve.y / M.sqrt (a.ve.x ^ 2 + a.ve.y ^ 2) * p.vdMax ∧
        q.ve.magnitude = p.vdMax ∧
        q.ve.x * q.ve.x + q.ve.y * q.ve.y = p.vdMax * p.vdMax) ∧
      (¬ (a.inContact = true ∧ (a.ve.x ≠ 0 ∨ a.ve.y ≠ 0)) → q.ve = ⟨0, 0, 0⟩) ∧
      (a.ve.x, a.ve.y) =
        (((s.particles.eraseIdx k).filter (overlaps M p)).map (pairPush M p)).sum +
          sumOver (pushBoundary M p) (touches M p) s.boundaries := by
  obtain ⟨a, q, h1, h2, h3, h4, h5, h6⟩ := findContacts_normalised M hM s k p hp
  obtain ⟨a2, g1, g2⟩ := accumulated_of_pairsApart M hM.toDivExact s hap k p hp
  rw [h1] at g1
  cases g1
  exact ⟨a, q, h1, h2, h3, h4, h5, h6, g2⟩

end ApartClaims

theorem real_sqrt_hundredth : Real.sqrt (1 / 100) = 1 / 10 := by
  rw [show (1 / 100 : ℝ) = (1 / 10) ^ 2 by norm_num]
  exact Real.sqrt_sq (by norm_num)

/-- The two contact loops on two adults `0.1` apart, over the reals. -/
theorem twoAdults_accumulated_real :
    (accumulateEscape (⟨Real.sqrt, fun a b => a ^ b, fun a b => a / b⟩ : JSMath ℝ)
      (twoAdults (⟨Real.sqrt, fun a b => a ^ b, fun a b => a / b⟩ : JSMath ℝ))).map
        (fun p => (p.inContact, p.ve.x, p.ve.y)) = [(true, -1, 0), (true, 1, 0)] := by
  simp [accumulateEscape, twoAdults, addParticleKey, ParticleModel.new, Particle.new,
    particleContacts, contactPair, resetContact, DEMOGRAPHICS,
    List.range, List.range.loop, List.range']
  norm_num [real_sqrt_hundredth]

theorem twoAdults_pairsApart_real :
    PairsApart (⟨Real.sqrt, fun a b => a ^ b, fun a b => a / b⟩ : JSMath ℝ)
      (twoAdults (⟨Real.sqrt, fun a b => a ^ b, fun a b => a / b⟩ : JSMath ℝ)) :=
  (twoAdults_apart _ (by
    show Real.sqrt (1 / 100) ≠ 0
    rw [real_sqrt_hundredth]
    norm_num)).1

/-- Witness for C4: two adults `0.1` apart over the reals, with the default options: each
is moved by at most `vdMax * dt ≤ 0.075`. -/
theorem step_displacement_bounded_witness :
    JSMath.Exact (⟨Real.sqrt, fun a b => a ^ b, fun a b => a / b⟩ : JSMath ℝ) ∧
    0 < (ParticleModel.new (⟨Real.sqrt, fun a b => a ^ b, fun a b => a / b⟩ : JSMath ℝ)
      {}).beta ∧
    Reachable (⟨Real.sqrt, fun a b => a ^ b, fun a b => a / b⟩ : JSMath ℝ) {}
      (twoAdults (⟨Real.sqrt, fun a b => a ^ b, fun a b => a / b⟩ : JSMath ℝ)) ∧
    PairsApart (⟨Real.sqrt, fun a b => a ^ b, fun a b => a / b⟩ : JSMath ℝ)
      (twoAdults (⟨Real.sqrt, fun a b => a ^ b, fun a b => a / b⟩ : JSMath ℝ)) ∧
    ∀ p ∈ (beforeMove (⟨Real.sqrt, fun a b => a ^ b, fun a b => a / b⟩ : JSMath ℝ)
        (twoAdults (⟨Real.sqrt, fun a b => a ^ b, fun a b => a / b⟩ : JSMath ℝ))).particles,
      Real.sqrt
        (((move (twoAdults (⟨Real.sqrt, fun a b => a ^ b, fun a b => a / b⟩ :
            JSMath ℝ)).dt p).x - p.x) *
          ((move (twoAdults (⟨Real.sqrt, fun a b => a ^ b, fun a b => a / b⟩ :
            JSMath ℝ)).dt p).x - p.x) +
        ((move (twoAdults (⟨Real.sqrt, fun a b => a ^ b, fun a b => a / b⟩ :
            JSMath ℝ)).dt p).y - p.y) *
          ((move (twoAdults (⟨Real.sqrt, fun a b => a ^ b, fun a b => a / b⟩ :
            JSMath ℝ)).dt p).y - p.y)) ≤
        p.vdMax * (twoAdults (⟨Real.sqrt, fun a b => a ^ b, fun a b => a / b⟩ :
          JSMath ℝ)).dt ∧
      p.vdMax * (twoAdults (⟨Real.sqrt, fun a b => a ^ b, fun a b => a / b⟩ :
        JSMath ℝ)).dt ≤ 0.15 / 2 :=
  have hb : 0 < (ParticleModel.new
      (⟨Real.sqrt, fun a b => a ^ b, fun a b => a / b⟩ : JSMath ℝ) {}).beta := by
    simp [ParticleModel.new, jsOr]
  have hr : Reachable (⟨Real.sqrt, fun a b => a ^ b, fun a b => a / b⟩ : JSMath ℝ) {}
      (twoAdults (⟨Real.sqrt, fun a b => a ^ b, fun a b => a / b⟩ : JSMath ℝ)) :=
    .addParticle (1 / 10) 0 "ADULT" (.addParticle 0 0 "ADULT" .init rfl) rfl
  ⟨real_exact, hb, hr, twoAdults_pairsApart_real,
    (step_displacement_bounded _ real_exact {} hb _ hr twoAdults_pairsApart_real
      (fun _ => 0)).2.2.1⟩

/-- Witness for C25: the first of two adults `0.1` apart, over the reals, is pushed to the
left at its full escape speed `1.5`. -/
theorem escape_normalised_witness :
    JSMath.Exact (⟨Real.sqrt, fun a b => a ^ b, fun a b => a / b⟩ : JSMath ℝ) ∧
    PairsApart (⟨Real.sqrt, fun a b => a ^ b, fun a b => a / b⟩ : JSMath ℝ)
      (twoAdults (⟨Real.sqrt, fun a b => a ^ b, fun a b => a / b⟩ : JSMath ℝ)) ∧
    (twoAdults (⟨Real.sqrt, fun a b => a ^ b, fun a b => a / b⟩ : JSMath ℝ)).particles[0]? =
      some (Particle.new 0 0 .ADULT) ∧
    ∃ q : Particle ℝ, (findContacts (⟨Real.sqrt, fun a b => a ^ b, fun a b => a / b⟩ : JSMath ℝ)
        (twoAdults (⟨Real.sqrt, fun a b => a ^ b, fun a b => a / b⟩ : JSMath ℝ))).particles[0]? =
          some q ∧
      q.inContact = true ∧ q.ve.x = -(3 / 2) ∧ q.ve.y = 0 ∧ q.ve.magnitude = 3 / 2 ∧
      q.ve.x * q.ve.x + q.ve.y * q.ve.y = 3 / 2 * (3 / 2) := by
  have hp : (twoAdults (⟨Real.sqrt, fun a b => a ^ b, fun a b => a / b⟩ :
      JSMath ℝ)).particles[0]? = some (Particle.new 0 0 .ADULT) := by
    rw [twoAdults_particles]
    rfl
  refine ⟨real_exact, twoAdults_pairsApart_real, hp, ?_⟩
  obtain ⟨a, q, h1, h2, -, h4, h5, -⟩ :=
    escape_normalised _ real_exact _ twoAdults_pairsApart_real 0 _ hp
  have hacc := congrArg (fun l => l[0]?) twoAdults_accumulated_real
  simp only [List.getElem?_map, h1, Option.map_some', List.getElem?_cons_zero,
    Option.some.injEq, Prod.mk.injEq] at hacc
  obtain ⟨a1, a2, a3⟩ := hacc
  have hvd : (Particle.new (0 : ℝ) 0 .ADULT).vdMax = 3 / 2 := by
    simp [Particle.new, DEMOGRAPHICS]
    norm_num
  obtain ⟨-, e2, e3, e4, e5⟩ := h5 ⟨a1, Or.inl (by rw [a2]; norm_num)⟩
  rw [a2, a3, hvd] at e2 e3
  rw [hvd] at e4 e5
  refine ⟨q, h2, h4.trans a1, ?_, ?_, e4, e5⟩
  · rw [e2]
    show -1 / Real.sqrt ((-1) ^ 2 + 0 ^ 2) * (3 / 2) = -(3 / 2)
    norm_num
  · rw [e3]
    show 0 / Real.sqrt ((-1) ^ 2 + 0 ^ 2) * (3 / 2) = (0 : ℝ)
    norm_num

end VaryingPopulation

section ScanLemmas
variable {K : Type} [LinearOrderedField K]

theorem closestTargetScan_number (M : JSMath K) (x y : K) (targets : List (Target K)) :
    ∀ (i : Nat) (c : Option K) (idx : Int),
      closestTargetScan M (.number x) (.number y) targets i c idx =
        closestTargetLoop M x y targets i c idx := by
  induction targets with
  | nil => intro i c idx; rfl
  | cons t rest ih =>
    intro i c idx
    simp only [closestTargetScan, closestTargetLoop, scanDistance]
    split
    · exact ih _ _ _
    · exact ih _ _ _

theorem closestTargetScan_not_number (M : JSMath K) (px py : JSNumber K)
    (h : (∀ v, px ≠ .number v) ∨ (∀ v, py ≠ .number v)) (targets : List (Target K)) :
    ∀ (i : Nat) (c : Option K) (idx : Int),
      closestTargetScan M px py targets i c idx = idx := by
  induction targets with
  | nil => intro i c idx; rfl
  | cons t rest ih =>
    intro i c idx
    have hd : ∀ d, scanDistance M px py t ≠ .number d := by
      intro d
      cases px <;> cases py <;> simp [scanDistance]
      rcases h with h | h
      · exact absurd rfl (h _)
      · exact absurd rfl (h _)
    unfold closestTargetScan
    split
    · next d hd2 => exact absurd hd2 (hd d)
    · exact ih _ _ _

end ScanLemmas

theorem ratSqrt_9_100 : ratSqrt (9 / 100) = 3 / 10 := by
  unfold ratSqrt
  have h1 : ((9 : ℚ) / 100).num = 9 := by norm_num
  have h2 : ((9 : ℚ) / 100).den = 100 := by norm_num
  have h3 : Nat.sqrt 9 = 3 := by norm_num [Nat.sqrt_eq']
  have h4 : Nat.sqrt 100 = 10 := by norm_num [Nat.sqrt_eq']
  rw [h1, h2]
  simp [h3, h4]

namespace VaryingPopulation

section ScanClaim
variable {K : Type} [LinearOrderedField K]

/-- Claim C12 (amended).  After `findClosestTargets`, for every particle whose coordinates
are finite numbers: with a non-empty target list its `targetIndex` is an index whose target
is at minimum computed distance from the particle among all targets, and every target with
a lower index is strictly farther; with an empty target list its `targetIndex` is `-1`.
That index is what the scan of the source returns on numbers, and the same scan started on
a particle with a `NaN` or infinite coordinate returns `-1` whatever the targets. -/
theorem findClosestTargets_rule (M : JSMath K) (s : ParticleModel K) (q : Particle K)
    (hq : q ∈ (findClosestTargets M s).particles) :
    (s.targets = [] → q.targetIndex = -1) ∧
    (s.targets ≠ [] → ∃ (j : Nat) (t0 : Target K), q.targetIndex = (j : Int) ∧
      s.targets[j]? = some t0 ∧
      (∀ t ∈ s.targets, targetDistance M q.x q.y t0 ≤ targetDistance M q.x q.y t) ∧
      ∀ k t, k < j → s.targets[k]? = some t →
        targetDistance M q.x q.y t0 < targetDistance M q.x q.y t) ∧
    q.targetIndex = closestTargetScan M (.number q.x) (.number q.y) s.targets 0 none (-1) ∧
    (∀ px py : JSNumber K, (∀ v, px ≠ .number v) ∨ (∀ v, py ≠ .number v) →
      closestTargetScan M px py s.targets 0 none (-1) = -1) := by
  refine ⟨(findClosestTargets_numbers M s q hq).1, (findClosestTargets_numbers M s q hq).2,
    ?_, fun px py h => closestTargetScan_not_number M px py h _ _ _ _⟩
  simp only [findClosestTargets, List.mem_map] at hq
  obtain ⟨p, -, rfl⟩ := hq
  exact (closestTargetScan_number M p.x p.y s.targets 0 none (-1)).symm

end ScanClaim

theorem twoTargets_assigned :
    (findClosestTargets ratMath (twoTargets ratMath)).particles =
      [{ Particle.new (0 : ℚ) 0 .ADULT with targetIndex := 1 }] := by
  simp [findClosestTargets, twoTargets, addParticleKey, addTarget, ParticleModel.new,
    closestTarget, closestTargetLoop, ltInfinity, Particle.new, ratMath]
  norm_num [ratSqrt_25, ratSqrt_9_100]

/-- Witness for C12: an adult at the origin with the far target `(3, 4)` at index `0` and
the near target `(0.3, 0)` at index `1` is assigned index `1`. -/
theorem findClosestTargets_rule_witness :
    ({ Particle.new (0 : ℚ) 0 .ADULT with targetIndex := 1 } : Particle ℚ) ∈
      (findClosestTargets ratMath (twoTargets ratMath)).particles ∧
    (twoTargets ratMath).targets = [⟨3, 4⟩, ⟨3 / 10, 0⟩] ∧
    (∃ (j : Nat) (t0 : Target ℚ), (1 : Int) = (j : Int) ∧
      (twoTargets ratMath).targets[j]? = some t0 ∧
      (∀ t ∈ (twoTargets ratMath).targets,
        targetDistance ratMath 0 0 t0 ≤ targetDistance ratMath 0 0 t) ∧
      ∀ k t, k < j → (twoTargets ratMath).targets[k]? = some t →
        targetDistance ratMath 0 0 t0 < targetDistance ratMath 0 0 t) ∧
    closestTargetScan ratMath (.number 0) (.number 0) (twoTargets ratMath).targets 0 none
      (-1) = 1 :=
  have hq : ({ Particle.new (0 : ℚ) 0 .ADULT with targetIndex := 1 } : Particle ℚ) ∈
      (findClosestTargets ratMath (twoTargets ratMath)).particles := by
    rw [twoTargets_assigned]
    exact List.mem_singleton.2 rfl
  have ht : (twoTargets ratMath).targets = [⟨3, 4⟩, ⟨3 / 10, 0⟩] := by
    simp [twoTargets, addParticleKey, addTarget, ParticleModel.new]
  ⟨hq, ht,
    (findClosestTargets_rule ratMath (twoTargets ratMath) _ hq).2.1
      (by rw [ht]; exact List.cons_ne_nil _ _),
    ((findClosestTargets_rule ratMath (twoTargets ratMath) _ hq).2.2.1).symm⟩

/-- Counterexample for C12: with the one target `(5, 5)` in the list, a particle whose
`x` is `NaN`, or whose `x` is infinite, is left with `targetIndex = -1`, which is not the
index of a target. -/
theorem no_target_for_nan_position :
    ([⟨5, 5⟩] : List (Target ℚ)) ≠ [] ∧
    closestTargetScan ratMath .nan (.number 0) [⟨5, 5⟩] 0 none (-1) = -1 ∧
    closestTargetScan ratMath .infinity (.number 0) [⟨5, 5⟩] 0 none (-1) = -1 ∧
    ¬ ∃ j : Nat, closestTargetScan ratMath .nan (.number 0) [⟨5, 5⟩] 0 none (-1) = (j : Int) ∧
      j < ([⟨5, 5⟩] : List (Target ℚ)).length := by
  have h1 : closestTargetScan ratMath .nan (.number 0) [⟨5, 5⟩] 0 none (-1) = -1 := by
    simp [closestTargetScan, scanDistance]
  have h2 : closestTargetScan ratMath .infinity (.number 0) [⟨5, 5⟩] 0 none (-1) = -1 := by
    simp [closestTargetScan, scanDistance]
  refine ⟨List.cons_ne_nil _ _, h1, h2, ?_⟩
  rintro ⟨j, hj, -⟩
  rw [h1] at hj
  omega

end VaryingPopulation

namespace VaryingPopulation

section GrownLemmas
variable {K : Type} [LinearOrderedField K]

theorem grownAdult_reachable (M : JSMath K) : Reachable M {} (grownAdult M) :=
  .findClosestTargets (.addTarget 3 0 (.step _ (.addParticle 0 0 "ADULT" .init rfl)))

theorem grownAdult_targets (M : JSMath K) : (grownAdult M).targets = [⟨3, 0⟩] := by
  unfold grownAdult findClosestTargets
  simp only [addTarget]
  rw [(step_frame M _ _).2.1]
  rfl

theorem grownAdult_beta (M : JSMath K) : (grownAdult M).beta = 1 := by
  unfold grownAdult findClosestTargets
  simp only [addTarget]
  rw [(fields_of_params (step_frame M _ _).1).2.1]
  simp [addParticleKey, ParticleModel.new, jsOr]

end GrownLemmas

theorem real_sqrt_nine : Real.sqrt 9 = 3 := by
  rw [show (9 : ℝ) = 3 ^ 2 by norm_num]
  exact Real.sqrt_sq (by norm_num)

theorem grownAdult_particles_real :
    (grownAdult (⟨Real.sqrt, fun a b => a ^ b, fun a b => a / b⟩ : JSMath ℝ)).particles =
      [{ Particle.new (0 : ℝ) 0 .ADULT with r := 13 / 50, targetIndex := 0 }] := by
  unfold grownAdult
  rw [findClosestTargets]
  simp only [addTarget]
  rw [(step_frame _ _ _).2.1, step_particles, beforeMove_particles]
  simp [findContacts, accumulateEscape, particleContacts, resetContact, normalizeEscape,
    addParticleKey, ParticleModel.new, Particle.new, adjustRadius, stressUpdate,
    closestTarget, closestTargetLoop, desiredVelocity, assignedTarget, move, arrives,
    DEMOGRAPHICS, demographicValues, DemoKey.keys, ltInfinity, jsOr,
    List.range, List.range.loop, List.range']
  norm_num [move, desiredVelocity, closestTarget, closestTargetLoop, assignedTarget, ltInfinity]

/-- Witness for C13: an adult at the origin whose radius has grown to `0.26`, heading for
the target `(3, 0)`, gets the desired velocity `(0.15, 0)` of magnitude
`1.5 * ((0.26 - 0.2) / (0.8 - 0.2)) ^ 1 = 0.15`. -/
theorem desiredVelocity_rule_witness :
    JSMath.Exact (⟨Real.sqrt, fun a b => a ^ b, fun a b => a / b⟩ : JSMath ℝ) ∧
    Reachable (⟨Real.sqrt, fun a b => a ^ b, fun a b => a / b⟩ : JSMath ℝ) {}
      (grownAdult (⟨Real.sqrt, fun a b => a ^ b, fun a b => a / b⟩ : JSMath ℝ)) ∧
    (grownAdult (⟨Real.sqrt, fun a b => a ^ b, fun a b => a / b⟩ : JSMath ℝ)).particles[0]? =
      some { Particle.new (0 : ℝ) 0 .ADULT with r := 13 / 50, targetIndex := 0 } ∧
    assignedTarget (grownAdult (⟨Real.sqrt, fun a b => a ^ b, fun a b => a / b⟩ :
      JSMath ℝ)).targets (0 : Int) = some (⟨3, 0⟩ : Target ℝ) ∧
    ∃ q : Particle ℝ,
      (computeDesiredVelocities (⟨Real.sqrt, fun a b => a ^ b, fun a b => a / b⟩ : JSMath ℝ)
        (grownAdult (⟨Real.sqrt, fun a b => a ^ b, fun a b => a / b⟩ :
          JSMath ℝ))).particles[0]? = some q ∧
      q.vd.x = 3 / 20 ∧ q.vd.y = 0 ∧ q.vd.magnitude = 3 / 20 ∧
      q.vd.x * q.vd.x + q.vd.y * q.vd.y = 3 / 20 * (3 / 20) := by
  have hp : (grownAdult (⟨Real.sqrt, fun a b => a ^ b, fun a b => a / b⟩ :
      JSMath ℝ)).particles[0]? =
      some { Particle.new (0 : ℝ) 0 .ADULT with r := 13 / 50, targetIndex := 0 } := by
    rw [grownAdult_particles_real]
    rfl
  have hT : assignedTarget (grownAdult (⟨Real.sqrt, fun a b => a ^ b, fun a b => a / b⟩ :
      JSMath ℝ)).targets (0 : Int) = some (⟨3, 0⟩ : Target ℝ) := by
    rw [grownAdult_targets]
    simp [assignedTarget]
  refine ⟨real_exact, grownAdult_reachable _, hp, hT, ?_⟩
  obtain ⟨q, hq, h1, -, -⟩ := desiredVelocity_rule _ real_exact {} _
    (grownAdult_reachable _) 0 _ hp _ hT
  have hd : targetDistance (⟨Real.sqrt, fun a b => a ^ b, fun a b => a / b⟩ : JSMath ℝ)
      ({ Particle.new (0 : ℝ) 0 .ADULT with r := 13 / 50, targetIndex := 0 } : Particle ℝ).x
      ({ Particle.new (0 : ℝ) 0 .ADULT with r := 13 / 50, targetIndex := 0 } : Particle ℝ).y
      (⟨3, 0⟩ : Target ℝ) = 3 := by
    show Real.sqrt ((3 - 0) * (3 - 0) + (0 - 0) * (0 - 0)) = 3
    rw [show ((3 : ℝ) - 0) * (3 - 0) + (0 - 0) * (0 - 0) = 9 by norm_num]
    exact real_sqrt_nine
  have hm : ({ Particle.new (0 : ℝ) 0 .ADULT with r := 13 / 50, targetIndex := 0 } :
        Particle ℝ).vdMax *
      JSMath.pow (⟨Real.sqrt, fun a b => a ^ b, fun a b => a / b⟩ : JSMath ℝ)
        ((({ Particle.new (0 : ℝ) 0 .ADULT with r := 13 / 50, targetIndex := 0 } :
            Particle ℝ).r -
          ({ Particle.new (0 : ℝ) 0 .ADULT with r := 13 / 50, targetIndex := 0 } :
            Particle ℝ).rMin) /
          (({ Particle.new (0 : ℝ) 0 .ADULT with r := 13 / 50, targetIndex := 0 } :
            Particle ℝ).rMax -
          ({ Particle.new (0 : ℝ) 0 .ADULT with r := 13 / 50, targetIndex := 0 } :
            Particle ℝ).rMin))
        (grownAdult (⟨Real.sqrt, fun a b => a ^ b, fun a b => a / b⟩ : JSMath ℝ)).beta =
      3 / 20 := by
    rw [grownAdult_beta]
    show (Particle.new (0 : ℝ) 0 .ADULT).vdMax *
      ((13 / 50 - (Particle.new (0 : ℝ) 0 .ADULT).rMin) /
        ((Particle.new (0 : ℝ) 0 .ADULT).rMax - (Particle.new (0 : ℝ) 0 .ADULT).rMin)) ^ (1 : ℝ) =
      3 / 20
    rw [Real.rpow_one]
    simp [Particle.new, DEMOGRAPHICS]
    norm_num
  obtain ⟨e1, e2, e3, e4⟩ := h1 (by rw [hd]; norm_num)
  rw [hm, hd] at e1 e2
  rw [hm] at e3 e4
  refine ⟨q, hq, ?_, ?_, e3, e4⟩
  · rw [e1]
    show (3 / 20 : ℝ) * ((3 - 0) / 3) = 3 / 20
    norm_num
  · rw [e2]
    show (3 / 20 : ℝ) * ((0 - 0) / 3) = 0
    norm_num

end VaryingPopulation

namespace DeathMarkers

section AllDead
variable {K : Type} [LinearOrderedField K]

theorem deathFold_all_dead_dm (ps : List (Particle K)) (acc : DeathAcc K)
    (h : ∀ p ∈ ps, p.dead = true) :
    (ps.foldl deathVisit acc).kept = acc.kept := by
  induction ps generalizing acc with
  | nil => rfl
  | cons p ps ih =>
    simp only [List.foldl_cons]
    rw [ih _ (fun q hq => h q (List.mem_cons_of_mem _ hq))]
    unfold deathVisit
    rw [if_pos (h p (List.mem_cons_self _ _))]

/-- A step of the death-markers variant in which every particle dies empties the active
set and leaves `endTime` as it was. -/
theorem step_all_dead_dm (M : JSMath K) (clock : Nat → K) (s : ParticleModel K)
    (hall : ∀ p ∈ (accumulateStress (adjustRadii M (findContacts M s))).particles,
      p.dead = true) :
    (step M clock s).particles = [] ∧ (step M clock s).endTime = s.endTime := by
  have hk : (removeDead (accumulateStress (adjustRadii M (findContacts M s)))).particles =
      [] := by
    unfold removeDead
    exact deathFold_all_dead_dm _ ⟨_, []⟩ hall
  have he : (beforeMove M s).particles = [] := by
    unfold beforeMove computeDesiredVelocities findClosestTargets
    simp only [hk, List.map_nil]
  have hm : (updatePositions (beforeMove M s)).particles = [] := by
    unfold updatePositions
    simp only [he, List.map_nil]
  have hend : (updatePositions (beforeMove M s)).endTime = s.endTime :=
    (beforeMove_frame_dm M s).2.2.2.2.1
  unfold step removeParticlesAtTarget
  simp only [hm, List.foldl_nil]
  exact ⟨trivial, hend⟩

end AllDead

theorem crushedDead_step (clock : Nat → ℚ) : step ratMath clock crushedDead = crushedDead := by
  simp [step, beforeMove, findContacts, particleContacts, adjustRadii, accumulateStress,
    removeParticlesAtTarget, removeDead, updatePositions, computeDesiredVelocities,
    findClosestTargets, crushedDead, scenarioD, addParticle, addBoundary, setupModel,
    ParticleModel.new, jsOr, ratMath, List.range, List.range.loop]

end DeathMarkers

section LastDeath
variable {K : Type} [LinearOrderedField K]

/-- Claim C17 (the code diverges).  In both death-enabled variants a step in which every
remaining particle dies empties the active set and leaves `endTime` exactly as it was, for
every state.  In Scenario D of the death-markers variant, after seven steps the sole
particle has died: the active set is empty and
`particlesReachedTarget + particlesDied = totalParticlesCreated = 1`, yet `endTime` is
still unset. -/
theorem endTime_unset_after_last_death (M : JSMath K) (clock : Nat → K) (c : Nat → ℚ) :
    (∀ s : DeathMarkers.ParticleModel K,
      (∀ p ∈ (DeathMarkers.accumulateStress (DeathMarkers.adjustRadii M
          (DeathMarkers.findContacts M s))).particles, p.dead = true) →
      (DeathMarkers.step M clock s).particles = [] ∧
      (DeathMarkers.step M clock s).endTime = s.endTime) ∧
    (∀ s : VaryingPopulation.ParticleModel K,
      (∀ p ∈ (VaryingPopulation.accumulateStress (VaryingPopulation.adjustRadii M
          (VaryingPopulation.findContacts M s))).particles, p.dead = true) →
      (VaryingPopulation.step M clock s).particles = [] ∧
      (VaryingPopulation.step M clock s).endTime = s.endTime) ∧
    ((DeathMarkers.step ratMath c)^[7] DeathMarkers.scenarioD).particles = [] ∧
    ((DeathMarkers.step ratMath c)^[7] DeathMarkers.scenarioD).particlesReachedTarget +
      ((DeathMarkers.step ratMath c)^[7] DeathMarkers.scenarioD).particlesDied =
        ((DeathMarkers.step ratMath c)^[7] DeathMarkers.scenarioD).totalParticlesCreated ∧
    ((DeathMarkers.step ratMath c)^[7] DeathMarkers.scenarioD).totalParticlesCreated = 1 ∧
    ((DeathMarkers.step ratMath c)^[7] DeathMarkers.scenarioD).endTime = none := by
  have h7 : (DeathMarkers.step ratMath c)^[7] DeathMarkers.scenarioD =
      DeathMarkers.crushedDead := by
    rw [Function.iterate_succ_apply', (DeathMarkers.scenarioD_run c).2]
    exact DeathMarkers.crushedDead_step c
  rw [h7]
  refine ⟨fun s hall => DeathMarkers.step_all_dead_dm M clock s hall,
    fun s hall => VaryingPopulation.step_all_dead M clock s hall, rfl, ?_, ?_, ?_⟩
  · simp [DeathMarkers.crushedDead, DeathMarkers.scenarioD, DeathMarkers.addParticle,
      DeathMarkers.addBoundary, DeathMarkers.setupModel, DeathMarkers.ParticleModel.new]
  · simp [DeathMarkers.crushedDead, DeathMarkers.scenarioD, DeathMarkers.addParticle,
      DeathMarkers.addBoundary, DeathMarkers.setupModel, DeathMarkers.ParticleModel.new]
  · simp [DeathMarkers.crushedDead, DeathMarkers.scenarioD, DeathMarkers.addParticle,
      DeathMarkers.addBoundary, DeathMarkers.setupModel, DeathMarkers.ParticleModel.new]

end LastDeath

namespace DeathMarkers

section HeadLemmas
variable {K : Type} [LinearOrderedField K]

/-- The death purge keeps the particles that are not flagged, counts the flagged ones and
appends one marker for each of them. -/
theorem deathFold_spec_dm (ps : List (Particle K)) (acc : DeathAcc K) :
    (ps.foldl deathVisit acc).kept = acc.kept ++ ps.filter (fun p => !p.dead) ∧
    (ps.foldl deathVisit acc).model.particlesDied =
      acc.model.particlesDied + (ps.countP (fun p => p.dead) : Nat) ∧
    (ps.foldl deathVisit acc).model.deathMarkers = acc.model.deathMarkers ++
      (ps.filter (fun p => p.dead)).map (fun p => ⟨p.x, p.y⟩) := by
  induction ps generalizing acc with
  | nil => simp
  | cons p ps ih =>
    simp only [List.foldl_cons]
    obtain ⟨h1, h2, h3⟩ := ih (deathVisit acc p)
    rw [h1, h2, h3]
    unfold deathVisit
    by_cases hd : p.dead = true
    · simp [hd]
      omega
    · simp [hd]

/-- Without targets the arrival callback keeps every particle and writes nothing. -/
theorem arrivalFold_no_target_dm (M : JSMath K) (clock : Nat → K) (ps : List (Particle K))
    (acc : ArrivalAcc K) (h : acc.model.targets = []) :
    ps.foldl (arrivalVisit M clock) acc = ⟨acc.model, acc.kept ++ ps, acc.calls⟩ := by
  induction ps generalizing acc with
  | nil => simp
  | cons p ps ih =>
    simp only [List.foldl_cons]
    have hv : arrivalVisit M clock acc p = ⟨acc.model, acc.kept ++ [p], acc.calls⟩ := by
      unfold arrivalVisit
      rw [h, assignedTarget_nil]
    rw [hv, ih ⟨acc.model, acc.kept ++ [p], acc.calls⟩ h]
    simp

/-- A step of a model without targets, seen through the stress and the death flag: the
survivors are the particles the stress pass did not flag, the flagged ones are counted and
marked. -/
theorem step_no_target_dm (M : JSMath K) (clock : Nat → K) (s : ParticleModel K)
    (ht : s.targets = []) :
    (step M clock s).particles.map (fun p => (p.stress, p.dead)) =
      ((accumulateStress (adjustRadii M (findContacts M s))).particles.filter
        (fun p => !p.dead)).map (fun p => (p.stress, p.dead)) ∧
    (step M clock s).particlesDied = s.particlesDied +
      ((accumulateStress (adjustRadii M (findContacts M s))).particles.countP
        (fun p => p.dead) : Nat) ∧
    (step M clock s).deathMarkers = s.deathMarkers ++
      ((accumulateStress (adjustRadii M (findContacts M s))).particles.filter
        (fun p => p.dead)).map (fun p => ⟨p.x, p.y⟩) := by
  obtain ⟨h1, h2, h3⟩ := deathFold_spec_dm
    (accumulateStress (adjustRadii M (findContacts M s))).particles
    ⟨accumulateStress (adjustRadii M (findContacts M s)), []⟩
  have hbt : (updatePositions (beforeMove M s)).targets = [] :=
    ((beforeMove_frame_dm M s).2.1).trans ht
  have hfold := arrivalFold_no_target_dm M clock (updatePositions (beforeMove M s)).particles
    ⟨updatePositions (beforeMove M s), [], 0⟩ hbt
  have hstep : step M clock s = updatePositions (beforeMove M s) := by
    unfold step removeParticlesAtTarget
    simp only [hfold, List.nil_append]
  have e1 : ∀ (r d : K) (a : Particle K), ((move r d a).stress, (move r d a).dead) =
      (a.stress, a.dead) := fun _ _ _ => rfl
  have e2 : ∀ (u : ParticleModel K) (a : Particle K),
      ((desiredVelocity M u a).stress, (desiredVelocity M u a).dead) = (a.stress, a.dead) := by
    intro u a
    unfold desiredVelocity
    split
    · simp only
      split <;> rfl
    · rfl
  have e3 : ∀ (l : List (Target K)) (a : Particle K),
      ((closestTarget M l a).stress, (closestTarget M l a).dead) = (a.stress, a.dead) :=
    fun _ _ => rfl
  have hparts : (updatePositions (beforeMove M s)).particles.map
      (fun p => (p.stress, p.dead)) =
      (removeDead (accumulateStress (adjustRadii M (findContacts M s)))).particles.map
        (fun p => (p.stress, p.dead)) := by
    unfold updatePositions beforeMove computeDesiredVelocities findClosestTargets
    simp only [List.map_map]
    apply List.map_congr_left
    intro a _
    simp only [Function.comp]
    rw [e1, e2, e3]
  have hrd : (removeDead (accumulateStress (adjustRadii M (findContacts M s)))).particles =
      (accumulateStress (adjustRadii M (findContacts M s))).particles.filter
        (fun p => !p.dead) := by
    unfold removeDead
    simpa using h1
  have gdied : ∀ R : ParticleModel K,
      (updatePositions (computeDesiredVelocities M (findClosestTargets M R))).particlesDied =
        R.particlesDied := fun _ => rfl
  have gmark : ∀ R : ParticleModel K,
      (updatePositions (computeDesiredVelocities M (findClosestTargets M R))).deathMarkers =
        R.deathMarkers := fun _ => rfl
  have hdied : (updatePositions (beforeMove M s)).particlesDied =
      (removeDead (accumulateStress (adjustRadii M (findContacts M s)))).particlesDied :=
    gdied _
  have hmark : (updatePositions (beforeMove M s)).deathMarkers =
      (removeDead (accumulateStress (adjustRadii M (findContacts M s)))).deathMarkers :=
    gmark _
  rw [hstep, hparts, hrd, hdied, hmark]
  refine ⟨rfl, ?_, ?_⟩
  · unfold removeDead
    exact h2
  · unfold removeDead
    exact h3

end HeadLemmas

end DeathMarkers

namespace DeathMarkers

section HeadTick
variable {K : Type} [LinearOrderedField K]

theorem iterate_frame_dm (M : JSMath K) (clock : Nat → K) (s : ParticleModel K) (k : Nat) :
    ((step M clock)^[k] s).params = s.params ∧ ((step M clock)^[k] s).targets = s.targets := by
  induction k with
  | zero => exact ⟨rfl, rfl⟩
  | succ k ih =>
    rw [Function.iterate_succ_apply']
    obtain ⟨h1, h2, -⟩ := step_frame_dm M clock ((step M clock)^[k] s)
    exact ⟨h1.trans ih.1, h2.trans ih.2⟩

theorem stressUpdate_position_dm (crushThreshold stressRate dt stressThreshold : K)
    (p : Particle K) :
    (stressUpdate crushThreshold stressRate dt stressThreshold p).x = p.x ∧
    (stressUpdate crushThreshold stressRate dt stressThreshold p).y = p.y := by
  unfold stressUpdate
  simp only
  split <;> split <;> exact ⟨rfl, rfl⟩

/-- One tick of a model without targets, for the particle at index `0` when it is alive and
crushed in that tick. -/
theorem head_tick_dm (M : JSMath K) (clock : Nat → K) (t : ParticleModel K)
    (ht : t.targets = []) (p : Particle K) (hp : t.particles[0]? = some p)
    (hd : p.dead = false)
    (hc : ∀ c, (findContacts M t).particles[0]? = some c →
      t.crushThreshold ≤ (c.contacts : K)) :
    ∃ q, (accumulateStress (adjustRadii M (findContacts M t))).particles[0]? = some q ∧
      q.stress = p.stress + t.stressRate * t.dt ∧ q.x = p.x ∧ q.y = p.y ∧
      (q.stress < t.stressThreshold → q.dead = false ∧
        ∃ r, (step M clock t).particles[0]? = some r ∧ r.stress = q.stress ∧
          r.dead = false) ∧
      (t.stressThreshold ≤ q.stress → q.dead = true ∧
        (⟨q.x, q.y⟩ : DeathMarker K) ∈ (step M clock t).deathMarkers ∧
        t.particlesDied + 1 ≤ (step M clock t).particlesDied ∧
        (step M clock t).particles.length < t.particles.length) ∧
      ∀ r ∈ (step M clock t).particles, r.dead = false := by
  obtain ⟨s1, s2, s3⟩ := step_no_target_dm M clock t ht
  have hg := findContacts_getElem?_dm M t 0
  rw [hp] at hg
  cases hfc : (findContacts M t).particles[0]? with
  | none => rw [hfc] at hg; cases hg
  | some c =>
    rw [hfc] at hg
    have he : resetContact c = resetContact p := by simpa using hg
    obtain ⟨c1, c2, -, -, -, c6, c7⟩ := fields_of_reset_eq_dm he
    obtain ⟨a1, a2, -, -, -, a6, a7, a8⟩ :=
      adjustRadius_fields_dm M t.rMin t.rMax t.tau t.dt c
    have hX : (accumulateStress (adjustRadii M (findContacts M t))).particles[0]? =
        some (stressUpdate t.crushThreshold t.stressRate t.dt t.stressThreshold
          (adjustRadius M t.rMin t.rMax t.tau t.dt c)) := by
      rw [accumulateStress_particles_dm]
      simp [hfc]
    have hst : (stressUpdate t.crushThreshold t.stressRate t.dt t.stressThreshold
        (adjustRadius M t.rMin t.rMax t.tau t.dt c)).stress =
        p.stress + t.stressRate * t.dt := by
      rw [stressUpdate_stress_dm, a6, a7, c6, if_pos (hc c hfc)]
    have hdd := stressUpdate_dead_dm t.crushThreshold t.stressRate t.dt t.stressThreshold
      (adjustRadius M t.rMin t.rMax t.tau t.dt c)
    rw [a8, c7, hd] at hdd
    obtain ⟨x1, x2⟩ := stressUpdate_position_dm t.crushThreshold t.stressRate t.dt
      t.stressThreshold (adjustRadius M t.rMin t.rMax t.tau t.dt c)
    have hlen : (accumulateStress (adjustRadii M (findContacts M t))).particles.length =
        t.particles.length := by
      rw [accumulateStress_particles_dm, List.length_map, List.length_map,
        findContacts_length_dm]
    have hall : ∀ r ∈ (step M clock t).particles, r.dead = false := by
      intro r hr
      have hm : (r.stress, r.dead) ∈
          (step M clock t).particles.map (fun p => (p.stress, p.dead)) :=
        List.mem_map.2 ⟨r, hr, rfl⟩
      rw [s1] at hm
      obtain ⟨a, ha, hae⟩ := List.mem_map.1 hm
      have had : a.dead = false := by
        have := (List.mem_filter.1 ha).2
        simpa using this
      have : a.dead = r.dead := congrArg Prod.snd hae
      rw [← this, had]
    generalize hq : stressUpdate t.crushThreshold t.stressRate t.dt t.stressThreshold
      (adjustRadius M t.rMin t.rMax t.tau t.dt c) = q at hX hst hdd x1 x2
    generalize hXl : (accumulateStress (adjustRadii M (findContacts M t))).particles = X
      at hX hlen s1 s2 s3
    cases X with
    | nil => simp at hX
    | cons q0 tail =>
      have hq0 : q0 = q := by simpa using hX
      subst hq0
      refine ⟨q0, List.getElem?_cons_zero, hst, x1.trans (a1.trans c1), x2.trans (a2.trans c2), ?_, ?_, hall⟩
      · intro hlt
        have hqd : q0.dead = false := by
          rw [hdd, if_neg (not_le.2 hlt)]
        refine ⟨hqd, ?_⟩
        have h0 := congrArg (fun l => l[0]?) s1
        simp only [List.getElem?_map, List.filter_cons, hqd, Bool.not_false, if_true,
          List.getElem?_cons_zero, Option.map_some'] at h0
        cases hr : (step M clock t).particles[0]? with
        | none => rw [hr] at h0; cases h0
        | some r =>
          rw [hr] at h0
          simp only [Option.map_some', Option.some.injEq, Prod.mk.injEq] at h0
          exact ⟨r, rfl, h0.1, h0.2⟩
      · intro hge
        have hqd : q0.dead = true := by
          rw [hdd, if_pos hge]
        refine ⟨hqd, ?_, ?_, ?_⟩
        · rw [s3]
          apply List.mem_append_right
          simp only [List.filter_cons, hqd, if_true, List.map_cons]
          exact List.mem_cons_self _ _
        · rw [s2]
          simp only [List.countP_cons, hqd, if_true]
          push_cast
          have : (0 : Int) ≤ (List.countP (fun p => p.dead) tail : Nat) := Int.natCast_nonneg _
          linarith
        · have hl := congrArg List.length s1
          simp only [List.length_map, List.filter_cons, hqd, Bool.not_true] at hl
          have hle := List.length_filter_le (fun p : Particle K => !p.dead) tail
          simp only [List.length_cons] at hlen
          simp at hl
          omega

end HeadTick

end DeathMarkers

theorem dtDouble_setup :
    dtDouble (Dbl.ofRatio 2 10) (Dbl.ofRatio 15 10) (Dbl.ofRatio 15 10) =
      ⟨4803839602528529, -56⟩ := by
  decide!

theorem crushTicksDouble_setup :
    (List.range 8).map (fun k => crushTicksDouble (Dbl.ofNat 3) (Dbl.ofNat 5)
      ⟨4803839602528529, -56⟩ (Dbl.ofNat 2) (fun _ => 3) k ⟨⟨0, 0⟩, false⟩) =
    [⟨⟨0, 0⟩, false⟩, ⟨⟨6004799503160661, -54⟩, false⟩, ⟨⟨6004799503160661, -53⟩, false⟩,
      ⟨⟨9007199254740992, -53⟩, false⟩, ⟨⟨6004799503160661, -52⟩, false⟩,
      ⟨⟨7505999378950826, -52⟩, false⟩, ⟨⟨9007199254740991, -52⟩, false⟩,
      ⟨⟨5254199565265578, -51⟩, true⟩] := by
  decide!

theorem crushTicksDouble_wide :
    (crushTicksDouble (Dbl.ofNat 3) (Dbl.ofNat 5) ⟨4803839602528529, -56⟩ (Dbl.ofRatio 21 10)
      (fun _ => 3) 6 ⟨⟨0, 0⟩, false⟩).dead = false ∧
    (crushTicksDouble (Dbl.ofNat 3) (Dbl.ofNat 5) ⟨4803839602528529, -56⟩ (Dbl.ofRatio 21 10)
      (fun _ => 3) 7 ⟨⟨0, 0⟩, false⟩).dead = true := by
  decide!

namespace DeathMarkers

section CrushStep
variable {K : Type} [LinearOrderedField K]

theorem step_length_le_dm (M : JSMath K) (clock : Nat → K) (t : ParticleModel K)
    (ht : t.targets = []) : (step M clock t).particles.length ≤ t.particles.length := by
  have hl := congrArg List.length (step_no_target_dm M clock t ht).1
  simp only [List.length_map] at hl
  rw [hl]
  refine le_trans (List.length_filter_le _ _) ?_
  rw [accumulateStress_particles_dm, List.length_map, List.length_map,
    findContacts_length_dm]

theorem iterate_length_le_dm (M : JSMath K) (clock : Nat → K) (s : ParticleModel K)
    (ht : s.targets = []) (k : Nat) :
    ((step M clock)^[k] s).particles.length ≤ s.particles.length := by
  induction k with
  | zero => exact le_refl _
  | succ k ih =>
    rw [Function.iterate_succ_apply']
    exact le_trans (step_length_le_dm M clock _
      ((iterate_frame_dm M clock s k).2.trans ht)) ih

/-- Claim C7 (amended).  Exact arithmetic, death-markers variant, a model without targets
with `stressRate * dt > 0` and `stressThreshold > 0`: let the particle at index `0` start
with stress `0`, alive, and have at least `crushThreshold` contacts in the contact pass of
each of the first `N = ceil(stressThreshold / (stressRate * dt))` ticks.  Then after `k < N`
ticks it is still the particle at index `0`, alive, with stress `k * stressRate * dt`; in
tick `N` the stress pass gives it the stress `N * stressRate * dt`, flags it dead, and the
step removes it: a death marker is written at its position, `particlesDied` grows, the
active set shrinks and holds no flagged particle (it is empty if the particle was alone).
The body of the stress loop, applied tick after tick to any particle that starts with
stress `0`, alive, and has at least `crushThreshold` contacts in every tick, gives the same
stress `k * stressRate * dt` and sets the death flag in tick `N` and in no earlier tick.
Double precision, parameters of `setupSimulation` (`crushThreshold = 3`, `stressRate = 5.0`,
`stressThreshold = 2`, `dt = 0.2 / (2 * 1.5)`): the particle is alive after each of the
first six ticks, its stress after the sixth is `9007199254740991 * 2 ^ (-52) < 2`, and it
is flagged dead in tick `7`. -/
theorem crush_death_tick [FloorRing K] (M : JSMath K) (clock : Nat → K) (s : ParticleModel K)
    (hrd : 0 < s.stressRate * s.dt) (hthr : 0 < s.stressThreshold) (ht : s.targets = [])
    (p0 : Particle K) (hp : s.particles[0]? = some p0) (hs : p0.stress = 0)
    (hd : p0.dead = false)
    (hc : ∀ k c, k < Nat.ceil (s.stressThreshold / (s.stressRate * s.dt)) →
      (findContacts M ((step M clock)^[k] s)).particles[0]? = some c →
      s.crushThreshold ≤ (c.contacts : K)) :
    (∀ k, k < Nat.ceil (s.stressThreshold / (s.stressRate * s.dt)) →
      ∃ q, ((step M clock)^[k] s).particles[0]? = some q ∧
        q.stress = k * (s.stressRate * s.dt) ∧ q.dead = false) ∧
    (∃ q, (accumulateStress (adjustRadii M (findContacts M
        ((step M clock)^[Nat.ceil (s.stressThreshold / (s.stressRate * s.dt)) - 1]
          s)))).particles[0]? = some q ∧
      q.stress = Nat.ceil (s.stressThreshold / (s.stressRate * s.dt)) *
        (s.stressRate * s.dt) ∧
      s.stressThreshold ≤ q.stress ∧ q.dead = true ∧
      (⟨q.x, q.y⟩ : DeathMarker K) ∈
        ((step M clock)^[Nat.ceil (s.stressThreshold / (s.stressRate * s.dt))]
          s).deathMarkers ∧
      ((step M clock)^[Nat.ceil (s.stressThreshold / (s.stressRate * s.dt)) - 1]
          s).particlesDied + 1 ≤
        ((step M clock)^[Nat.ceil (s.stressThreshold / (s.stressRate * s.dt))]
          s).particlesDied ∧
      ((step M clock)^[Nat.ceil (s.stressThreshold / (s.stressRate * s.dt))]
          s).particles.length <
        ((step M clock)^[Nat.ceil (s.stressThreshold / (s.stressRate * s.dt)) - 1]
          s).particles.length ∧
      (∀ r ∈ ((step M clock)^[Nat.ceil (s.stressThreshold / (s.stressRate * s.dt))]
          s).particles, r.dead = false) ∧
      (s.particles.length = 1 →
        ((step M clock)^[Nat.ceil (s.stressThreshold / (s.stressRate * s.dt))]
          s).particles = [])) ∧
    (∀ (contacts : Nat → Nat) (p : Particle K),
      (∀ k, s.crushThreshold ≤ (contacts k : K)) → p.stress = 0 → p.dead = false →
      (∀ k, (crushTicks s.crushThreshold s.stressRate s.dt s.stressThreshold contacts k
        p).stress = k * (s.stressRate * s.dt)) ∧
      (crushTicks s.crushThreshold s.stressRate s.dt s.stressThreshold contacts
        (Nat.ceil (s.stressThreshold / (s.stressRate * s.dt))) p).dead = true ∧
      ∀ k, k < Nat.ceil (s.stressThreshold / (s.stressRate * s.dt)) →
        (crushTicks s.crushThreshold s.stressRate s.dt s.stressThreshold contacts k
          p).dead = false) ∧
    (∀ k, k ≤ 6 →
      (crushTicksDouble (Dbl.ofNat 3) (Dbl.ofNat 5)
        (dtDouble (Dbl.ofRatio 2 10) (Dbl.ofRatio 15 10) (Dbl.ofRatio 15 10)) (Dbl.ofNat 2)
        (fun _ => 3) k ⟨⟨0, 0⟩, false⟩).dead = false) ∧
    (crushTicksDouble (Dbl.ofNat 3) (Dbl.ofNat 5)
      (dtDouble (Dbl.ofRatio 2 10) (Dbl.ofRatio 15 10) (Dbl.ofRatio 15 10)) (Dbl.ofNat 2)
      (fun _ => 3) 6 ⟨⟨0, 0⟩, false⟩).stress = ⟨9007199254740991, -52⟩ ∧
    Dbl.toRat ⟨9007199254740991, -52⟩ < 2 ∧
    (crushTicksDouble (Dbl.ofNat 3) (Dbl.ofNat 5)
      (dtDouble (Dbl.ofRatio 2 10) (Dbl.ofRatio 15 10) (Dbl.ofRatio 15 10)) (Dbl.ofNat 2)
      (fun _ => 3) 7 ⟨⟨0, 0⟩, false⟩).dead = true := by
  have hpar : ∀ k, ((step M clock)^[k] s).stressRate = s.stressRate ∧
      ((step M clock)^[k] s).dt = s.dt ∧
      ((step M clock)^[k] s).stressThreshold = s.stressThreshold ∧
      ((step M clock)^[k] s).crushThreshold = s.crushThreshold ∧
      ((step M clock)^[k] s).targets = [] := by
    intro k
    obtain ⟨h1, h2⟩ := iterate_frame_dm M clock s k
    exact ⟨congrArg Params.stressRate h1, congrArg Params.dt h1,
      congrArg Params.stressThreshold h1, congrArg Params.crushThreshold h1, h2.trans ht⟩
  have hlive : ∀ k, k < Nat.ceil (s.stressThreshold / (s.stressRate * s.dt)) →
      ∃ q, ((step M clock)^[k] s).particles[0]? = some q ∧
        q.stress = k * (s.stressRate * s.dt) ∧ q.dead = false := by
    intro k
    induction k with
    | zero =>
      intro _
      exact ⟨p0, hp, by rw [hs]; simp, hd⟩
    | succ k ih =>
      intro hk
      obtain ⟨q, hq1, hq2, hq3⟩ := ih (by omega)
      obtain ⟨e1, e2, e3, e4, e5⟩ := hpar k
      obtain ⟨q1, -, g2, -, -, g5, -, -⟩ := head_tick_dm M clock ((step M clock)^[k] s) e5 q
        hq1 hq3 (fun c hcc => by rw [e4]; exact hc k c (by omega) hcc)
      rw [e1, e2, hq2] at g2
      have hlt : ((k + 1 : Nat) : K) * (s.stressRate * s.dt) < s.stressThreshold :=
        (lt_div_iff₀ hrd).1 (Nat.lt_ceil.1 hk)
      have hq1s : q1.stress = ((k + 1 : Nat) : K) * (s.stressRate * s.dt) := by
        rw [g2]
        push_cast
        ring
      rw [e3] at g5
      obtain ⟨-, r, r1, r2, r3⟩ := g5 (by rw [hq1s]; exact hlt)
      rw [Function.iterate_succ_apply']
      exact ⟨r, r1, r2.trans hq1s, r3⟩
  have hpos : 0 < Nat.ceil (s.stressThreshold / (s.stressRate * s.dt)) :=
    Nat.ceil_pos.2 (div_pos hthr hrd)
  obtain ⟨n, hn⟩ : ∃ n, Nat.ceil (s.stressThreshold / (s.stressRate * s.dt)) = n + 1 :=
    ⟨Nat.ceil (s.stressThreshold / (s.stressRate * s.dt)) - 1, by omega⟩
  refine ⟨hlive, ?_, ?_, ?_, ?_, ?_, ?_⟩
  · obtain ⟨q, hq1, hq2, hq3⟩ := hlive n (by omega)
    obtain ⟨e1, e2, e3, e4, e5⟩ := hpar n
    obtain ⟨q1, g1, g2, -, -, -, g6, g7⟩ := head_tick_dm M clock ((step M clock)^[n] s) e5 q
      hq1 hq3 (fun c hcc => by rw [e4]; exact hc n c (by omega) hcc)
    rw [e1, e2, hq2] at g2
    rw [e3] at g6
    have hq1s : q1.stress = ((n + 1 : Nat) : K) * (s.stressRate * s.dt) := by
      rw [g2]
      push_cast
      ring
    have hge : s.stressThreshold ≤ q1.stress := by
      rw [hq1s]
      have h1 := Nat.le_ceil (s.stressThreshold / (s.stressRate * s.dt))
      rw [hn] at h1
      exact (div_le_iff₀ hrd).1 h1
    obtain ⟨d1, d2, d3, d4⟩ := g6 hge
    rw [hn, Nat.add_sub_cancel, Function.iterate_succ_apply']
    refine ⟨q1, g1, hq1s, hge, d1, d2, d3, d4, g7, ?_⟩
    intro h1
    have hle := iterate_length_le_dm M clock s ht n
    apply List.eq_nil_of_length_eq_zero
    omega
  · intro contacts p hcp hps hpd
    obtain ⟨c1, -, c3, c4⟩ := crushTicks_death s.crushThreshold s.stressRate s.dt
      s.stressThreshold hrd hthr contacts hcp p hps hpd
    exact ⟨c1, c3, c4⟩
  · intro k hk
    rw [dtDouble_setup]
    interval_cases k <;> decide!
  · rw [dtDouble_setup]
    decide!
  · unfold Dbl.toRat
    norm_num
  · rw [dtDouble_setup]
    decide!

end CrushStep

end DeathMarkers

namespace DeathMarkers

theorem scenarioE_values :
    scenarioE.dt = 1 / 15 ∧ scenarioE.stressRate = 5 ∧
    scenarioE.stressThreshold = 21 / 10 ∧ scenarioE.crushThreshold = 3 ∧
    scenarioE.targets = [] ∧ scenarioE.particles = [Particle.new 0 0 (1 / 5)] := by
  refine ⟨?_, ?_, ?_, ?_, ?_, ?_⟩ <;>
    simp [scenarioE, addParticle, addBoundary, ParticleModel.new, jsOr, ratMath] <;> norm_num

/-- The contact pass of Scenario E: three boundary contacts, no escape direction. -/
theorem squeezed_findContacts (σ : ℚ) (c : Nat) (b : Bool) (v : Velocity ℚ) :
    (findContacts ratMath { scenarioE with particles :=
      [{ x := 0, y := 0, r := 1 / 5, vd := ⟨0, 0, 0⟩, ve := v, targetIndex := -1,
         inContact := b, reachedTarget := false, contacts := c, stress := σ,
         dead := false }] }) = squeezed σ := by
  simp [findContacts, scenarioE, addParticle, addBoundary, ParticleModel.new,
    particleContacts, contactPair, resetContact, boundaryContact, distanceToBoundary,
    normalizeEscape, ratMath, ratSqrt_zero, jsOr, List.range, List.range.loop, List.range',
    squeezed]
  norm_num [ratSqrt_zero]

/-- The radius pass and the stress pass of Scenario E. -/
theorem squeezed_stress (σ : ℚ) (h : σ + 1 / 3 < 21 / 10) :
    accumulateStress (adjustRadii ratMath (squeezed σ)) = squeezed (σ + 1 / 3) := by
  simp [accumulateStress, adjustRadii, adjustRadius, stressUpdate, squeezed, scenarioE,
    addParticle, addBoundary, ParticleModel.new, jsOr, ratMath]
  norm_num
  exact h

/-- The rest of the step of Scenario E while the particle is alive. -/
theorem squeezed_tail (clock : Nat → ℚ) (σ : ℚ) :
    removeParticlesAtTarget ratMath clock (updatePositions (computeDesiredVelocities ratMath
      (findClosestTargets ratMath (removeDead (squeezed σ))))) = squeezed σ := by
  simp [removeParticlesAtTarget, arrivalVisit, removeDead, deathVisit,
    updatePositions, move, computeDesiredVelocities, desiredVelocity, findClosestTargets,
    closestTarget, closestTargetLoop, assignedTarget, squeezed, scenarioE,
    addParticle, addBoundary, ParticleModel.new, jsOr, ratMath]

theorem squeezed_step (clock : Nat → ℚ) (σ : ℚ) (h : σ + 1 / 3 < 21 / 10) :
    step ratMath clock (squeezed σ) = squeezed (σ + 1 / 3) := by
  have h1 : findContacts ratMath (squeezed σ) = squeezed σ :=
    squeezed_findContacts σ 3 true ⟨0, 0, 0⟩
  unfold step beforeMove
  rw [h1, squeezed_stress σ h]
  exact squeezed_tail clock _

theorem scenarioE_findContacts : findContacts ratMath scenarioE = squeezed 0 := by
  have h0 : scenarioE = { scenarioE with particles :=
      [{ x := 0, y := 0, r := 1 / 5, vd := ⟨0, 0, 0⟩, ve := ⟨0, 0, 0⟩, targetIndex := -1,
         inContact := false, reachedTarget := false, contacts := 0, stress := 0,
         dead := false }] } := by
    simp [scenarioE, addParticle, addBoundary, ParticleModel.new, jsOr, Particle.new]
    norm_num
  rw [h0]
  exact squeezed_findContacts 0 0 false ⟨0, 0, 0⟩

theorem scenarioE_step (clock : Nat → ℚ) :
    step ratMath clock scenarioE = squeezed (1 / 3) := by
  unfold step beforeMove
  rw [scenarioE_findContacts, squeezed_stress 0 (by norm_num)]
  norm_num
  exact squeezed_tail clock _

/-- Scenario E run on the model, in exact arithmetic: after `k + 1` ticks, as long as the
stress `(k + 1) / 3` is below `2.1`, the particle is alive with that stress. -/
theorem scenarioE_run (clock : Nat → ℚ) (k : Nat) (hk : k < 6) :
    (step ratMath clock)^[k + 1] scenarioE = squeezed ((k + 1 : ℚ) / 3) := by
  induction k with
  | zero =>
    simp only [Function.iterate_succ, Function.iterate_zero, Function.comp, id]
    rw [scenarioE_step]
    norm_num
  | succ k ih =>
    rw [Function.iterate_succ_apply', ih (by omega)]
    have hk2 : (k : ℚ) ≤ 4 := by exact_mod_cast (by omega : k ≤ 4)
    rw [squeezed_step clock _ (by linarith)]
    congr 1
    push_cast
    ring

theorem scenarioE_ceil :
    Nat.ceil (scenarioE.stressThreshold / (scenarioE.stressRate * scenarioE.dt)) = 7 := by
  obtain ⟨h1, h2, h3, -⟩ := scenarioE_values
  rw [h1, h2, h3]
  rw [Nat.ceil_eq_iff (by norm_num)]
  constructor <;> norm_num

theorem scenarioE_crushed (clock : Nat → ℚ) (k : Nat) (c : Particle ℚ)
    (hk : k < Nat.ceil (scenarioE.stressThreshold / (scenarioE.stressRate * scenarioE.dt)))
    (hc : (findContacts ratMath ((step ratMath clock)^[k] scenarioE)).particles[0]? = some c) :
    scenarioE.crushThreshold ≤ (c.contacts : ℚ) := by
  rw [scenarioE_ceil] at hk
  rw [scenarioE_values.2.2.2.1]
  have hfc : ∃ σ, findContacts ratMath ((step ratMath clock)^[k] scenarioE) = squeezed σ := by
    cases k with
    | zero => exact ⟨0, scenarioE_findContacts⟩
    | succ k =>
      rw [scenarioE_run clock k (by omega)]
      exact ⟨_, squeezed_findContacts _ 3 true ⟨0, 0, 0⟩⟩
  obtain ⟨σ, hσ⟩ := hfc
  rw [hσ] at hc
  have : c.contacts = 3 := by
    simp [squeezed] at hc
    rw [← hc]
  rw [this]
  norm_num

/-- Witness for C7: Scenario E (threshold `2.1`, so `ceil(2.1 / (1/3)) = 7`): after six
ticks the particle is alive with stress `2`, the seventh step removes it; the double
precision run agrees. -/
theorem crush_death_tick_witness :
    0 < scenarioE.stressRate * scenarioE.dt ∧ 0 < scenarioE.stressThreshold ∧
    scenarioE.targets = [] ∧ scenarioE.particles = [Particle.new 0 0 (1 / 5)] ∧
    Nat.ceil (scenarioE.stressThreshold / (scenarioE.stressRate * scenarioE.dt)) = 7 ∧
    (∃ q, ((step ratMath (fun _ => 0))^[6] scenarioE).particles[0]? = some q ∧
      q.stress = 2 ∧ q.dead = false) ∧
    ((step ratMath (fun _ => 0))^[7] scenarioE).particles = [] ∧
    ((step ratMath (fun _ => 0))^[6] scenarioE).particlesDied + 1 ≤
      ((step ratMath (fun _ => 0))^[7] scenarioE).particlesDied ∧
    (crushTicksDouble (Dbl.ofNat 3) (Dbl.ofNat 5)
      (dtDouble (Dbl.ofRatio 2 10) (Dbl.ofRatio 15 10) (Dbl.ofRatio 15 10))
      (Dbl.ofRatio 21 10) (fun _ => 3) 6 ⟨⟨0, 0⟩, false⟩).dead = false ∧
    (crushTicksDouble (Dbl.ofNat 3) (Dbl.ofNat 5)
      (dtDouble (Dbl.ofRatio 2 10) (Dbl.ofRatio 15 10) (Dbl.ofRatio 15 10))
      (Dbl.ofRatio 21 10) (fun _ => 3) 7 ⟨⟨0, 0⟩, false⟩).dead = true := by
  obtain ⟨v1, v2, v3, v4, v5, v6⟩ := scenarioE_values
  have hrd : 0 < scenarioE.stressRate * scenarioE.dt := by
    rw [v1, v2]
    norm_num
  have hthr : 0 < scenarioE.stressThreshold := by
    rw [v3]
    norm_num
  have hp : scenarioE.particles[0]? = some (Particle.new 0 0 (1 / 5)) := by
    rw [v6]
    rfl
  obtain ⟨h1, ⟨q, -, -, -, -, -, h6, -, -, h9⟩, -⟩ :=
    crush_death_tick ratMath (fun _ => 0) scenarioE hrd hthr v5 _ hp rfl rfl
      (fun k c hk hc => scenarioE_crushed _ k c hk hc)
  rw [scenarioE_ceil] at h1 h6 h9
  obtain ⟨q6, a1, a2, a3⟩ := h1 6 (by norm_num)
  rw [v1, v2] at a2
  refine ⟨hrd, hthr, v5, v6, scenarioE_ceil, ⟨q6, a1, ?_, a3⟩, h9 (by rw [v6]; rfl), h6, ?_⟩
  · rw [a2]
    norm_num
  · rw [dtDouble_setup]
    exact crushTicksDouble_wide

end DeathMarkers

namespace DeathMarkers

/-- Counterexample for C7: with the parameters of `setupSimulation` the formula gives tick
`ceil(2 / (5 * (1/15))) = 6`, whereas in double precision `dt` is
`4803839602528529 * 2 ^ (-56)`, the particle is alive after the sixth tick with stress
`9007199254740991 * 2 ^ (-52) < 2`, and it is flagged dead in tick `7`. -/
theorem crush_death_tick_double :
    Nat.ceil ((setupModel ratMath).stressThreshold /
      ((setupModel ratMath).stressRate * (setupModel ratMath).dt)) = 6 ∧
    dtDouble (Dbl.ofRatio 2 10) (Dbl.ofRatio 15 10) (Dbl.ofRatio 15 10) =
      ⟨4803839602528529, -56⟩ ∧
    crushTicksDouble (Dbl.ofNat 3) (Dbl.ofNat 5)
      (dtDouble (Dbl.ofRatio 2 10) (Dbl.ofRatio 15 10) (Dbl.ofRatio 15 10)) (Dbl.ofNat 2)
      (fun _ => 3) 6 ⟨⟨0, 0⟩, false⟩ = ⟨⟨9007199254740991, -52⟩, false⟩ ∧
    Dbl.toRat ⟨9007199254740991, -52⟩ < 2 ∧
    (crushTicksDouble (Dbl.ofNat 3) (Dbl.ofNat 5)
      (dtDouble (Dbl.ofRatio 2 10) (Dbl.ofRatio 15 10) (Dbl.ofRatio 15 10)) (Dbl.ofNat 2)
      (fun _ => 3) 7 ⟨⟨0, 0⟩, false⟩).dead = true := by
  refine ⟨?_, dtDouble_setup, ?_, ?_, ?_⟩
  · obtain ⟨h1, h2, h3, -⟩ := setupModel_values
    rw [h1, h2, h3, Nat.ceil_eq_iff (by norm_num)]
    constructor <;> norm_num
  · rw [dtDouble_setup]
    decide!
  · unfold Dbl.toRat
    norm_num
  · rw [dtDouble_setup]
    decide!

end DeathMarkers

section PairLemmas

theorem zip_of_map_eq {α β : Type} (h : α → β) :
    ∀ (l1 l2 : List α), l1.map h = l2.map h → ∀ pq ∈ l1.zip l2, h pq.2 = h pq.1
  | [], _, _ => by intro pq hpq; simp at hpq
  | _ :: _, [], h0 => by simp at h0
  | a :: l1, b :: l2, h0 => by
    simp only [List.map_cons, List.cons.injEq] at h0
    intro pq hpq
    simp only [List.zip_cons_cons, List.mem_cons] at hpq
    rcases hpq with rfl | hpq
    · exact h0.1.symm
    · exact zip_of_map_eq h l1 l2 h0.2 pq hpq

/-- A sublist of the images of a list, taken twice with a map in between, comes from a
sublist of the list. -/
theorem pairs_of_sublists {α β γ : Type} (f : β → γ) (g : γ → γ) (P0 : List α) (P1 : List β)
    (hlen : P0.length = P1.length) (P4 Q : List γ)
    (h4 : List.Sublist P4 (P1.map f)) (hQ : List.Sublist Q (P4.map g)) :
    ∃ A : List (α × β), List.Sublist A (P0.zip P1) ∧ Q = A.map (fun a => g (f a.2)) ∧
      List.Sublist (A.map Prod.fst) P0 := by
  have hz : (P0.zip P1).map Prod.snd = P1 := List.map_snd_zip _ _ (le_of_eq hlen.symm)
  have hz1 : (P0.zip P1).map Prod.fst = P0 := List.map_fst_zip _ _ (le_of_eq hlen)
  rw [← hz, List.map_map] at h4
  obtain ⟨A1, hA1, rfl⟩ := List.sublist_map_iff.1 h4
  rw [List.map_map] at hQ
  obtain ⟨A2, hA2, rfl⟩ := List.sublist_map_iff.1 hQ
  refine ⟨A2, hA2.trans hA1, ?_, ?_⟩
  · apply List.map_congr_left
    intro a _
    rfl
  · have := (hA2.trans hA1).map Prod.fst
    rw [hz1] at this
    exact this

end PairLemmas

namespace DeathMarkers

section PairsDM
variable {K : Type} [LinearOrderedField K]

theorem arrivalFold_sublist_dm (M : JSMath K) (clock : Nat → K) (ps : List (Particle K))
    (acc : ArrivalAcc K) :
    ∃ l, List.Sublist l ps ∧ (ps.foldl (arrivalVisit M clock) acc).kept = acc.kept ++ l := by
  induction ps generalizing acc with
  | nil => exact ⟨[], List.Sublist.refl _, by simp⟩
  | cons p ps ih =>
    simp only [List.foldl_cons]
    obtain ⟨l, hl, he⟩ := ih (arrivalVisit M clock acc p)
    have hv : (arrivalVisit M clock acc p).kept = acc.kept ∨
        (arrivalVisit M clock acc p).kept = acc.kept ++ [p] := by
      unfold arrivalVisit
      simp only
      split
      · split
        · split
          · exact Or.inl rfl
          · exact Or.inl rfl
        · exact Or.inr rfl
      · exact Or.inr rfl
    rcases hv with hv | hv
    · exact ⟨l, hl.cons p, by rw [he, hv]⟩
    · exact ⟨p :: l, hl.cons₂ p, by rw [he, hv]; simp⟩

theorem adjustRadius_radius_dm (M : JSMath K) (rMin rMax tau dt : K) (p : Particle K) :
    (adjustRadius M rMin rMax tau dt p).r = rMin ∨
      (adjustRadius M rMin rMax tau dt p).r = min (p.r + M.div rMax tau * dt) rMax := by
  unfold adjustRadius
  split
  · exact Or.inl rfl
  · exact Or.inr rfl

/-- The survivors of a step of the death-markers variant, each paired with the particle it
was before the step: its radius is the one the radius pass computes from the earlier
radius. -/
theorem step_pairs_dm (M : JSMath K) (clock : Nat → K) (s : ParticleModel K) :
    ∃ pairs : List (Particle K × Particle K),
      pairs.map Prod.snd = (step M clock s).particles ∧
      List.Sublist (pairs.map Prod.fst) s.particles ∧
      ∀ pq ∈ pairs, ∃ c, c.r = pq.1.r ∧
        pq.2.r = (adjustRadius M s.rMin s.rMax s.tau s.dt c).r := by
  have hreset := findContacts_map_reset_dm M s
  have hlen : s.particles.length = (findContacts M s).particles.length :=
    (findContacts_length_dm M s).symm
  have hd := (deathFold_spec_dm (accumulateStress (adjustRadii M (findContacts M s))).particles
    ⟨accumulateStress (adjustRadii M (findContacts M s)), []⟩).1
  have h4 : List.Sublist
      (removeDead (accumulateStress (adjustRadii M (findContacts M s)))).particles
      ((findContacts M s).particles.map (fun p =>
        stressUpdate s.crushThreshold s.stressRate s.dt s.stressThreshold
          (adjustRadius M s.rMin s.rMax s.tau s.dt p))) := by
    have : (removeDead (accumulateStress (adjustRadii M (findContacts M s)))).particles =
        (accumulateStress (adjustRadii M (findContacts M s))).particles.filter
          (fun p => !p.dead) := by
      unfold removeDead
      simpa using hd
    rw [this, accumulateStress_particles_dm, List.map_map]
    exact List.filter_sublist _
  obtain ⟨l, hl, hk⟩ := arrivalFold_sublist_dm M clock
    (updatePositions (beforeMove M s)).particles ⟨updatePositions (beforeMove M s), [], 0⟩
  have gparts : ∀ R : ParticleModel K,
      (updatePositions (computeDesiredVelocities M (findClosestTargets M R))).particles =
        R.particles.map (fun p => move R.rMin R.dt (desiredVelocity M
          (findClosestTargets M R) (closestTarget M R.targets p))) := by
    intro R
    simp only [updatePositions, computeDesiredVelocities, findClosestTargets, List.map_map]
    rfl
  have e1 : ∀ (c1 c2 : K) (u : Particle K), (move c1 c2 u).r = u.r := fun _ _ _ => rfl
  have e2 : ∀ (m : ParticleModel K) (u : Particle K), (desiredVelocity M m u).r = u.r := by
    intro m u
    unfold desiredVelocity
    split
    · simp only
      split <;> rfl
    · rfl
  have e3 : ∀ (ts : List (Target K)) (u : Particle K), (closestTarget M ts u).r = u.r :=
    fun _ _ => rfl
  have e4 : ∀ (c1 c2 c3 c4 : K) (u : Particle K), (stressUpdate c1 c2 c3 c4 u).r = u.r := by
    intro c1 c2 c3 c4 u
    unfold stressUpdate
    simp only
    split <;> split <;> rfl
  have hgen : ∀ R : ParticleModel K, ∃ G : Particle K → Particle K, (∀ u, (G u).r = u.r) ∧
      (updatePositions (computeDesiredVelocities M (findClosestTargets M R))).particles =
        R.particles.map G := by
    intro R
    refine ⟨fun p => move R.rMin R.dt (desiredVelocity M (findClosestTargets M R)
      (closestTarget M R.targets p)), ?_, gparts R⟩
    intro u
    simp only
    rw [e1, e2, e3]
  obtain ⟨G, hG, hGe⟩ := hgen (removeDead (accumulateStress (adjustRadii M (findContacts M s))))
  have hQ : List.Sublist (step M clock s).particles
      ((removeDead (accumulateStress (adjustRadii M (findContacts M s)))).particles.map
        G) := by
    have hs : (step M clock s).particles = l := by
      unfold step removeParticlesAtTarget
      simpa using hk
    rw [hs, ← hGe]
    exact hl
  obtain ⟨A, hA, hQe, hAf⟩ := pairs_of_sublists
    (fun p => stressUpdate s.crushThreshold s.stressRate s.dt s.stressThreshold
      (adjustRadius M s.rMin s.rMax s.tau s.dt p)) G s.particles (findContacts M s).particles
    hlen _ _ h4 hQ
  refine ⟨A.map (fun a => (a.1, G (stressUpdate s.crushThreshold s.stressRate s.dt
    s.stressThreshold (adjustRadius M s.rMin s.rMax s.tau s.dt a.2)))), ?_, ?_, ?_⟩
  · rw [hQe, List.map_map]
    rfl
  · rw [List.map_map]
    exact hAf
  · intro pq hpq
    obtain ⟨a, ha, rfl⟩ := List.mem_map.1 hpq
    have hr := zip_of_map_eq resetContact _ _ hreset.symm a (hA.subset ha)
    refine ⟨a.2, congrArg (fun u => u.r) hr, ?_⟩
    simp only
    rw [hG, e4]

end PairsDM

end DeathMarkers

namespace NewMovement

section PairsNM
variable {K : Type} [LinearOrderedField K]

theorem contactPair_map_reset_nm (M : JSMath K) (ps : List (Particle K)) (i j : Nat) :
    (contactPair M ps i j).map resetContact = ps.map resetContact := by
  unfold contactPair
  split
  · next pi pj hi hj =>
    simp only
    split
    · rw [List.map_set, List.map_set]
      have h1 : (ps.map resetContact).set i (resetContact pi) = ps.map resetContact :=
        set_of_getElem? _ _ _ (by simp [hi])
      have h2 : (ps.map resetContact).set j (resetContact pj) = ps.map resetContact :=
        set_of_getElem? _ _ _ (by simp [hj])
      exact (congrArg (fun l => l.set j (resetContact pj)) h1).trans h2
    · rfl
  · rfl

theorem particleContacts_map_reset_nm (M : JSMath K) (ps : List (Particle K)) :
    (particleContacts M ps).map resetContact = ps.map resetContact := by
  unfold particleContacts
  refine foldl_preserves
    (fun (acc : List (Particle K)) => acc.map resetContact = ps.map resetContact) _ ?_ _ _ rfl
  intro acc i hacc
  refine foldl_preserves
    (fun (acc : List (Particle K)) => acc.map resetContact = ps.map resetContact) _ ?_ _ _ hacc
  intro acc2 j h2
  show (contactPair M acc2 i j).map resetContact = ps.map resetContact
  rw [contactPair_map_reset_nm]
  exact h2

theorem boundaryContact_reset_nm (M : JSMath K) (p : Particle K) (b : Boundary K) :
    resetContact (boundaryContact M p b) = resetContact p := by
  unfold boundaryContact
  simp only
  split
  · split <;> rfl
  · rfl

theorem boundaryFold_reset_nm (M : JSMath K) (bs : List (Boundary K)) (p : Particle K) :
    resetContact (bs.foldl (boundaryContact M) p) = resetContact p := by
  refine foldl_preserves (fun (q : Particle K) => resetContact q = resetContact p) _ ?_ _ _ rfl
  intro q b hq
  show resetContact (boundaryContact M q b) = resetContact p
  rw [boundaryContact_reset_nm]
  exact hq

theorem normalizeEscape_reset_nm (M : JSMath K) (ve : K) (p : Particle K) :
    resetContact (normalizeEscape M ve p) = resetContact p := by
  unfold normalizeEscape
  split
  · simp only
    split <;> rfl
  · rfl

/-- The contact pass of the no-death variant writes only `inContact` and `ve`. -/
theorem findContacts_map_reset_nm (M : JSMath K) (s : ParticleModel K) :
    (findContacts M s).particles.map resetContact = s.particles.map resetContact := by
  have h1 : ∀ l : List (Particle K),
      ((l.map (fun particle => s.boundaries.foldl (boundaryContact M) particle)).map
        (normalizeEscape M s.ve)).map resetContact = l.map resetContact := by
    intro l
    simp only [List.map_map]
    apply List.map_congr_left
    intro p _
    simp only [Function.comp]
    rw [normalizeEscape_reset_nm, boundaryFold_reset_nm]
  show (((particleContacts M (s.particles.map resetContact)).map _).map _).map resetContact = _
  rw [h1, particleContacts_map_reset_nm, List.map_map]
  rfl

theorem arrivalFold_sublist_nm (M : JSMath K) (clock : Nat → K) (ps : List (Particle K))
    (acc : ArrivalAcc K) :
    ∃ l, List.Sublist l ps ∧ (ps.foldl (arrivalVisit M clock) acc).kept = acc.kept ++ l := by
  induction ps generalizing acc with
  | nil => exact ⟨[], List.Sublist.refl _, by simp⟩
  | cons p ps ih =>
    simp only [List.foldl_cons]
    obtain ⟨l, hl, he⟩ := ih (arrivalVisit M clock acc p)
    have hv : (arrivalVisit M clock acc p).kept = acc.kept ∨
        (arrivalVisit M clock acc p).kept = acc.kept ++ [p] := by
      unfold arrivalVisit
      simp only
      split
      · split
        · split
          · exact Or.inl rfl
          · exact Or.inl rfl
        · exact Or.inr rfl
      · exact Or.inr rfl
    rcases hv with hv | hv
    · exact ⟨l, hl.cons p, by rw [he, hv]⟩
    · exact ⟨p :: l, hl.cons₂ p, by rw [he, hv]; simp⟩

theorem adjustRadius_radius_nm (M : JSMath K) (rMin rMax tau dt : K) (p : Particle K) :
    (adjustRadius M rMin rMax tau dt p).r = rMin ∨
      (adjustRadius M rMin rMax tau dt p).r = min (p.r + M.div rMax tau * dt) rMax := by
  unfold adjustRadius
  split
  · exact Or.inl rfl
  · exact Or.inr rfl

/-- The survivors of a step of the no-death variant, each paired with the particle it was
before the step: its radius is the one the radius pass computes from the earlier radius. -/
theorem step_pairs_nm (M : JSMath K) (clock : Nat → K) (s : ParticleModel K) :
    ∃ pairs : List (Particle K × Particle K),
      pairs.map Prod.snd = (step M clock s).particles ∧
      List.Sublist (pairs.map Prod.fst) s.particles ∧
      ∀ pq ∈ pairs, ∃ c, c.r = pq.1.r ∧
        pq.2.r = (adjustRadius M s.rMin s.rMax s.tau s.dt c).r := by
  have hreset := findContacts_map_reset_nm M s
  have hlen : s.particles.length = (findContacts M s).particles.length := by
    have := congrArg List.length hreset
    simpa using this.symm
  have h4 : List.Sublist (adjustRadii M (findContacts M s)).particles
      ((findContacts M s).particles.map (adjustRadius M s.rMin s.rMax s.tau s.dt)) :=
    List.Sublist.refl _
  obtain ⟨l, hl, hk⟩ := arrivalFold_sublist_nm M clock
    (updatePositions (computeDesiredVelocities M (findClosestTargets M
      (adjustRadii M (findContacts M s))))).particles
    ⟨updatePositions (computeDesiredVelocities M (findClosestTargets M
      (adjustRadii M (findContacts M s)))), [], 0⟩
  have e1 : ∀ (c1 c2 : K) (u : Particle K), (move c1 c2 u).r = u.r := fun _ _ _ => rfl
  have e2 : ∀ (m : ParticleModel K) (u : Particle K), (desiredVelocity M m u).r = u.r := by
    intro m u
    unfold desiredVelocity
    split
    · simp only
      split <;> rfl
    · rfl
  have e3 : ∀ (ts : List (Target K)) (u : Particle K), (closestTarget M ts u).r = u.r :=
    fun _ _ => rfl
  have hgen : ∀ R : ParticleModel K, ∃ G : Particle K → Particle K, (∀ u, (G u).r = u.r) ∧
      (updatePositions (computeDesiredVelocities M (findClosestTargets M R))).particles =
        R.particles.map G := by
    intro R
    refine ⟨fun p => move R.rMin R.dt (desiredVelocity M (findClosestTargets M R)
      (closestTarget M R.targets p)), ?_, ?_⟩
    · intro u
      simp only
      rw [e1, e2, e3]
    · simp only [updatePositions, computeDesiredVelocities, findClosestTargets, List.map_map]
      rfl
  obtain ⟨G, hG, hGe⟩ := hgen (adjustRadii M (findContacts M s))
  have hQ : List.Sublist (step M clock s).particles
      ((adjustRadii M (findContacts M s)).particles.map G) := by
    have hs : (step M clock s).particles = l := by
      unfold step removeParticlesAtTarget
      simpa using hk
    rw [hs, ← hGe]
    exact hl
  obtain ⟨A, hA, hQe, hAf⟩ := pairs_of_sublists
    (adjustRadius M s.rMin s.rMax s.tau s.dt) G s.particles (findContacts M s).particles
    hlen _ _ h4 hQ
  refine ⟨A.map (fun a => (a.1, G (adjustRadius M s.rMin s.rMax s.tau s.dt a.2))), ?_, ?_, ?_⟩
  · rw [hQe, List.map_map]
    rfl
  · rw [List.map_map]
    exact hAf
  · intro pq hpq
    obtain ⟨a, ha, rfl⟩ := List.mem_map.1 hpq
    have hr := zip_of_map_eq resetContact _ _ hreset.symm a (hA.subset ha)
    refine ⟨a.2, congrArg (fun u => u.r) hr, ?_⟩
    simp only
    rw [hG]

end PairsNM

end NewMovement

namespace DeathMarkers

end DeathMarkers

section RadiusClaimPairs
variable {K : Type} [LinearOrderedField K]

/-- Claim C33 (amended).  In the two single-demographic variants, with exact division,
`rMin ≤ rMax`, `rMax ≥ 0`, `tau > 0` and `dt ≥ 0`: `step` keeps `rMin` and `rMax`, and the
particles left by a step can be paired, in order, with the particles they were before the
step, so that for every pair the new radius is `rMin` or `min(r + (rMax / tau) * dt, rMax)`
for the earlier radius `r`, is at most `rMax` whatever `r` was, and is at least `rMin` if
`r` was.  `addParticle` appends one particle, whose radius is `rMin` when no radius is
given and the given radius otherwise, and changes no other particle and not `rMin`. -/
theorem radius_bounds_single (M : JSMath K) (hM : M.DivExact) (clock : Nat → K) :
    (∀ s : DeathMarkers.ParticleModel K, s.rMin ≤ s.rMax → 0 ≤ s.rMax → 0 < s.tau → 0 ≤ s.dt →
      (DeathMarkers.step M clock s).rMin = s.rMin ∧
      (DeathMarkers.step M clock s).rMax = s.rMax ∧
      ∃ pairs : List (DeathMarkers.Particle K × DeathMarkers.Particle K),
        pairs.map Prod.snd = (DeathMarkers.step M clock s).particles ∧
        List.Sublist (pairs.map Prod.fst) s.particles ∧
        ∀ pq ∈ pairs,
          (pq.2.r = s.rMin ∨ pq.2.r = min (pq.1.r + M.div s.rMax s.tau * s.dt) s.rMax) ∧
          pq.2.r ≤ s.rMax ∧ (s.rMin ≤ pq.1.r → s.rMin ≤ pq.2.r)) ∧
    (∀ (s : DeathMarkers.ParticleModel K) (x y : K) (radius : Option K),
      ∃ q, (DeathMarkers.addParticle s x y radius).particles = s.particles ++ [q] ∧
        (radius = none → q.r = s.rMin) ∧ (∀ r, radius = some r → q.r = r) ∧
        (DeathMarkers.addParticle s x y radius).rMin = s.rMin) ∧
    (∀ s : NewMovement.ParticleModel K, s.rMin ≤ s.rMax → 0 ≤ s.rMax → 0 < s.tau → 0 ≤ s.dt →
      (NewMovement.step M clock s).rMin = s.rMin ∧
      (NewMovement.step M clock s).rMax = s.rMax ∧
      ∃ pairs : List (NewMovement.Particle K × NewMovement.Particle K),
        pairs.map Prod.snd = (NewMovement.step M clock s).particles ∧
        List.Sublist (pairs.map Prod.fst) s.particles ∧
        ∀ pq ∈ pairs,
          (pq.2.r = s.rMin ∨ pq.2.r = min (pq.1.r + M.div s.rMax s.tau * s.dt) s.rMax) ∧
          pq.2.r ≤ s.rMax ∧ (s.rMin ≤ pq.1.r → s.rMin ≤ pq.2.r)) ∧
    (∀ (s : NewMovement.ParticleModel K) (x y : K) (radius : Option K),
      ∃ q, (NewMovement.addParticle s x y radius).particles = s.particles ++ [q] ∧
        (radius = none → q.r = s.rMin) ∧ (∀ r, radius = some r → q.r = r) ∧
        (NewMovement.addParticle s x y radius).rMin = s.rMin) := by
  refine ⟨?_, ?_, ?_, ?_⟩
  · intro s hle hmax htau hdt
    obtain ⟨e1, e2⟩ := rMin_of_params_dm (DeathMarkers.step_frame_dm M clock s).1
    obtain ⟨pairs, h1, h2, h3⟩ := DeathMarkers.step_pairs_dm M clock s
    refine ⟨e1, e2, pairs, h1, h2, ?_⟩
    intro pq hpq
    obtain ⟨c, hc, hr⟩ := h3 pq hpq
    obtain ⟨b1, b2⟩ := DeathMarkers.adjustRadius_range_dm M hM _ _ _ _ hle hmax htau hdt c
    rw [hr]
    refine ⟨?_, b1, fun h => b2 (by rw [hc]; exact h)⟩
    rw [← hc]
    exact DeathMarkers.adjustRadius_radius_dm M _ _ _ _ c
  · intro s x y radius
    refine ⟨DeathMarkers.Particle.new x y (radius.getD s.rMin), rfl, ?_, ?_, rfl⟩
    · rintro rfl
      rfl
    · rintro r rfl
      rfl
  · intro s hle hmax htau hdt
    obtain ⟨e1, e2⟩ := rMin_of_params_nm (NewMovement.step_frame_nm M clock s).1
    obtain ⟨pairs, h1, h2, h3⟩ := NewMovement.step_pairs_nm M clock s
    refine ⟨e1, e2, pairs, h1, h2, ?_⟩
    intro pq hpq
    obtain ⟨c, hc, hr⟩ := h3 pq hpq
    obtain ⟨b1, b2⟩ := NewMovement.adjustRadius_range_nm M hM _ _ _ _ hle hmax htau hdt c
    rw [hr]
    refine ⟨?_, b1, fun h => b2 (by rw [hc]; exact h)⟩
    rw [← hc]
    exact NewMovement.adjustRadius_radius_nm M _ _ _ _ c
  · intro s x y radius
    refine ⟨NewMovement.Particle.new x y (radius.getD s.rMin), rfl, ?_, ?_, rfl⟩
    · rintro rfl
      rfl
    · rintro r rfl
      rfl

end RadiusClaimPairs

theorem ratSqrt_nine : ratSqrt 9 = 3 := by
  unfold ratSqrt
  have h1 : ((9 : ℚ)).num = 9 := rfl
  have h2 : ((9 : ℚ)).den = 1 := rfl
  have h3 : Nat.sqrt 9 = 3 := by norm_num [Nat.sqrt_eq']
  have h4 : Nat.sqrt 1 = 1 := by norm_num [Nat.sqrt_eq']
  rw [h1, h2]
  simp [h3, h4]

theorem mixed_values :
    DeathMarkers.mixed.rMin = 1 / 5 ∧ DeathMarkers.mixed.rMax = 4 / 5 ∧
    DeathMarkers.mixed.tau = 1 / 2 ∧ DeathMarkers.mixed.dt = 1 / 15 ∧
    DeathMarkers.mixed.particles =
      [DeathMarkers.Particle.new 0 0 (1 / 5), DeathMarkers.Particle.new 3 0 (1 / 100)] := by
  refine ⟨?_, ?_, ?_, ?_, ?_⟩ <;>
    simp [DeathMarkers.mixed, DeathMarkers.addParticle, DeathMarkers.ParticleModel.new, jsOr,
      ratMath] <;> norm_num

theorem mixed_findContacts :
    DeathMarkers.findContacts ratMath DeathMarkers.mixed = DeathMarkers.mixed := by
  simp [DeathMarkers.findContacts, DeathMarkers.mixed, DeathMarkers.particleContacts,
    DeathMarkers.contactPair, DeathMarkers.resetContact, DeathMarkers.normalizeEscape,
    DeathMarkers.addParticle, DeathMarkers.ParticleModel.new, DeathMarkers.Particle.new,
    jsOr, ratMath, List.range, List.range.loop, List.range']
  norm_num [ratSqrt_nine, DeathMarkers.normalizeEscape]

theorem mixed_step (clock : Nat → ℚ) :
    (DeathMarkers.step ratMath clock DeathMarkers.mixed).particles.map (fun p => p.r) =
      [23 / 75, 7 / 60] := by
  unfold DeathMarkers.step DeathMarkers.beforeMove
  rw [mixed_findContacts]
  simp [DeathMarkers.mixed,
    DeathMarkers.removeParticlesAtTarget, DeathMarkers.arrivalVisit,
    DeathMarkers.removeDead, DeathMarkers.deathVisit, DeathMarkers.accumulateStress,
    DeathMarkers.adjustRadii, DeathMarkers.adjustRadius, DeathMarkers.stressUpdate,
    DeathMarkers.updatePositions, DeathMarkers.move, DeathMarkers.computeDesiredVelocities,
    DeathMarkers.desiredVelocity, DeathMarkers.findClosestTargets,
    DeathMarkers.closestTarget, closestTargetLoop, assignedTarget,
    DeathMarkers.addParticle, DeathMarkers.ParticleModel.new, DeathMarkers.Particle.new,
    jsOr, ratMath]
  norm_num [DeathMarkers.arrivalVisit, DeathMarkers.move, DeathMarkers.desiredVelocity,
    DeathMarkers.closestTarget, closestTargetLoop, assignedTarget, DeathMarkers.deathVisit,
    DeathMarkers.stressUpdate, DeathMarkers.adjustRadius]

/-- Witness for C33: in the default death-markers model with a particle of default radius
and, three metres away, a particle created with radius `0.01`, one step leaves the first
within `[rMin, rMax]` (radius `23/75`) and the second below `rMin` (radius `7/60`). -/
theorem radius_bounds_single_witness :
    JSMath.DivExact ratMath ∧
    DeathMarkers.mixed.rMin ≤ DeathMarkers.mixed.rMax ∧ 0 ≤ DeathMarkers.mixed.rMax ∧
    0 < DeathMarkers.mixed.tau ∧ 0 ≤ DeathMarkers.mixed.dt ∧
    ∃ q1 q2, (DeathMarkers.step ratMath (fun _ => 0) DeathMarkers.mixed).particles = [q1, q2] ∧
      DeathMarkers.mixed.rMin ≤ q1.r ∧ q1.r ≤ DeathMarkers.mixed.rMax ∧
      q2.r ≤ DeathMarkers.mixed.rMax ∧ q1.r = 23 / 75 ∧ q2.r = 7 / 60 := by
  obtain ⟨v1, v2, v3, v4, v5⟩ := mixed_values
  have hle : DeathMarkers.mixed.rMin ≤ DeathMarkers.mixed.rMax := by
    rw [v1, v2]
    norm_num
  have hmax : 0 ≤ DeathMarkers.mixed.rMax := by
    rw [v2]
    norm_num
  have htau : 0 < DeathMarkers.mixed.tau := by
    rw [v3]
    norm_num
  have hdt : 0 ≤ DeathMarkers.mixed.dt := by
    rw [v4]
    norm_num
  refine ⟨ratMath_divExact, hle, hmax, htau, hdt, ?_⟩
  obtain ⟨-, -, pairs, h1, h2, h3⟩ :=
    (radius_bounds_single ratMath ratMath_divExact (fun _ => 0)).1 DeathMarkers.mixed
      hle hmax htau hdt
  have hs := mixed_step (fun _ => 0)
  rw [← h1, List.map_map] at hs
  rw [v5] at h2
  match pairs, h1, h2, h3, hs with
  | [a, b], h1, h2, h3, hs =>
    simp only [List.map_cons, List.map_nil, Function.comp, List.cons.injEq, and_true] at hs
    have h2e : [a.1, b.1] =
        [DeathMarkers.Particle.new (0 : ℚ) 0 (1 / 5), DeathMarkers.Particle.new 3 0 (1 / 100)] :=
      h2.eq_of_length rfl
    simp only [List.cons.injEq, and_true] at h2e
    obtain ⟨-, ha2, ha3⟩ := h3 a (List.mem_cons_self _ _)
    obtain ⟨-, hb2, -⟩ := h3 b (List.mem_cons_of_mem _ (List.mem_cons_self _ _))
    refine ⟨a.2, b.2, h1.symm, ha3 ?_, ha2, hb2, hs.1, hs.2⟩
    rw [h2e.1, v1]
    exact le_refl _
  | [], _, _, _, hs => simp at hs
  | [_], _, _, _, hs => simp at hs
  | _ :: _ :: _ :: _, _, _, _, hs => simp at hs
